import Mathlib

/-!
Minkowski sum by convolution (CGAL, `Minkowski_sum_conv_2.h`)

A shallow embedding of `Minkowski_sum_by_convolution_2`: the label type and its
ordering, the label set, the two preprocessing loops of `operator()`, the list
of seeds, and the tracer `_convolution_cycle`.

Conventions of the embedding.

* `unsigned int` values are natural numbers: the sizes of the polygons are taken
  below `2^31` and the counters below `2^32`, so that `n + k - 1`, `k + 1` and
  the increments of the counters never wrap.
* A `Vertex_circulator` is a position in the stored vertex sequence of its
  polygon; `++` and `--` move it cyclically.
* `std::vector` tables are lists; an access outside the table, dereferencing a
  circulator of an empty polygon and `back()` of an empty list are undefined
  behaviour in C++ and are reported as `Failure.out_of_range`.
* A failing `CGAL_assertion` stops the computation with the matching `Failure`.
* The geometric kernel is the template parameter `Kernel_`; it is a parameter of
  the embedding too (`Kernel`), and `int_kernel` is a concrete exact kernel over
  integer coordinates used to run the code on concrete polygons.
-/

namespace Minkowski_sum_by_convolution_2

/-! ## Kernel interface -/

/-- Modelled from the spec: the kernel enumeration `Orientation` (the result of
the orientation test on a point triple, and of `Polygon_2::orientation`, where
a right turn is the clockwise sense and a left turn the counterclockwise one);
the kernel headers are not part of the sources. -/
inductive Orientation where
  | RIGHT_TURN
  | COLLINEAR
  | LEFT_TURN
  deriving DecidableEq, Repr

/-- Modelled from the spec: the kernel enumeration `Comparison_result` returned
by the lexicographic point comparison; the kernel headers are not part of the
sources. -/
inductive Comparison_result where
  | SMALLER
  | EQUAL
  | LARGER
  deriving DecidableEq, Repr

/-- The sense `COUNTERCLOCKWISE` of a polygon is the same enumerator as
`LEFT_TURN`. -/
abbrev COUNTERCLOCKWISE : Orientation := Orientation.LEFT_TURN

/-- The kernel functors obtained in the constructor of the class (the data
members `f_equal` ... `f_ccw_in_between`), together with the default
direction, the origin and the orientation of a polygon. `f_equal` is used by
the source on directions and on points; the two uses are two fields. -/
structure Kernel (Point_2 Vector_2 Direction_2 : Type) where
  /-- The point `CGAL::ORIGIN`. -/
  ORIGIN : Point_2
  /-- The direction `Direction_2 ()` that fills a fresh table. -/
  default_direction : Direction_2
  /-- The functor `Equal_2` applied to two directions. -/
  f_equal : Direction_2 → Direction_2 → Bool
  /-- The functor `Equal_2` applied to two points. -/
  f_equal_pt : Point_2 → Point_2 → Bool
  /-- The functor `Construct_translated_point_2`. -/
  f_add : Point_2 → Vector_2 → Point_2
  /-- The functor `Construct_vector_2` from a source and a target point. -/
  f_vector : Point_2 → Point_2 → Vector_2
  /-- The functor `Construct_direction_2`. -/
  f_direction : Vector_2 → Direction_2
  /-- The functor `Orientation_2`. -/
  f_orientation : Point_2 → Point_2 → Point_2 → Orientation
  /-- The functor `Compare_xy_2`. -/
  f_compare_xy : Point_2 → Point_2 → Comparison_result
  /-- The functor `Counterclockwise_in_between_2`. -/
  f_ccw_in_between : Direction_2 → Direction_2 → Direction_2 → Bool
  /-- The member `Polygon_2::orientation`. -/
  pgn_orientation : List Point_2 → Orientation

/-! ## Failures -/

/-- The ways in which the code can stop without returning. -/
inductive Failure where
  /-- An access outside a table, through a circulator of an empty polygon, or
  `back()` of an empty list (undefined behaviour). -/
  | out_of_range
  /-- The assertion `CGAL_assertion (inc1 || inc2)` fails. -/
  | assertion_inc
  /-- The assertion `CGAL_assertion (res != EQUAL)` fails. -/
  | assertion_res
  /-- The assertion `CGAL_assertion (f_equal (curr_pt, first_pt))` fails. -/
  | assertion_closed
  /-- The iteration budget of the embedding is used up (not a behaviour of the
  code, only of the embedding of its loops). -/
  | out_of_fuel
  deriving DecidableEq, Repr

/-- The read `v[k]` of a `std::vector`. -/
def vector_get {α : Type} (v : List α) (k : Nat) : Except Failure α :=
  match v[k]? with
  | some a => Except.ok a
  | none => Except.error Failure.out_of_range

/-- The write `v[k] = a` of a `std::vector`. -/
def vector_set {α : Type} (v : List α) (k : Nat) (a : α) : Except Failure (List α) :=
  if k < v.length then Except.ok (v.set k a) else Except.error Failure.out_of_range

/-! ## Circulators -/

/-- The increment `++c` of a circulator over a polygon with `n` vertices. -/
def circ_succ (n c : Nat) : Nat := (c + 1) % n

/-- The decrement `--c` of a circulator over a polygon with `n` vertices. -/
def circ_pred (n c : Nat) : Nat := (c + n - 1) % n

/-- The statement `if (forward) ++c; else --c;`. -/
def circ_move (forward : Bool) (n c : Nat) : Nat :=
  if forward then circ_succ n c else circ_pred n c

/-- The statement `if (forward) --c; else ++c;` that sets up `prev`. -/
def circ_back (forward : Bool) (n c : Nat) : Nat :=
  if forward then circ_pred n c else circ_succ n c

/-- The dereference `*c` of a circulator over the polygon `pgn`. -/
def deref {α : Type} (pgn : List α) (c : Nat) : Except Failure α :=
  vector_get pgn c

/-! ## Labels -/

/-- The class `Convolution_label`. -/
structure Convolution_label where
  /-- Vertex index of the first polygon. -/
  index1 : Nat
  /-- Vertex index of the second polygon. -/
  index2 : Nat
  /-- On which polygon do we move (1 or 2). -/
  move_on : Nat
  deriving DecidableEq, Repr

/-- The member `Convolution_label::operator<`. -/
def Convolution_label.lt (a label : Convolution_label) : Bool :=
  if a.index1 < label.index1 then true
  else if a.index1 > label.index1 then false
  else if a.index2 < label.index2 then true
  else if a.index2 > label.index2 then false
  else decide (a.move_on < label.move_on)

/-- The strict lexicographic order on the triples `(index1, index2, move_on)`,
written from its definition (used to compare with `Convolution_label.lt`). -/
def lex_lt (a b : Convolution_label) : Prop :=
  a.index1 < b.index1 ∨
  (a.index1 = b.index1 ∧ (a.index2 < b.index2 ∨ (a.index2 = b.index2 ∧ a.move_on < b.move_on)))

/-- The type `Labels_set`, a `std::set<Convolution_label>`: the stored labels,
in the order of their insertion (the code only inserts and counts, so the
internal order of the set is not observable). -/
abbrev Labels_set := List Convolution_label

/-- The call `used_labels.count (label)`: the number of stored labels that are
equivalent to `label` under `operator<`; a set stores at most one. -/
def Labels_set.count (s : Labels_set) (label : Convolution_label) : Nat :=
  if s.any (fun e => !(e.lt label) && !(label.lt e)) then 1 else 0

/-- The call `used_labels.insert (label)`: nothing happens when an equivalent
label is stored already. -/
def Labels_set.insert (s : Labels_set) (label : Convolution_label) : Labels_set :=
  if Labels_set.count s label != 0 then s else s ++ [label]

/-! ## Segments -/

/-- Modelled from the spec: the class `X_curve_label` of `Labels.h` (not part
of the sources), with what the specification lists for the label of a
segment: the orientation flag, the cycle id, the position in the cycle, the
move flag and the terminal flag. The four constructor arguments fill the
first four; the terminal flag of a new label is unset, and the modifier
`set_flag` writes it. -/
structure X_curve_label where
  /-- Whether the source of the segment is the smaller endpoint. -/
  right : Bool
  /-- The cycle the segment belongs to. -/
  component : Nat
  /-- The position of the segment in its cycle. -/
  index : Nat
  /-- The move flag, given as fourth constructor argument. -/
  move_on : Bool
  /-- The terminal flag, unset in a new label and written by `set_flag`. -/
  flag : Bool
  deriving DecidableEq, Repr

/-- The modifier `X_curve_label::set_flag`. -/
def X_curve_label.set_flag (l : X_curve_label) (b : Bool) : X_curve_label :=
  { l with flag := b }

/-- The type `Labeled_segment_2`: the segment `Segment_2 (source, target)`
with its label. -/
structure Labeled_segment_2 (Point_2 : Type) where
  /-- The first endpoint given to `Segment_2`. -/
  source : Point_2
  /-- The second endpoint given to `Segment_2`. -/
  target : Point_2
  /-- The label of the segment. -/
  label : X_curve_label
  deriving DecidableEq, Repr

/-- The constant `MOVE_ON_1`. -/
abbrev MOVE_ON_1 : Bool := true

/-- The constant `MOVE_ON_2`. -/
abbrev MOVE_ON_2 : Bool := false

/-- The type `Vertex_ref`: a circulator and the index of its vertex. -/
abbrev Vertex_ref := Nat × Nat

/-- The type `Anchor`. -/
abbrev Anchor := Vertex_ref × Vertex_ref

/-- The type `Anchors_queue`. -/
abbrev Anchors_queue := List Anchor

/-! ## The tracer `_convolution_cycle` -/

/-- The arguments of `_convolution_cycle` that stay fixed during a call, and
the two polygons its circulators range over. -/
structure Tracer_input (Point_2 Direction_2 : Type) where
  /-- The first polygon (the container behind `curr1`). -/
  pgn1 : List Point_2
  /-- The size of the first polygon. -/
  n1 : Nat
  /-- Whether we move forward or backward on the first polygon. -/
  forward1 : Bool
  /-- The directions of the edges of the first polygon. -/
  dirs1 : List Direction_2
  /-- The reflex flags of the first polygon. -/
  is_reflex1 : List Bool
  /-- The second polygon (the container behind `curr2`). -/
  pgn2 : List Point_2
  /-- The size of the second polygon. -/
  n2 : Nat
  /-- Whether we move forward or backward on the second polygon. -/
  forward2 : Bool
  /-- The directions of the edges of the second polygon. -/
  dirs2 : List Direction_2
  /-- The reflex flags of the second polygon. -/
  is_reflex2 : List Bool

/-- The variables of `_convolution_cycle` that change during a call. -/
structure Tracer_state (Point_2 : Type) where
  /-- The circulator `curr1`. -/
  curr1 : Nat
  /-- The index `k1`. -/
  k1 : Nat
  /-- The circulator `next1`. -/
  next1 : Nat
  /-- The circulator `curr2`. -/
  curr2 : Nat
  /-- The index `k2`. -/
  k2 : Nat
  /-- The circulator `next2`. -/
  next2 : Nat
  /-- The point `curr_pt`. -/
  curr_pt : Point_2
  /-- The counter `seg_index`. -/
  seg_index : Nat
  /-- The set `used_labels`. -/
  used_labels : Labels_set
  /-- The queue of anchors. -/
  queue : Anchors_queue
  /-- The output list `cycle`. -/
  cycle : List (Labeled_segment_2 Point_2)

section Tracer

variable {Point_2 Vector_2 Direction_2 : Type}

/-- The index `(n + k - 1) % n` of the edge before the vertex `k`. -/
def prev_index (n k : Nat) : Nat := (n + k - 1) % n

/-- The flags `inc1`, `inc2` and the queue after the two cone tests (the first
two `if` statements of the loop body). -/
def cone_flags (K : Kernel Point_2 Vector_2 Direction_2)
    (d1 d1_prev d2 d2_prev : Direction_2) (s : Tracer_state Point_2) :
    Bool × Bool × Anchors_queue :=
  -- if (f_ccw_in_between (dirs1[k1], dirs2[(n2 + k2 - 1) % n2], dirs2[k2]))
  let inc1 : Bool :=
    if K.f_ccw_in_between d1 d2_prev d2 then
      (if Labels_set.count s.used_labels ⟨s.k1, s.k2, 1⟩ != 0 then false else true)
    else false
  -- if (f_ccw_in_between (dirs2[k2], dirs1[(n1 + k1 - 1) % n1], dirs1[k1]))
  if K.f_ccw_in_between d2 d1_prev d1 then
    (if inc1 then
      (if Labels_set.count s.used_labels ⟨s.k1, s.k2, 2⟩ == 0 then
        (inc1, false, s.queue ++ [((s.curr1, s.k1), (s.curr2, s.k2))])
      else (inc1, false, s.queue))
    else
      (if Labels_set.count s.used_labels ⟨s.k1, s.k2, 2⟩ != 0 then (inc1, false, s.queue)
      else (inc1, true, s.queue)))
  else (inc1, false, s.queue)

/-- The flags `inc1`, `inc2` and the queue at the assertion
`CGAL_assertion (inc1 || inc2)`: the two cone tests followed by the test for
equal directions (the third `if` statement of the loop body). -/
def decide_flags (K : Kernel Point_2 Vector_2 Direction_2) (n1 : Nat)
    (d1 d1_prev d2 d2_prev : Direction_2) (s : Tracer_state Point_2) :
    Bool × Bool × Anchors_queue :=
  let cone := cone_flags K d1 d1_prev d2 d2_prev s
  -- if (! inc1 && ! inc2 && f_equal (dirs1[k1], dirs2[k2]))
  if !cone.1 && !cone.2.1 && K.f_equal d1 d2 then
    let inc1 : Bool := if Labels_set.count s.used_labels ⟨s.k1, s.k2, 1⟩ != 0 then false else true
    let label : Convolution_label :=
      if inc1 then ⟨(s.k1 + 1) % n1, s.k2, 2⟩ else ⟨s.k1, s.k2, 2⟩
    let inc2 : Bool := if Labels_set.count s.used_labels label != 0 then false else true
    (inc1, inc2, cone.2.2)
  else cone

/-- The first part of the loop body ("Determine on which polygons we should
move"): reads the four directions and computes the flags and the queue. -/
def decide_moves (K : Kernel Point_2 Vector_2 Direction_2)
    (T : Tracer_input Point_2 Direction_2) (s : Tracer_state Point_2) :
    Except Failure (Bool × Bool × Anchors_queue) := do
  let d1 ← vector_get T.dirs1 s.k1
  let d2_prev ← vector_get T.dirs2 (prev_index T.n2 s.k2)
  let d2 ← vector_get T.dirs2 s.k2
  let d1_prev ← vector_get T.dirs1 (prev_index T.n1 s.k1)
  pure (decide_flags K T.n1 d1 d1_prev d2 d2_prev s)

/-- The block `if (inc1) { ... }`: the move along the current edge of the
first polygon. -/
def advance1 (K : Kernel Point_2 Vector_2 Direction_2)
    (T : Tracer_input Point_2 Direction_2) (cycle_id : Nat) (s : Tracer_state Point_2) :
    Except Failure (Tracer_state Point_2) := do
  let p_next1 ← deref T.pgn1 s.next1
  let p_curr2 ← deref T.pgn2 s.curr2
  let next_pt := K.f_add p_next1 (K.f_vector K.ORIGIN p_curr2)
  let res := K.f_compare_xy s.curr_pt next_pt
  if res = Comparison_result.EQUAL then Except.error Failure.assertion_res
  else do
    let reflex2 ← vector_get T.is_reflex2 s.k2
    let cycle :=
      if !reflex2 then
        s.cycle ++ [⟨s.curr_pt, next_pt,
          ⟨decide (res = Comparison_result.SMALLER), cycle_id, s.seg_index, MOVE_ON_1, false⟩⟩]
      else s.cycle
    pure { s with
      cycle := cycle
      used_labels := Labels_set.insert s.used_labels ⟨s.k1, s.k2, 1⟩
      seg_index := s.seg_index + 1
      curr1 := s.next1
      k1 := (s.k1 + 1) % T.n1
      next1 := circ_move T.forward1 T.pgn1.length s.next1
      curr_pt := next_pt }

/-- The block `if (inc2) { ... }`: the move along the current edge of the
second polygon. -/
def advance2 (K : Kernel Point_2 Vector_2 Direction_2)
    (T : Tracer_input Point_2 Direction_2) (cycle_id : Nat) (s : Tracer_state Point_2) :
    Except Failure (Tracer_state Point_2) := do
  let p_next2 ← deref T.pgn2 s.next2
  let p_curr1 ← deref T.pgn1 s.curr1
  let next_pt := K.f_add p_next2 (K.f_vector K.ORIGIN p_curr1)
  let res := K.f_compare_xy s.curr_pt next_pt
  if res = Comparison_result.EQUAL then Except.error Failure.assertion_res
  else do
    let reflex1 ← vector_get T.is_reflex1 s.k1
    let cycle :=
      if !reflex1 then
        s.cycle ++ [⟨s.curr_pt, next_pt,
          ⟨decide (res = Comparison_result.SMALLER), cycle_id, s.seg_index, MOVE_ON_2, false⟩⟩]
      else s.cycle
    pure { s with
      cycle := cycle
      used_labels := Labels_set.insert s.used_labels ⟨s.k1, s.k2, 2⟩
      seg_index := s.seg_index + 1
      curr2 := s.next2
      k2 := (s.k2 + 1) % T.n2
      next2 := circ_move T.forward2 T.pgn2.length s.next2
      curr_pt := next_pt }

/-- The second part of the loop body ("Act according to the increment
flags"), after the assertion `inc1 || inc2`. -/
def act_moves (K : Kernel Point_2 Vector_2 Direction_2)
    (T : Tracer_input Point_2 Direction_2) (cycle_id : Nat) (inc1 inc2 : Bool)
    (s : Tracer_state Point_2) : Except Failure (Tracer_state Point_2) := do
  let s1 ← (if inc1 then advance1 K T cycle_id s else Except.ok s)
  (if inc2 then advance2 K T cycle_id s1 else Except.ok s1)

/-- One iteration of the body of the do-while loop. -/
def cycle_step (K : Kernel Point_2 Vector_2 Direction_2)
    (T : Tracer_input Point_2 Direction_2) (cycle_id : Nat) (s : Tracer_state Point_2) :
    Except Failure (Tracer_state Point_2) := do
  let flags ← decide_moves K T s
  if !(flags.1 || flags.2.1) then Except.error Failure.assertion_inc
  else act_moves K T cycle_id flags.1 flags.2.1 { s with queue := flags.2.2 }

/-- The do-while loop `do { ... } while (k1 != first1 || k2 != first2)`, with
an iteration budget. -/
def cycle_loop (K : Kernel Point_2 Vector_2 Direction_2)
    (T : Tracer_input Point_2 Direction_2) (cycle_id first1 first2 : Nat) :
    Nat → Tracer_state Point_2 → Except Failure (Tracer_state Point_2)
  | 0, _ => Except.error Failure.out_of_fuel
  | fuel + 1, s => do
    let s1 ← cycle_step K T cycle_id s
    if s1.k1 != first1 || s1.k2 != first2 then
      cycle_loop K T cycle_id first1 first2 fuel s1
    else pure s1

/-- The state at the head of the loop after `m` iterations of the body (the
exit test of the loop is left out). -/
def cycle_steps (K : Kernel Point_2 Vector_2 Direction_2)
    (T : Tracer_input Point_2 Direction_2) (cycle_id : Nat) :
    Nat → Tracer_state Point_2 → Except Failure (Tracer_state Point_2)
  | 0, s => pure s
  | m + 1, s => do
    let s1 ← cycle_step K T cycle_id s
    cycle_steps K T cycle_id m s1

/-- The state of `_convolution_cycle` when the do-while loop is entered, and
the point `first_pt`. -/
def cycle_init (K : Kernel Point_2 Vector_2 Direction_2)
    (T : Tracer_input Point_2 Direction_2) (curr1 k1 curr2 k2 : Nat)
    (used_labels : Labels_set) (queue : Anchors_queue)
    (cycle : List (Labeled_segment_2 Point_2)) :
    Except Failure (Tracer_state Point_2) := do
  let next1 := circ_move T.forward1 T.pgn1.length curr1
  let next2 := circ_move T.forward2 T.pgn2.length curr2
  let p1 ← deref T.pgn1 curr1
  let p2 ← deref T.pgn2 curr2
  let first_pt := K.f_add p1 (K.f_vector K.ORIGIN p2)
  pure { curr1 := curr1, k1 := k1, next1 := next1, curr2 := curr2, k2 := k2,
         next2 := next2, curr_pt := first_pt, seg_index := 0,
         used_labels := used_labels, queue := queue, cycle := cycle }

/-- The last statement of `_convolution_cycle`:
`if (cycle.back().label().index() + 1 == seg_index) cycle.back().label().set_flag (true);`. -/
def mark_last (seg_index : Nat) (cycle : List (Labeled_segment_2 Point_2)) :
    Except Failure (List (Labeled_segment_2 Point_2)) :=
  match cycle.getLast? with
  | none => Except.error Failure.out_of_range
  | some last =>
    if last.label.index + 1 = seg_index then
      Except.ok (cycle.dropLast ++ [{ last with label := last.label.set_flag true }])
    else Except.ok cycle

/-- The function `_convolution_cycle`; the result holds the in/out arguments
`used_labels`, `queue` and `cycle` after the call. -/
def _convolution_cycle (K : Kernel Point_2 Vector_2 Direction_2) (fuel : Nat)
    (cycle_id : Nat) (T : Tracer_input Point_2 Direction_2) (curr1 k1 curr2 k2 : Nat)
    (used_labels : Labels_set) (queue : Anchors_queue)
    (cycle : List (Labeled_segment_2 Point_2)) :
    Except Failure (Tracer_state Point_2) := do
  let s0 ← cycle_init K T curr1 k1 curr2 k2 used_labels queue cycle
  let s ← cycle_loop K T cycle_id k1 k2 fuel s0
  if !(K.f_equal_pt s.curr_pt s0.curr_pt) then Except.error Failure.assertion_closed
  else do
    let cycle1 ← mark_last s.seg_index s.cycle
    pure { s with cycle := cycle1 }

end Tracer

/-! ## The preprocessing loops of `operator()` -/

/-- The loop `for (k = 0; k < n; k++) body`, written as `for_loop body n 0`:
`for_loop body todo k` runs the body for the indices `k, ..., k + todo - 1`. -/
def for_loop {σ : Type} (body : Nat → σ → Except Failure σ) :
    Nat → Nat → σ → Except Failure σ
  | 0, _, st => pure st
  | todo + 1, k, st => do
    let st1 ← body k st
    for_loop body todo (k + 1) st1

/-- The variables of the loop over the first polygon. -/
structure Prep1_state (Direction_2 : Type) where
  /-- The circulator `prev1`. -/
  prev1 : Nat
  /-- The circulator `curr1`. -/
  curr1 : Nat
  /-- The circulator `next1`. -/
  next1 : Nat
  /-- The table `dirs1`. -/
  dirs1 : List Direction_2
  /-- The table `is_reflex1`. -/
  is_reflex1 : List Bool

/-- The variables of the loop over the second polygon. -/
structure Prep2_state (Direction_2 : Type) where
  /-- The circulator `prev2`. -/
  prev2 : Nat
  /-- The circulator `curr2`. -/
  curr2 : Nat
  /-- The circulator `next2`. -/
  next2 : Nat
  /-- The table `dirs2`. -/
  dirs2 : List Direction_2
  /-- The table `is_reflex2`. -/
  is_reflex2 : List Bool
  /-- The vertex `bottom_left`. -/
  bottom_left : Vertex_ref
  /-- The flag `is_convex2`. -/
  is_convex2 : Bool
  /-- The list `reflex_vertices`. -/
  reflex_vertices : List Vertex_ref

section Preprocessing

variable {Point_2 Vector_2 Direction_2 : Type}

/-- The body of the loop over the first polygon, at index `k1`. -/
def first_polygon_body (K : Kernel Point_2 Vector_2 Direction_2)
    (pgn1 : List Point_2) (forward1 : Bool) (k1 : Nat) (st : Prep1_state Direction_2) :
    Except Failure (Prep1_state Direction_2) := do
  let next1 := circ_move forward1 pgn1.length st.next1
  let p ← deref pgn1 st.prev1
  let c ← deref pgn1 st.curr1
  let n ← deref pgn1 next1
  let is_reflex1 ← vector_set st.is_reflex1 k1
    (decide (K.f_orientation p c n = Orientation.RIGHT_TURN))
  let dirs1 ← vector_set st.dirs1 k1 (K.f_direction (K.f_vector c n))
  pure { prev1 := st.curr1, curr1 := next1, next1 := next1,
         dirs1 := dirs1, is_reflex1 := is_reflex1 }

/-- The part of `operator()` that prepares the tables of the first polygon
("Prepare the vector of directions for the first polygon"): `dirs1` gets `n1`
entries and `is_reflex1` gets `n2` entries, as in the source. -/
def first_polygon_tables (K : Kernel Point_2 Vector_2 Direction_2)
    (pgn1 : List Point_2) (n2 : Nat) : Except Failure (Prep1_state Direction_2) :=
  let n1 := pgn1.length
  let forward1 : Bool := decide (K.pgn_orientation pgn1 = COUNTERCLOCKWISE)
  let init : Prep1_state Direction_2 :=
    { prev1 := circ_back forward1 n1 0, curr1 := 0, next1 := 0,
      dirs1 := List.replicate n1 K.default_direction,
      is_reflex1 := List.replicate n2 false }
  for_loop (first_polygon_body K pgn1 forward1) n1 0 init

/-- The body of the loop over the second polygon, at index `k2`. -/
def second_polygon_body (K : Kernel Point_2 Vector_2 Direction_2)
    (pgn2 : List Point_2) (forward2 : Bool) (k2 : Nat) (st : Prep2_state Direction_2) :
    Except Failure (Prep2_state Direction_2) := do
  let next2 := circ_move forward2 pgn2.length st.next2
  let c ← deref pgn2 st.curr2
  let bottom_left ←
    if k2 = 0 then pure (st.curr2, 0)
    else do
      let b ← deref pgn2 st.bottom_left.1
      if K.f_compare_xy c b = Comparison_result.SMALLER then pure (st.curr2, k2)
      else pure st.bottom_left
  let p ← deref pgn2 st.prev2
  let n ← deref pgn2 next2
  let reflex : Bool := decide (K.f_orientation p c n = Orientation.RIGHT_TURN)
  let is_reflex2 ← vector_set st.is_reflex2 k2 reflex
  let is_convex2 := if reflex then false else st.is_convex2
  let reflex_vertices :=
    if reflex then st.reflex_vertices ++ [(st.curr2, k2)] else st.reflex_vertices
  let dirs2 ← vector_set st.dirs2 k2 (K.f_direction (K.f_vector c n))
  pure { prev2 := st.curr2, curr2 := next2, next2 := next2,
         dirs2 := dirs2, is_reflex2 := is_reflex2, bottom_left := bottom_left,
         is_convex2 := is_convex2, reflex_vertices := reflex_vertices }

/-- The part of `operator()` that prepares the tables of the second polygon,
its bottom-left vertex and the list of its reflex vertices. -/
def second_polygon_tables (K : Kernel Point_2 Vector_2 Direction_2)
    (pgn2 : List Point_2) : Except Failure (Prep2_state Direction_2) :=
  let n2 := pgn2.length
  let forward2 : Bool := decide (K.pgn_orientation pgn2 = COUNTERCLOCKWISE)
  let init : Prep2_state Direction_2 :=
    { prev2 := circ_back forward2 n2 0, curr2 := 0, next2 := 0,
      dirs2 := List.replicate n2 K.default_direction,
      is_reflex2 := List.replicate n2 false,
      bottom_left := (0, 0), is_convex2 := true, reflex_vertices := [] }
  for_loop (second_polygon_body K pgn2 forward2) n2 0 init

/-- The list `reflex_vertices` after the statement
`reflex_vertices.push_front (bottom_left)`: the seeds in the order in which
the seeder visits them. -/
def seeds_of (st : Prep2_state Direction_2) : List Vertex_ref :=
  st.bottom_left :: st.reflex_vertices

/-- The list the seeder iterates over, from the second polygon. -/
def seed_list (K : Kernel Point_2 Vector_2 Direction_2) (pgn2 : List Point_2) :
    Except Failure (List Vertex_ref) := do
  let st ← second_polygon_tables K pgn2
  pure (seeds_of st)

/-- The position, in the stored sequence of a polygon with `n` vertices, of the
`k`-th vertex in traversal order: the stored order when moving forward, the
reversed order from the same first vertex when moving backward. -/
def traversal_pos (forward : Bool) (n k : Nat) : Nat :=
  if forward then k % n else (n - k % n) % n

end Preprocessing

/-! ## The seeder: the main loops of `operator()` -/

/-- The variables of `operator()` that change while the convolution cycles
are constructed. -/
structure Driver_state (Point_2 : Type) where
  /-- The circulator `curr1` of the scan of the first polygon. -/
  curr1 : Nat
  /-- The circulator `next1` of the scan of the first polygon. -/
  next1 : Nat
  /-- The counter `curr_id`. -/
  curr_id : Nat
  /-- The counter `cycles`. -/
  cycles : Nat
  /-- The list `conv_segments`. -/
  conv_segments : List (Labeled_segment_2 Point_2)
  /-- The list `cycle`. -/
  cycle : List (Labeled_segment_2 Point_2)
  /-- The set `used_labels`. -/
  used_labels : Labels_set
  /-- The queue of anchors. -/
  queue : Anchors_queue
  /-- The counter `loops`. -/
  loops : Nat

section Seeder

variable {Point_2 Vector_2 Direction_2 : Type}

/-- The loop `while (! queue.empty()) { ... }` of one session, with an
iteration budget `fuel` for itself and `tracer_fuel` for every call of
`_convolution_cycle`. -/
def session_loop (K : Kernel Point_2 Vector_2 Direction_2)
    (T : Tracer_input Point_2 Direction_2) (tracer_fuel : Nat) :
    Nat → Driver_state Point_2 → Except Failure (Driver_state Point_2)
  | 0, st =>
    match st.queue with
    | [] => Except.ok st
    | _ :: _ => Except.error Failure.out_of_fuel
  | fuel + 1, st =>
    match st.queue with
    | [] => Except.ok st
    | anchor :: rest =>
      -- anchor = queue.front(); queue.pop_front(); loops++;
      let loops := st.loops + 1
      if decide (loops > 0) &&
          Labels_set.count st.used_labels ⟨anchor.1.2, anchor.2.2, 2⟩ != 0 then
        -- loops--; continue;
        session_loop K T tracer_fuel fuel { st with queue := rest, loops := loops - 1 }
      else do
        let curr_id := st.curr_id + 1
        let r ← _convolution_cycle K tracer_fuel curr_id T
          anchor.1.1 anchor.1.2 anchor.2.1 anchor.2.2 st.used_labels rest st.cycle
        if r.cycle.isEmpty then
          session_loop K T tracer_fuel fuel
            { st with curr_id := curr_id, used_labels := r.used_labels, queue := r.queue,
                      cycle := r.cycle, loops := loops - 1 }
        else
          session_loop K T tracer_fuel fuel
            { st with curr_id := curr_id, used_labels := r.used_labels, queue := r.queue,
                      conv_segments := st.conv_segments ++ r.cycle, cycle := [],
                      loops := loops }

/-- The test of the seeder on the pair `(k1, k2)`:
`used_labels.count (Convolution_label (k1, k2, 1)) == 0 &&
 (f_ccw_in_between (dirs1[k1], dirs2[(n2 + k2 - 1) % n2], dirs2[k2]) ||
  f_equal (dirs1[k1], dirs2[k2]))`. -/
def seed_qualifies (K : Kernel Point_2 Vector_2 Direction_2)
    (T : Tracer_input Point_2 Direction_2) (used_labels : Labels_set) (k1 k2 : Nat) :
    Except Failure Bool :=
  if Labels_set.count used_labels ⟨k1, k2, 1⟩ == 0 then do
    let d1 ← vector_get T.dirs1 k1
    let d2_prev ← vector_get T.dirs2 (prev_index T.n2 k2)
    let d2 ← vector_get T.dirs2 k2
    pure (K.f_ccw_in_between d1 d2_prev d2 || K.f_equal d1 d2)
  else pure false

/-- The body of the loop `for (k1 = 0; k1 < n1; k1++)` of the seeder, for the
seed `(curr2, k2)`. -/
def scan_body (K : Kernel Point_2 Vector_2 Direction_2)
    (T : Tracer_input Point_2 Direction_2) (tracer_fuel session_fuel : Nat)
    (curr2 k2 : Nat) (k1 : Nat) (st : Driver_state Point_2) :
    Except Failure (Driver_state Point_2) := do
  let next1 := circ_move T.forward1 T.pgn1.length st.next1
  let found ← seed_qualifies K T st.used_labels k1 k2
  let st1 ←
    (if found then do
      -- queue.clear(); queue.push_back (...); loops = 0; while ...; cycles++;
      let st2 ← session_loop K T tracer_fuel session_fuel
        { st with queue := [((st.curr1, k1), (curr2, k2))], loops := 0 }
      pure { st2 with cycles := st2.cycles + 1 }
    else Except.ok st)
  pure { st1 with curr1 := next1, next1 := next1 }

/-- The loop over the seeds (`for (reflex_it = reflex_vertices.begin(); ...)`). -/
def seeder_loop (K : Kernel Point_2 Vector_2 Direction_2)
    (T : Tracer_input Point_2 Direction_2) (tracer_fuel session_fuel : Nat) :
    List Vertex_ref → Driver_state Point_2 → Except Failure (Driver_state Point_2)
  | [], st => Except.ok st
  | seed :: seeds, st => do
    -- next1 = curr1 = pgn1.vertices_circulator();
    let st1 ← for_loop (scan_body K T tracer_fuel session_fuel seed.1 seed.2) T.n1 0
      { st with curr1 := 0, next1 := 0 }
    seeder_loop K T tracer_fuel session_fuel seeds st1

/-- The function `operator()` up to the call of the union of the cycles: the
result holds `conv_segments`, the list handed to `Union_of_segment_cycles_2`,
and the counters. -/
def operator_call (K : Kernel Point_2 Vector_2 Direction_2)
    (tracer_fuel session_fuel : Nat) (pgn1 pgn2 : List Point_2) :
    Except Failure (Driver_state Point_2) := do
  let t1 ← first_polygon_tables K pgn1 pgn2.length
  let t2 ← second_polygon_tables K pgn2
  let T : Tracer_input Point_2 Direction_2 :=
    { pgn1 := pgn1, n1 := pgn1.length,
      forward1 := decide (K.pgn_orientation pgn1 = COUNTERCLOCKWISE),
      dirs1 := t1.dirs1, is_reflex1 := t1.is_reflex1,
      pgn2 := pgn2, n2 := pgn2.length,
      forward2 := decide (K.pgn_orientation pgn2 = COUNTERCLOCKWISE),
      dirs2 := t2.dirs2, is_reflex2 := t2.is_reflex2 }
  seeder_loop K T tracer_fuel session_fuel (seeds_of t2)
    { curr1 := 0, next1 := 0, curr_id := 0, cycles := 0, conv_segments := [], cycle := [],
      used_labels := [], queue := [], loops := 0 }

end Seeder

/-! ## An exact kernel over integer coordinates -/

/-- Modelled from the spec: the quadrant of a direction, used by the strict
total order on directions of the kernel (which is not part of the sources). -/
def int_quadrant (d : Int × Int) : Nat :=
  if 0 ≤ d.1 then (if 0 ≤ d.2 then 1 else 4) else (if 0 ≤ d.2 then 2 else 3)

/-- Modelled from the spec: the strict total order on directions of the kernel
(not part of the sources), by angle with the x-axis. -/
def int_dir_lt (d e : Int × Int) : Bool :=
  if int_quadrant e < int_quadrant d then false
  else if int_quadrant d < int_quadrant e then true
  else decide (0 < d.1 * e.2 - e.1 * d.2)

/-- Modelled from the spec: equality of two directions of the kernel (not part
of the sources): same signs of the coordinates and zero determinant. -/
def int_dir_equal (d e : Int × Int) : Bool :=
  decide (Int.sign d.1 = Int.sign e.1) && decide (Int.sign d.2 = Int.sign e.2) &&
    decide (d.1 * e.2 - e.1 * d.2 = 0)

/-- Modelled from the spec: the counterclockwise-between predicate of the
kernel (not part of the sources): `d` differs from `lo` and is reached strictly
before `hi` when rotating counterclockwise from `lo`. -/
def int_ccw_in_between (d lo hi : Int × Int) : Bool :=
  if int_dir_lt lo d then (int_dir_lt d hi || !(int_dir_lt lo hi))
  else (int_dir_lt d hi && !(int_dir_lt lo hi))

/-- Modelled from the spec: the lexicographic comparison of two points of the
kernel (not part of the sources), by x and then by y. -/
def int_compare_xy (p q : Int × Int) : Comparison_result :=
  if p.1 < q.1 then Comparison_result.SMALLER
  else if q.1 < p.1 then Comparison_result.LARGER
  else if p.2 < q.2 then Comparison_result.SMALLER
  else if q.2 < p.2 then Comparison_result.LARGER
  else Comparison_result.EQUAL

/-- Modelled from the spec: the orientation test of the kernel (not part of
the sources) on a point triple. -/
def int_orientation (p q r : Int × Int) : Orientation :=
  let det := (q.1 - p.1) * (r.2 - p.2) - (r.1 - p.1) * (q.2 - p.2)
  if 0 < det then Orientation.LEFT_TURN
  else if det < 0 then Orientation.RIGHT_TURN
  else Orientation.COLLINEAR

/-- Twice the signed area of the polygon: the sum of the determinants of
consecutive vertices, closing with the edge from the last vertex to `first`. -/
def int_area2 (first : Int × Int) : List (Int × Int) → Int
  | [] => 0
  | [p] => p.1 * first.2 - first.1 * p.2
  | p :: q :: rest => (p.1 * q.2 - q.1 * p.2) + int_area2 first (q :: rest)

/-- Modelled from the spec: the orientation of a polygon (the member
`Polygon_2::orientation` is not part of the sources), from the sign of its
signed area. -/
def int_pgn_orientation (pgn : List (Int × Int)) : Orientation :=
  match pgn with
  | [] => Orientation.COLLINEAR
  | first :: _ =>
    let a := int_area2 first pgn
    if 0 < a then Orientation.LEFT_TURN
    else if a < 0 then Orientation.RIGHT_TURN
    else Orientation.COLLINEAR

/-- Modelled from the spec: an exact kernel with integer Cartesian
coordinates (the kernel is an external collaborator, not part of the sources);
vectors and directions are coordinate pairs. -/
def int_kernel : Kernel (Int × Int) (Int × Int) (Int × Int) where
  ORIGIN := (0, 0)
  default_direction := (0, 0)
  f_equal := int_dir_equal
  f_equal_pt := fun p q => decide (p = q)
  f_add := fun p v => (p.1 + v.1, p.2 + v.2)
  f_vector := fun p q => (q.1 - p.1, q.2 - p.2)
  f_direction := fun v => v
  f_orientation := int_orientation
  f_compare_xy := int_compare_xy
  f_ccw_in_between := int_ccw_in_between
  pgn_orientation := int_pgn_orientation

/-- The unit square `(0,0), (1,0), (1,1), (0,1)`. -/
def unit_square : List (Int × Int) := [(0, 0), (1, 0), (1, 1), (0, 1)]

/-- The right triangle `(0,0), (1,0), (0,1)`. -/
def right_triangle : List (Int × Int) := [(0, 0), (1, 0), (0, 1)]

/-! ## Conditions and invariants used by the statements -/

section Conditions

variable {Point_2 Vector_2 Direction_2 : Type}

/-- The `k`-th vertex of a polygon in traversal order, when there is one. -/
def traversal_vertex (pgn : List Point_2) (forward : Bool) (k : Nat) : Option Point_2 :=
  pgn[traversal_pos forward pgn.length k]?

/-- The point `p + q` as the code computes it: `f_add (p, f_vector (ORIGIN, q))`. -/
def vertex_sum (K : Kernel Point_2 Vector_2 Direction_2) (p q : Point_2) : Point_2 :=
  K.f_add p (K.f_vector K.ORIGIN q)

/-- What `operator()` guarantees when it calls `_convolution_cycle`: the sizes
are those of the polygons, the indices are in range, and each circulator
points to the vertex of its index in traversal order. -/
structure Well_formed_call (T : Tracer_input Point_2 Direction_2)
    (curr1 k1 curr2 k2 : Nat) : Prop where
  size1 : T.n1 = T.pgn1.length
  size2 : T.n2 = T.pgn2.length
  k1_lt : k1 < T.n1
  k2_lt : k2 < T.n2
  curr1_eq : curr1 = traversal_pos T.forward1 T.n1 k1
  curr2_eq : curr2 = traversal_pos T.forward2 T.n2 k2

/-- The laws of the kernel used for the closure of a trace: the sum of two
points does not depend on which of them is translated, and `f_equal` holds
between a point and itself. -/
structure Translation_laws (K : Kernel Point_2 Vector_2 Direction_2) : Prop where
  sum_comm : ∀ p q : Point_2, vertex_sum K p q = vertex_sum K q p
  equal_refl : ∀ p : Point_2, K.f_equal_pt p p = true

/-- The laws of the lexicographic comparison used for the bottom-left vertex:
"compares `SMALLER`" is a strict weak order. -/
structure Compare_laws (K : Kernel Point_2 Vector_2 Direction_2) : Prop where
  irrefl : ∀ p : Point_2, K.f_compare_xy p p ≠ Comparison_result.SMALLER
  trans : ∀ p q r : Point_2, K.f_compare_xy p q = Comparison_result.SMALLER →
    K.f_compare_xy q r = Comparison_result.SMALLER →
    K.f_compare_xy p r = Comparison_result.SMALLER
  neg_trans : ∀ p q r : Point_2, K.f_compare_xy p q ≠ Comparison_result.SMALLER →
    K.f_compare_xy q r ≠ Comparison_result.SMALLER →
    K.f_compare_xy p r ≠ Comparison_result.SMALLER

/-- The invariant of the do-while loop of `_convolution_cycle` at the head of
the loop and between its two blocks: indices in range, circulators at the
vertices of the indices, `next` one move ahead of `curr`, and `curr_pt` the sum
of the two current vertices. -/
structure Tracer_inv (K : Kernel Point_2 Vector_2 Direction_2)
    (T : Tracer_input Point_2 Direction_2) (s : Tracer_state Point_2) : Prop where
  k1_lt : s.k1 < T.n1
  k2_lt : s.k2 < T.n2
  curr1_eq : s.curr1 = traversal_pos T.forward1 T.n1 s.k1
  curr2_eq : s.curr2 = traversal_pos T.forward2 T.n2 s.k2
  next1_eq : s.next1 = circ_move T.forward1 T.n1 s.curr1
  next2_eq : s.next2 = circ_move T.forward2 T.n2 s.curr2
  curr_pt_eq : ∃ p q, T.pgn1[s.curr1]? = some p ∧ T.pgn2[s.curr2]? = some q ∧
    s.curr_pt = vertex_sum K p q

end Conditions

section Tables

variable {Point_2 Vector_2 Direction_2 : Type}

/-- The `k`-th vertex of a polygon in traversal order (indices are taken
modulo the size), following the words of the specification. -/
def traversal_point (K : Kernel Point_2 Vector_2 Direction_2) (pgn : List Point_2)
    (forward : Bool) (k : Nat) : Point_2 :=
  pgn.getD (traversal_pos forward pgn.length k) K.ORIGIN

/-- The outgoing edge direction at the `k`-th vertex, following the words of
the specification: the direction of the vector from that vertex to its
successor in traversal order. -/
def edge_direction (K : Kernel Point_2 Vector_2 Direction_2) (pgn : List Point_2)
    (forward : Bool) (k : Nat) : Direction_2 :=
  K.f_direction (K.f_vector (traversal_point K pgn forward k)
    (traversal_point K pgn forward (k + 1)))

/-- The reflex flag at the `k`-th vertex, following the words of the
specification: whether predecessor, vertex and successor in traversal order
make a right turn. -/
def reflex_at (K : Kernel Point_2 Vector_2 Direction_2) (pgn : List Point_2)
    (forward : Bool) (k : Nat) : Bool :=
  decide (K.f_orientation (traversal_point K pgn forward (k + pgn.length - 1))
    (traversal_point K pgn forward k) (traversal_point K pgn forward (k + 1)) =
    Orientation.RIGHT_TURN)

/-- The traversal sense `forward` that `operator()` derives from a polygon. -/
def forward_of (K : Kernel Point_2 Vector_2 Direction_2) (pgn : List Point_2) : Bool :=
  decide (K.pgn_orientation pgn = COUNTERCLOCKWISE)

/-- The invariant of the loop over the second polygon before the iteration
with index `k`: the circulators are at the vertices `k - 1`, `k`, `k` of the
traversal, the tables are filled below `k`, `reflex_vertices` holds the reflex
vertices below `k` in increasing order, and after the first iteration
`bottom_left` is a vertex below `k` with its index. -/
structure Prep2_inv (K : Kernel Point_2 Vector_2 Direction_2) (pgn : List Point_2)
    (forward : Bool) (k : Nat) (st : Prep2_state Direction_2) : Prop where
  curr_eq : st.curr2 = traversal_pos forward pgn.length k
  next_eq : st.next2 = st.curr2
  prev_eq : st.prev2 = traversal_pos forward pgn.length (k + pgn.length - 1)
  dirs_length : st.dirs2.length = pgn.length
  reflex_length : st.is_reflex2.length = pgn.length
  dirs_eq : ∀ j, j < k → st.dirs2[j]? = some (edge_direction K pgn forward j)
  reflex_eq : ∀ j, j < k → st.is_reflex2[j]? = some (reflex_at K pgn forward j)
  seeds_eq : st.reflex_vertices =
    ((List.range k).filter (fun j => reflex_at K pgn forward j)).map
      (fun j => (traversal_pos forward pgn.length j, j))
  bottom_ref : k = 0 ∨ ∃ b, b < k ∧ st.bottom_left = (traversal_pos forward pgn.length b, b)

/-- The invariant of the loop over the first polygon before the iteration
with index `k`, for a table `is_reflex1` of `size` entries: the circulators
are at the vertices `k - 1`, `k`, `k` of the traversal and the tables are
filled below `k`. -/
structure Prep1_inv (K : Kernel Point_2 Vector_2 Direction_2) (pgn : List Point_2)
    (forward : Bool) (size : Nat) (k : Nat) (st : Prep1_state Direction_2) : Prop where
  curr_eq : st.curr1 = traversal_pos forward pgn.length k
  next_eq : st.next1 = st.curr1
  prev_eq : st.prev1 = traversal_pos forward pgn.length (k + pgn.length - 1)
  dirs_length : st.dirs1.length = pgn.length
  reflex_length : st.is_reflex1.length = size
  dirs_eq : ∀ j, j < k → st.dirs1[j]? = some (edge_direction K pgn forward j)
  reflex_eq : ∀ j, j < k → st.is_reflex1[j]? = some (reflex_at K pgn forward j)

/-- The property of `bottom_left` before the iteration with index `k`: no
vertex below `k` compares `SMALLER` than it, and it compares `SMALLER` than
every vertex before its own index. -/
def Bottom_inv (K : Kernel Point_2 Vector_2 Direction_2) (pgn : List Point_2)
    (forward : Bool) (k : Nat) (st : Prep2_state Direction_2) : Prop :=
  (∀ j, j < k → K.f_compare_xy (traversal_point K pgn forward j)
      (traversal_point K pgn forward st.bottom_left.2) ≠ Comparison_result.SMALLER) ∧
  (∀ j, j < st.bottom_left.2 → K.f_compare_xy (traversal_point K pgn forward st.bottom_left.2)
      (traversal_point K pgn forward j) = Comparison_result.SMALLER)

end Tables

/-- The tables and polygons of the sum of two unit squares, as the
preprocessing loops produce them. -/
def two_squares : Tracer_input (Int × Int) (Int × Int) :=
  { pgn1 := unit_square, n1 := 4, forward1 := true,
    dirs1 := [(1, 0), (0, 1), (-1, 0), (0, -1)],
    is_reflex1 := [false, false, false, false],
    pgn2 := unit_square, n2 := 4, forward2 := true,
    dirs2 := [(1, 0), (0, 1), (-1, 0), (0, -1)],
    is_reflex2 := [false, false, false, false] }

/-- The state of the tracer when it enters its loop at the seed `(0, 0)` of
the two unit squares, with no label used. -/
def two_squares_start : Tracer_state (Int × Int) :=
  { curr1 := 0, k1 := 0, next1 := 1, curr2 := 0, k2 := 0, next2 := 1,
    curr_pt := (0, 0), seg_index := 0, used_labels := [], queue := [], cycle := [] }

/-- The state of the tracer on the two unit squares after the first
iteration from the seed `(0, 0)`: both polygons have moved. -/
def two_squares_step1 : Tracer_state (Int × Int) :=
  { curr1 := 1, k1 := 1, next1 := 2, curr2 := 1, k2 := 1, next2 := 2,
    curr_pt := (2, 0), seg_index := 2,
    used_labels := [⟨0, 0, 1⟩, ⟨1, 0, 2⟩], queue := [],
    cycle := [⟨(0, 0), (1, 0), ⟨true, 1, 0, true, false⟩⟩,
      ⟨(1, 0), (2, 0), ⟨true, 1, 1, false, false⟩⟩] }

/-- The unit square stored from the vertex `(1,0)`, counterclockwise: its
bottom-left vertex `(0,0)` has index 3. -/
def rotated_square : List (Int × Int) := [(1, 0), (1, 1), (0, 1), (0, 0)]

/-- The dart stored clockwise from the vertex `(0,0)`: it is traversed
backward, and its reflex vertex `(2,1)` has index 1 in traversal order. -/
def clockwise_dart : List (Int × Int) := [(0, 0), (2, 4), (4, 0), (2, 1)]

/-- A non-convex polygon with four vertices ("dart"), counterclockwise, whose
vertex `(2,1)` is reflex. -/
def dart : List (Int × Int) := [(0, 0), (2, 1), (4, 0), (2, 4)]

/-- The tables and polygons of the sum of the unit square and the dart, as
the preprocessing loops produce them. -/
def square_dart : Tracer_input (Int × Int) (Int × Int) :=
  { pgn1 := unit_square, n1 := 4, forward1 := true,
    dirs1 := [(1, 0), (0, 1), (-1, 0), (0, -1)],
    is_reflex1 := [false, false, false, false],
    pgn2 := dart, n2 := 4, forward2 := true,
    dirs2 := [(2, 1), (2, -1), (-2, 4), (-2, -4)],
    is_reflex2 := [false, true, false, false] }

/-- The state of the tracer on the unit square and the dart after two
iterations from the seed `(0, 0)`: the second polygon is at its reflex
vertex. -/
def square_dart_at_reflex : Tracer_state (Int × Int) :=
  { curr1 := 1, k1 := 1, next1 := 2, curr2 := 1, k2 := 1, next2 := 2,
    curr_pt := (3, 1), seg_index := 2,
    used_labels := [⟨0, 0, 1⟩, ⟨1, 0, 2⟩], queue := [],
    cycle := [⟨(0, 0), (1, 0), ⟨true, 1, 0, true, false⟩⟩,
      ⟨(1, 0), (3, 1), ⟨true, 1, 1, false, false⟩⟩] }

/-- The state of the tracer on the unit square and the dart one iteration
after `square_dart_at_reflex`: the first polygon has moved, no segment was
added. -/
def square_dart_after_reflex : Tracer_state (Int × Int) :=
  { square_dart_at_reflex with
    curr1 := 2, k1 := 2, next1 := 3, curr_pt := (3, 2), seg_index := 3,
    used_labels := [⟨0, 0, 1⟩, ⟨1, 0, 2⟩, ⟨1, 1, 1⟩] }

/-- A triangle, counterclockwise, whose three edge directions all lie in the
cone of the reflex vertex of the dart. -/
def thin_triangle : List (Int × Int) := [(0, 0), (1, 1), (1, 2)]

/-- The tables and polygons of the sum of the thin triangle and the dart, as
the preprocessing loops produce them. -/
def triangle_dart : Tracer_input (Int × Int) (Int × Int) :=
  { pgn1 := thin_triangle, n1 := 3, forward1 := true,
    dirs1 := [(1, 1), (0, 1), (-1, -2)],
    is_reflex1 := [false, false, false, false],
    pgn2 := dart, n2 := 4, forward2 := true,
    dirs2 := [(2, 1), (2, -1), (-2, 4), (-2, -4)],
    is_reflex2 := [false, true, false, false] }

/-- The tables and polygons of the sum of the dart with itself, as the
preprocessing loops produce them. -/
def dart_dart : Tracer_input (Int × Int) (Int × Int) :=
  { pgn1 := dart, n1 := 4, forward1 := true,
    dirs1 := [(2, 1), (2, -1), (-2, 4), (-2, -4)],
    is_reflex1 := [false, true, false, false],
    pgn2 := dart, n2 := 4, forward2 := true,
    dirs2 := [(2, 1), (2, -1), (-2, 4), (-2, -4)],
    is_reflex2 := [false, true, false, false] }

/-- A simple polygon with five vertices, counterclockwise, with two reflex
vertices, `(2,2)` and `(1,2)`. -/
def star5 : List (Int × Int) := [(0, 0), (4, 1), (2, 2), (0, 4), (1, 2)]

/-- The tables and polygons of the sum of the dart and the polygon `star5`,
as the preprocessing loops produce them. -/
def dart_star : Tracer_input (Int × Int) (Int × Int) :=
  { pgn1 := dart, n1 := 4, forward1 := true,
    dirs1 := [(2, 1), (2, -1), (-2, 4), (-2, -4)],
    is_reflex1 := [false, true, false, false, false],
    pgn2 := star5, n2 := 5, forward2 := true,
    dirs2 := [(4, 1), (-2, 1), (-2, 2), (1, -2), (-1, -2)],
    is_reflex2 := [false, false, true, false, true] }

/-- The tables that `operator()` builds for two polygons, when both
preprocessing loops complete. -/
def tables_of {Point_2 Vector_2 Direction_2 : Type} (K : Kernel Point_2 Vector_2 Direction_2)
    (pgn1 pgn2 : List Point_2) : Except Failure (Tracer_input Point_2 Direction_2) := do
  let t1 ← first_polygon_tables K pgn1 pgn2.length
  let t2 ← second_polygon_tables K pgn2
  pure { pgn1 := pgn1, n1 := pgn1.length,
         forward1 := decide (K.pgn_orientation pgn1 = COUNTERCLOCKWISE),
         dirs1 := t1.dirs1, is_reflex1 := t1.is_reflex1,
         pgn2 := pgn2, n2 := pgn2.length,
         forward2 := decide (K.pgn_orientation pgn2 = COUNTERCLOCKWISE),
         dirs2 := t2.dirs2, is_reflex2 := t2.is_reflex2 }

section Keys

variable {Point_2 : Type}

/-- The pair (cycle id, position in the cycle) carried by a segment. -/
def segment_key (seg : Labeled_segment_2 Point_2) : Nat × Nat :=
  (seg.label.component, seg.label.index)

/-- The strict lexicographic order on pairs (cycle id, position). -/
def key_lt (a b : Nat × Nat) : Prop := a.1 < b.1 ∨ (a.1 = b.1 ∧ a.2 < b.2)

/-- A list of segments whose keys increase strictly, in list order. -/
def Increasing_keys (l : List (Labeled_segment_2 Point_2)) : Prop :=
  (l.map segment_key).Pairwise key_lt

/-- The segments of a call with cycle id `cycle_id`, while the tracer runs:
all carry this id and a position below `seg_index`, and the positions
increase strictly. -/
def Cycle_keys (cycle_id : Nat) (s : Tracer_state Point_2) : Prop :=
  (∀ k ∈ s.cycle.map segment_key, k.1 = cycle_id ∧ k.2 < s.seg_index) ∧
  Increasing_keys s.cycle

/-- The segments kept by `operator()` between two calls of the tracer: the
list `cycle` is empty, and `conv_segments` has strictly increasing keys with
cycle ids between 1 and `curr_id`. -/
def Driver_keys (st : Driver_state Point_2) : Prop :=
  st.cycle = [] ∧ Increasing_keys st.conv_segments ∧
  ∀ k ∈ st.conv_segments.map segment_key, 1 ≤ k.1 ∧ k.1 ≤ st.curr_id

end Keys

section Deferral

variable {Point_2 Vector_2 Direction_2 : Type}

/-- The invariant of `used_labels` behind the deferred branch: a label
`(i, j, 2)` is in the set only if the label `(i, j, 1)` is in the set, or
`dirs1[i]` is not counterclockwise-between `dirs2[(n2 + j - 1) % n2]` and
`dirs2[j]`, or `dirs1[i']` equals `dirs2[j]` for an index `i'` with
`(i' + 1) % n1 = i` (the label was inserted by a step that moved on both
polygons). -/
def Deferral_inv (K : Kernel Point_2 Vector_2 Direction_2)
    (T : Tracer_input Point_2 Direction_2) (used : Labels_set) : Prop :=
  ∀ i j : Nat, (⟨i, j, 2⟩ : Convolution_label) ∈ used →
    (⟨i, j, 1⟩ : Convolution_label) ∈ used ∨
    (∃ d1 d2 d2p, T.dirs1[i]? = some d1 ∧ T.dirs2[j]? = some d2 ∧
      T.dirs2[prev_index T.n2 j]? = some d2p ∧ K.f_ccw_in_between d1 d2p d2 = false) ∨
    (∃ i' d1 d2, (i' + 1) % T.n1 = i ∧ T.dirs1[i']? = some d1 ∧ T.dirs2[j]? = some d2 ∧
      K.f_equal d1 d2 = true)

end Deferral

/-- A square standing on a vertex ("diamond"), counterclockwise from its
lowest vertex `(1,0)`. -/
def diamond : List (Int × Int) := [(1, 0), (2, 1), (1, 2), (0, 1)]

/-- The tables and polygons of the sum of the diamond and the dart, as the
preprocessing loops produce them. -/
def diamond_dart : Tracer_input (Int × Int) (Int × Int) :=
  { pgn1 := diamond, n1 := 4, forward1 := true,
    dirs1 := [(1, 1), (-1, 1), (-1, -1), (1, -1)],
    is_reflex1 := [false, false, false, false],
    pgn2 := dart, n2 := 4, forward2 := true,
    dirs2 := [(2, 1), (2, -1), (-2, 4), (-2, -4)],
    is_reflex2 := [false, true, false, false] }

/-- The state of the tracer on the diamond and the dart after two iterations
from the seed `(3, 0)`: the second polygon is at its reflex vertex, and both
cone tests hold. -/
def diamond_dart_at_reflex : Tracer_state (Int × Int) :=
  { curr1 := 0, k1 := 0, next1 := 1, curr2 := 1, k2 := 1, next2 := 2,
    curr_pt := (3, 1), seg_index := 2,
    used_labels := [⟨3, 0, 1⟩, ⟨0, 0, 2⟩], queue := [],
    cycle := [⟨(0, 1), (1, 0), ⟨true, 1, 0, true, false⟩⟩,
      ⟨(1, 0), (3, 1), ⟨true, 1, 1, false, false⟩⟩] }

/-- The state of the tracer on the diamond and the dart one iteration after
`diamond_dart_at_reflex`: the first polygon has moved and the pair `(0, 1)` is
in the queue. -/
def diamond_dart_deferred : Tracer_state (Int × Int) :=
  { curr1 := 1, k1 := 1, next1 := 2, curr2 := 1, k2 := 1, next2 := 2,
    curr_pt := (4, 2), seg_index := 3,
    used_labels := [⟨3, 0, 1⟩, ⟨0, 0, 2⟩, ⟨0, 1, 1⟩], queue := [((0, 0), (1, 1))],
    cycle := [⟨(0, 1), (1, 0), ⟨true, 1, 0, true, false⟩⟩,
      ⟨(1, 0), (3, 1), ⟨true, 1, 1, false, false⟩⟩] }

/-- The variables of `operator()` when the seeder starts. -/
def seeder_start : Driver_state (Int × Int) :=
  { curr1 := 0, next1 := 0, curr_id := 0, cycles := 0, conv_segments := [], cycle := [],
    used_labels := [], queue := [], loops := 0 }

/-- The variables of `operator()` on two darts after the scan of `k1 = 0` for
the first seed `k2 = 0`: the session launched by the pair `(0, 0)` has made one
call of the tracer, which moved on both polygons in each of its 4 iterations. -/
def dart_dart_scanned : Driver_state (Int × Int) :=
  { curr1 := 1, next1 := 1, curr_id := 1, cycles := 1,
    conv_segments :=
      [⟨(0, 0), (2, 1), ⟨true, 1, 0, true, false⟩⟩,
       ⟨(6, 1), (8, 0), ⟨true, 1, 3, false, false⟩⟩,
       ⟨(8, 0), (6, 4), ⟨false, 1, 4, true, false⟩⟩,
       ⟨(6, 4), (4, 8), ⟨false, 1, 5, false, false⟩⟩,
       ⟨(4, 8), (2, 4), ⟨false, 1, 6, true, false⟩⟩,
       ⟨(2, 4), (0, 0), ⟨false, 1, 7, false, true⟩⟩],
    cycle := [],
    used_labels := [⟨0, 0, 1⟩, ⟨1, 0, 2⟩, ⟨1, 1, 1⟩, ⟨2, 1, 2⟩, ⟨2, 2, 1⟩, ⟨3, 2, 2⟩,
      ⟨3, 3, 1⟩, ⟨0, 3, 2⟩],
    queue := [], loops := 1 }

/-- The labels of a set are labels of the two polygons: a vertex index of
each polygon and the move 1 or 2. -/
def Label_range {Point_2 Direction_2 : Type} (T : Tracer_input Point_2 Direction_2)
    (used : Labels_set) : Prop :=
  ∀ l ∈ used, l.index1 < T.n1 ∧ l.index2 < T.n2 ∧ (l.move_on = 1 ∨ l.move_on = 2)

/-- The state of the tracer when it enters its loop at the seed `(1, 0)` of
the dart and the star, with no label used. -/
def dart_star_start : Tracer_state (Int × Int) :=
  { curr1 := 1, k1 := 1, next1 := 2, curr2 := 0, k2 := 0, next2 := 1,
    curr_pt := (2, 1), seg_index := 0, used_labels := [], queue := [], cycle := [] }

/-- The tables and polygons of the sum of the unit square and the right
triangle, with a table `is_reflex1` of `n1 = 4` entries (the preprocessing
loops of `operator()` do not produce them: they fail on these polygons). -/
def square_triangle : Tracer_input (Int × Int) (Int × Int) :=
  { pgn1 := unit_square, n1 := 4, forward1 := true,
    dirs1 := [(1, 0), (0, 1), (-1, 0), (0, -1)],
    is_reflex1 := [false, false, false, false],
    pgn2 := right_triangle, n2 := 3, forward2 := true,
    dirs2 := [(1, 0), (-1, 1), (0, -1)],
    is_reflex2 := [false, false, false] }

section Euler

variable {Point_2 Vector_2 Direction_2 : Type}

/-- The rank `d` lies strictly inside the cyclic interval that starts at the
rank `lo` and ends at the rank `hi`, going up (when `lo = hi` the interval is
the whole circle but `lo`). -/
def Rank_between (d lo hi : Int) : Prop :=
  (lo < d ∧ (d < hi ∨ hi ≤ lo)) ∨ (d ≤ lo ∧ d < hi ∧ hi ≤ lo)

instance Rank_between.decidable (d lo hi : Int) : Decidable (Rank_between d lo hi) := by
  unfold Rank_between
  infer_instance

/-- The predicates of the kernel, on the directions of the two tables, are
those of a cyclic order: there are ranks `r1 i` of `dirs1[i]` and `r2 j` of
`dirs2[j]` such that the two cone tests of the tracer are `Rank_between` on the
ranks and `f_equal` is equality of the ranks. The tables have no more entries
than the polygons have vertices. -/
structure Rank_model (K : Kernel Point_2 Vector_2 Direction_2)
    (T : Tracer_input Point_2 Direction_2) (r1 r2 : Nat → Int) : Prop where
  len1 : T.dirs1.length ≤ T.n1
  len2 : T.dirs2.length ≤ T.n2
  cone1 : ∀ i j d1 d2 d2p, T.dirs1[i]? = some d1 → T.dirs2[j]? = some d2 →
    T.dirs2[prev_index T.n2 j]? = some d2p →
    (K.f_ccw_in_between d1 d2p d2 = true ↔
      Rank_between (r1 i) (r2 (prev_index T.n2 j)) (r2 j))
  cone2 : ∀ i j d1 d2 d1p, T.dirs1[i]? = some d1 → T.dirs2[j]? = some d2 →
    T.dirs1[prev_index T.n1 i]? = some d1p →
    (K.f_ccw_in_between d2 d1p d1 = true ↔
      Rank_between (r2 j) (r1 (prev_index T.n1 i)) (r1 i))
  equal : ∀ i j d1 d2, T.dirs1[i]? = some d1 → T.dirs2[j]? = some d2 →
    (K.f_equal d1 d2 = true ↔ r1 i = r2 j)

/-- The labels of the convolution graph, for ranks perturbed so that an edge
of the second polygon comes just after an edge of the first polygon with the
same direction: `(i, j, 1)` when the edge `i` of the first polygon is inside
the cone of the second polygon at `j`, `(i, j, 2)` when the edge `j` of the
second polygon is inside the cone of the first polygon at `i`. -/
def In_graph (T : Tracer_input Point_2 Direction_2) (r1 r2 : Nat → Int)
    (l : Convolution_label) : Prop :=
  l.index1 < T.n1 ∧ l.index2 < T.n2 ∧
  ((l.move_on = 1 ∧
      Rank_between (2 * r1 l.index1) (2 * r2 (prev_index T.n2 l.index2) + 1)
        (2 * r2 l.index2 + 1)) ∨
   (l.move_on = 2 ∧
      Rank_between (2 * r2 l.index2 + 1) (2 * r1 (prev_index T.n1 l.index1))
        (2 * r1 l.index1)))

/-- Every used label is a label of the convolution graph. -/
def Graph_inv (T : Tracer_input Point_2 Direction_2) (r1 r2 : Nat → Int)
    (used : Labels_set) : Prop :=
  ∀ l ∈ used, In_graph T r1 r2 l

/-- At every vertex pair `(i, j)` as many used labels arrive as leave, but for
one more arriving at the current pair `cur` and one more leaving the pair
`start` where the trace began. -/
def Balance_inv (T : Tracer_input Point_2 Direction_2) (used : Labels_set)
    (cur start : Nat × Nat) : Prop :=
  ∀ i j : Nat, i < T.n1 → j < T.n2 →
    Labels_set.count used ⟨prev_index T.n1 i, j, 1⟩ +
      Labels_set.count used ⟨i, prev_index T.n2 j, 2⟩ +
      (if (i, j) = start then 1 else 0) =
    Labels_set.count used ⟨i, j, 1⟩ + Labels_set.count used ⟨i, j, 2⟩ +
      (if (i, j) = cur then 1 else 0)

/-- Where `dirs1[i]` equals `dirs2[j]`, the two labels of the step that moves
on both polygons are used together. -/
def Pairs_inv (T : Tracer_input Point_2 Direction_2) (r1 r2 : Nat → Int)
    (used : Labels_set) : Prop :=
  ∀ i j : Nat, i < T.n1 → j < T.n2 → r1 i = r2 j →
    ((⟨i, j, 1⟩ : Convolution_label) ∈ used ↔
      (⟨(i + 1) % T.n1, j, 2⟩ : Convolution_label) ∈ used)

/-- An anchor of the queue: a vertex pair at which both cone tests hold. -/
def Anchor_ok (T : Tracer_input Point_2 Direction_2) (r1 r2 : Nat → Int)
    (a : Anchor) : Prop :=
  a.1.2 < T.n1 ∧ a.2.2 < T.n2 ∧
  Rank_between (r1 a.1.2) (r2 (prev_index T.n2 a.2.2)) (r2 a.2.2) ∧
  Rank_between (r2 a.2.2) (r1 (prev_index T.n1 a.1.2)) (r1 a.1.2)

/-- A pair found by the scan of the seeder: the test of the seeder holds. -/
def Seed_ok (T : Tracer_input Point_2 Direction_2) (r1 r2 : Nat → Int)
    (used : Labels_set) (a : Anchor) : Prop :=
  a.1.2 < T.n1 ∧ a.2.2 < T.n2 ∧
  (Rank_between (r1 a.1.2) (r2 (prev_index T.n2 a.2.2)) (r2 a.2.2) ∨ r1 a.1.2 = r2 a.2.2) ∧
  (⟨a.1.2, a.2.2, 1⟩ : Convolution_label) ∉ used

/-- What holds of the pair `(k1, k2)` when the session loop calls the tracer
for it: it is an anchor whose label `(k1, k2, 2)` is unused, or the pair found
by the scan, whose label `(k1, k2, 1)` is unused. -/
def First_ok (T : Tracer_input Point_2 Direction_2) (r1 r2 : Nat → Int)
    (used : Labels_set) (k1 k2 : Nat) : Prop :=
  k1 < T.n1 ∧ k2 < T.n2 ∧
  ((Rank_between (r1 k1) (r2 (prev_index T.n2 k2)) (r2 k2) ∧
      Rank_between (r2 k2) (r1 (prev_index T.n1 k1)) (r1 k1) ∧
      (⟨k1, k2, 2⟩ : Convolution_label) ∉ used) ∨
   ((Rank_between (r1 k1) (r2 (prev_index T.n2 k2)) (r2 k2) ∨ r1 k1 = r2 k2) ∧
      (⟨k1, k2, 1⟩ : Convolution_label) ∉ used))

/-- The invariant of the do-while loop of the tracer, at the head of the
loop, for a trace that began at the pair `start`. -/
structure Trace_inv (T : Tracer_input Point_2 Direction_2) (r1 r2 : Nat → Int)
    (start : Nat × Nat) (s : Tracer_state Point_2) : Prop where
  graph : Graph_inv T r1 r2 s.used_labels
  balance : Balance_inv T s.used_labels (s.k1, s.k2) start
  pairs : Pairs_inv T r1 r2 s.used_labels
  start1 : start.1 < T.n1
  start2 : start.2 < T.n2
  queue : ∀ a ∈ s.queue, Anchor_ok T r1 r2 a

/-- The invariant of the session loop and of the seeder between two calls of
the tracer: the used labels are labels of the graph, balanced at every vertex
pair, and paired where the directions are equal. -/
structure Closed_inv (T : Tracer_input Point_2 Direction_2) (r1 r2 : Nat → Int)
    (used : Labels_set) : Prop where
  graph : Graph_inv T r1 r2 used
  balance : ∀ x : Nat × Nat, Balance_inv T used x x
  pairs : Pairs_inv T r1 r2 used

end Euler

/-- The ranks of the edge directions of the dart, by angle, among the
directions of the dart and of the star. -/
def dart_rank (i : Nat) : Int := [1, 7, 2, 5].getD i 0

/-- The ranks of the edge directions of the star, by angle, among the
directions of the dart and of the star: the last edge of the star has the
direction of the last edge of the dart. -/
def star_rank (j : Nat) : Int := [0, 4, 3, 6, 5].getD j 0

/-- The rank of a direction among the directions of a list: the number of
directions of the list that come before it in the order of the kernel. -/
def int_rank (L : List (Int × Int)) (d : Int × Int) : Int :=
  (L.countP (fun e => int_dir_lt e d) : Nat)

/-- The rank of `dirs1[i]` among the directions of the two tables. -/
def int_rank1 (T : Tracer_input (Int × Int) (Int × Int)) (i : Nat) : Int :=
  int_rank (T.dirs1 ++ T.dirs2) (T.dirs1.getD i (0, 0))

/-- The rank of `dirs2[j]` among the directions of the two tables. -/
def int_rank2 (T : Tracer_input (Int × Int) (Int × Int)) (j : Nat) : Int :=
  int_rank (T.dirs1 ++ T.dirs2) (T.dirs2.getD j (0, 0))

/-- The tables and polygons of the sum of the dart and the unit square, as
the preprocessing loops produce them. -/
def dart_square : Tracer_input (Int × Int) (Int × Int) :=
  { pgn1 := dart, n1 := 4, forward1 := true,
    dirs1 := [(2, 1), (2, -1), (-2, 4), (-2, -4)],
    is_reflex1 := [false, true, false, false],
    pgn2 := unit_square, n2 := 4, forward2 := true,
    dirs2 := [(1, 0), (0, 1), (-1, 0), (0, -1)],
    is_reflex2 := [false, false, false, false] }

/-- The anchors of a queue carry indices of the two polygons. -/
def Queue_range {Point_2 Direction_2 : Type} (T : Tracer_input Point_2 Direction_2)
    (queue : Anchors_queue) : Prop :=
  ∀ a ∈ queue, a.1.2 < T.n1 ∧ a.2.2 < T.n2

/-- An anchor as the tracer pushes it: the four directions at its pair of
indices are read, both cone tests hold there, and the label `(k1, k2, 1)` is
in the set (the step that pushed the anchor moved on the first polygon). -/
def Enqueued_anchor {Point_2 Vector_2 Direction_2 : Type}
    (K : Kernel Point_2 Vector_2 Direction_2) (T : Tracer_input Point_2 Direction_2)
    (used : Labels_set) (a : Anchor) : Prop :=
  (⟨a.1.2, a.2.2, 1⟩ : Convolution_label) ∈ used ∧
  ∃ d1 d1p d2 d2p, T.dirs1[a.1.2]? = some d1 ∧
    T.dirs1[prev_index T.n1 a.1.2]? = some d1p ∧ T.dirs2[a.2.2]? = some d2 ∧
    T.dirs2[prev_index T.n2 a.2.2]? = some d2p ∧
    K.f_ccw_in_between d1 d2p d2 = true ∧ K.f_ccw_in_between d2 d1p d1 = true

/-- An anchor as the scan of the seeder pushes it: the test of the seeder
holds at its pair of indices (the label `(k1, k2, 1)` is unused, and `dirs1[k1]`
is counterclockwise-between the two edges of the second polygon or equals
`dirs2[k2]`). -/
def Seed_anchor {Point_2 Vector_2 Direction_2 : Type}
    (K : Kernel Point_2 Vector_2 Direction_2) (T : Tracer_input Point_2 Direction_2)
    (used : Labels_set) (a : Anchor) : Prop :=
  (⟨a.1.2, a.2.2, 1⟩ : Convolution_label) ∉ used ∧
  ∃ d1 d2 d2p, T.dirs1[a.1.2]? = some d1 ∧ T.dirs2[a.2.2]? = some d2 ∧
    T.dirs2[prev_index T.n2 a.2.2]? = some d2p ∧
    (K.f_ccw_in_between d1 d2p d2 = true ∨ K.f_equal d1 d2 = true)

/-- The invariant of the session loop at the head of the loop: the front of
the queue was pushed by the tracer or by the scan of the seeder, every other
anchor by the tracer. -/
def Session_inv {Point_2 Vector_2 Direction_2 : Type}
    (K : Kernel Point_2 Vector_2 Direction_2) (T : Tracer_input Point_2 Direction_2)
    (st : Driver_state Point_2) : Prop :=
  (∀ a ∈ st.queue.tail, Enqueued_anchor K T st.used_labels a) ∧
  (∀ a, st.queue.head? = some a →
    Enqueued_anchor K T st.used_labels a ∨ Seed_anchor K T st.used_labels a)

/-- The tables and polygons of the sum of the star with itself, as the
preprocessing loops produce them. -/
def star_star : Tracer_input (Int × Int) (Int × Int) :=
  { pgn1 := star5, n1 := 5, forward1 := true,
    dirs1 := [(4, 1), (-2, 1), (-2, 2), (1, -2), (-1, -2)],
    is_reflex1 := [false, false, true, false, true],
    pgn2 := star5, n2 := 5, forward2 := true,
    dirs2 := [(4, 1), (-2, 1), (-2, 2), (1, -2), (-1, -2)],
    is_reflex2 := [false, false, true, false, true] }

/-- The laws of the lexicographic comparison used for the orientation flag of
a segment: the comparison of two points does not change when the same point is
added to both, and only equal points compare `EQUAL`. -/
structure Compare_translation_laws {Point_2 Vector_2 Direction_2 : Type}
    (K : Kernel Point_2 Vector_2 Direction_2) : Prop where
  translate : ∀ p q r : Point_2,
    K.f_compare_xy (vertex_sum K p r) (vertex_sum K q r) = K.f_compare_xy p q
  equal_eq : ∀ p q : Point_2, K.f_compare_xy p q = Comparison_result.EQUAL → p = q

/-- Consecutive vertices of the polygon are distinct points (the last vertex
and the first one are consecutive). -/
def Distinct_consecutive {Point_2 : Type} (pgn : List Point_2) : Prop :=
  ∀ i, i < pgn.length → pgn[i]? ≠ pgn[(i + 1) % pgn.length]?

/-- The orientation flag of the segment is true if and only if its source
compares `SMALLER` than its target. -/
def Oriented {Point_2 Vector_2 Direction_2 : Type} (K : Kernel Point_2 Vector_2 Direction_2)
    (seg : Labeled_segment_2 Point_2) : Prop :=
  seg.label.right = true ↔ K.f_compare_xy seg.source seg.target = Comparison_result.SMALLER

/-- An anchor with indices in range whose circulators are at the vertices of
its indices. -/
def Anchor_wf {Point_2 Direction_2 : Type} (T : Tracer_input Point_2 Direction_2)
    (a : Anchor) : Prop :=
  a.1.2 < T.n1 ∧ a.2.2 < T.n2 ∧ a.1.1 = traversal_pos T.forward1 T.n1 a.1.2 ∧
    a.2.1 = traversal_pos T.forward2 T.n2 a.2.2

/-- What the chain of lemmas on the assertion `res != EQUAL` assumes of the
kernel and of the two polygons behind the tables. -/
structure Res_setting {Point_2 Vector_2 Direction_2 : Type}
    (K : Kernel Point_2 Vector_2 Direction_2)
    (T : Tracer_input Point_2 Direction_2) : Prop where
  sum : Translation_laws K
  cmp : Compare_translation_laws K
  size1 : T.n1 = T.pgn1.length
  size2 : T.n2 = T.pgn2.length
  distinct1 : Distinct_consecutive T.pgn1
  distinct2 : Distinct_consecutive T.pgn2

/-- No segment of the list carries the terminal flag, and every index is
below `seg_index`: what holds of the list `cycle` while the tracer runs, when
the call began with an empty list. -/
def Unmarked {Point_2 : Type} (seg_index : Nat) (cycle : List (Labeled_segment_2 Point_2)) :
    Prop :=
  ∀ seg ∈ cycle, seg.label.flag = false ∧ seg.label.index < seg_index

/-- The state in which the tracer returns from its call at the seed `(0, 0)`
of two unit squares: eight labels used, eight segments, the last one with the
terminal flag set. -/
def two_squares_traced : Tracer_state (Int × Int) :=
  { curr1 := 0, k1 := 0, next1 := 1, curr2 := 0, k2 := 0, next2 := 1, curr_pt := (0, 0),
    seg_index := 8,
    used_labels := [⟨0, 0, 1⟩, ⟨1, 0, 2⟩, ⟨1, 1, 1⟩, ⟨2, 1, 2⟩, ⟨2, 2, 1⟩, ⟨3, 2, 2⟩, ⟨3, 3, 1⟩,
      ⟨0, 3, 2⟩],
    queue := [],
    cycle := [⟨(0, 0), (1, 0), ⟨true, 1, 0, true, false⟩⟩,
      ⟨(1, 0), (2, 0), ⟨true, 1, 1, false, false⟩⟩,
      ⟨(2, 0), (2, 1), ⟨true, 1, 2, true, false⟩⟩,
      ⟨(2, 1), (2, 2), ⟨true, 1, 3, false, false⟩⟩,
      ⟨(2, 2), (1, 2), ⟨false, 1, 4, true, false⟩⟩,
      ⟨(1, 2), (0, 2), ⟨false, 1, 5, false, false⟩⟩,
      ⟨(0, 2), (0, 1), ⟨false, 1, 6, true, false⟩⟩,
      ⟨(0, 1), (0, 0), ⟨false, 1, 7, false, true⟩⟩] }

/-- The ranks `a 0, ..., a (n - 1)` of the edge directions of a polygon, in
traversal order, go once around the circle and never repeat: from some index
`t` on they increase strictly up to `a (n - 1)`, and continue to increase
from `a 0` to `a (t - 1)`. These are the edge directions of a strictly convex
polygon: no reflex vertex, and no two consecutive edges of the same
direction. -/
def One_turn (n : Nat) (a : Nat → Int) : Prop :=
  ∃ t, t < n ∧ ∀ j, j < n → ∀ i, i < j →
    (if i < t ∧ t ≤ j then a j < a i else a i < a j)

instance One_turn.decidable (n : Nat) (a : Nat → Int) : Decidable (One_turn n a) := by
  unfold One_turn
  infer_instance

/-- The rectangle `(0,0), (2,0), (2,2), (0,2)` with one more vertex, `(1,0)`,
in the middle of its bottom edge: a convex polygon, with no reflex vertex,
that has two consecutive edges of the same direction. -/
def flat_pentagon : List (Int × Int) := [(0, 0), (1, 0), (2, 0), (2, 2), (0, 2)]

/-- The tables and polygons of the sum of the right triangle and the unit
square, as the preprocessing loops produce them (the table `is_reflex1` has
`n2 = 4` entries). -/
def triangle_square : Tracer_input (Int × Int) (Int × Int) :=
  { pgn1 := right_triangle, n1 := 3, forward1 := true,
    dirs1 := [(1, 0), (-1, 1), (0, -1)],
    is_reflex1 := [false, false, false, false],
    pgn2 := unit_square, n2 := 4, forward2 := true,
    dirs2 := [(1, 0), (0, 1), (-1, 0), (0, -1)],
    is_reflex2 := [false, false, false, false] }

/-- The tables and polygons of the sum of the unit square and the pentagon
`flat_pentagon`, as the preprocessing loops produce them (the table
`is_reflex1` has `n2 = 5` entries). -/
def square_pentagon : Tracer_input (Int × Int) (Int × Int) :=
  { pgn1 := unit_square, n1 := 4, forward1 := true,
    dirs1 := [(1, 0), (0, 1), (-1, 0), (0, -1)],
    is_reflex1 := [false, false, false, false, false],
    pgn2 := flat_pentagon, n2 := 5, forward2 := true,
    dirs2 := [(1, 0), (1, 0), (0, 2), (-2, 0), (0, -2)],
    is_reflex2 := [false, false, false, false, false] }

/-- The state `s` is at the head of the do-while loop of the tracer, entered in
the state `s0` for the seed pair `first`, after `m` completed iterations none
of which left the loop: after each of them `k1 != first1 || k2 != first2`. -/
def loop_reaches {Point_2 Vector_2 Direction_2 : Type}
    (K : Kernel Point_2 Vector_2 Direction_2) (T : Tracer_input Point_2 Direction_2)
    (cycle_id : Nat) (first : Nat × Nat) :
    Nat → Tracer_state Point_2 → Tracer_state Point_2 → Prop
  | 0, s0, s => s = s0
  | m + 1, s0, s => ∃ s1, cycle_step K T cycle_id s0 = Except.ok s1 ∧
      (s1.k1 ≠ first.1 ∨ s1.k2 ≠ first.2) ∧ loop_reaches K T cycle_id first m s1 s

/-! ## Basic lemmas -/

theorem bind_eq_ok {α β : Type} {x : Except Failure α} {f : α → Except Failure β} {b : β}
    (h : (x >>= f) = Except.ok b) : ∃ a, x = Except.ok a ∧ f a = Except.ok b := by
  cases x with
  | error e => cases h
  | ok a => exact ⟨a, rfl, h⟩

theorem vector_get_eq_ok {α : Type} {v : List α} {k : Nat} {a : α} :
    vector_get v k = Except.ok a ↔ v[k]? = some a := by
  unfold vector_get
  cases h : v[k]? with
  | none => simp
  | some b => simp

theorem vector_get_lt {α : Type} {v : List α} {k : Nat} {a : α}
    (h : vector_get v k = Except.ok a) : k < v.length := by
  rw [vector_get_eq_ok] at h
  exact (List.getElem?_eq_some_iff.mp h).1

theorem vector_get_of_lt {α : Type} {v : List α} {k : Nat} (h : k < v.length) :
    vector_get v k = Except.ok (v.get ⟨k, h⟩) := by
  rw [vector_get_eq_ok]
  simp [List.getElem?_eq_getElem h]

section ForLoop

theorem for_loop_inv {σ : Type} {body : Nat → σ → Except Failure σ}
    (Inv : Nat → σ → Prop) (n : Nat)
    (hstep : ∀ k st st1, k < n → Inv k st → body k st = Except.ok st1 → Inv (k + 1) st1) :
    ∀ (todo k : Nat) (st st1 : σ), k + todo ≤ n → Inv k st →
      for_loop body todo k st = Except.ok st1 → Inv (k + todo) st1 := by
  intro todo
  induction todo with
  | zero =>
    intro k st st1 _ hinv h
    simp only [for_loop, pure, Except.pure, Except.ok.injEq] at h
    exact h ▸ hinv
  | succ todo ih =>
    intro k st st1 hle hinv h
    unfold for_loop at h
    obtain ⟨st2, h2, h⟩ := bind_eq_ok h
    have := ih (k + 1) st2 st1 (by omega) (hstep k st st2 (by omega) hinv h2) h
    rw [show k + (todo + 1) = k + 1 + todo by omega]
    exact this

theorem for_loop_total {σ : Type} {body : Nat → σ → Except Failure σ}
    (Inv : Nat → σ → Prop) (n : Nat)
    (hstep : ∀ k st st1, k < n → Inv k st → body k st = Except.ok st1 → Inv (k + 1) st1)
    (hprog : ∀ k st, k < n → Inv k st → ∃ st1, body k st = Except.ok st1) :
    ∀ (todo k : Nat) (st : σ), k + todo ≤ n → Inv k st →
      ∃ st1, for_loop body todo k st = Except.ok st1 := by
  intro todo
  induction todo with
  | zero =>
    intro k st _ _
    exact ⟨st, rfl⟩
  | succ todo ih =>
    intro k st hle hinv
    obtain ⟨st2, h2⟩ := hprog k st (by omega) hinv
    obtain ⟨st1, h1⟩ := ih (k + 1) st2 (by omega) (hstep k st st2 (by omega) hinv h2)
    refine ⟨st1, ?_⟩
    unfold for_loop
    simp only [h2, bind, Except.bind]
    exact h1

end ForLoop

/-! ## The order on labels -/

theorem label_lt_iff (a b : Convolution_label) :
    Convolution_label.lt a b = true ↔ lex_lt a b := by
  unfold Convolution_label.lt lex_lt
  split_ifs <;> simp <;> omega

theorem label_equiv_iff (a b : Convolution_label) :
    (Convolution_label.lt a b = false ∧ Convolution_label.lt b a = false) ↔ a = b := by
  constructor
  · intro h
    have h1 : ¬ lex_lt a b := by
      rw [← label_lt_iff]; simp [h.1]
    have h2 : ¬ lex_lt b a := by
      rw [← label_lt_iff]; simp [h.2]
    unfold lex_lt at h1 h2
    cases a with
    | mk a1 a2 a3 =>
      cases b with
      | mk b1 b2 b3 =>
        simp only [Convolution_label.mk.injEq]
        simp only at h1 h2
        omega
  · intro h
    subst h
    have h1 : ¬ lex_lt a a := by
      unfold lex_lt; omega
    rw [← label_lt_iff] at h1
    simp at h1
    exact ⟨h1, h1⟩

theorem count_ne_zero_iff (s : Labels_set) (l : Convolution_label) :
    Labels_set.count s l ≠ 0 ↔ l ∈ s := by
  unfold Labels_set.count
  constructor
  · intro h
    split_ifs at h with hany
    · rw [List.any_eq_true] at hany
      obtain ⟨e, he, hel⟩ := hany
      simp only [Bool.and_eq_true, Bool.not_eq_true_eq_eq_false] at hel
      have : e = l := (label_equiv_iff e l).mp (by simpa using hel)
      exact this ▸ he
    · exact absurd rfl h
  · intro h
    have hany : s.any (fun e => !(e.lt l) && !(l.lt e)) = true := by
      rw [List.any_eq_true]
      refine ⟨l, h, ?_⟩
      have := ((label_equiv_iff l l).mpr rfl).1
      simp [this]
    simp [hany]

theorem count_eq_zero_iff (s : Labels_set) (l : Convolution_label) :
    Labels_set.count s l = 0 ↔ l ∉ s := by
  rw [← count_ne_zero_iff]
  simp

/-- Claim C10. `Convolution_label::operator<` is the strict lexicographic order
on `(index1, index2, move_on)`: it is irreflexive, transitive and total, two
labels are incomparable exactly when they agree on all three fields, and
therefore a label is counted by a label set exactly when it is one of the
stored labels. -/
theorem label_order_is_strict_lexicographic :
    (∀ a b : Convolution_label, Convolution_label.lt a b = true ↔ lex_lt a b) ∧
    (∀ a : Convolution_label, Convolution_label.lt a a = false) ∧
    (∀ a b c : Convolution_label, Convolution_label.lt a b = true →
      Convolution_label.lt b c = true → Convolution_label.lt a c = true) ∧
    (∀ a b : Convolution_label,
      Convolution_label.lt a b = true ∨ a = b ∨ Convolution_label.lt b a = true) ∧
    (∀ a b : Convolution_label,
      (Convolution_label.lt a b = false ∧ Convolution_label.lt b a = false) ↔ a = b) ∧
    (∀ (s : Labels_set) (l : Convolution_label), Labels_set.count s l ≠ 0 ↔ l ∈ s) := by
  refine ⟨label_lt_iff, ?_, ?_, ?_, label_equiv_iff, count_ne_zero_iff⟩
  · intro a
    exact ((label_equiv_iff a a).mpr rfl).1
  · intro a b c hab hbc
    rw [label_lt_iff] at hab hbc ⊢
    unfold lex_lt at hab hbc ⊢
    omega
  · intro a b
    by_cases h1 : Convolution_label.lt a b = true
    · exact Or.inl h1
    · by_cases h2 : Convolution_label.lt b a = true
      · exact Or.inr (Or.inr h2)
      · refine Or.inr (Or.inl ((label_equiv_iff a b).mp ⟨?_, ?_⟩))
        · simpa using h1
        · simpa using h2


/-! ## Lemmas on the label set -/

theorem insert_of_not_mem {s : Labels_set} {l : Convolution_label} (h : l ∉ s) :
    Labels_set.insert s l = s ++ [l] := by
  unfold Labels_set.insert
  rw [(count_eq_zero_iff s l).mpr h]
  simp

theorem insert_of_mem {s : Labels_set} {l : Convolution_label} (h : l ∈ s) :
    Labels_set.insert s l = s := by
  unfold Labels_set.insert
  have := (count_ne_zero_iff s l).mpr h
  simp [this]

theorem mem_insert_iff {s : Labels_set} {l x : Convolution_label} :
    x ∈ Labels_set.insert s l ↔ x ∈ s ∨ x = l := by
  by_cases h : l ∈ s
  · rw [insert_of_mem h]
    constructor
    · exact Or.inl
    · rintro (h1 | h1)
      · exact h1
      · exact h1 ▸ h
  · rw [insert_of_not_mem h]
    simp

/-! ## Lemmas on one step of the tracer -/

section StepLemmas

variable {Point_2 Vector_2 Direction_2 : Type}

theorem cone_flags_fresh (K : Kernel Point_2 Vector_2 Direction_2)
    (d1 d1p d2 d2p : Direction_2) (s : Tracer_state Point_2) :
    ((cone_flags K d1 d1p d2 d2p s).1 = true →
      Labels_set.count s.used_labels ⟨s.k1, s.k2, 1⟩ = 0) ∧
    ((cone_flags K d1 d1p d2 d2p s).2.1 = true →
      (cone_flags K d1 d1p d2 d2p s).1 = false ∧
      Labels_set.count s.used_labels ⟨s.k1, s.k2, 2⟩ = 0) := by
  unfold cone_flags
  constructor
  · intro h
    split_ifs at h <;> simp_all
  · intro h
    split_ifs at h <;> simp_all

theorem decide_flags_fresh (K : Kernel Point_2 Vector_2 Direction_2) (n1 : Nat)
    (d1 d1p d2 d2p : Direction_2) (s : Tracer_state Point_2) :
    ((decide_flags K n1 d1 d1p d2 d2p s).1 = true →
      Labels_set.count s.used_labels ⟨s.k1, s.k2, 1⟩ = 0) ∧
    ((decide_flags K n1 d1 d1p d2 d2p s).2.1 = true →
      Labels_set.count s.used_labels
        ⟨if (decide_flags K n1 d1 d1p d2 d2p s).1 then (s.k1 + 1) % n1 else s.k1, s.k2, 2⟩ = 0) := by
  have hc := cone_flags_fresh K d1 d1p d2 d2p s
  unfold decide_flags
  simp only []
  split_ifs with h1 h2 h3 h4 h5
  all_goals simp_all

theorem decide_moves_ok {K : Kernel Point_2 Vector_2 Direction_2}
    {T : Tracer_input Point_2 Direction_2} {s : Tracer_state Point_2}
    {flags : Bool × Bool × Anchors_queue} (h : decide_moves K T s = Except.ok flags) :
    ∃ d1 d1p d2 d2p, T.dirs1[s.k1]? = some d1 ∧
      T.dirs1[prev_index T.n1 s.k1]? = some d1p ∧ T.dirs2[s.k2]? = some d2 ∧
      T.dirs2[prev_index T.n2 s.k2]? = some d2p ∧
      flags = decide_flags K T.n1 d1 d1p d2 d2p s := by
  unfold decide_moves at h
  obtain ⟨d1, h1, h⟩ := bind_eq_ok h
  obtain ⟨d2p, h2, h⟩ := bind_eq_ok h
  obtain ⟨d2, h3, h⟩ := bind_eq_ok h
  obtain ⟨d1p, h4, h⟩ := bind_eq_ok h
  simp only [pure, Except.pure, Except.ok.injEq] at h
  exact ⟨d1, d1p, d2, d2p, vector_get_eq_ok.mp h1, vector_get_eq_ok.mp h4,
    vector_get_eq_ok.mp h3, vector_get_eq_ok.mp h2, h.symm⟩

theorem advance1_ok {K : Kernel Point_2 Vector_2 Direction_2}
    {T : Tracer_input Point_2 Direction_2} {cycle_id : Nat} {s s1 : Tracer_state Point_2}
    (h : advance1 K T cycle_id s = Except.ok s1) :
    ∃ pn pc r2, T.pgn1[s.next1]? = some pn ∧ T.pgn2[s.curr2]? = some pc ∧
      T.is_reflex2[s.k2]? = some r2 ∧
      K.f_compare_xy s.curr_pt (vertex_sum K pn pc) ≠ Comparison_result.EQUAL ∧
      s1 = { s with
        cycle := if r2 then s.cycle else s.cycle ++ [⟨s.curr_pt, vertex_sum K pn pc,
          ⟨decide (K.f_compare_xy s.curr_pt (vertex_sum K pn pc) = Comparison_result.SMALLER),
            cycle_id, s.seg_index, MOVE_ON_1, false⟩⟩]
        used_labels := Labels_set.insert s.used_labels ⟨s.k1, s.k2, 1⟩
        seg_index := s.seg_index + 1
        curr1 := s.next1
        k1 := (s.k1 + 1) % T.n1
        next1 := circ_move T.forward1 T.pgn1.length s.next1
        curr_pt := vertex_sum K pn pc } := by
  unfold advance1 deref at h
  obtain ⟨pn, hpn, h⟩ := bind_eq_ok h
  obtain ⟨pc, hpc, h⟩ := bind_eq_ok h
  simp only [] at h
  split_ifs at h with hres
  obtain ⟨r2, hr2, h⟩ := bind_eq_ok h
  refine ⟨pn, pc, r2, vector_get_eq_ok.mp hpn, vector_get_eq_ok.mp hpc,
    vector_get_eq_ok.mp hr2, hres, ?_⟩
  simp only [pure, Except.pure, Except.ok.injEq] at h
  rw [← h]
  cases r2 <;> simp [vertex_sum]

theorem advance2_ok {K : Kernel Point_2 Vector_2 Direction_2}
    {T : Tracer_input Point_2 Direction_2} {cycle_id : Nat} {s s1 : Tracer_state Point_2}
    (h : advance2 K T cycle_id s = Except.ok s1) :
    ∃ pn pc r1, T.pgn2[s.next2]? = some pn ∧ T.pgn1[s.curr1]? = some pc ∧
      T.is_reflex1[s.k1]? = some r1 ∧
      K.f_compare_xy s.curr_pt (vertex_sum K pn pc) ≠ Comparison_result.EQUAL ∧
      s1 = { s with
        cycle := if r1 then s.cycle else s.cycle ++ [⟨s.curr_pt, vertex_sum K pn pc,
          ⟨decide (K.f_compare_xy s.curr_pt (vertex_sum K pn pc) = Comparison_result.SMALLER),
            cycle_id, s.seg_index, MOVE_ON_2, false⟩⟩]
        used_labels := Labels_set.insert s.used_labels ⟨s.k1, s.k2, 2⟩
        seg_index := s.seg_index + 1
        curr2 := s.next2
        k2 := (s.k2 + 1) % T.n2
        next2 := circ_move T.forward2 T.pgn2.length s.next2
        curr_pt := vertex_sum K pn pc } := by
  unfold advance2 deref at h
  obtain ⟨pn, hpn, h⟩ := bind_eq_ok h
  obtain ⟨pc, hpc, h⟩ := bind_eq_ok h
  simp only [] at h
  split_ifs at h with hres
  obtain ⟨r1, hr1, h⟩ := bind_eq_ok h
  refine ⟨pn, pc, r1, vector_get_eq_ok.mp hpn, vector_get_eq_ok.mp hpc,
    vector_get_eq_ok.mp hr1, hres, ?_⟩
  simp only [pure, Except.pure, Except.ok.injEq] at h
  rw [← h]
  cases r1 <;> simp [vertex_sum]

theorem cycle_step_ok {K : Kernel Point_2 Vector_2 Direction_2}
    {T : Tracer_input Point_2 Direction_2} {cycle_id : Nat} {s s2 : Tracer_state Point_2}
    (h : cycle_step K T cycle_id s = Except.ok s2) :
    ∃ flags s1, decide_moves K T s = Except.ok flags ∧
      (flags.1 || flags.2.1) = true ∧
      (if flags.1 then advance1 K T cycle_id { s with queue := flags.2.2 }
        else Except.ok { s with queue := flags.2.2 }) = Except.ok s1 ∧
      (if flags.2.1 then advance2 K T cycle_id s1 else Except.ok s1) = Except.ok s2 := by
  unfold cycle_step at h
  obtain ⟨flags, hf, h⟩ := bind_eq_ok h
  split_ifs at h with hinc
  unfold act_moves at h
  obtain ⟨s1, h1, h⟩ := bind_eq_ok h
  refine ⟨flags, s1, hf, ?_, h1, h⟩
  cases h1f : flags.1 <;> cases h2f : flags.2.1 <;> simp_all

end StepLemmas

section StepLabels
variable {Point_2 Vector_2 Direction_2 : Type}

theorem first_insert_fresh {K : Kernel Point_2 Vector_2 Direction_2}
    {T : Tracer_input Point_2 Direction_2} {s : Tracer_state Point_2}
    {flags : Bool × Bool × Anchors_queue} (h : decide_moves K T s = Except.ok flags)
    (h1 : flags.1 = true) : (⟨s.k1, s.k2, 1⟩ : Convolution_label) ∉ s.used_labels := by
  obtain ⟨d1, d1p, d2, d2p, -, -, -, -, hf⟩ := decide_moves_ok h
  rw [← count_eq_zero_iff]
  exact (decide_flags_fresh K T.n1 d1 d1p d2 d2p s).1 (hf ▸ h1)

theorem second_insert_fresh {K : Kernel Point_2 Vector_2 Direction_2}
    {T : Tracer_input Point_2 Direction_2} {cycle_id : Nat} {s s1 : Tracer_state Point_2}
    {flags : Bool × Bool × Anchors_queue} (h : decide_moves K T s = Except.ok flags)
    (h2 : flags.2.1 = true)
    (hs1 : (if flags.1 then advance1 K T cycle_id { s with queue := flags.2.2 }
        else Except.ok { s with queue := flags.2.2 }) = Except.ok s1) :
    (⟨s1.k1, s1.k2, 2⟩ : Convolution_label) ∉ s1.used_labels := by
  obtain ⟨d1, d1p, d2, d2p, -, -, -, -, hf⟩ := decide_moves_ok h
  have hfresh := (decide_flags_fresh K T.n1 d1 d1p d2 d2p s).2 (hf ▸ h2)
  rw [← hf] at hfresh
  rw [count_eq_zero_iff] at hfresh
  cases hf1 : flags.1 with
  | false =>
    rw [hf1] at hs1 hfresh
    simp only [Bool.false_eq_true, if_false, Except.ok.injEq] at hs1 hfresh
    rw [← hs1]
    exact hfresh
  | true =>
    rw [hf1] at hs1 hfresh
    simp only [if_true] at hs1 hfresh
    obtain ⟨pn, pc, r2, -, -, -, -, hs⟩ := advance1_ok hs1
    rw [hs]
    simp only [mem_insert_iff, not_or]
    refine ⟨hfresh, ?_⟩
    intro hc
    simp [Convolution_label.mk.injEq] at hc


theorem cycle_step_labels {K : Kernel Point_2 Vector_2 Direction_2}
    {T : Tracer_input Point_2 Direction_2} {cycle_id : Nat} {s s2 : Tracer_state Point_2}
    (h : cycle_step K T cycle_id s = Except.ok s2) :
    ∃ added : List Convolution_label, s2.used_labels = s.used_labels ++ added ∧
      s2.seg_index = s.seg_index + added.length ∧ added.Nodup ∧ added ≠ [] ∧
      (∀ l ∈ added, l ∉ s.used_labels) ∧
      s2.cycle.length ≤ s.cycle.length + added.length := by
  obtain ⟨flags, s1, hf, hor, hs1, hs2⟩ := cycle_step_ok h
  have hA := fun h1 => first_insert_fresh hf h1
  have hB := fun h2 => @second_insert_fresh _ _ _ K T cycle_id s s1 flags hf h2 hs1
  cases hf1 : flags.1 <;> cases hf2 : flags.2.1
  · simp [hf1, hf2] at hor
  · rw [hf1] at hs1; rw [hf2] at hs2
    simp only [Bool.false_eq_true, if_false, if_true, Except.ok.injEq] at hs1 hs2
    have hB' := hB hf2
    obtain ⟨pn, pc, r1, -, -, -, -, hs⟩ := advance2_ok hs2
    refine ⟨[⟨s1.k1, s1.k2, 2⟩], ?_, ?_, by simp, by simp, ?_, ?_⟩
    · rw [hs]; simp only; rw [insert_of_not_mem hB', ← hs1]
    · rw [hs, ← hs1]; simp
    · intro l hl
      simp only [List.mem_singleton] at hl
      rw [hl]; rw [← hs1] at hB' ⊢; exact hB'
    · rw [hs, ← hs1]; cases r1 <;> simp
  · rw [hf1] at hs1; rw [hf2] at hs2
    simp only [Bool.false_eq_true, if_false, if_true, Except.ok.injEq] at hs1 hs2
    have hA' := hA hf1
    obtain ⟨pn, pc, r2, -, -, -, -, hs⟩ := advance1_ok hs1
    refine ⟨[⟨s.k1, s.k2, 1⟩], ?_, ?_, by simp, by simp, ?_, ?_⟩
    · rw [← hs2, hs]; simp only; rw [insert_of_not_mem hA']
    · rw [← hs2, hs]; simp
    · intro l hl
      simp only [List.mem_singleton] at hl
      rw [hl]; exact hA'
    · rw [← hs2, hs]; cases r2 <;> simp
  · rw [hf1] at hs1; rw [hf2] at hs2
    simp only [if_true] at hs1 hs2
    have hA' := hA hf1
    have hB' := hB hf2
    obtain ⟨pn, pc, r2, -, -, -, -, hs⟩ := advance1_ok hs1
    obtain ⟨pn', pc', r1, -, -, -, -, hs'⟩ := advance2_ok hs2
    have hu1 : s1.used_labels = s.used_labels ++ [⟨s.k1, s.k2, 1⟩] := by
      rw [hs]; simp only; rw [insert_of_not_mem hA']
    have hk2 : s1.k2 = s.k2 := by rw [hs]
    refine ⟨[⟨s.k1, s.k2, 1⟩, ⟨s1.k1, s1.k2, 2⟩], ?_, ?_, ?_, by simp, ?_, ?_⟩
    · rw [hs']; simp only; rw [insert_of_not_mem hB', hu1]; simp
    · rw [hs']; simp only; rw [hs]; simp
    · simp
    · intro l hl
      simp only [List.mem_cons, List.mem_singleton, List.not_mem_nil, or_false] at hl
      rcases hl with hl | hl
      · rw [hl]; exact hA'
      · rw [hl]; intro hc; apply hB'; rw [hu1]; exact List.mem_append_left _ hc
    · rw [hs']; simp only
      have : s1.cycle.length ≤ s.cycle.length + 1 := by
        rw [hs]; cases r2 <;> simp
      cases r1 <;> simp <;> omega
end StepLabels

section RunLemmas
variable {Point_2 Vector_2 Direction_2 : Type}

theorem cycle_steps_succ {K : Kernel Point_2 Vector_2 Direction_2}
    {T : Tracer_input Point_2 Direction_2} {cycle_id m : Nat} {s s2 : Tracer_state Point_2}
    (h : cycle_steps K T cycle_id (m + 1) s = Except.ok s2) :
    ∃ s1, cycle_step K T cycle_id s = Except.ok s1 ∧
      cycle_steps K T cycle_id m s1 = Except.ok s2 := by
  unfold cycle_steps at h
  exact bind_eq_ok h

theorem cycle_steps_snoc {K : Kernel Point_2 Vector_2 Direction_2}
    {T : Tracer_input Point_2 Direction_2} {cycle_id : Nat} :
    ∀ (m : Nat) (s s1 s2 : Tracer_state Point_2),
      cycle_steps K T cycle_id m s = Except.ok s1 →
      cycle_step K T cycle_id s1 = Except.ok s2 →
      cycle_steps K T cycle_id (m + 1) s = Except.ok s2 := by
  intro m
  induction m with
  | zero =>
    intro s s1 s2 h1 h2
    simp only [cycle_steps, pure, Except.pure, Except.ok.injEq] at h1
    subst h1
    simp [cycle_steps, h2, bind, Except.bind, pure, Except.pure]
  | succ m ih =>
    intro s s1 s2 h1 h2
    obtain ⟨t, ht, hrest⟩ := cycle_steps_succ h1
    have := ih t s1 s2 hrest h2
    rw [cycle_steps]
    simp only [ht, bind, Except.bind]
    exact this

theorem cycle_loop_steps {K : Kernel Point_2 Vector_2 Direction_2}
    {T : Tracer_input Point_2 Direction_2} {cycle_id first1 first2 : Nat} :
    ∀ (fuel : Nat) (s s2 : Tracer_state Point_2),
      cycle_loop K T cycle_id first1 first2 fuel s = Except.ok s2 →
      s2.k1 = first1 ∧ s2.k2 = first2 ∧
      ∃ m, m < fuel ∧ ∃ s1, cycle_steps K T cycle_id m s = Except.ok s1 ∧
        cycle_step K T cycle_id s1 = Except.ok s2 := by
  intro fuel
  induction fuel with
  | zero =>
    intro s s2 h
    simp [cycle_loop] at h
  | succ fuel ih =>
    intro s s2 h
    unfold cycle_loop at h
    obtain ⟨s1, hs1, h⟩ := bind_eq_ok h
    split_ifs at h with hc
    · obtain ⟨hk1, hk2, m, hm, t, ht, hstep⟩ := ih s1 s2 h
      refine ⟨hk1, hk2, m + 1, by omega, t, ?_, hstep⟩
      rw [cycle_steps]
      simp only [hs1, bind, Except.bind]
      exact ht
    · simp only [pure, Except.pure, Except.ok.injEq] at h
      subst h
      simp only [Bool.or_eq_true, bne_iff_ne, ne_eq, not_or, not_not] at hc
      exact ⟨hc.1, hc.2, 0, by omega, s, rfl, hs1⟩

theorem cycle_steps_labels {K : Kernel Point_2 Vector_2 Direction_2}
    {T : Tracer_input Point_2 Direction_2} {cycle_id : Nat} :
    ∀ (m : Nat) (s s2 : Tracer_state Point_2),
      cycle_steps K T cycle_id m s = Except.ok s2 →
      ∃ added : List Convolution_label, s2.used_labels = s.used_labels ++ added ∧
        s2.seg_index = s.seg_index + added.length ∧ added.Nodup ∧ m ≤ added.length ∧
        (∀ l ∈ added, l ∉ s.used_labels) ∧
        s2.cycle.length ≤ s.cycle.length + added.length := by
  intro m
  induction m with
  | zero =>
    intro s s2 h
    simp only [cycle_steps, pure, Except.pure, Except.ok.injEq] at h
    subst h
    exact ⟨[], by simp, by simp, by simp, by simp, by simp, by simp⟩
  | succ m ih =>
    intro s s2 h
    obtain ⟨s1, hs1, hrest⟩ := cycle_steps_succ h
    obtain ⟨a1, hu1, hi1, hn1, hne1, hf1, hc1⟩ := cycle_step_labels hs1
    obtain ⟨a2, hu2, hi2, hn2, hm2, hf2, hc2⟩ := ih s1 s2 hrest
    have hlen : 1 ≤ a1.length := by
      cases a1 with
      | nil => exact absurd rfl hne1
      | cons x xs => simp
    refine ⟨a1 ++ a2, ?_, ?_, ?_, ?_, ?_, ?_⟩
    · rw [hu2, hu1, List.append_assoc]
    · rw [hi2, hi1, List.length_append]; omega
    · rw [List.nodup_append]
      refine ⟨hn1, hn2, ?_⟩
      intro l hl1 hl2
      exact hf2 l hl2 (hu1 ▸ List.mem_append_right _ hl1)
    · rw [List.length_append]; omega
    · intro l hl
      rcases List.mem_append.mp hl with hl | hl
      · exact hf1 l hl
      · intro hc
        exact hf2 l hl (hu1 ▸ List.mem_append_left _ hc)
    · rw [List.length_append]; omega

end RunLemmas

section TracerCalls
variable {Point_2 Vector_2 Direction_2 : Type}

theorem cycle_init_ok {K : Kernel Point_2 Vector_2 Direction_2}
    {T : Tracer_input Point_2 Direction_2} {curr1 k1 curr2 k2 : Nat}
    {used : Labels_set} {queue : Anchors_queue} {cycle : List (Labeled_segment_2 Point_2)}
    {s0 : Tracer_state Point_2}
    (h : cycle_init K T curr1 k1 curr2 k2 used queue cycle = Except.ok s0) :
    ∃ p1 p2, T.pgn1[curr1]? = some p1 ∧ T.pgn2[curr2]? = some p2 ∧
      s0 = { curr1 := curr1, k1 := k1, next1 := circ_move T.forward1 T.pgn1.length curr1,
             curr2 := curr2, k2 := k2, next2 := circ_move T.forward2 T.pgn2.length curr2,
             curr_pt := vertex_sum K p1 p2, seg_index := 0, used_labels := used,
             queue := queue, cycle := cycle } := by
  unfold cycle_init deref at h
  simp only [] at h
  obtain ⟨p1, hp1, h⟩ := bind_eq_ok h
  obtain ⟨p2, hp2, h⟩ := bind_eq_ok h
  simp only [pure, Except.pure, Except.ok.injEq] at h
  exact ⟨p1, p2, vector_get_eq_ok.mp hp1, vector_get_eq_ok.mp hp2, h.symm⟩

theorem convolution_cycle_ok {K : Kernel Point_2 Vector_2 Direction_2}
    {T : Tracer_input Point_2 Direction_2} {fuel cycle_id curr1 k1 curr2 k2 : Nat}
    {used : Labels_set} {queue : Anchors_queue} {cycle : List (Labeled_segment_2 Point_2)}
    {r : Tracer_state Point_2}
    (h : _convolution_cycle K fuel cycle_id T curr1 k1 curr2 k2 used queue cycle = Except.ok r) :
    ∃ s0 s cycle1, cycle_init K T curr1 k1 curr2 k2 used queue cycle = Except.ok s0 ∧
      cycle_loop K T cycle_id k1 k2 fuel s0 = Except.ok s ∧
      K.f_equal_pt s.curr_pt s0.curr_pt = true ∧
      mark_last s.seg_index s.cycle = Except.ok cycle1 ∧
      r = { s with cycle := cycle1 } := by
  unfold _convolution_cycle at h
  obtain ⟨s0, hs0, h⟩ := bind_eq_ok h
  obtain ⟨s, hs, h⟩ := bind_eq_ok h
  split_ifs at h with hc
  obtain ⟨cycle1, hm, h⟩ := bind_eq_ok h
  simp only [pure, Except.pure, Except.ok.injEq] at h
  refine ⟨s0, s, cycle1, hs0, hs, ?_, hm, h.symm⟩
  simpa using hc

end TracerCalls

section DriverLabels
variable {Point_2 Vector_2 Direction_2 : Type}

theorem mark_last_length {seg_index : Nat} {cycle cycle1 : List (Labeled_segment_2 Point_2)}
    (hm : mark_last seg_index cycle = Except.ok cycle1) : cycle1.length = cycle.length := by
  unfold mark_last at hm
  cases hlast : cycle.getLast? with
  | none => rw [hlast] at hm; cases hm
  | some last =>
    rw [hlast] at hm
    simp only at hm
    have hne : cycle ≠ [] := by
      intro hnil; rw [hnil] at hlast; simp at hlast
    split_ifs at hm
    · simp only [Except.ok.injEq] at hm
      rw [← hm, List.length_append, List.length_dropLast]
      have : 0 < cycle.length := List.length_pos.mpr hne
      simp; omega
    · simp only [Except.ok.injEq] at hm
      rw [hm]

theorem convolution_cycle_labels {K : Kernel Point_2 Vector_2 Direction_2}
    {T : Tracer_input Point_2 Direction_2} {fuel cycle_id curr1 k1 curr2 k2 : Nat}
    {used : Labels_set} {queue : Anchors_queue} {cycle : List (Labeled_segment_2 Point_2)}
    {r : Tracer_state Point_2}
    (h : _convolution_cycle K fuel cycle_id T curr1 k1 curr2 k2 used queue cycle = Except.ok r) :
    ∃ added : List Convolution_label, r.used_labels = used ++ added ∧
      r.seg_index = added.length ∧ added.Nodup ∧ (∀ l ∈ added, l ∉ used) ∧
      r.cycle.length ≤ cycle.length + added.length := by
  obtain ⟨s0, s, cycle1, hs0, hs, -, hm, hr⟩ := convolution_cycle_ok h
  obtain ⟨p1, p2, -, -, hs0eq⟩ := cycle_init_ok hs0
  obtain ⟨-, -, m, -, t, ht, hstep⟩ := cycle_loop_steps fuel s0 s hs
  obtain ⟨added, hu, hi, hn, -, hfr, hc⟩ :=
    cycle_steps_labels (m + 1) s0 s (cycle_steps_snoc m s0 t s ht hstep)
  have hlen := mark_last_length hm
  rw [hs0eq] at hu hi hfr hc
  simp only at hu hi hfr hc
  refine ⟨added, ?_, ?_, hn, hfr, ?_⟩
  · rw [hr]; exact hu
  · rw [hr]; simpa using hi
  · rw [hr]; simp only; rw [hlen]; exact hc

/-- The property of the labels and segments kept by `operator()`: no label is
stored twice, and there are at most as many segments as labels. -/
theorem session_loop_labels {K : Kernel Point_2 Vector_2 Direction_2}
    {T : Tracer_input Point_2 Direction_2} {tracer_fuel : Nat} :
    ∀ (fuel : Nat) (st st1 : Driver_state Point_2),
      st.used_labels.Nodup →
      st.conv_segments.length + st.cycle.length ≤ st.used_labels.length →
      session_loop K T tracer_fuel fuel st = Except.ok st1 →
      st1.used_labels.Nodup ∧
        st1.conv_segments.length + st1.cycle.length ≤ st1.used_labels.length := by
  intro fuel
  induction fuel with
  | zero =>
    intro st st1 hn hl h
    unfold session_loop at h
    split at h
    · simp only [Except.ok.injEq] at h
      exact h ▸ ⟨hn, hl⟩
    · cases h
  | succ fuel ih =>
    intro st st1 hn hl h
    unfold session_loop at h
    split at h
    · simp only [Except.ok.injEq] at h
      exact h ▸ ⟨hn, hl⟩
    · rename_i anchor rest hq
      simp only [] at h
      split_ifs at h with hskip
      · exact ih { st with queue := rest, loops := st.loops + 1 - 1 } st1 hn hl h
      · obtain ⟨r, hr, h⟩ := bind_eq_ok h
        obtain ⟨added, hu, -, hnd, hfr, hc⟩ := convolution_cycle_labels hr
        have hn1 : r.used_labels.Nodup := by
          rw [hu, List.nodup_append]
          exact ⟨hn, hnd, fun l h1 h2 => hfr l h2 h1⟩
        have hlen : r.used_labels.length = st.used_labels.length + added.length := by
          rw [hu, List.length_append]
        split_ifs at h with hempty
        · refine ih _ st1 hn1 ?_ h
          simp only
          have : r.cycle.length = 0 := by
            rw [List.isEmpty_iff] at hempty
            rw [hempty]; rfl
          omega
        · refine ih _ st1 hn1 ?_ h
          simp only [List.length_append, List.length_nil]
          omega

theorem scan_body_labels {K : Kernel Point_2 Vector_2 Direction_2}
    {T : Tracer_input Point_2 Direction_2} {tracer_fuel session_fuel curr2 k2 k1 : Nat}
    {st st1 : Driver_state Point_2}
    (hn : st.used_labels.Nodup)
    (hl : st.conv_segments.length + st.cycle.length ≤ st.used_labels.length)
    (h : scan_body K T tracer_fuel session_fuel curr2 k2 k1 st = Except.ok st1) :
    st1.used_labels.Nodup ∧
      st1.conv_segments.length + st1.cycle.length ≤ st1.used_labels.length := by
  unfold scan_body at h
  simp only [] at h
  obtain ⟨found, -, h⟩ := bind_eq_ok h
  obtain ⟨st2, h2, h⟩ := bind_eq_ok h
  simp only [pure, Except.pure, Except.ok.injEq] at h
  subst h
  simp only
  split_ifs at h2
  · obtain ⟨st3, h3, h2⟩ := bind_eq_ok h2
    simp only [pure, Except.pure, Except.ok.injEq] at h2
    subst h2
    exact session_loop_labels session_fuel
      { st with queue := [((st.curr1, k1), (curr2, k2))], loops := 0 } st3 hn hl h3
  · simp only [Except.ok.injEq] at h2
    subst h2
    exact ⟨hn, hl⟩

theorem seeder_loop_labels {K : Kernel Point_2 Vector_2 Direction_2}
    {T : Tracer_input Point_2 Direction_2} {tracer_fuel session_fuel : Nat} :
    ∀ (seeds : List Vertex_ref) (st st1 : Driver_state Point_2),
      st.used_labels.Nodup →
      st.conv_segments.length + st.cycle.length ≤ st.used_labels.length →
      seeder_loop K T tracer_fuel session_fuel seeds st = Except.ok st1 →
      st1.used_labels.Nodup ∧
        st1.conv_segments.length + st1.cycle.length ≤ st1.used_labels.length := by
  intro seeds
  induction seeds with
  | nil =>
    intro st st1 hn hl h
    simp only [seeder_loop, Except.ok.injEq] at h
    exact h ▸ ⟨hn, hl⟩
  | cons seed seeds ih =>
    intro st st1 hn hl h
    unfold seeder_loop at h
    obtain ⟨st2, h2, h⟩ := bind_eq_ok h
    have hstep : ∀ (k : Nat) (d d1 : Driver_state Point_2), k < T.n1 →
        (d.used_labels.Nodup ∧
          d.conv_segments.length + d.cycle.length ≤ d.used_labels.length) →
        scan_body K T tracer_fuel session_fuel seed.1 seed.2 k d = Except.ok d1 →
        (d1.used_labels.Nodup ∧
          d1.conv_segments.length + d1.cycle.length ≤ d1.used_labels.length) :=
      fun k d d1 _ hinv hb => scan_body_labels hinv.1 hinv.2 hb
    have := for_loop_inv
      (fun (_ : Nat) (d : Driver_state Point_2) => d.used_labels.Nodup ∧
        d.conv_segments.length + d.cycle.length ≤ d.used_labels.length) T.n1
      hstep T.n1 0 { st with curr1 := 0, next1 := 0 } st2 (by omega) ⟨hn, hl⟩ h2
    exact ih st2 st1 this.1 this.2 h

theorem operator_call_labels {K : Kernel Point_2 Vector_2 Direction_2}
    {tracer_fuel session_fuel : Nat} {pgn1 pgn2 : List Point_2} {st : Driver_state Point_2}
    (h : operator_call K tracer_fuel session_fuel pgn1 pgn2 = Except.ok st) :
    st.used_labels.Nodup ∧ st.conv_segments.length ≤ st.used_labels.length := by
  unfold operator_call at h
  obtain ⟨t1, -, h⟩ := bind_eq_ok h
  obtain ⟨t2, -, h⟩ := bind_eq_ok h
  have := seeder_loop_labels _ _ st (by simp) (by simp) h
  exact ⟨this.1, by omega⟩

end DriverLabels

section Claims1
variable {Point_2 Vector_2 Direction_2 : Type}

/-- Claim C1. Label uniqueness. In every iteration of the tracer, in every
state: when the flags chosen by the step make it move on the first polygon,
the label `(k1, k2, 1)` it inserts is not in `used_labels` before the
insertion, and when they make it move on the second polygon, the label
`(k1, k2, 2)` it inserts (with the indices at that moment) is not in
`used_labels` before the insertion. Consequently a call of
`_convolution_cycle` extends `used_labels` by pairwise distinct labels, none of
them used before the call, one for each of the `seg_index` moves, and emits at
most one segment for each; and at the end of an invocation of `operator()` no
label is stored twice and there are at most as many segments as labels. -/
theorem inserted_labels_are_fresh (K : Kernel Point_2 Vector_2 Direction_2)
    (T : Tracer_input Point_2 Direction_2) (cycle_id : Nat) :
    (∀ (s : Tracer_state Point_2) (flags : Bool × Bool × Anchors_queue),
      decide_moves K T s = Except.ok flags →
      (flags.1 = true → (⟨s.k1, s.k2, 1⟩ : Convolution_label) ∉ s.used_labels) ∧
      (flags.2.1 = true → ∀ s1 : Tracer_state Point_2,
        (if flags.1 then advance1 K T cycle_id { s with queue := flags.2.2 }
          else Except.ok { s with queue := flags.2.2 }) = Except.ok s1 →
        (⟨s1.k1, s1.k2, 2⟩ : Convolution_label) ∉ s1.used_labels)) ∧
    (∀ (fuel curr1 k1 curr2 k2 : Nat) (used : Labels_set) (queue : Anchors_queue)
      (cycle : List (Labeled_segment_2 Point_2)) (r : Tracer_state Point_2),
      _convolution_cycle K fuel cycle_id T curr1 k1 curr2 k2 used queue cycle = Except.ok r →
      ∃ added : List Convolution_label, r.used_labels = used ++ added ∧
        r.seg_index = added.length ∧ added.Nodup ∧ (∀ l ∈ added, l ∉ used) ∧
        r.cycle.length ≤ cycle.length + added.length) ∧
    (∀ (tracer_fuel session_fuel : Nat) (pgn1 pgn2 : List Point_2)
      (st : Driver_state Point_2),
      operator_call K tracer_fuel session_fuel pgn1 pgn2 = Except.ok st →
      st.used_labels.Nodup ∧ st.conv_segments.length ≤ st.used_labels.length) := by
  refine ⟨?_, ?_, ?_⟩
  · intro s flags hf
    exact ⟨fun h1 => first_insert_fresh hf h1,
      fun h2 s1 hs1 => second_insert_fresh hf h2 hs1⟩
  · intro fuel curr1 k1 curr2 k2 used queue cycle r h
    exact convolution_cycle_labels h
  · intro tracer_fuel session_fuel pgn1 pgn2 st h
    exact operator_call_labels h

end Claims1

/-- Witness for claim C1 on the two unit squares: the first step from the
seed moves on both polygons, both inserted labels are fresh, the full trace
adds eight pairwise distinct labels, and the whole invocation ends with eight
distinct labels and eight segments. -/
theorem inserted_labels_are_fresh_witness :
    decide_moves int_kernel two_squares two_squares_start = Except.ok (true, true, []) ∧
    ((⟨0, 0, 1⟩ : Convolution_label) ∉ two_squares_start.used_labels) ∧
    (∃ r, _convolution_cycle int_kernel 4 1 two_squares 0 0 0 0 [] [] [] = Except.ok r ∧
      ∃ added : List Convolution_label, r.used_labels = [] ++ added ∧
        r.seg_index = added.length ∧ added.Nodup ∧ (∀ l ∈ added, l ∉ ([] : Labels_set)) ∧
        r.cycle.length ≤ ([] : List (Labeled_segment_2 (Int × Int))).length + added.length) ∧
    (_convolution_cycle int_kernel 4 1 two_squares 0 0 0 0 [] [] []).toOption.map
      (fun r => r.used_labels.length) = some 8 ∧
    (∃ st, operator_call int_kernel 4 2 unit_square unit_square = Except.ok st ∧
      st.used_labels.length = 8 ∧ st.conv_segments.length = 8 ∧
      st.used_labels.Nodup ∧ st.conv_segments.length ≤ st.used_labels.length) :=
  ⟨rfl,
   ((inserted_labels_are_fresh int_kernel two_squares 1).1 two_squares_start
      (true, true, []) rfl).1 rfl,
   ⟨_, rfl, (inserted_labels_are_fresh int_kernel two_squares 1).2.1 4 0 0 0 0 [] [] [] _ rfl⟩,
   rfl,
   ⟨_, rfl, rfl, rfl,
    (inserted_labels_are_fresh int_kernel two_squares 1).2.2 4 2 unit_square unit_square
      _ rfl⟩⟩

section Claims3
variable {Point_2 Vector_2 Direction_2 : Type}

/-- Claim C3. Reflex suppression. In every completed tracer step from a state
`s`, with `s1` the state between the two blocks: a move on the first polygon
appends one segment to `cycle` exactly when `is_reflex2[k2]` is false and
appends nothing when it is true; a move on the second polygon appends one
segment exactly when `is_reflex1[k1]` is false, `k1` being the index of the
first polygon at that moment; in both cases, emitted or suppressed, the label
of the move is inserted into `used_labels`, `seg_index` grows by one and the
index of the moving polygon becomes `(k + 1) % n`, the other index being
unchanged. -/
theorem reflex_suppression (K : Kernel Point_2 Vector_2 Direction_2)
    (T : Tracer_input Point_2 Direction_2) (cycle_id : Nat) (s s2 : Tracer_state Point_2)
    (h : cycle_step K T cycle_id s = Except.ok s2) :
    ∃ (flags : Bool × Bool × Anchors_queue) (s1 : Tracer_state Point_2),
      decide_moves K T s = Except.ok flags ∧
      (flags.1 = true → ∃ (r2 : Bool) (seg : Labeled_segment_2 Point_2),
        T.is_reflex2[s.k2]? = some r2 ∧
        s1.cycle = (if r2 then s.cycle else s.cycle ++ [seg]) ∧
        s1.used_labels = Labels_set.insert s.used_labels ⟨s.k1, s.k2, 1⟩ ∧
        s1.seg_index = s.seg_index + 1 ∧
        s1.k1 = (s.k1 + 1) % T.n1 ∧ s1.k2 = s.k2) ∧
      (flags.1 = false → s1 = { s with queue := flags.2.2 }) ∧
      (flags.2.1 = true → ∃ (r1 : Bool) (seg : Labeled_segment_2 Point_2),
        T.is_reflex1[s1.k1]? = some r1 ∧
        s2.cycle = (if r1 then s1.cycle else s1.cycle ++ [seg]) ∧
        s2.used_labels = Labels_set.insert s1.used_labels ⟨s1.k1, s1.k2, 2⟩ ∧
        s2.seg_index = s1.seg_index + 1 ∧
        s2.k2 = (s1.k2 + 1) % T.n2 ∧ s2.k1 = s1.k1) ∧
      (flags.2.1 = false → s2 = s1) := by
  obtain ⟨flags, s1, hf, -, hs1, hs2⟩ := cycle_step_ok h
  refine ⟨flags, s1, hf, ?_, ?_, ?_, ?_⟩
  · intro h1
    rw [h1] at hs1
    simp only [if_true] at hs1
    obtain ⟨pn, pc, r2, -, -, hr2, -, hs⟩ := advance1_ok hs1
    simp only [] at hs hr2
    refine ⟨r2, ⟨s.curr_pt, vertex_sum K pn pc,
      ⟨decide (K.f_compare_xy s.curr_pt (vertex_sum K pn pc) = Comparison_result.SMALLER),
        cycle_id, s.seg_index, MOVE_ON_1, false⟩⟩, hr2, ?_, ?_, ?_, ?_, ?_⟩
    all_goals rw [hs]
  · intro h1
    rw [h1] at hs1
    simp only [Bool.false_eq_true, if_false, Except.ok.injEq] at hs1
    exact hs1.symm
  · intro h2
    rw [h2] at hs2
    simp only [if_true] at hs2
    obtain ⟨pn, pc, r1, -, -, hr1, -, hs⟩ := advance2_ok hs2
    refine ⟨r1, ⟨s1.curr_pt, vertex_sum K pn pc,
      ⟨decide (K.f_compare_xy s1.curr_pt (vertex_sum K pn pc) = Comparison_result.SMALLER),
        cycle_id, s1.seg_index, MOVE_ON_2, false⟩⟩, hr1, ?_, ?_, ?_, ?_, ?_⟩
    all_goals rw [hs]
  · intro h2
    rw [h2] at hs2
    simp only [Bool.false_eq_true, if_false, Except.ok.injEq] at hs2
    exact hs2.symm

end Claims3

/-- Witness for claim C3 on the unit square and the dart, at the state where
the second polygon is at its reflex vertex: the step moves on the first
polygon, inserts the label and emits no segment. -/
theorem reflex_suppression_witness :
    cycle_step int_kernel square_dart 1 square_dart_at_reflex =
      Except.ok square_dart_after_reflex ∧
    square_dart.is_reflex2[square_dart_at_reflex.k2]? = some true ∧
    square_dart_after_reflex.cycle = square_dart_at_reflex.cycle ∧
    ∃ (flags : Bool × Bool × Anchors_queue) (s1 : Tracer_state (Int × Int)),
      decide_moves int_kernel square_dart square_dart_at_reflex = Except.ok flags ∧
      (flags.1 = true → ∃ (r2 : Bool) (seg : Labeled_segment_2 (Int × Int)),
        square_dart.is_reflex2[square_dart_at_reflex.k2]? = some r2 ∧
        s1.cycle = (if r2 then square_dart_at_reflex.cycle
          else square_dart_at_reflex.cycle ++ [seg]) ∧
        s1.used_labels = Labels_set.insert square_dart_at_reflex.used_labels
          ⟨square_dart_at_reflex.k1, square_dart_at_reflex.k2, 1⟩ ∧
        s1.seg_index = square_dart_at_reflex.seg_index + 1 ∧
        s1.k1 = (square_dart_at_reflex.k1 + 1) % square_dart.n1 ∧
        s1.k2 = square_dart_at_reflex.k2) ∧
      (flags.1 = false → s1 = { square_dart_at_reflex with queue := flags.2.2 }) ∧
      (flags.2.1 = true → ∃ (r1 : Bool) (seg : Labeled_segment_2 (Int × Int)),
        square_dart.is_reflex1[s1.k1]? = some r1 ∧
        square_dart_after_reflex.cycle = (if r1 then s1.cycle else s1.cycle ++ [seg]) ∧
        square_dart_after_reflex.used_labels =
          Labels_set.insert s1.used_labels ⟨s1.k1, s1.k2, 2⟩ ∧
        square_dart_after_reflex.seg_index = s1.seg_index + 1 ∧
        square_dart_after_reflex.k2 = (s1.k2 + 1) % square_dart.n2 ∧
        square_dart_after_reflex.k1 = s1.k1) ∧
      (flags.2.1 = false → square_dart_after_reflex = s1) :=
  ⟨rfl, rfl, rfl,
   reflex_suppression int_kernel square_dart 1 square_dart_at_reflex
     square_dart_after_reflex rfl⟩

section Claims5
variable {Point_2 Vector_2 Direction_2 : Type}

theorem decide_moves_of_reads {K : Kernel Point_2 Vector_2 Direction_2}
    {T : Tracer_input Point_2 Direction_2} {s : Tracer_state Point_2}
    {d1 d1p d2 d2p : Direction_2}
    (hd1 : T.dirs1[s.k1]? = some d1) (hd1p : T.dirs1[prev_index T.n1 s.k1]? = some d1p)
    (hd2 : T.dirs2[s.k2]? = some d2) (hd2p : T.dirs2[prev_index T.n2 s.k2]? = some d2p) :
    decide_moves K T s = Except.ok (decide_flags K T.n1 d1 d1p d2 d2p s) := by
  unfold decide_moves
  rw [vector_get_eq_ok.mpr hd1, vector_get_eq_ok.mpr hd1p, vector_get_eq_ok.mpr hd2,
    vector_get_eq_ok.mpr hd2p]
  rfl

/-- Claim C5. Equal-direction edges. In a tracer step at a state `(k1, k2)`
where neither cone test marks a move, `dirs1[k1]` equals `dirs2[k2]`, and the
two labels of the step, `(k1, k2, 1)` and `((k1 + 1) % n1, k2, 2)`, are unused:
both flags are set, and when the step completes both indices have advanced,
`k1` to `(k1 + 1) % n1` and `k2` to `(k2 + 1) % n2`, and exactly these two
labels, one of each kind and different from each other, have been added to
`used_labels`. -/
theorem equal_direction_step (K : Kernel Point_2 Vector_2 Direction_2)
    (T : Tracer_input Point_2 Direction_2) (cycle_id : Nat) (s : Tracer_state Point_2)
    (d1 d1p d2 d2p : Direction_2)
    (hd1 : T.dirs1[s.k1]? = some d1) (hd1p : T.dirs1[prev_index T.n1 s.k1]? = some d1p)
    (hd2 : T.dirs2[s.k2]? = some d2) (hd2p : T.dirs2[prev_index T.n2 s.k2]? = some d2p)
    (hcone1 : (cone_flags K d1 d1p d2 d2p s).1 = false)
    (hcone2 : (cone_flags K d1 d1p d2 d2p s).2.1 = false)
    (heq : K.f_equal d1 d2 = true)
    (hu1 : (⟨s.k1, s.k2, 1⟩ : Convolution_label) ∉ s.used_labels)
    (hu2 : (⟨(s.k1 + 1) % T.n1, s.k2, 2⟩ : Convolution_label) ∉ s.used_labels) :
    decide_moves K T s = Except.ok (true, true, (cone_flags K d1 d1p d2 d2p s).2.2) ∧
    (⟨s.k1, s.k2, 1⟩ : Convolution_label) ≠ ⟨(s.k1 + 1) % T.n1, s.k2, 2⟩ ∧
    ∀ s2 : Tracer_state Point_2, cycle_step K T cycle_id s = Except.ok s2 →
      s2.k1 = (s.k1 + 1) % T.n1 ∧ s2.k2 = (s.k2 + 1) % T.n2 ∧
      s2.used_labels = s.used_labels ++ [⟨s.k1, s.k2, 1⟩, ⟨(s.k1 + 1) % T.n1, s.k2, 2⟩] ∧
      s2.seg_index = s.seg_index + 2 := by
  have hflags : decide_flags K T.n1 d1 d1p d2 d2p s =
      (true, true, (cone_flags K d1 d1p d2 d2p s).2.2) := by
    have c1 := (count_eq_zero_iff _ _).mpr hu1
    have c2 := (count_eq_zero_iff _ _).mpr hu2
    unfold decide_flags
    simp [hcone1, hcone2, heq, c1, c2]
  have hdm := @decide_moves_of_reads _ _ _ K T s d1 d1p d2 d2p hd1 hd1p hd2 hd2p
  rw [hflags] at hdm
  refine ⟨hdm, by simp, ?_⟩
  intro s2 hstep
  obtain ⟨flags, s1, hf, -, hs1, hs2⟩ := cycle_step_ok hstep
  rw [hdm] at hf
  simp only [Except.ok.injEq] at hf
  subst hf
  simp only [if_true] at hs1 hs2
  obtain ⟨pn, pc, r2, -, -, -, -, e1⟩ := advance1_ok hs1
  obtain ⟨pn2, pc2, r1, -, -, -, -, e2⟩ := advance2_ok hs2
  simp only [] at e1
  have hk1 : s1.k1 = (s.k1 + 1) % T.n1 := by rw [e1]
  have hk2 : s1.k2 = s.k2 := by rw [e1]
  have hu : s1.used_labels = s.used_labels ++ [⟨s.k1, s.k2, 1⟩] := by
    rw [e1]; simp only; rw [insert_of_not_mem hu1]
  have hi : s1.seg_index = s.seg_index + 1 := by rw [e1]
  have hfresh : (⟨s1.k1, s1.k2, 2⟩ : Convolution_label) ∉ s1.used_labels := by
    rw [hk1, hk2, hu]
    simp only [List.mem_append, List.mem_singleton, not_or]
    exact ⟨hu2, by simp⟩
  refine ⟨?_, ?_, ?_, ?_⟩
  · rw [e2]; exact hk1
  · rw [e2]; simp only; rw [hk2]
  · rw [e2]; simp only; rw [insert_of_not_mem hfresh, hu, hk1, hk2]; simp
  · rw [e2]; simp only; rw [hi]

end Claims5

/-- Witness for claim C5 on two axis-aligned unit squares: at the seed
`(0, 0)` the hypotheses hold and the step advances both indices; the trace
from the seed closes after exactly four iterations and has added eight
pairwise distinct labels. -/
theorem equal_direction_step_witness :
    (two_squares.dirs1[two_squares_start.k1]? = some (1, 0) ∧
     two_squares.dirs1[prev_index two_squares.n1 two_squares_start.k1]? = some (0, -1) ∧
     two_squares.dirs2[two_squares_start.k2]? = some (1, 0) ∧
     two_squares.dirs2[prev_index two_squares.n2 two_squares_start.k2]? = some (0, -1) ∧
     (cone_flags int_kernel (1, 0) (0, -1) (1, 0) (0, -1) two_squares_start).1 = false ∧
     (cone_flags int_kernel (1, 0) (0, -1) (1, 0) (0, -1) two_squares_start).2.1 = false ∧
     int_kernel.f_equal (1, 0) (1, 0) = true) ∧
    (decide_moves int_kernel two_squares two_squares_start =
        Except.ok (true, true,
          (cone_flags int_kernel (1, 0) (0, -1) (1, 0) (0, -1) two_squares_start).2.2) ∧
      (⟨two_squares_start.k1, two_squares_start.k2, 1⟩ : Convolution_label) ≠
        ⟨(two_squares_start.k1 + 1) % two_squares.n1, two_squares_start.k2, 2⟩ ∧
      ∀ s2 : Tracer_state (Int × Int),
        cycle_step int_kernel two_squares 1 two_squares_start = Except.ok s2 →
        s2.k1 = (two_squares_start.k1 + 1) % two_squares.n1 ∧
        s2.k2 = (two_squares_start.k2 + 1) % two_squares.n2 ∧
        s2.used_labels = two_squares_start.used_labels ++
          [⟨two_squares_start.k1, two_squares_start.k2, 1⟩,
           ⟨(two_squares_start.k1 + 1) % two_squares.n1, two_squares_start.k2, 2⟩] ∧
        s2.seg_index = two_squares_start.seg_index + 2) ∧
    (cycle_step int_kernel two_squares 1 two_squares_start).toOption.map
      (fun s2 => (s2.k1, s2.k2)) = some (1, 1) ∧
    cycle_loop int_kernel two_squares 1 0 0 3 two_squares_start =
      Except.error Failure.out_of_fuel ∧
    (cycle_loop int_kernel two_squares 1 0 0 4 two_squares_start).toOption.map
      (fun s2 => (s2.k1, s2.k2, s2.used_labels)) =
      some (0, 0, [⟨0, 0, 1⟩, ⟨1, 0, 2⟩, ⟨1, 1, 1⟩, ⟨2, 1, 2⟩, ⟨2, 2, 1⟩, ⟨3, 2, 2⟩,
        ⟨3, 3, 1⟩, ⟨0, 3, 2⟩]) ∧
    ([⟨0, 0, 1⟩, ⟨1, 0, 2⟩, ⟨1, 1, 1⟩, ⟨2, 1, 2⟩, ⟨2, 2, 1⟩, ⟨3, 2, 2⟩,
        ⟨3, 3, 1⟩, ⟨0, 3, 2⟩] : List Convolution_label).Nodup :=
  ⟨⟨rfl, rfl, rfl, rfl, rfl, rfl, rfl⟩,
   equal_direction_step int_kernel two_squares 1 two_squares_start (1, 0) (0, -1) (1, 0) (0, -1)
     rfl rfl rfl rfl rfl rfl rfl (by simp [two_squares_start])
     (by simp [two_squares_start]),
   rfl, rfl, rfl, by decide⟩

/-! ## Traversal order and circulators -/

theorem traversal_pos_lt (forward : Bool) {n : Nat} (k : Nat) (hn : 0 < n) :
    traversal_pos forward n k < n := by
  unfold traversal_pos
  split_ifs <;> exact Nat.mod_lt _ hn

theorem succ_mod_cases {n k : Nat} (hk : k < n) :
    (k + 1 < n ∧ (k + 1) % n = k + 1) ∨ (k + 1 = n ∧ (k + 1) % n = 0) := by
  by_cases h : k + 1 < n
  · exact Or.inl ⟨h, Nat.mod_eq_of_lt h⟩
  · have : k + 1 = n := by omega
    exact Or.inr ⟨this, by rw [this, Nat.mod_self]⟩

theorem circ_move_traversal_pos (forward : Bool) {n k : Nat} (hk : k < n) :
    circ_move forward n (traversal_pos forward n k) = traversal_pos forward n ((k + 1) % n) := by
  have hn : 0 < n := by omega
  unfold circ_move traversal_pos circ_succ circ_pred
  rw [Nat.mod_eq_of_lt hk, Nat.mod_mod]
  cases forward with
  | true => simp
  | false =>
    simp only [Bool.false_eq_true, if_false]
    rcases succ_mod_cases hk with ⟨h1, h2⟩ | ⟨h1, h2⟩
    · rw [h2]
      rcases Nat.eq_zero_or_pos k with h0 | h0
      · subst h0
        rw [Nat.sub_zero, Nat.mod_self, Nat.zero_add]
      · rw [Nat.mod_eq_of_lt (by omega : n - k < n)]
        have e : n - k + n - 1 = n + (n - (k + 1)) := by omega
        rw [e, Nat.add_mod_left]
    · rw [h2, Nat.sub_zero, Nat.mod_self]
      rcases Nat.eq_zero_or_pos k with h0 | h0
      · subst h0
        have : n = 1 := by omega
        subst this
        rfl
      · rw [Nat.mod_eq_of_lt (by omega : n - k < n)]
        have e : n - k + n - 1 = n := by omega
        rw [e, Nat.mod_self]

/-! ## The invariant of the tracer loop -/

section Invariant
variable {Point_2 Vector_2 Direction_2 : Type}

theorem init_inv {K : Kernel Point_2 Vector_2 Direction_2}
    {T : Tracer_input Point_2 Direction_2} {curr1 k1 curr2 k2 : Nat}
    {used : Labels_set} {queue : Anchors_queue} {cycle : List (Labeled_segment_2 Point_2)}
    {s0 : Tracer_state Point_2} (hcall : Well_formed_call T curr1 k1 curr2 k2)
    (h : cycle_init K T curr1 k1 curr2 k2 used queue cycle = Except.ok s0) :
    Tracer_inv K T s0 := by
  obtain ⟨p1, p2, hp1, hp2, hs0⟩ := cycle_init_ok h
  subst hs0
  exact
    { k1_lt := hcall.k1_lt
      k2_lt := hcall.k2_lt
      curr1_eq := hcall.curr1_eq
      curr2_eq := hcall.curr2_eq
      next1_eq := by simp only [hcall.size1]
      next2_eq := by simp only [hcall.size2]
      curr_pt_eq := ⟨p1, p2, hp1, hp2, rfl⟩ }

theorem queue_inv {K : Kernel Point_2 Vector_2 Direction_2}
    {T : Tracer_input Point_2 Direction_2} {s : Tracer_state Point_2} (q : Anchors_queue)
    (h : Tracer_inv K T s) : Tracer_inv K T { s with queue := q } :=
  { k1_lt := h.k1_lt, k2_lt := h.k2_lt, curr1_eq := h.curr1_eq, curr2_eq := h.curr2_eq,
    next1_eq := h.next1_eq, next2_eq := h.next2_eq, curr_pt_eq := h.curr_pt_eq }

theorem advance1_inv {K : Kernel Point_2 Vector_2 Direction_2}
    {T : Tracer_input Point_2 Direction_2} {cycle_id : Nat} {s s1 : Tracer_state Point_2}
    (hsize : T.n1 = T.pgn1.length) (hinv : Tracer_inv K T s)
    (h : advance1 K T cycle_id s = Except.ok s1) : Tracer_inv K T s1 := by
  obtain ⟨pn, pc, r2, hpn, hpc, -, -, hs⟩ := advance1_ok h
  have hn : 0 < T.n1 := Nat.lt_of_le_of_lt (Nat.zero_le _) hinv.k1_lt
  subst hs
  exact
    { k1_lt := Nat.mod_lt _ hn
      k2_lt := hinv.k2_lt
      curr1_eq := by
        simp only
        rw [hinv.next1_eq, hinv.curr1_eq, circ_move_traversal_pos _ hinv.k1_lt]
      curr2_eq := hinv.curr2_eq
      next1_eq := by simp only [hsize]
      next2_eq := hinv.next2_eq
      curr_pt_eq := ⟨pn, pc, hpn, hpc, rfl⟩ }

theorem advance2_inv {K : Kernel Point_2 Vector_2 Direction_2}
    {T : Tracer_input Point_2 Direction_2} {cycle_id : Nat} {s s1 : Tracer_state Point_2}
    (hK : Translation_laws K)
    (hsize : T.n2 = T.pgn2.length) (hinv : Tracer_inv K T s)
    (h : advance2 K T cycle_id s = Except.ok s1) : Tracer_inv K T s1 := by
  obtain ⟨pn, pc, r1, hpn, hpc, -, -, hs⟩ := advance2_ok h
  have hn : 0 < T.n2 := Nat.lt_of_le_of_lt (Nat.zero_le _) hinv.k2_lt
  subst hs
  exact
    { k1_lt := hinv.k1_lt
      k2_lt := Nat.mod_lt _ hn
      curr1_eq := hinv.curr1_eq
      curr2_eq := by
        simp only
        rw [hinv.next2_eq, hinv.curr2_eq, circ_move_traversal_pos _ hinv.k2_lt]
      next1_eq := hinv.next1_eq
      next2_eq := by simp only [hsize]
      curr_pt_eq := ⟨pc, pn, hpc, hpn, hK.sum_comm pn pc⟩ }

theorem cycle_step_inv {K : Kernel Point_2 Vector_2 Direction_2}
    {T : Tracer_input Point_2 Direction_2} {cycle_id : Nat} {s s2 : Tracer_state Point_2}
    (hK : Translation_laws K) (hsize1 : T.n1 = T.pgn1.length) (hsize2 : T.n2 = T.pgn2.length)
    (hinv : Tracer_inv K T s) (h : cycle_step K T cycle_id s = Except.ok s2) :
    Tracer_inv K T s2 := by
  obtain ⟨flags, s1, -, -, hs1, hs2⟩ := cycle_step_ok h
  have hinv1 : Tracer_inv K T s1 := by
    cases hf : flags.1 with
    | true =>
      rw [hf] at hs1
      exact advance1_inv hsize1 (queue_inv flags.2.2 hinv) hs1
    | false =>
      rw [hf] at hs1
      simp only [Bool.false_eq_true, if_false, Except.ok.injEq] at hs1
      exact hs1 ▸ queue_inv flags.2.2 hinv
  cases hf : flags.2.1 with
  | true =>
    rw [hf] at hs2
    exact advance2_inv hK hsize2 hinv1 hs2
  | false =>
    rw [hf] at hs2
    simp only [Bool.false_eq_true, if_false, Except.ok.injEq] at hs2
    exact hs2 ▸ hinv1

theorem cycle_steps_inv {K : Kernel Point_2 Vector_2 Direction_2}
    {T : Tracer_input Point_2 Direction_2} {cycle_id : Nat}
    (hK : Translation_laws K) (hsize1 : T.n1 = T.pgn1.length) (hsize2 : T.n2 = T.pgn2.length) :
    ∀ (m : Nat) (s s2 : Tracer_state Point_2), Tracer_inv K T s →
      cycle_steps K T cycle_id m s = Except.ok s2 → Tracer_inv K T s2 := by
  intro m
  induction m with
  | zero =>
    intro s s2 hinv h
    simp only [cycle_steps, pure, Except.pure, Except.ok.injEq] at h
    exact h ▸ hinv
  | succ m ih =>
    intro s s2 hinv h
    obtain ⟨s1, hs1, hrest⟩ := cycle_steps_succ h
    exact ih s1 s2 (cycle_step_inv hK hsize1 hsize2 hinv hs1) hrest

theorem inv_curr_pt {K : Kernel Point_2 Vector_2 Direction_2}
    {T : Tracer_input Point_2 Direction_2} {s : Tracer_state Point_2}
    (hsize1 : T.n1 = T.pgn1.length) (hsize2 : T.n2 = T.pgn2.length)
    (hinv : Tracer_inv K T s) :
    ∃ p q, traversal_vertex T.pgn1 T.forward1 s.k1 = some p ∧
      traversal_vertex T.pgn2 T.forward2 s.k2 = some q ∧ s.curr_pt = vertex_sum K p q := by
  obtain ⟨p, q, hp, hq, hpt⟩ := hinv.curr_pt_eq
  refine ⟨p, q, ?_, ?_, hpt⟩
  · unfold traversal_vertex
    rw [← hsize1, ← hinv.curr1_eq]; exact hp
  · unfold traversal_vertex
    rw [← hsize2, ← hinv.curr2_eq]; exact hq

end Invariant

theorem int_translation_laws : Translation_laws int_kernel :=
  { sum_comm := by
      intro p q
      simp only [vertex_sum, int_kernel]
      ext <;> simp <;> ring
    equal_refl := by
      intro p
      simp [int_kernel] }

section Failures
variable {Point_2 Vector_2 Direction_2 : Type}

theorem bind_eq_error {α β : Type} {x : Except Failure α} {f : α → Except Failure β}
    {e : Failure} (h : (x >>= f) = Except.error e) :
    x = Except.error e ∨ ∃ a, x = Except.ok a ∧ f a = Except.error e := by
  cases x with
  | error e1 =>
    left
    simp only [bind, Except.bind, Except.error.injEq] at h
    rw [h]
  | ok a => exact Or.inr ⟨a, rfl, h⟩

theorem vector_get_error {α : Type} {v : List α} {k : Nat} {e : Failure}
    (h : vector_get v k = Except.error e) : e = Failure.out_of_range := by
  unfold vector_get at h
  split at h
  · cases h
  · simp only [Except.error.injEq] at h
    exact h.symm

theorem decide_moves_error {K : Kernel Point_2 Vector_2 Direction_2}
    {T : Tracer_input Point_2 Direction_2} {s : Tracer_state Point_2} {e : Failure}
    (h : decide_moves K T s = Except.error e) : e = Failure.out_of_range := by
  unfold decide_moves at h
  rcases bind_eq_error h with h | ⟨_, -, h⟩
  · exact vector_get_error h
  rcases bind_eq_error h with h | ⟨_, -, h⟩
  · exact vector_get_error h
  rcases bind_eq_error h with h | ⟨_, -, h⟩
  · exact vector_get_error h
  rcases bind_eq_error h with h | ⟨_, -, h⟩
  · exact vector_get_error h
  cases h

theorem advance1_error {K : Kernel Point_2 Vector_2 Direction_2}
    {T : Tracer_input Point_2 Direction_2} {cycle_id : Nat} {s : Tracer_state Point_2}
    {e : Failure} (h : advance1 K T cycle_id s = Except.error e) :
    e = Failure.out_of_range ∨ e = Failure.assertion_res := by
  unfold advance1 deref at h
  rcases bind_eq_error h with h | ⟨_, -, h⟩
  · exact Or.inl (vector_get_error h)
  rcases bind_eq_error h with h | ⟨_, -, h⟩
  · exact Or.inl (vector_get_error h)
  simp only [] at h
  split_ifs at h
  · simp only [Except.error.injEq] at h
    exact Or.inr h.symm
  · rcases bind_eq_error h with h | ⟨_, -, h⟩
    · exact Or.inl (vector_get_error h)
    cases h

theorem advance2_error {K : Kernel Point_2 Vector_2 Direction_2}
    {T : Tracer_input Point_2 Direction_2} {cycle_id : Nat} {s : Tracer_state Point_2}
    {e : Failure} (h : advance2 K T cycle_id s = Except.error e) :
    e = Failure.out_of_range ∨ e = Failure.assertion_res := by
  unfold advance2 deref at h
  rcases bind_eq_error h with h | ⟨_, -, h⟩
  · exact Or.inl (vector_get_error h)
  rcases bind_eq_error h with h | ⟨_, -, h⟩
  · exact Or.inl (vector_get_error h)
  simp only [] at h
  split_ifs at h
  · simp only [Except.error.injEq] at h
    exact Or.inr h.symm
  · rcases bind_eq_error h with h | ⟨_, -, h⟩
    · exact Or.inl (vector_get_error h)
    cases h

theorem cycle_init_error {K : Kernel Point_2 Vector_2 Direction_2}
    {T : Tracer_input Point_2 Direction_2} {curr1 k1 curr2 k2 : Nat}
    {used : Labels_set} {queue : Anchors_queue} {cycle : List (Labeled_segment_2 Point_2)}
    {e : Failure} (h : cycle_init K T curr1 k1 curr2 k2 used queue cycle = Except.error e) :
    e = Failure.out_of_range := by
  unfold cycle_init deref at h
  simp only [] at h
  rcases bind_eq_error h with h | ⟨_, -, h⟩
  · exact vector_get_error h
  rcases bind_eq_error h with h | ⟨_, -, h⟩
  · exact vector_get_error h
  cases h

theorem cycle_step_error {K : Kernel Point_2 Vector_2 Direction_2}
    {T : Tracer_input Point_2 Direction_2} {cycle_id : Nat} {s : Tracer_state Point_2}
    {e : Failure} (h : cycle_step K T cycle_id s = Except.error e) :
    e = Failure.out_of_range ∨ e = Failure.assertion_res ∨ e = Failure.assertion_inc := by
  unfold cycle_step at h
  rcases bind_eq_error h with h | ⟨flags, -, h⟩
  · exact Or.inl (decide_moves_error h)
  split_ifs at h
  · simp only [Except.error.injEq] at h
    exact Or.inr (Or.inr h.symm)
  · unfold act_moves at h
    rcases bind_eq_error h with h | ⟨s1, -, h⟩
    · split_ifs at h
      rcases advance1_error h with h | h
      · exact Or.inl h
      · exact Or.inr (Or.inl h)
    · split_ifs at h
      rcases advance2_error h with h | h
      · exact Or.inl h
      · exact Or.inr (Or.inl h)

theorem cycle_loop_error {K : Kernel Point_2 Vector_2 Direction_2}
    {T : Tracer_input Point_2 Direction_2} {cycle_id first1 first2 : Nat} :
    ∀ (fuel : Nat) (s : Tracer_state Point_2) (e : Failure),
      cycle_loop K T cycle_id first1 first2 fuel s = Except.error e →
      e ≠ Failure.assertion_closed := by
  intro fuel
  induction fuel with
  | zero =>
    intro s e h
    simp only [cycle_loop, Except.error.injEq] at h
    rw [← h]; simp
  | succ fuel ih =>
    intro s e h
    unfold cycle_loop at h
    rcases bind_eq_error h with h | ⟨s1, -, h⟩
    · rcases cycle_step_error h with h | h | h <;> rw [h] <;> simp
    · split_ifs at h
      · exact ih s1 e h
      · cases h

end Failures

section Claims2
variable {Point_2 Vector_2 Direction_2 : Type}

theorem closed_point {K : Kernel Point_2 Vector_2 Direction_2}
    {T : Tracer_input Point_2 Direction_2} {cycle_id curr1 k1 curr2 k2 : Nat}
    {used : Labels_set} {queue : Anchors_queue} {cycle : List (Labeled_segment_2 Point_2)}
    (hK : Translation_laws K) (hcall : Well_formed_call T curr1 k1 curr2 k2)
    {fuel : Nat} {s0 s : Tracer_state Point_2}
    (h0 : cycle_init K T curr1 k1 curr2 k2 used queue cycle = Except.ok s0)
    (hl : cycle_loop K T cycle_id k1 k2 fuel s0 = Except.ok s) :
    s.k1 = k1 ∧ s.k2 = k2 ∧ s.curr_pt = s0.curr_pt := by
  obtain ⟨hk1, hk2, m, -, t, ht, hstep⟩ := cycle_loop_steps fuel s0 s hl
  have hinv0 := init_inv hcall h0
  have hinv : Tracer_inv K T s :=
    cycle_steps_inv hK hcall.size1 hcall.size2 (m + 1) s0 s hinv0
      (cycle_steps_snoc m s0 t s ht hstep)
  refine ⟨hk1, hk2, ?_⟩
  obtain ⟨p, q, hp, hq, hpt⟩ := hinv.curr_pt_eq
  obtain ⟨p1, p2, hp1, hp2, hs0⟩ := cycle_init_ok h0
  rw [hinv.curr1_eq, hk1, ← hcall.curr1_eq, hp1] at hp
  rw [hinv.curr2_eq, hk2, ← hcall.curr2_eq, hp2] at hq
  simp only [Option.some.injEq] at hp hq
  rw [hpt, hs0, ← hp, ← hq]

/-- Claim C2. Closure. For a call of `_convolution_cycle` as `operator()`
makes it (sizes of the polygons, indices in range, circulators at the vertices
of their indices) and a kernel in which the sum of two points is symmetric and
`f_equal` is reflexive: at every head of the do-while loop `curr_pt` is the
sum of the `k1`-th vertex of the first polygon and the `k2`-th vertex of the
second, in traversal order; when the loop is left the index pair is the seed
pair and `curr_pt` equals `first_pt`; and the closure assertion never fails,
whether or not segments were suppressed on the way. -/
theorem trace_closure (K : Kernel Point_2 Vector_2 Direction_2)
    (T : Tracer_input Point_2 Direction_2) (cycle_id curr1 k1 curr2 k2 : Nat)
    (used : Labels_set) (queue : Anchors_queue) (cycle : List (Labeled_segment_2 Point_2))
    (hK : Translation_laws K) (hcall : Well_formed_call T curr1 k1 curr2 k2) :
    (∀ (m : Nat) (s0 s : Tracer_state Point_2),
      cycle_init K T curr1 k1 curr2 k2 used queue cycle = Except.ok s0 →
      cycle_steps K T cycle_id m s0 = Except.ok s →
      ∃ p q, traversal_vertex T.pgn1 T.forward1 s.k1 = some p ∧
        traversal_vertex T.pgn2 T.forward2 s.k2 = some q ∧ s.curr_pt = vertex_sum K p q) ∧
    (∀ (fuel : Nat) (s0 s : Tracer_state Point_2),
      cycle_init K T curr1 k1 curr2 k2 used queue cycle = Except.ok s0 →
      cycle_loop K T cycle_id k1 k2 fuel s0 = Except.ok s →
      s.k1 = k1 ∧ s.k2 = k2 ∧ s.curr_pt = s0.curr_pt ∧
        K.f_equal_pt s.curr_pt s0.curr_pt = true) ∧
    (∀ fuel : Nat,
      _convolution_cycle K fuel cycle_id T curr1 k1 curr2 k2 used queue cycle ≠
        Except.error Failure.assertion_closed) := by
  refine ⟨?_, ?_, ?_⟩
  · intro m s0 s h0 hm
    exact inv_curr_pt hcall.size1 hcall.size2
      (cycle_steps_inv hK hcall.size1 hcall.size2 m s0 s (init_inv hcall h0) hm)
  · intro fuel s0 s h0 hl
    obtain ⟨h1, h2, h3⟩ := closed_point hK hcall h0 hl
    exact ⟨h1, h2, h3, by rw [h3]; exact hK.equal_refl _⟩
  · intro fuel hfail
    unfold _convolution_cycle at hfail
    cases h0 : cycle_init K T curr1 k1 curr2 k2 used queue cycle with
    | error e =>
      rw [h0] at hfail
      simp only [bind, Except.bind, Except.error.injEq] at hfail
      rw [cycle_init_error h0] at hfail
      cases hfail
    | ok s0 =>
      rw [h0] at hfail
      simp only [bind, Except.bind] at hfail
      cases hl : cycle_loop K T cycle_id k1 k2 fuel s0 with
      | error e =>
        rw [hl] at hfail
        simp only [Except.error.injEq] at hfail
        exact cycle_loop_error fuel s0 e hl hfail
      | ok s =>
        rw [hl] at hfail
        simp only at hfail
        obtain ⟨-, -, h3⟩ := closed_point hK hcall h0 hl
        rw [h3, hK.equal_refl] at hfail
        simp only [Bool.not_true, Bool.false_eq_true, if_false] at hfail
        cases hm : mark_last s.seg_index s.cycle with
        | error e =>
          rw [hm] at hfail
          unfold mark_last at hm
          split at hm
          · simp only [Except.error.injEq] at hm hfail
            rw [← hm] at hfail
            cases hfail
          · split_ifs at hm
        | ok c =>
          rw [hm] at hfail
          cases hfail
end Claims2

/-- Witness for claim C2 on the unit square and the dart: the call from the
seed `(0, 0)` is well formed, its trace of twelve moves (three of them with a
suppressed segment) returns to the seed with `curr_pt` back at `(0, 0)`. -/
theorem trace_closure_witness :
    Translation_laws int_kernel ∧ Well_formed_call square_dart 0 0 0 0 ∧
    ((∀ (m : Nat) (s0 s : Tracer_state (Int × Int)),
      cycle_init int_kernel square_dart 0 0 0 0 [] [] [] = Except.ok s0 →
      cycle_steps int_kernel square_dart 1 m s0 = Except.ok s →
      ∃ p q, traversal_vertex square_dart.pgn1 square_dart.forward1 s.k1 = some p ∧
        traversal_vertex square_dart.pgn2 square_dart.forward2 s.k2 = some q ∧
        s.curr_pt = vertex_sum int_kernel p q) ∧
    (∀ (fuel : Nat) (s0 s : Tracer_state (Int × Int)),
      cycle_init int_kernel square_dart 0 0 0 0 [] [] [] = Except.ok s0 →
      cycle_loop int_kernel square_dart 1 0 0 fuel s0 = Except.ok s →
      s.k1 = 0 ∧ s.k2 = 0 ∧ s.curr_pt = s0.curr_pt ∧
        int_kernel.f_equal_pt s.curr_pt s0.curr_pt = true) ∧
    (∀ fuel : Nat,
      _convolution_cycle int_kernel fuel 1 square_dart 0 0 0 0 [] [] [] ≠
        Except.error Failure.assertion_closed)) ∧
    (_convolution_cycle int_kernel 12 1 square_dart 0 0 0 0 [] [] []).toOption.map
      (fun r => (r.k1, r.k2, r.curr_pt, r.seg_index, r.cycle.length)) =
      some (0, 0, (0, 0), 12, 9) :=
  ⟨int_translation_laws, ⟨rfl, rfl, by decide, by decide, rfl, rfl⟩,
   trace_closure int_kernel square_dart 1 0 0 0 0 [] [] [] int_translation_laws
     ⟨rfl, rfl, by decide, by decide, rfl, rfl⟩,
   rfl⟩

section Claims4
variable {Point_2 Vector_2 Direction_2 : Type}

theorem inv_next1 {K : Kernel Point_2 Vector_2 Direction_2}
    {T : Tracer_input Point_2 Direction_2} {s : Tracer_state Point_2}
    (hinv : Tracer_inv K T s) :
    s.next1 = traversal_pos T.forward1 T.n1 ((s.k1 + 1) % T.n1) := by
  rw [hinv.next1_eq, hinv.curr1_eq, circ_move_traversal_pos _ hinv.k1_lt]

theorem inv_next2 {K : Kernel Point_2 Vector_2 Direction_2}
    {T : Tracer_input Point_2 Direction_2} {s : Tracer_state Point_2}
    (hinv : Tracer_inv K T s) :
    s.next2 = traversal_pos T.forward2 T.n2 ((s.k2 + 1) % T.n2) := by
  rw [hinv.next2_eq, hinv.curr2_eq, circ_move_traversal_pos _ hinv.k2_lt]

/-- Claim C4. Translated edges. In every step of a trace started by a
well-formed call of `_convolution_cycle` (kernel with a symmetric sum of
points), with `s` the state at the head of the loop and `s1` the state between
the two blocks: a move on the first polygon at `(k1, k2)` leaves `cycle`
unchanged when `is_reflex2[k2]` holds and otherwise appends exactly one
segment, from `P[k1] + Q[k2]` to `P[k1+1] + Q[k2]`; a move on the second
polygon at `(k1, k2)` leaves `cycle` unchanged when `is_reflex1[k1]` holds
and otherwise appends exactly one segment, from `P[k1] + Q[k2]` to
`P[k1] + Q[k2+1]`. The vertices are taken in traversal order and the indices
modulo the sizes. -/
theorem translated_edges (K : Kernel Point_2 Vector_2 Direction_2)
    (T : Tracer_input Point_2 Direction_2) (cycle_id curr1 k1 curr2 k2 : Nat)
    (used : Labels_set) (queue : Anchors_queue) (cycle : List (Labeled_segment_2 Point_2))
    (hK : Translation_laws K) (hcall : Well_formed_call T curr1 k1 curr2 k2)
    (m : Nat) (s0 s s2 : Tracer_state Point_2)
    (h0 : cycle_init K T curr1 k1 curr2 k2 used queue cycle = Except.ok s0)
    (hm : cycle_steps K T cycle_id m s0 = Except.ok s)
    (hstep : cycle_step K T cycle_id s = Except.ok s2) :
    ∃ (flags : Bool × Bool × Anchors_queue) (s1 : Tracer_state Point_2),
      decide_moves K T s = Except.ok flags ∧
      (if flags.1 then advance1 K T cycle_id { s with queue := flags.2.2 }
        else Except.ok { s with queue := flags.2.2 }) = Except.ok s1 ∧
      (if flags.2.1 then advance2 K T cycle_id s1 else Except.ok s1) = Except.ok s2 ∧
      (flags.1 = true → ∃ (p p_next q : Point_2) (r2 : Bool) (l : X_curve_label),
        traversal_vertex T.pgn1 T.forward1 s.k1 = some p ∧
        traversal_vertex T.pgn1 T.forward1 ((s.k1 + 1) % T.n1) = some p_next ∧
        traversal_vertex T.pgn2 T.forward2 s.k2 = some q ∧
        T.is_reflex2[s.k2]? = some r2 ∧
        s1.cycle = (if r2 then s.cycle
          else s.cycle ++ [⟨vertex_sum K p q, vertex_sum K p_next q, l⟩])) ∧
      (flags.2.1 = true → ∃ (p q q_next : Point_2) (r1 : Bool) (l : X_curve_label),
        traversal_vertex T.pgn1 T.forward1 s1.k1 = some p ∧
        traversal_vertex T.pgn2 T.forward2 s1.k2 = some q ∧
        traversal_vertex T.pgn2 T.forward2 ((s1.k2 + 1) % T.n2) = some q_next ∧
        T.is_reflex1[s1.k1]? = some r1 ∧
        s2.cycle = (if r1 then s1.cycle
          else s1.cycle ++ [⟨vertex_sum K p q, vertex_sum K p q_next, l⟩])) := by
  have hinv : Tracer_inv K T s :=
    cycle_steps_inv hK hcall.size1 hcall.size2 m s0 s (init_inv hcall h0) hm
  obtain ⟨flags, s1, hf, -, hs1, hs2⟩ := cycle_step_ok hstep
  have hinvq : Tracer_inv K T { s with queue := flags.2.2 } := queue_inv flags.2.2 hinv
  have hinv1 : Tracer_inv K T s1 := by
    cases hfl : flags.1 with
    | true =>
      rw [hfl] at hs1
      exact advance1_inv hcall.size1 hinvq hs1
    | false =>
      rw [hfl] at hs1
      simp only [Bool.false_eq_true, if_false, Except.ok.injEq] at hs1
      exact hs1 ▸ hinvq
  refine ⟨flags, s1, hf, hs1, hs2, ?_, ?_⟩
  · intro h1
    rw [h1] at hs1
    simp only [if_true] at hs1
    obtain ⟨pn, pc, r2, hpn, hpc, hr2, -, hs⟩ := advance1_ok hs1
    simp only [] at hs hpn hpc hr2
    obtain ⟨p, q, hp, hq, hpt⟩ := inv_curr_pt hcall.size1 hcall.size2 hinv
    have hq' : q = pc := by
      have := hq
      unfold traversal_vertex at this
      rw [← hcall.size2, ← hinv.curr2_eq, hpc] at this
      simp only [Option.some.injEq] at this
      exact this.symm
    have hpn' : traversal_vertex T.pgn1 T.forward1 ((s.k1 + 1) % T.n1) = some pn := by
      unfold traversal_vertex
      rw [← hcall.size1, ← inv_next1 hinv]; exact hpn
    refine ⟨p, pn, q, r2,
      ⟨decide (K.f_compare_xy s.curr_pt (vertex_sum K pn pc) = Comparison_result.SMALLER),
        cycle_id, s.seg_index, MOVE_ON_1, false⟩, hp, hpn', hq, hr2, ?_⟩
    rw [hs]; simp only; rw [hpt, hq']
  · intro h2
    rw [h2] at hs2
    simp only [if_true] at hs2
    obtain ⟨pn, pc, r1, hpn, hpc, hr1, -, hs⟩ := advance2_ok hs2
    obtain ⟨p, q, hp, hq, hpt⟩ := inv_curr_pt hcall.size1 hcall.size2 hinv1
    have hp' : p = pc := by
      have := hp
      unfold traversal_vertex at this
      rw [← hcall.size1, ← hinv1.curr1_eq, hpc] at this
      simp only [Option.some.injEq] at this
      exact this.symm
    have hpn' : traversal_vertex T.pgn2 T.forward2 ((s1.k2 + 1) % T.n2) = some pn := by
      unfold traversal_vertex
      rw [← hcall.size2, ← inv_next2 hinv1]; exact hpn
    refine ⟨p, q, pn, r1,
      ⟨decide (K.f_compare_xy s1.curr_pt (vertex_sum K pn pc) = Comparison_result.SMALLER),
        cycle_id, s1.seg_index, MOVE_ON_2, false⟩, hp, hq, hpn', hr1, ?_⟩
    rw [hs]; simp only; rw [hpt, hp', hK.sum_comm pn pc]

end Claims4

/-- Witness for claim C4 on the two unit squares: the first step from the
seed `(0, 0)` appends the edge of the first square translated by `Q[0]`, from
`(0,0)` to `(1,0)`, and then the edge of the second square translated by
`P[1]`, from `(1,0)` to `(2,0)`. -/
theorem translated_edges_witness :
    Translation_laws int_kernel ∧ Well_formed_call two_squares 0 0 0 0 ∧
    cycle_init int_kernel two_squares 0 0 0 0 [] [] [] = Except.ok two_squares_start ∧
    cycle_steps int_kernel two_squares 1 0 two_squares_start = Except.ok two_squares_start ∧
    cycle_step int_kernel two_squares 1 two_squares_start = Except.ok two_squares_step1 ∧
    ∃ (flags : Bool × Bool × Anchors_queue) (s1 : Tracer_state (Int × Int)),
      decide_moves int_kernel two_squares two_squares_start = Except.ok flags ∧
      (if flags.1 then
          advance1 int_kernel two_squares 1 { two_squares_start with queue := flags.2.2 }
        else Except.ok { two_squares_start with queue := flags.2.2 }) = Except.ok s1 ∧
      (if flags.2.1 then advance2 int_kernel two_squares 1 s1 else Except.ok s1) =
        Except.ok two_squares_step1 ∧
      (flags.1 = true → ∃ (p p_next q : Int × Int) (r2 : Bool) (l : X_curve_label),
        traversal_vertex two_squares.pgn1 two_squares.forward1 two_squares_start.k1 = some p ∧
        traversal_vertex two_squares.pgn1 two_squares.forward1
          ((two_squares_start.k1 + 1) % two_squares.n1) = some p_next ∧
        traversal_vertex two_squares.pgn2 two_squares.forward2 two_squares_start.k2 = some q ∧
        two_squares.is_reflex2[two_squares_start.k2]? = some r2 ∧
        s1.cycle = (if r2 then two_squares_start.cycle
          else two_squares_start.cycle ++
            [⟨vertex_sum int_kernel p q, vertex_sum int_kernel p_next q, l⟩])) ∧
      (flags.2.1 = true → ∃ (p q q_next : Int × Int) (r1 : Bool) (l : X_curve_label),
        traversal_vertex two_squares.pgn1 two_squares.forward1 s1.k1 = some p ∧
        traversal_vertex two_squares.pgn2 two_squares.forward2 s1.k2 = some q ∧
        traversal_vertex two_squares.pgn2 two_squares.forward2
          ((s1.k2 + 1) % two_squares.n2) = some q_next ∧
        two_squares.is_reflex1[s1.k1]? = some r1 ∧
        two_squares_step1.cycle = (if r1 then s1.cycle
          else s1.cycle ++ [⟨vertex_sum int_kernel p q, vertex_sum int_kernel p q_next, l⟩])) :=
  ⟨int_translation_laws, ⟨rfl, rfl, by decide, by decide, rfl, rfl⟩, rfl, rfl, rfl,
   translated_edges int_kernel two_squares 1 0 0 0 0 [] [] [] int_translation_laws
     ⟨rfl, rfl, by decide, by decide, rfl, rfl⟩ 0 two_squares_start two_squares_start
     two_squares_step1 rfl rfl rfl⟩

/-! ## The preprocessing loops -/


theorem traversal_pos_add_size (forward : Bool) (n k : Nat) :
    traversal_pos forward n (k + n) = traversal_pos forward n k := by
  unfold traversal_pos
  rw [Nat.add_mod_right]

theorem traversal_pos_mod (forward : Bool) (n k : Nat) :
    traversal_pos forward n (k % n) = traversal_pos forward n k := by
  unfold traversal_pos
  rw [Nat.mod_mod]

theorem traversal_pos_zero (forward : Bool) (n : Nat) : traversal_pos forward n 0 = 0 := by
  unfold traversal_pos
  cases forward <;> simp

theorem circ_back_zero (forward : Bool) {n : Nat} (hn : 0 < n) :
    circ_back forward n 0 = traversal_pos forward n (0 + n - 1) := by
  unfold circ_back traversal_pos circ_pred circ_succ
  cases forward with
  | true => simp
  | false =>
    simp only [Bool.false_eq_true, if_false, Nat.zero_add]
    rw [Nat.mod_eq_of_lt (by omega : n - 1 < n)]
    rw [show n - (n - 1) = 1 by omega]

section Tables
variable {Point_2 Vector_2 Direction_2 : Type}

theorem deref_traversal (K : Kernel Point_2 Vector_2 Direction_2) (pgn : List Point_2)
    (forward : Bool) (k : Nat) (hn : 0 < pgn.length) :
    deref pgn (traversal_pos forward pgn.length k) =
      Except.ok (traversal_point K pgn forward k) := by
  unfold deref
  rw [vector_get_eq_ok]
  unfold traversal_point
  have hlt := traversal_pos_lt forward k hn
  rw [List.getD_eq_getElem?_getD, List.getElem?_eq_getElem hlt]
  rfl

end Tables

section SecondPolygon
variable {Point_2 Vector_2 Direction_2 : Type}


theorem second_polygon_body_ok (K : Kernel Point_2 Vector_2 Direction_2)
    (pgn : List Point_2) (forward : Bool) (k : Nat) (st : Prep2_state Direction_2)
    (hk : k < pgn.length) (hinv : Prep2_inv K pgn forward k st) :
    second_polygon_body K pgn forward k st = Except.ok
      { prev2 := st.curr2
        curr2 := traversal_pos forward pgn.length (k + 1)
        next2 := traversal_pos forward pgn.length (k + 1)
        dirs2 := st.dirs2.set k (edge_direction K pgn forward k)
        is_reflex2 := st.is_reflex2.set k (reflex_at K pgn forward k)
        bottom_left :=
          if k = 0 then (st.curr2, 0)
          else if K.f_compare_xy (traversal_point K pgn forward k)
              (traversal_point K pgn forward st.bottom_left.2) = Comparison_result.SMALLER
            then (st.curr2, k)
          else st.bottom_left
        is_convex2 := if reflex_at K pgn forward k then false else st.is_convex2
        reflex_vertices :=
          if reflex_at K pgn forward k then st.reflex_vertices ++ [(st.curr2, k)]
          else st.reflex_vertices } := by
  have hn : 0 < pgn.length := by omega
  have hnext : circ_move forward pgn.length st.next2 =
      traversal_pos forward pgn.length (k + 1) := by
    rw [hinv.next_eq, hinv.curr_eq, circ_move_traversal_pos forward hk, traversal_pos_mod]
  have hc := deref_traversal K pgn forward k hn
  rw [← hinv.curr_eq] at hc
  have hp := deref_traversal K pgn forward (k + pgn.length - 1) hn
  rw [← hinv.prev_eq] at hp
  have hnx := deref_traversal K pgn forward (k + 1) hn
  have hs1 : vector_set st.is_reflex2 k (reflex_at K pgn forward k) =
      Except.ok (st.is_reflex2.set k (reflex_at K pgn forward k)) := by
    unfold vector_set
    rw [if_pos (by rw [hinv.reflex_length]; exact hk)]
  have hs2 : vector_set st.dirs2 k (edge_direction K pgn forward k) =
      Except.ok (st.dirs2.set k (edge_direction K pgn forward k)) := by
    unfold vector_set
    rw [if_pos (by rw [hinv.dirs_length]; exact hk)]
  unfold second_polygon_body
  rw [hnext, hc]
  simp only [bind, Except.bind]
  by_cases hk0 : k = 0
  · simp only [hk0, if_true, pure, Except.pure]
    rw [hk0] at hp hnx hs1 hs2
    rw [hp, hnx]
    simp only []
    unfold reflex_at at hs1
    unfold edge_direction at hs2
    unfold reflex_at edge_direction
    simp only [Nat.zero_add] at hs1 hs2 hp hnx ⊢
    rw [hs1]
    simp only []
    rw [hs2]
  · rcases hinv.bottom_ref with h0 | ⟨b, hb, hbl⟩
    · exact absurd h0 hk0
    · have hb' := deref_traversal K pgn forward b hn
      have hb1 : st.bottom_left.1 = traversal_pos forward pgn.length b := by rw [hbl]
      have hb2 : st.bottom_left.2 = b := by rw [hbl]
      rw [← hb1] at hb'
      simp only [hk0, if_false, hb', pure, Except.pure]
      rw [hp, hnx]
      unfold reflex_at at hs1
      unfold edge_direction at hs2
      unfold reflex_at edge_direction
      rw [hb2]
      by_cases hcmp : K.f_compare_xy (traversal_point K pgn forward k)
          (traversal_point K pgn forward b) = Comparison_result.SMALLER
      · simp only [hcmp, if_true]
        rw [hs1]
        simp only []
        rw [hs2]
      · simp only [hcmp, if_false]
        rw [hs1]
        simp only []
        rw [hs2]

end SecondPolygon

section SecondPolygonInv
variable {Point_2 Vector_2 Direction_2 : Type}

theorem second_polygon_body_inv (K : Kernel Point_2 Vector_2 Direction_2)
    (pgn : List Point_2) (forward : Bool) (k : Nat) (st st1 : Prep2_state Direction_2)
    (hk : k < pgn.length) (hinv : Prep2_inv K pgn forward k st)
    (h : second_polygon_body K pgn forward k st = Except.ok st1) :
    Prep2_inv K pgn forward (k + 1) st1 := by
  rw [second_polygon_body_ok K pgn forward k st hk hinv] at h
  simp only [Except.ok.injEq] at h
  subst h
  refine
    { curr_eq := rfl
      next_eq := rfl
      prev_eq := ?_
      dirs_length := by simp only [List.length_set]; exact hinv.dirs_length
      reflex_length := by simp only [List.length_set]; exact hinv.reflex_length
      dirs_eq := ?_
      reflex_eq := ?_
      seeds_eq := ?_
      bottom_ref := ?_ }
  · simp only
    rw [hinv.curr_eq, show k + 1 + pgn.length - 1 = k + pgn.length by omega,
      traversal_pos_add_size]
  · intro j hj
    simp only
    by_cases hjk : j = k
    · subst hjk
      rw [List.getElem?_set_self (by rw [hinv.dirs_length]; exact hk)]
    · rw [List.getElem?_set_ne (fun h => hjk h.symm)]
      exact hinv.dirs_eq j (by omega)
  · intro j hj
    simp only
    by_cases hjk : j = k
    · subst hjk
      rw [List.getElem?_set_self (by rw [hinv.reflex_length]; exact hk)]
    · rw [List.getElem?_set_ne (fun h => hjk h.symm)]
      exact hinv.reflex_eq j (by omega)
  · simp only
    rw [List.range_succ, List.filter_append, List.map_append, ← hinv.seeds_eq, hinv.curr_eq]
    cases hr : reflex_at K pgn forward k <;> simp [hr]
  · right
    simp only
    by_cases hk0 : k = 0
    · refine ⟨0, by omega, ?_⟩
      simp only [hk0, if_true]
      rw [hinv.curr_eq, hk0]
    · rcases hinv.bottom_ref with h0 | ⟨b, hb, hbl⟩
      · exact absurd h0 hk0
      · simp only [hk0, if_false]
        split_ifs
        · exact ⟨k, by omega, by rw [hinv.curr_eq]⟩
        · exact ⟨b, by omega, hbl⟩

theorem second_polygon_body_bottom (K : Kernel Point_2 Vector_2 Direction_2)
    (hlaws : Compare_laws K)
    (pgn : List Point_2) (forward : Bool) (k : Nat) (st st1 : Prep2_state Direction_2)
    (hk : k < pgn.length) (hinv : Prep2_inv K pgn forward k st)
    (hbot : k = 0 ∨ Bottom_inv K pgn forward k st)
    (h : second_polygon_body K pgn forward k st = Except.ok st1) :
    Bottom_inv K pgn forward (k + 1) st1 := by
  rw [second_polygon_body_ok K pgn forward k st hk hinv] at h
  simp only [Except.ok.injEq] at h
  subst h
  unfold Bottom_inv
  simp only
  by_cases hk0 : k = 0
  · simp only [hk0, if_true]
    constructor
    · intro j hj
      have : j = 0 := by omega
      subst this
      exact hlaws.irrefl _
    · intro j hj
      omega
  · rcases hbot with h0 | ⟨hmin, hfirst⟩
    · exact absurd h0 hk0
    · simp only [hk0, if_false]
      by_cases hcmp : K.f_compare_xy (traversal_point K pgn forward k)
          (traversal_point K pgn forward st.bottom_left.2) = Comparison_result.SMALLER
      · simp only [hcmp, if_true]
        constructor
        · intro j hj
          by_cases hjk : j = k
          · subst hjk
            exact hlaws.irrefl _
          · intro hc
            exact hmin j (by omega) (hlaws.trans _ _ _ hc hcmp)
        · intro j hj
          by_contra hc
          exact hlaws.neg_trans _ _ _ hc (hmin j hj) hcmp
      · simp only [hcmp, if_false]
        constructor
        · intro j hj
          by_cases hjk : j = k
          · subst hjk
            exact hcmp
          · exact hmin j (by omega)
        · exact hfirst

theorem second_polygon_init_inv (K : Kernel Point_2 Vector_2 Direction_2)
    (pgn : List Point_2) (forward : Bool) (hn : 0 < pgn.length) :
    Prep2_inv K pgn forward 0
      { prev2 := circ_back forward pgn.length 0, curr2 := 0, next2 := 0,
        dirs2 := List.replicate pgn.length K.default_direction,
        is_reflex2 := List.replicate pgn.length false,
        bottom_left := (0, 0), is_convex2 := true, reflex_vertices := [] } :=
  { curr_eq := (traversal_pos_zero forward pgn.length).symm
    next_eq := rfl
    prev_eq := circ_back_zero forward hn
    dirs_length := List.length_replicate _ _
    reflex_length := List.length_replicate _ _
    dirs_eq := fun j hj => absurd hj (Nat.not_lt_zero j)
    reflex_eq := fun j hj => absurd hj (Nat.not_lt_zero j)
    seeds_eq := rfl
    bottom_ref := Or.inl rfl }

/-- The loop over the second polygon completes, and its result satisfies
the invariant at `k = n2`. -/
theorem second_polygon_tables_ok (K : Kernel Point_2 Vector_2 Direction_2)
    (pgn : List Point_2) (hn : 0 < pgn.length) :
    ∃ st, second_polygon_tables K pgn = Except.ok st ∧
      Prep2_inv K pgn (forward_of K pgn) pgn.length st := by
  unfold second_polygon_tables
  simp only []
  have hstep : ∀ k st st1, k < pgn.length → Prep2_inv K pgn (forward_of K pgn) k st →
      second_polygon_body K pgn (forward_of K pgn) k st = Except.ok st1 →
      Prep2_inv K pgn (forward_of K pgn) (k + 1) st1 :=
    fun k st st1 hk hinv h => second_polygon_body_inv K pgn _ k st st1 hk hinv h
  have hprog : ∀ k st, k < pgn.length → Prep2_inv K pgn (forward_of K pgn) k st →
      ∃ st1, second_polygon_body K pgn (forward_of K pgn) k st = Except.ok st1 :=
    fun k st hk hinv => ⟨_, second_polygon_body_ok K pgn _ k st hk hinv⟩
  have h0 := second_polygon_init_inv K pgn (forward_of K pgn) hn
  obtain ⟨st1, h1⟩ := for_loop_total (Prep2_inv K pgn (forward_of K pgn)) pgn.length
    hstep hprog pgn.length 0 _ (by omega) h0
  refine ⟨st1, h1, ?_⟩
  have := for_loop_inv (Prep2_inv K pgn (forward_of K pgn)) pgn.length hstep
    pgn.length 0 _ st1 (by omega) h0 h1
  rw [Nat.zero_add] at this
  exact this

theorem second_polygon_tables_bottom (K : Kernel Point_2 Vector_2 Direction_2)
    (hlaws : Compare_laws K) (pgn : List Point_2) (hn : 0 < pgn.length)
    (st : Prep2_state Direction_2) (h : second_polygon_tables K pgn = Except.ok st) :
    Bottom_inv K pgn (forward_of K pgn) pgn.length st := by
  unfold second_polygon_tables at h
  simp only [] at h
  have h0 := second_polygon_init_inv K pgn (forward_of K pgn) hn
  have := for_loop_inv
    (fun k st => Prep2_inv K pgn (forward_of K pgn) k st ∧
      (k = 0 ∨ Bottom_inv K pgn (forward_of K pgn) k st)) pgn.length
    (fun k st st1 hk hinv hb =>
      ⟨second_polygon_body_inv K pgn _ k st st1 hk hinv.1 hb,
       Or.inr (second_polygon_body_bottom K hlaws pgn _ k st st1 hk hinv.1 hinv.2 hb)⟩)
    pgn.length 0 _ st (by omega) ⟨h0, Or.inl rfl⟩ h
  rw [Nat.zero_add] at this
  rcases this.2 with h | h
  · omega
  · exact h

end SecondPolygonInv

theorem int_compare_smaller_iff (p q : Int × Int) :
    int_compare_xy p q = Comparison_result.SMALLER ↔
      p.1 < q.1 ∨ (p.1 = q.1 ∧ p.2 < q.2) := by
  unfold int_compare_xy
  split_ifs <;> simp <;> omega

theorem int_compare_laws : Compare_laws int_kernel :=
  { irrefl := by
      intro p
      show int_compare_xy p p ≠ Comparison_result.SMALLER
      rw [Ne, int_compare_smaller_iff]
      omega
    trans := by
      intro p q r h1 h2
      show int_compare_xy p r = Comparison_result.SMALLER
      have h1' := (int_compare_smaller_iff p q).mp h1
      have h2' := (int_compare_smaller_iff q r).mp h2
      rw [int_compare_smaller_iff]
      omega
    neg_trans := by
      intro p q r h1 h2
      show int_compare_xy p r ≠ Comparison_result.SMALLER
      have h1' : ¬ (p.1 < q.1 ∨ (p.1 = q.1 ∧ p.2 < q.2)) :=
        fun h => h1 ((int_compare_smaller_iff p q).mpr h)
      have h2' : ¬ (q.1 < r.1 ∨ (q.1 = r.1 ∧ q.2 < r.2)) :=
        fun h => h2 ((int_compare_smaller_iff q r).mpr h)
      rw [Ne, int_compare_smaller_iff]
      omega }

section Claims8
variable {Point_2 Vector_2 Direction_2 : Type}

/-- Claim C8. Bottom-left vertex. For every second polygon with at least one
vertex and a kernel whose lexicographic comparison is a strict weak order, the
preprocessing loop completes and afterwards `bottom_left` is the pair of a
circulator and an index `b < n2` of the same vertex, no vertex compares
`SMALLER` than that vertex, and `b` is the first index in traversal order at
which this minimum is attained: any index whose vertex is also minimal is at
least `b`. -/
theorem bottom_left_is_first_minimum (K : Kernel Point_2 Vector_2 Direction_2)
    (pgn2 : List Point_2) (hlaws : Compare_laws K) (hn : 1 ≤ pgn2.length) :
    ∃ (st : Prep2_state Direction_2) (b : Nat),
      second_polygon_tables K pgn2 = Except.ok st ∧
      b < pgn2.length ∧
      st.bottom_left = (traversal_pos (forward_of K pgn2) pgn2.length b, b) ∧
      deref pgn2 st.bottom_left.1 =
        Except.ok (traversal_point K pgn2 (forward_of K pgn2) b) ∧
      (∀ j, j < pgn2.length →
        K.f_compare_xy (traversal_point K pgn2 (forward_of K pgn2) j)
          (traversal_point K pgn2 (forward_of K pgn2) b) ≠ Comparison_result.SMALLER) ∧
      (∀ j, j < pgn2.length →
        (∀ i, i < pgn2.length →
          K.f_compare_xy (traversal_point K pgn2 (forward_of K pgn2) i)
            (traversal_point K pgn2 (forward_of K pgn2) j) ≠ Comparison_result.SMALLER) →
        b ≤ j) := by
  obtain ⟨st, hst, hinv⟩ := second_polygon_tables_ok K pgn2 (by omega)
  have hbot := second_polygon_tables_bottom K hlaws pgn2 (by omega) st hst
  rcases hinv.bottom_ref with h0 | ⟨b, hb, hbl⟩
  · omega
  · have hb2 : st.bottom_left.2 = b := by rw [hbl]
    unfold Bottom_inv at hbot
    rw [hb2] at hbot
    refine ⟨st, b, hst, hb, hbl, ?_, hbot.1, ?_⟩
    · rw [hbl]
      exact deref_traversal K pgn2 _ b (by omega)
    · intro j hj hmin
      by_contra hlt
      exact hmin b hb (hbot.2 j (by omega))

end Claims8

/-- Witness for claim C8 on the unit square stored from `(1,0)`: the loop
returns the bottom-left vertex `(0,0)` with index 3. -/
theorem bottom_left_is_first_minimum_witness :
    Compare_laws int_kernel ∧ 1 ≤ rotated_square.length ∧
    (second_polygon_tables int_kernel rotated_square).toOption.map
      (fun st => st.bottom_left) = some (3, 3) ∧
    deref rotated_square 3 = Except.ok (0, 0) ∧
    ∃ (st : Prep2_state (Int × Int)) (b : Nat),
      second_polygon_tables int_kernel rotated_square = Except.ok st ∧
      b < rotated_square.length ∧
      st.bottom_left =
        (traversal_pos (forward_of int_kernel rotated_square) rotated_square.length b, b) ∧
      deref rotated_square st.bottom_left.1 =
        Except.ok (traversal_point int_kernel rotated_square
          (forward_of int_kernel rotated_square) b) ∧
      (∀ j, j < rotated_square.length →
        int_kernel.f_compare_xy
          (traversal_point int_kernel rotated_square (forward_of int_kernel rotated_square) j)
          (traversal_point int_kernel rotated_square (forward_of int_kernel rotated_square) b)
          ≠ Comparison_result.SMALLER) ∧
      (∀ j, j < rotated_square.length →
        (∀ i, i < rotated_square.length →
          int_kernel.f_compare_xy
            (traversal_point int_kernel rotated_square
              (forward_of int_kernel rotated_square) i)
            (traversal_point int_kernel rotated_square
              (forward_of int_kernel rotated_square) j) ≠ Comparison_result.SMALLER) →
        b ≤ j) :=
  ⟨int_compare_laws, by decide, rfl, rfl,
   bottom_left_is_first_minimum int_kernel rotated_square int_compare_laws (by decide)⟩

section Claims9
variable {Point_2 Vector_2 Direction_2 : Type}

theorem reflex_table_eq (K : Kernel Point_2 Vector_2 Direction_2) (pgn : List Point_2)
    (st : Prep2_state Direction_2)
    (hinv : Prep2_inv K pgn (forward_of K pgn) pgn.length st) :
    st.is_reflex2 = (List.range pgn.length).map (reflex_at K pgn (forward_of K pgn)) := by
  apply List.ext_getElem?
  intro i
  by_cases hi : i < pgn.length
  · rw [hinv.reflex_eq i hi, List.getElem?_map, List.getElem?_range hi]
    rfl
  · rw [List.getElem?_eq_none (by rw [hinv.reflex_length]; omega),
      List.getElem?_eq_none (by simp; omega)]

/-- Claim C9. Seed list. For every second polygon the preprocessing loop
completes; the table `is_reflex2` it fills holds, at every traversal index
`k2`, whether the predecessor, the vertex and the successor of `k2` in
traversal order make a right turn; and the list the seeder iterates over is
`bottom_left` followed by exactly the vertices `k2` with `is_reflex2[k2]` true,
that is, the vertices that make a right turn, in increasing traversal index,
each with the circulator of that vertex. When no vertex makes a right turn the
list is the single seed `bottom_left`. For a polygon with at least one vertex
`bottom_left` is a vertex of the polygon with its traversal index, and for a
comparison that is a strict weak order it is the first vertex than which no
vertex compares `SMALLER`. -/
theorem seed_list_is_bottom_left_then_reflex (K : Kernel Point_2 Vector_2 Direction_2)
    (pgn2 : List Point_2) :
    ∃ st : Prep2_state Direction_2,
      second_polygon_tables K pgn2 = Except.ok st ∧
      st.is_reflex2 =
        (List.range pgn2.length).map (reflex_at K pgn2 (forward_of K pgn2)) ∧
      seed_list K pgn2 = Except.ok (st.bottom_left ::
        ((List.range pgn2.length).filter (fun k => st.is_reflex2.getD k false)).map
          (fun k => (traversal_pos (forward_of K pgn2) pgn2.length k, k))) ∧
      seed_list K pgn2 = Except.ok (st.bottom_left ::
        ((List.range pgn2.length).filter (reflex_at K pgn2 (forward_of K pgn2))).map
          (fun k => (traversal_pos (forward_of K pgn2) pgn2.length k, k))) ∧
      ((∀ k, k < pgn2.length → reflex_at K pgn2 (forward_of K pgn2) k = false) →
        seed_list K pgn2 = Except.ok [st.bottom_left]) ∧
      (1 ≤ pgn2.length → ∃ b, b < pgn2.length ∧
        st.bottom_left = (traversal_pos (forward_of K pgn2) pgn2.length b, b) ∧
        deref pgn2 st.bottom_left.1 =
          Except.ok (traversal_point K pgn2 (forward_of K pgn2) b) ∧
        (Compare_laws K →
          (∀ j, j < pgn2.length →
            K.f_compare_xy (traversal_point K pgn2 (forward_of K pgn2) j)
              (traversal_point K pgn2 (forward_of K pgn2) b) ≠ Comparison_result.SMALLER) ∧
          (∀ j, j < pgn2.length →
            (∀ i, i < pgn2.length →
              K.f_compare_xy (traversal_point K pgn2 (forward_of K pgn2) i)
                (traversal_point K pgn2 (forward_of K pgn2) j) ≠
                  Comparison_result.SMALLER) →
            b ≤ j))) := by
  have key : ∃ st : Prep2_state Direction_2,
      second_polygon_tables K pgn2 = Except.ok st ∧
      st.is_reflex2 =
        (List.range pgn2.length).map (reflex_at K pgn2 (forward_of K pgn2)) ∧
      st.reflex_vertices =
        ((List.range pgn2.length).filter (reflex_at K pgn2 (forward_of K pgn2))).map
          (fun k => (traversal_pos (forward_of K pgn2) pgn2.length k, k)) ∧
      (1 ≤ pgn2.length → ∃ b, b < pgn2.length ∧
        st.bottom_left = (traversal_pos (forward_of K pgn2) pgn2.length b, b)) := by
    rcases Nat.eq_zero_or_pos pgn2.length with h0 | hpos
    · have hnil : pgn2 = [] := List.length_eq_zero.mp h0
      subst hnil
      exact ⟨_, rfl, rfl, rfl, fun h => absurd h (by simp)⟩
    · obtain ⟨st, hst, hinv⟩ := second_polygon_tables_ok K pgn2 hpos
      refine ⟨st, hst, reflex_table_eq K pgn2 st hinv, hinv.seeds_eq, fun _ => ?_⟩
      rcases hinv.bottom_ref with h0 | ⟨b, hb, hbl⟩
      · omega
      · exact ⟨b, hb, hbl⟩
  obtain ⟨st, hst, htable, hseeds, hbottom⟩ := key
  have hlist : seed_list K pgn2 = Except.ok (st.bottom_left :: st.reflex_vertices) := by
    unfold seed_list
    rw [hst]
    rfl
  have hfilter : (List.range pgn2.length).filter (fun k => st.is_reflex2.getD k false) =
      (List.range pgn2.length).filter (reflex_at K pgn2 (forward_of K pgn2)) := by
    apply List.filter_congr
    intro k hk
    have hk2 : k < pgn2.length := List.mem_range.mp hk
    rw [htable, List.getD_eq_getElem?_getD, List.getElem?_map, List.getElem?_range hk2]
    rfl
  refine ⟨st, hst, htable, ?_, ?_, ?_, ?_⟩
  · rw [hlist, hseeds, hfilter]
  · rw [hlist, hseeds]
  · intro hnone
    rw [hlist, hseeds]
    have : (List.range pgn2.length).filter (reflex_at K pgn2 (forward_of K pgn2)) = [] := by
      rw [List.filter_eq_nil_iff]
      intro k hk
      rw [hnone k (List.mem_range.mp hk)]
      simp
    rw [this]
    rfl
  · intro hn
    obtain ⟨b, hb, hbl⟩ := hbottom hn
    refine ⟨b, hb, hbl, ?_, fun hlaws => ?_⟩
    · rw [hbl]
      exact deref_traversal K pgn2 _ b (by omega)
    · have hbot := second_polygon_tables_bottom K hlaws pgn2 (by omega) st hst
      have hb2 : st.bottom_left.2 = b := by rw [hbl]
      unfold Bottom_inv at hbot
      rw [hb2] at hbot
      refine ⟨hbot.1, ?_⟩
      intro j hj hmin
      by_contra hlt
      exact hmin b hb (hbot.2 j (by omega))

end Claims9

/-- Witness for claim C9: the seeds of the unit square (no vertex makes a
right turn) are its bottom-left vertex alone; the seeds of the dart stored
clockwise are its bottom-left vertex followed by its reflex vertex, which has
index 1 in traversal order and position 3 in the stored sequence. -/
theorem seed_list_is_bottom_left_then_reflex_witness :
    seed_list int_kernel unit_square = Except.ok [(0, 0)] ∧
    seed_list int_kernel clockwise_dart = Except.ok [(0, 0), (3, 1)] ∧
    forward_of int_kernel clockwise_dart = false ∧
    (List.range clockwise_dart.length).map
      (reflex_at int_kernel clockwise_dart (forward_of int_kernel clockwise_dart)) =
        [false, true, false, false] ∧
    ∃ st : Prep2_state (Int × Int),
      second_polygon_tables int_kernel clockwise_dart = Except.ok st ∧
      st.is_reflex2 = (List.range clockwise_dart.length).map
        (reflex_at int_kernel clockwise_dart (forward_of int_kernel clockwise_dart)) ∧
      seed_list int_kernel clockwise_dart = Except.ok (st.bottom_left ::
        ((List.range clockwise_dart.length).filter
          (reflex_at int_kernel clockwise_dart (forward_of int_kernel clockwise_dart))).map
          (fun k => (traversal_pos (forward_of int_kernel clockwise_dart)
            clockwise_dart.length k, k))) ∧
      ∃ b, b < clockwise_dart.length ∧
        st.bottom_left = (traversal_pos (forward_of int_kernel clockwise_dart)
          clockwise_dart.length b, b) ∧
        (∀ j, j < clockwise_dart.length →
          int_kernel.f_compare_xy
            (traversal_point int_kernel clockwise_dart
              (forward_of int_kernel clockwise_dart) j)
            (traversal_point int_kernel clockwise_dart
              (forward_of int_kernel clockwise_dart) b) ≠ Comparison_result.SMALLER) := by
  refine ⟨rfl, rfl, rfl, rfl, ?_⟩
  obtain ⟨st, h1, h2, -, h4, -, h6⟩ :=
    seed_list_is_bottom_left_then_reflex int_kernel clockwise_dart
  obtain ⟨b, hb, hbl, -, hmin⟩ := h6 (by decide)
  exact ⟨st, h1, h2, h4, b, hb, hbl, (hmin int_compare_laws).1⟩

section FirstPolygon
variable {Point_2 Vector_2 Direction_2 : Type}

theorem first_polygon_body_ok (K : Kernel Point_2 Vector_2 Direction_2)
    (pgn : List Point_2) (forward : Bool) (size k : Nat) (st : Prep1_state Direction_2)
    (hk : k < pgn.length) (hsize : k < size) (hinv : Prep1_inv K pgn forward size k st) :
    first_polygon_body K pgn forward k st = Except.ok
      { prev1 := st.curr1
        curr1 := traversal_pos forward pgn.length (k + 1)
        next1 := traversal_pos forward pgn.length (k + 1)
        dirs1 := st.dirs1.set k (edge_direction K pgn forward k)
        is_reflex1 := st.is_reflex1.set k (reflex_at K pgn forward k) } := by
  have hn : 0 < pgn.length := by omega
  have hnext : circ_move forward pgn.length st.next1 =
      traversal_pos forward pgn.length (k + 1) := by
    rw [hinv.next_eq, hinv.curr_eq, circ_move_traversal_pos forward hk, traversal_pos_mod]
  have hc := deref_traversal K pgn forward k hn
  rw [← hinv.curr_eq] at hc
  have hp := deref_traversal K pgn forward (k + pgn.length - 1) hn
  rw [← hinv.prev_eq] at hp
  have hnx := deref_traversal K pgn forward (k + 1) hn
  have hs1 : vector_set st.is_reflex1 k (reflex_at K pgn forward k) =
      Except.ok (st.is_reflex1.set k (reflex_at K pgn forward k)) := by
    unfold vector_set
    rw [if_pos (by rw [hinv.reflex_length]; exact hsize)]
  have hs2 : vector_set st.dirs1 k (edge_direction K pgn forward k) =
      Except.ok (st.dirs1.set k (edge_direction K pgn forward k)) := by
    unfold vector_set
    rw [if_pos (by rw [hinv.dirs_length]; exact hk)]
  unfold first_polygon_body
  rw [hnext, hp, hc]
  simp only [bind, Except.bind, hnx]
  unfold reflex_at at hs1
  unfold edge_direction at hs2
  unfold reflex_at edge_direction
  rw [hs1]
  simp only []
  rw [hs2]
  rfl

theorem first_polygon_body_inv (K : Kernel Point_2 Vector_2 Direction_2)
    (pgn : List Point_2) (forward : Bool) (size k : Nat) (st st1 : Prep1_state Direction_2)
    (hk : k < pgn.length) (hsize : k < size) (hinv : Prep1_inv K pgn forward size k st)
    (h : first_polygon_body K pgn forward k st = Except.ok st1) :
    Prep1_inv K pgn forward size (k + 1) st1 := by
  rw [first_polygon_body_ok K pgn forward size k st hk hsize hinv] at h
  simp only [Except.ok.injEq] at h
  subst h
  refine
    { curr_eq := rfl
      next_eq := rfl
      prev_eq := ?_
      dirs_length := by simp only [List.length_set]; exact hinv.dirs_length
      reflex_length := by simp only [List.length_set]; exact hinv.reflex_length
      dirs_eq := ?_
      reflex_eq := ?_ }
  · simp only
    rw [hinv.curr_eq, show k + 1 + pgn.length - 1 = k + pgn.length by omega,
      traversal_pos_add_size]
  · intro j hj
    simp only
    by_cases hjk : j = k
    · subst hjk
      rw [List.getElem?_set_self (by rw [hinv.dirs_length]; exact hk)]
    · rw [List.getElem?_set_ne (fun h => hjk h.symm)]
      exact hinv.dirs_eq j (by omega)
  · intro j hj
    simp only
    by_cases hjk : j = k
    · subst hjk
      rw [List.getElem?_set_self (by rw [hinv.reflex_length]; exact hsize)]
    · rw [List.getElem?_set_ne (fun h => hjk h.symm)]
      exact hinv.reflex_eq j (by omega)

theorem first_polygon_init_inv (K : Kernel Point_2 Vector_2 Direction_2)
    (pgn : List Point_2) (forward : Bool) (size : Nat) (hn : 0 < pgn.length) :
    Prep1_inv K pgn forward size 0
      { prev1 := circ_back forward pgn.length 0, curr1 := 0, next1 := 0,
        dirs1 := List.replicate pgn.length K.default_direction,
        is_reflex1 := List.replicate size false } :=
  { curr_eq := (traversal_pos_zero forward pgn.length).symm
    next_eq := rfl
    prev_eq := circ_back_zero forward hn
    dirs_length := List.length_replicate _ _
    reflex_length := List.length_replicate _ _
    dirs_eq := fun j hj => absurd hj (Nat.not_lt_zero j)
    reflex_eq := fun j hj => absurd hj (Nat.not_lt_zero j) }

/-- When the first polygon has at most as many vertices as the second, the
loop over the first polygon completes and fills both tables as specified. -/
theorem first_polygon_tables_ok (K : Kernel Point_2 Vector_2 Direction_2)
    (pgn : List Point_2) (n2 : Nat) (hn : 0 < pgn.length) (hle : pgn.length ≤ n2) :
    ∃ st, first_polygon_tables K pgn n2 = Except.ok st ∧
      Prep1_inv K pgn (forward_of K pgn) n2 pgn.length st := by
  unfold first_polygon_tables
  simp only []
  have hstep : ∀ k st st1, k < pgn.length → Prep1_inv K pgn (forward_of K pgn) n2 k st →
      first_polygon_body K pgn (forward_of K pgn) k st = Except.ok st1 →
      Prep1_inv K pgn (forward_of K pgn) n2 (k + 1) st1 :=
    fun k st st1 hk hinv h =>
      first_polygon_body_inv K pgn _ n2 k st st1 hk (by omega) hinv h
  have hprog : ∀ k st, k < pgn.length → Prep1_inv K pgn (forward_of K pgn) n2 k st →
      ∃ st1, first_polygon_body K pgn (forward_of K pgn) k st = Except.ok st1 :=
    fun k st hk hinv => ⟨_, first_polygon_body_ok K pgn _ n2 k st hk (by omega) hinv⟩
  have h0 := first_polygon_init_inv K pgn (forward_of K pgn) n2 hn
  obtain ⟨st1, h1⟩ := for_loop_total (Prep1_inv K pgn (forward_of K pgn) n2) pgn.length
    hstep hprog pgn.length 0 _ (by omega) h0
  refine ⟨st1, h1, ?_⟩
  have := for_loop_inv (Prep1_inv K pgn (forward_of K pgn) n2) pgn.length hstep
    pgn.length 0 _ st1 (by omega) h0 h1
  rw [Nat.zero_add] at this
  exact this

theorem first_polygon_body_error (K : Kernel Point_2 Vector_2 Direction_2)
    (pgn : List Point_2) (forward : Bool) (k : Nat) (st : Prep1_state Direction_2)
    (e : Failure) (h : first_polygon_body K pgn forward k st = Except.error e) :
    e = Failure.out_of_range := by
  unfold first_polygon_body deref at h
  simp only [] at h
  rcases bind_eq_error h with h | ⟨_, -, h⟩
  · exact vector_get_error h
  rcases bind_eq_error h with h | ⟨_, -, h⟩
  · exact vector_get_error h
  rcases bind_eq_error h with h | ⟨_, -, h⟩
  · exact vector_get_error h
  have hset : ∀ {α : Type} (v : List α) (i : Nat) (a : α) (e : Failure),
      vector_set v i a = Except.error e → e = Failure.out_of_range := by
    intro α v i a e h
    unfold vector_set at h
    split_ifs at h
    simp only [Except.error.injEq] at h
    exact h.symm
  rcases bind_eq_error h with h | ⟨_, -, h⟩
  · exact hset _ _ _ _ h
  rcases bind_eq_error h with h | ⟨_, -, h⟩
  · exact hset _ _ _ _ h
  cases h

theorem for_loop_error {σ : Type} {body : Nat → σ → Except Failure σ} (x : Failure)
    (hbody : ∀ k st e, body k st = Except.error e → e = x) :
    ∀ (todo k : Nat) (st : σ) (e : Failure),
      for_loop body todo k st = Except.error e → e = x := by
  intro todo
  induction todo with
  | zero =>
    intro k st e h
    cases h
  | succ todo ih =>
    intro k st e h
    unfold for_loop at h
    rcases bind_eq_error h with h | ⟨st1, -, h⟩
    · exact hbody k st e h
    · exact ih (k + 1) st1 e h

theorem first_polygon_body_length (K : Kernel Point_2 Vector_2 Direction_2)
    (pgn : List Point_2) (forward : Bool) (k : Nat) (st st1 : Prep1_state Direction_2)
    (h : first_polygon_body K pgn forward k st = Except.ok st1) :
    k < st.is_reflex1.length ∧ st1.is_reflex1.length = st.is_reflex1.length := by
  unfold first_polygon_body at h
  simp only [] at h
  obtain ⟨_, -, h⟩ := bind_eq_ok h
  obtain ⟨_, -, h⟩ := bind_eq_ok h
  obtain ⟨_, -, h⟩ := bind_eq_ok h
  obtain ⟨r, hr, h⟩ := bind_eq_ok h
  obtain ⟨d, -, h⟩ := bind_eq_ok h
  simp only [pure, Except.pure, Except.ok.injEq] at h
  unfold vector_set at hr
  split_ifs at hr with hlt
  simp only [Except.ok.injEq] at hr
  refine ⟨hlt, ?_⟩
  rw [← h, ← hr, List.length_set]

end FirstPolygon

section Claims7
variable {Point_2 Vector_2 Direction_2 : Type}

/-- Claim C7 (the code departs from it). The table `is_reflex1` is created
with `n2` entries, the size of the second polygon: whenever the first polygon
has more vertices than the second, the loop over the first polygon writes
`is_reflex1[k1]` outside the table (at `k1 = n2`); and in the tracer a read
`is_reflex1[k1]` at an index `k1` not below the length of the table is
outside the table as well. -/
theorem is_reflex1_table_has_n2_entries (K : Kernel Point_2 Vector_2 Direction_2)
    (pgn1 : List Point_2) (n2 : Nat) (h : n2 < pgn1.length) :
    first_polygon_tables K pgn1 n2 = Except.error Failure.out_of_range ∧
    ∀ (T : Tracer_input Point_2 Direction_2) (cycle_id : Nat) (s s1 : Tracer_state Point_2),
      T.is_reflex1.length = n2 → n2 ≤ s.k1 → advance2 K T cycle_id s ≠ Except.ok s1 := by
  constructor
  · cases hres : first_polygon_tables K pgn1 n2 with
    | error e =>
      unfold first_polygon_tables at hres
      simp only [] at hres
      rw [for_loop_error Failure.out_of_range
        (fun k st e => first_polygon_body_error K pgn1 _ k st e) _ _ _ e hres]
    | ok st =>
      exfalso
      unfold first_polygon_tables at hres
      simp only [] at hres
      have := for_loop_inv
        (fun k (st : Prep1_state Direction_2) => st.is_reflex1.length = n2 ∧ k ≤ n2)
        pgn1.length
        (fun k st st1 _ hinv hb => by
          obtain ⟨h1, h2⟩ := first_polygon_body_length K pgn1 _ k st st1 hb
          exact ⟨by rw [h2]; exact hinv.1, by rw [hinv.1] at h1; omega⟩)
        pgn1.length 0 _ st (by omega) ⟨List.length_replicate _ _, Nat.zero_le _⟩ hres
      omega
  · intro T cycle_id s s1 hlen hk hok
    obtain ⟨_, _, r1, -, -, hr1, -, -⟩ := advance2_ok hok
    have := (List.getElem?_eq_some_iff.mp hr1).1
    omega

end Claims7

/-- Witness for claim C7: the unit square has four vertices and the right
triangle three; the loop over the square with a table of three entries stops
at the write `is_reflex1[3]`. -/
theorem is_reflex1_table_has_n2_entries_witness :
    right_triangle.length < unit_square.length ∧
    (first_polygon_tables int_kernel unit_square right_triangle.length =
        Except.error Failure.out_of_range ∧
      ∀ (T : Tracer_input (Int × Int) (Int × Int)) (cycle_id : Nat)
        (s s1 : Tracer_state (Int × Int)),
        T.is_reflex1.length = right_triangle.length → right_triangle.length ≤ s.k1 →
        advance2 int_kernel T cycle_id s ≠ Except.ok s1) :=
  ⟨by decide,
   is_reflex1_table_has_n2_entries int_kernel unit_square right_triangle.length (by decide)⟩

/-- Claim C6 (the code departs from it). On the unit square as first polygon
and the right triangle as second polygon, `operator()` does not get past the
loop over the first polygon: the reflex flag of the fourth vertex of the
square has no entry in `is_reflex1`, whose size is that of the triangle. With
the two polygons exchanged the same loops complete and produce the tables of
the claim. -/
theorem tables_of_square_and_triangle :
    (∀ tracer_fuel session_fuel : Nat,
      operator_call int_kernel tracer_fuel session_fuel unit_square right_triangle =
        Except.error Failure.out_of_range) ∧
    (first_polygon_tables int_kernel right_triangle unit_square.length).toOption.map
      (fun st => (st.dirs1, st.is_reflex1)) =
      some ([(1, 0), (-1, 1), (0, -1)], [false, false, false, false]) ∧
    (second_polygon_tables int_kernel unit_square).toOption.map
      (fun st => (st.dirs2, st.is_reflex2)) =
      some ([(1, 0), (0, 1), (-1, 0), (0, -1)], [false, false, false, false]) :=
  ⟨fun _ _ => rfl, rfl, rfl⟩

/-- Claim C11 (the code departs from it). On the thin triangle and the dart
the first call of `_convolution_cycle` that `operator()` makes is for the seed
`(0, 1)`, the reflex vertex of the dart (no vertex of the triangle qualifies at
the bottom-left seed). Its loop closes after three moves on the triangle, all
of them suppressed, so the list `cycle` is still empty; the last statement of
the function then reads `cycle.back()` of the empty list, and neither the call
nor `operator()` returns. -/
theorem empty_trace_reads_back_of_empty_list :
    tables_of int_kernel thin_triangle dart = Except.ok triangle_dart ∧
    seed_list int_kernel dart = Except.ok [(0, 0), (1, 1)] ∧
    (seed_qualifies int_kernel triangle_dart [] 0 0 = Except.ok false ∧
      seed_qualifies int_kernel triangle_dart [] 1 0 = Except.ok false ∧
      seed_qualifies int_kernel triangle_dart [] 2 0 = Except.ok false) ∧
    seed_qualifies int_kernel triangle_dart [] 0 1 = Except.ok true ∧
    ((cycle_init int_kernel triangle_dart 0 0 1 1 [] [] [] >>=
        cycle_loop int_kernel triangle_dart 1 0 1 3).toOption.map
      (fun s => (s.k1, s.k2, s.seg_index, s.used_labels, s.cycle)) =
      some (0, 1, 3, [⟨0, 1, 1⟩, ⟨1, 1, 1⟩, ⟨2, 1, 1⟩], [])) ∧
    mark_last 3 ([] : List (Labeled_segment_2 (Int × Int))) =
      Except.error Failure.out_of_range ∧
    (∀ fuel : Nat, _convolution_cycle int_kernel (fuel + 3) 1 triangle_dart 0 0 1 1 [] [] [] =
      Except.error Failure.out_of_range) ∧
    (∀ tracer_fuel session_fuel : Nat,
      operator_call int_kernel (tracer_fuel + 3) (session_fuel + 1) thin_triangle dart =
        Except.error Failure.out_of_range) :=
  ⟨rfl, rfl, ⟨rfl, rfl, rfl⟩, rfl, rfl, rfl, fun _ => rfl, fun _ _ => rfl⟩

section KeysLemmas
variable {Point_2 Vector_2 Direction_2 : Type}

theorem increasing_keys_snoc {l : List (Labeled_segment_2 Point_2)}
    {seg : Labeled_segment_2 Point_2} (h : Increasing_keys l)
    (hlast : ∀ k ∈ l.map segment_key, key_lt k (segment_key seg)) :
    Increasing_keys (l ++ [seg]) := by
  unfold Increasing_keys at h ⊢
  rw [List.map_append, List.pairwise_append]
  refine ⟨h, by simp, ?_⟩
  intro a ha b hb
  simp only [List.map_cons, List.map_nil, List.mem_singleton] at hb
  rw [hb]
  exact hlast a ha

theorem advance1_keys {K : Kernel Point_2 Vector_2 Direction_2}
    {T : Tracer_input Point_2 Direction_2} {cycle_id : Nat} {s s1 : Tracer_state Point_2}
    (hk : Cycle_keys cycle_id s) (h : advance1 K T cycle_id s = Except.ok s1) :
    Cycle_keys cycle_id s1 := by
  obtain ⟨pn, pc, r2, -, -, -, -, hs⟩ := advance1_ok h
  subst hs
  obtain ⟨hall, hinc⟩ := hk
  cases r2 with
  | true =>
    refine ⟨?_, hinc⟩
    intro k hk
    simp only [if_true] at hk
    have := hall k hk
    exact ⟨this.1, by simp only; omega⟩
  | false =>
    simp only [Cycle_keys, Bool.false_eq_true, if_false]
    refine ⟨?_, ?_⟩
    · intro k hk
      rw [List.map_append, List.mem_append] at hk
      rcases hk with hk | hk
      · have := hall k hk
        exact ⟨this.1, by omega⟩
      · simp only [List.map_cons, List.map_nil, List.mem_singleton] at hk
        rw [hk]
        simp [segment_key]
    · apply increasing_keys_snoc hinc
      intro k hk
      have := hall k hk
      right
      simp only [segment_key]
      exact ⟨this.1, this.2⟩

theorem advance2_keys {K : Kernel Point_2 Vector_2 Direction_2}
    {T : Tracer_input Point_2 Direction_2} {cycle_id : Nat} {s s1 : Tracer_state Point_2}
    (hk : Cycle_keys cycle_id s) (h : advance2 K T cycle_id s = Except.ok s1) :
    Cycle_keys cycle_id s1 := by
  obtain ⟨pn, pc, r1, -, -, -, -, hs⟩ := advance2_ok h
  subst hs
  obtain ⟨hall, hinc⟩ := hk
  cases r1 with
  | true =>
    refine ⟨?_, hinc⟩
    intro k hk
    simp only [if_true] at hk
    have := hall k hk
    exact ⟨this.1, by simp only; omega⟩
  | false =>
    simp only [Cycle_keys, Bool.false_eq_true, if_false]
    refine ⟨?_, ?_⟩
    · intro k hk
      rw [List.map_append, List.mem_append] at hk
      rcases hk with hk | hk
      · have := hall k hk
        exact ⟨this.1, by omega⟩
      · simp only [List.map_cons, List.map_nil, List.mem_singleton] at hk
        rw [hk]
        simp [segment_key]
    · apply increasing_keys_snoc hinc
      intro k hk
      have := hall k hk
      right
      simp only [segment_key]
      exact ⟨this.1, this.2⟩

theorem cycle_step_keys {K : Kernel Point_2 Vector_2 Direction_2}
    {T : Tracer_input Point_2 Direction_2} {cycle_id : Nat} {s s2 : Tracer_state Point_2}
    (hk : Cycle_keys cycle_id s) (h : cycle_step K T cycle_id s = Except.ok s2) :
    Cycle_keys cycle_id s2 := by
  obtain ⟨flags, s1, -, -, hs1, hs2⟩ := cycle_step_ok h
  have hq : Cycle_keys cycle_id { s with queue := flags.2.2 } := hk
  have h1 : Cycle_keys cycle_id s1 := by
    cases hf : flags.1 with
    | true => rw [hf] at hs1; exact advance1_keys hq hs1
    | false =>
      rw [hf] at hs1
      simp only [Bool.false_eq_true, if_false, Except.ok.injEq] at hs1
      exact hs1 ▸ hq
  cases hf : flags.2.1 with
  | true => rw [hf] at hs2; exact advance2_keys h1 hs2
  | false =>
    rw [hf] at hs2
    simp only [Bool.false_eq_true, if_false, Except.ok.injEq] at hs2
    exact hs2 ▸ h1

theorem cycle_steps_keys {K : Kernel Point_2 Vector_2 Direction_2}
    {T : Tracer_input Point_2 Direction_2} {cycle_id : Nat} :
    ∀ (m : Nat) (s s2 : Tracer_state Point_2), Cycle_keys cycle_id s →
      cycle_steps K T cycle_id m s = Except.ok s2 → Cycle_keys cycle_id s2 := by
  intro m
  induction m with
  | zero =>
    intro s s2 hk h
    simp only [cycle_steps, pure, Except.pure, Except.ok.injEq] at h
    exact h ▸ hk
  | succ m ih =>
    intro s s2 hk h
    obtain ⟨s1, hs1, hrest⟩ := cycle_steps_succ h
    exact ih s1 s2 (cycle_step_keys hk hs1) hrest

theorem mark_last_keys {seg_index : Nat} {cycle cycle1 : List (Labeled_segment_2 Point_2)}
    (hm : mark_last seg_index cycle = Except.ok cycle1) :
    cycle1.map segment_key = cycle.map segment_key ∧ cycle ≠ [] := by
  unfold mark_last at hm
  cases hlast : cycle.getLast? with
  | none => rw [hlast] at hm; cases hm
  | some last =>
    rw [hlast] at hm
    simp only at hm
    have hne : cycle ≠ [] := by
      intro hnil; rw [hnil] at hlast; simp at hlast
    refine ⟨?_, hne⟩
    split_ifs at hm
    · simp only [Except.ok.injEq] at hm
      have hsplit : cycle = cycle.dropLast ++ [last] := by
        have h1 := List.dropLast_append_getLast? last hlast
        exact h1.symm
      rw [← hm]
      conv_rhs => rw [hsplit]
      simp [segment_key, X_curve_label.set_flag]
    · simp only [Except.ok.injEq] at hm
      rw [hm]

/-- The segments returned by a call that was entered with an empty list:
all carry the cycle id of the call, their keys increase, and there is at least
one. -/
theorem convolution_cycle_keys {K : Kernel Point_2 Vector_2 Direction_2}
    {T : Tracer_input Point_2 Direction_2} {fuel cycle_id curr1 k1 curr2 k2 : Nat}
    {used : Labels_set} {queue : Anchors_queue} {r : Tracer_state Point_2}
    (h : _convolution_cycle K fuel cycle_id T curr1 k1 curr2 k2 used queue [] = Except.ok r) :
    (∀ k ∈ r.cycle.map segment_key, k.1 = cycle_id) ∧ Increasing_keys r.cycle ∧
      r.cycle ≠ [] := by
  obtain ⟨s0, s, cycle1, hs0, hs, -, hm, hr⟩ := convolution_cycle_ok h
  obtain ⟨p1, p2, -, -, hs0eq⟩ := cycle_init_ok hs0
  obtain ⟨-, -, m, -, t, ht, hstep⟩ := cycle_loop_steps fuel s0 s hs
  have h0 : Cycle_keys cycle_id s0 := by
    rw [hs0eq]
    exact ⟨by simp, by simp [Increasing_keys]⟩
  have hk := cycle_steps_keys (m + 1) s0 s h0 (cycle_steps_snoc m s0 t s ht hstep)
  obtain ⟨hmap, hne⟩ := mark_last_keys hm
  have hrc : r.cycle = cycle1 := by rw [hr]
  refine ⟨?_, ?_, ?_⟩
  · intro k hk'
    rw [hrc, hmap] at hk'
    exact (hk.1 k hk').1
  · unfold Increasing_keys
    rw [hrc, hmap]
    exact hk.2
  · rw [hrc]
    intro hnil
    rw [hnil] at hmap
    simp only [List.map_nil] at hmap
    exact hne (List.map_eq_nil_iff.mp hmap.symm)

end KeysLemmas

section DriverKeys
variable {Point_2 Vector_2 Direction_2 : Type}

theorem key_lt_irrefl (a : Nat × Nat) : ¬ key_lt a a := by
  unfold key_lt
  omega

theorem increasing_keys_nodup {l : List (Labeled_segment_2 Point_2)}
    (h : Increasing_keys l) : (l.map segment_key).Nodup := by
  unfold Increasing_keys at h
  unfold List.Nodup
  refine List.Pairwise.imp ?_ h
  intro a b hab heq
  rw [heq] at hab
  exact key_lt_irrefl _ hab

theorem session_loop_keys {K : Kernel Point_2 Vector_2 Direction_2}
    {T : Tracer_input Point_2 Direction_2} {tracer_fuel : Nat} :
    ∀ (fuel : Nat) (st st1 : Driver_state Point_2), Driver_keys st →
      session_loop K T tracer_fuel fuel st = Except.ok st1 →
      Driver_keys st1 ∧ st.curr_id ≤ st1.curr_id := by
  intro fuel
  induction fuel with
  | zero =>
    intro st st1 hd h
    unfold session_loop at h
    split at h
    · simp only [Except.ok.injEq] at h
      exact h ▸ ⟨hd, Nat.le_refl _⟩
    · cases h
  | succ fuel ih =>
    intro st st1 hd h
    unfold session_loop at h
    split at h
    · simp only [Except.ok.injEq] at h
      exact h ▸ ⟨hd, Nat.le_refl _⟩
    · rename_i anchor rest hq
      simp only [] at h
      split_ifs at h with hskip
      · exact ih { st with queue := rest, loops := st.loops + 1 - 1 } st1 hd h
      · obtain ⟨r, hr, h⟩ := bind_eq_ok h
        obtain ⟨hcyc, hconv, hids⟩ := hd
        rw [hcyc] at hr
        obtain ⟨hcomp, hinc, hne⟩ := convolution_cycle_keys hr
        have hnot : r.cycle.isEmpty = false := by
          cases hc : r.cycle with
          | nil => exact absurd hc hne
          | cons x xs => rfl
        rw [hnot] at h
        simp only [Bool.false_eq_true, if_false] at h
        have hd1 : Driver_keys
            { st with curr_id := st.curr_id + 1, used_labels := r.used_labels,
                      queue := r.queue, conv_segments := st.conv_segments ++ r.cycle,
                      cycle := [], loops := st.loops + 1 } := by
          refine ⟨rfl, ?_, ?_⟩
          · unfold Increasing_keys
            simp only [List.map_append]
            rw [List.pairwise_append]
            refine ⟨hconv, hinc, ?_⟩
            intro a ha b hb
            have h1 := hids a ha
            have h2 := hcomp b hb
            left
            omega
          · intro k hk
            simp only [List.map_append, List.mem_append] at hk
            rcases hk with hk | hk
            · have := hids k hk
              exact ⟨this.1, by simp only; omega⟩
            · have := hcomp k hk
              simp only
              omega
        have := ih _ st1 hd1 h
        exact ⟨this.1, by have := this.2; simp only at this; omega⟩

theorem scan_body_keys {K : Kernel Point_2 Vector_2 Direction_2}
    {T : Tracer_input Point_2 Direction_2} {tracer_fuel session_fuel curr2 k2 k1 : Nat}
    {st st1 : Driver_state Point_2} (hd : Driver_keys st)
    (h : scan_body K T tracer_fuel session_fuel curr2 k2 k1 st = Except.ok st1) :
    Driver_keys st1 ∧ st.curr_id ≤ st1.curr_id := by
  unfold scan_body at h
  simp only [] at h
  obtain ⟨found, -, h⟩ := bind_eq_ok h
  obtain ⟨st2, h2, h⟩ := bind_eq_ok h
  simp only [pure, Except.pure, Except.ok.injEq] at h
  subst h
  split_ifs at h2
  · obtain ⟨st3, h3, h2⟩ := bind_eq_ok h2
    simp only [pure, Except.pure, Except.ok.injEq] at h2
    subst h2
    exact session_loop_keys session_fuel
      { st with queue := [((st.curr1, k1), (curr2, k2))], loops := 0 } st3 hd h3
  · simp only [Except.ok.injEq] at h2
    subst h2
    exact ⟨hd, Nat.le_refl _⟩

theorem seeder_loop_keys {K : Kernel Point_2 Vector_2 Direction_2}
    {T : Tracer_input Point_2 Direction_2} {tracer_fuel session_fuel : Nat} :
    ∀ (seeds : List Vertex_ref) (st st1 : Driver_state Point_2), Driver_keys st →
      seeder_loop K T tracer_fuel session_fuel seeds st = Except.ok st1 →
      Driver_keys st1 ∧ st.curr_id ≤ st1.curr_id := by
  intro seeds
  induction seeds with
  | nil =>
    intro st st1 hd h
    simp only [seeder_loop, Except.ok.injEq] at h
    exact h ▸ ⟨hd, Nat.le_refl _⟩
  | cons seed seeds ih =>
    intro st st1 hd h
    unfold seeder_loop at h
    obtain ⟨st2, h2, h⟩ := bind_eq_ok h
    have hstep : ∀ (k : Nat) (d d1 : Driver_state Point_2), k < T.n1 →
        (Driver_keys d ∧ st.curr_id ≤ d.curr_id) →
        scan_body K T tracer_fuel session_fuel seed.1 seed.2 k d = Except.ok d1 →
        (Driver_keys d1 ∧ st.curr_id ≤ d1.curr_id) :=
      fun k d d1 _ hinv hb => by
        have := scan_body_keys hinv.1 hb
        exact ⟨this.1, Nat.le_trans hinv.2 this.2⟩
    have := for_loop_inv
      (fun (_ : Nat) (d : Driver_state Point_2) => Driver_keys d ∧ st.curr_id ≤ d.curr_id)
      T.n1 hstep T.n1 0 { st with curr1 := 0, next1 := 0 } st2 (by omega)
      ⟨hd, Nat.le_refl _⟩ h2
    have h3 := ih st2 st1 this.1 h
    exact ⟨h3.1, Nat.le_trans this.2 h3.2⟩

theorem operator_call_keys {K : Kernel Point_2 Vector_2 Direction_2}
    {tracer_fuel session_fuel : Nat} {pgn1 pgn2 : List Point_2} {st : Driver_state Point_2}
    (h : operator_call K tracer_fuel session_fuel pgn1 pgn2 = Except.ok st) :
    Driver_keys st := by
  unfold operator_call at h
  obtain ⟨t1, -, h⟩ := bind_eq_ok h
  obtain ⟨t2, -, h⟩ := bind_eq_ok h
  exact (seeder_loop_keys _ _ st ⟨rfl, by simp [Increasing_keys], by simp⟩ h).1

/-- Claim C12. Fresh, increasing cycle ids. When the session loop calls
`_convolution_cycle` for an anchor, the cycle id it passes is `curr_id + 1` and
`curr_id` has that value afterwards; `curr_id` starts at 0 and never decreases
in the session loop and in the scan of a seed, so every call gets an id
greater than all earlier ones, the first being 1. At the end of `operator()`
the list `conv_segments` is strictly increasing, in list order, in the
lexicographic order on (cycle id, position), with cycle ids between 1 and
`curr_id`; hence no two segments share a (cycle id, position) pair. -/
theorem cycle_ids_are_fresh_and_increasing (K : Kernel Point_2 Vector_2 Direction_2)
    (T : Tracer_input Point_2 Direction_2) (tracer_fuel : Nat) :
    (∀ (fuel : Nat) (st : Driver_state Point_2) (anchor : Anchor) (rest : Anchors_queue),
      st.queue = anchor :: rest →
      Labels_set.count st.used_labels ⟨anchor.1.2, anchor.2.2, 2⟩ = 0 →
      ∃ next : Tracer_state Point_2 → Driver_state Point_2,
        (∀ r, (next r).curr_id = st.curr_id + 1) ∧
        session_loop K T tracer_fuel (fuel + 1) st =
          (_convolution_cycle K tracer_fuel (st.curr_id + 1) T
              anchor.1.1 anchor.1.2 anchor.2.1 anchor.2.2 st.used_labels rest st.cycle >>=
            fun r => session_loop K T tracer_fuel fuel (next r))) ∧
    (∀ (fuel : Nat) (st st1 : Driver_state Point_2), Driver_keys st →
      session_loop K T tracer_fuel fuel st = Except.ok st1 → st.curr_id ≤ st1.curr_id) ∧
    (∀ (session_fuel curr2 k2 k1 : Nat) (st st1 : Driver_state Point_2), Driver_keys st →
      scan_body K T tracer_fuel session_fuel curr2 k2 k1 st = Except.ok st1 →
      st.curr_id ≤ st1.curr_id) ∧
    (∀ (session_fuel : Nat) (pgn1 pgn2 : List Point_2) (st : Driver_state Point_2),
      operator_call K tracer_fuel session_fuel pgn1 pgn2 = Except.ok st →
      Increasing_keys st.conv_segments ∧
      (∀ k ∈ st.conv_segments.map segment_key, 1 ≤ k.1 ∧ k.1 ≤ st.curr_id) ∧
      (st.conv_segments.map segment_key).Nodup) := by
  refine ⟨?_, ?_, ?_, ?_⟩
  · intro fuel st anchor rest hq hcount
    refine ⟨fun r =>
      if r.cycle.isEmpty then
        { st with curr_id := st.curr_id + 1, used_labels := r.used_labels, queue := r.queue,
                  cycle := r.cycle, loops := st.loops + 1 - 1 }
      else
        { st with curr_id := st.curr_id + 1, used_labels := r.used_labels, queue := r.queue,
                  conv_segments := st.conv_segments ++ r.cycle, cycle := [],
                  loops := st.loops + 1 }, ?_, ?_⟩
    · intro r
      simp only []
      split_ifs <;> rfl
    · rw [session_loop, hq]
      simp only [hcount]
      simp only [bne_self_eq_false, Bool.and_false, Bool.false_eq_true, if_false]
      congr 1
      funext r
      split_ifs <;> rfl
  · intro fuel st st1 hd h
    exact (session_loop_keys fuel st st1 hd h).2
  · intro session_fuel curr2 k2 k1 st st1 hd h
    exact (scan_body_keys hd h).2
  · intro session_fuel pgn1 pgn2 st h
    obtain ⟨-, hinc, hids⟩ := operator_call_keys h
    exact ⟨hinc, hids, increasing_keys_nodup hinc⟩

end DriverKeys

/-- Witness for claim C12 on the dart added to itself: two calls of the
tracer, with cycle ids 1 and 2, and ten segments whose keys increase. -/
theorem cycle_ids_are_fresh_and_increasing_witness :
    (operator_call int_kernel 8 4 dart dart).toOption.map
      (fun st => (st.curr_id, st.conv_segments.map segment_key)) =
      some (2, [(1, 0), (1, 3), (1, 4), (1, 5), (1, 6), (1, 7), (2, 1), (2, 2), (2, 5), (2, 6)]) ∧
    ∃ st, operator_call int_kernel 8 4 dart dart = Except.ok st ∧
      Increasing_keys st.conv_segments ∧
      (∀ k ∈ st.conv_segments.map segment_key, 1 ≤ k.1 ∧ k.1 ≤ st.curr_id) ∧
      (st.conv_segments.map segment_key).Nodup :=
  ⟨rfl, _, rfl,
   (cycle_ids_are_fresh_and_increasing int_kernel dart_dart 8).2.2.2 4 dart dart _ rfl⟩

/-- Claim C16, counterexample. On two unit squares, at the seed `(0, 0)` of
the first call that `operator()` makes, both flags are true after the decision
phase: not exactly one. -/
theorem both_flags_set_on_two_squares :
    tables_of int_kernel unit_square unit_square = Except.ok two_squares ∧
    cycle_init int_kernel two_squares 0 0 0 0 [] [] [] = Except.ok two_squares_start ∧
    decide_moves int_kernel two_squares two_squares_start = Except.ok (true, true, []) ∧
    ¬ (∀ flags : Bool × Bool × Anchors_queue,
        decide_moves int_kernel two_squares two_squares_start = Except.ok flags →
        (flags.1 = true ∧ flags.2.1 = false) ∨ (flags.1 = false ∧ flags.2.1 = true)) := by
  refine ⟨rfl, rfl, rfl, ?_⟩
  intro h
  have := h (true, true, []) rfl
  simp at this

section DecisionFlags
variable {Point_2 Vector_2 Direction_2 : Type}

/-- After the decision phase of a tracer step: the two cone tests never mark
both moves; both flags are true only when the equal-direction rule fired, that
is when neither cone test marked a move and `dirs1[k1]` equals `dirs2[k2]`;
and a step that gets past the assertion `inc1 || inc2` has at least one flag
true. -/
theorem decide_moves_not_both (K : Kernel Point_2 Vector_2 Direction_2)
    (T : Tracer_input Point_2 Direction_2) (cycle_id : Nat) (s : Tracer_state Point_2)
    (flags : Bool × Bool × Anchors_queue) (h : decide_moves K T s = Except.ok flags) :
    ∃ d1 d1p d2 d2p, T.dirs1[s.k1]? = some d1 ∧
      T.dirs1[prev_index T.n1 s.k1]? = some d1p ∧ T.dirs2[s.k2]? = some d2 ∧
      T.dirs2[prev_index T.n2 s.k2]? = some d2p ∧
      ¬ ((cone_flags K d1 d1p d2 d2p s).1 = true ∧ (cone_flags K d1 d1p d2 d2p s).2.1 = true) ∧
      (flags.1 = true ∧ flags.2.1 = true →
        (cone_flags K d1 d1p d2 d2p s).1 = false ∧
        (cone_flags K d1 d1p d2 d2p s).2.1 = false ∧ K.f_equal d1 d2 = true) ∧
      (K.f_equal d1 d2 = false → ¬ (flags.1 = true ∧ flags.2.1 = true)) ∧
      (∀ s2, cycle_step K T cycle_id s = Except.ok s2 →
        flags.1 = true ∨ flags.2.1 = true) := by
  obtain ⟨d1, d1p, d2, d2p, h1, h2, h3, h4, hf⟩ := decide_moves_ok h
  have hcone : ¬ ((cone_flags K d1 d1p d2 d2p s).1 = true ∧
      (cone_flags K d1 d1p d2 d2p s).2.1 = true) := by
    intro hc
    have := (cone_flags_fresh K d1 d1p d2 d2p s).2 hc.2
    rw [hc.1] at this
    exact absurd this.1 (by simp)
  have hboth : flags.1 = true ∧ flags.2.1 = true →
      (cone_flags K d1 d1p d2 d2p s).1 = false ∧
      (cone_flags K d1 d1p d2 d2p s).2.1 = false ∧ K.f_equal d1 d2 = true := by
    intro hb
    by_cases hc : (!(cone_flags K d1 d1p d2 d2p s).1 && !(cone_flags K d1 d1p d2 d2p s).2.1 &&
        K.f_equal d1 d2) = true
    · simp only [Bool.and_eq_true, Bool.not_eq_true'] at hc
      exact ⟨hc.1.1, hc.1.2, hc.2⟩
    · rw [hf] at hb
      unfold decide_flags at hb
      simp only [] at hb
      rw [if_neg hc] at hb
      exact absurd hb hcone
  refine ⟨d1, d1p, d2, d2p, h1, h2, h3, h4, hcone, hboth, ?_, ?_⟩
  · intro hne hb
    have := (hboth hb).2.2
    rw [hne] at this
    cases this
  · intro s2 hstep
    obtain ⟨flags2, s1, hf2, hor, -, -⟩ := cycle_step_ok hstep
    rw [h] at hf2
    simp only [Except.ok.injEq] at hf2
    subst hf2
    simpa using hor

end DecisionFlags

/-! ## Directions of the integer kernel -/

theorem int_sign_eq {a b : Int} (h : Int.sign a = Int.sign b) :
    (0 < a ↔ 0 < b) ∧ (a < 0 ↔ b < 0) ∧ (a = 0 ↔ b = 0) := by
  refine ⟨?_, ?_, ?_⟩
  · rw [← Int.sign_eq_one_iff_pos, ← Int.sign_eq_one_iff_pos, h]
  · rw [← Int.sign_eq_neg_one_iff_neg, ← Int.sign_eq_neg_one_iff_neg, h]
  · constructor
    · intro ha
      have : Int.sign a = 0 := Int.sign_eq_zero_iff_zero.mpr ha
      exact Int.sign_eq_zero_iff_zero.mp (h ▸ this)
    · intro hb
      have : Int.sign b = 0 := Int.sign_eq_zero_iff_zero.mpr hb
      exact Int.sign_eq_zero_iff_zero.mp (h.symm ▸ this)

theorem int_dir_equal_iff (d e : Int × Int) :
    int_dir_equal d e = true ↔
      Int.sign d.1 = Int.sign e.1 ∧ Int.sign d.2 = Int.sign e.2 ∧ d.1 * e.2 - e.1 * d.2 = 0 := by
  unfold int_dir_equal
  simp [and_assoc]

theorem int_equal_quadrant {d e : Int × Int} (h : int_dir_equal d e = true) :
    int_quadrant d = int_quadrant e := by
  rw [int_dir_equal_iff] at h
  obtain ⟨h1, h2, -⟩ := h
  have s1 := int_sign_eq h1
  have s2 := int_sign_eq h2
  unfold int_quadrant
  have e1 : (0 ≤ d.1 ↔ 0 ≤ e.1) := by
    constructor <;> intro hh <;> by_contra hc <;> push_neg at hc
    · have := s1.2.1.mpr hc; omega
    · have := s1.2.1.mp hc; omega
  have e2 : (0 ≤ d.2 ↔ 0 ≤ e.2) := by
    constructor <;> intro hh <;> by_contra hc <;> push_neg at hc
    · have := s2.2.1.mpr hc; omega
    · have := s2.2.1.mp hc; omega
  simp only [e1, e2]

/-- For two equal directions `d` and `e`, the determinants with a third
vector have the same sign. -/
theorem int_equal_det_pos {d e : Int × Int} (h : int_dir_equal d e = true) (x : Int × Int) :
    (0 < d.1 * x.2 - x.1 * d.2 ↔ 0 < e.1 * x.2 - x.1 * e.2) ∧
    (0 < x.1 * d.2 - d.1 * x.2 ↔ 0 < x.1 * e.2 - e.1 * x.2) := by
  rw [int_dir_equal_iff] at h
  obtain ⟨h1, h2, h3⟩ := h
  have s1 := int_sign_eq h1
  have s2 := int_sign_eq h2
  have main : ∀ x : Int × Int, (0 < d.1 * x.2 - x.1 * d.2 ↔ 0 < e.1 * x.2 - x.1 * e.2) := by
    intro x
    have key1 : e.1 * (d.1 * x.2 - x.1 * d.2) = d.1 * (e.1 * x.2 - x.1 * e.2) := by
      have : d.1 * e.2 = e.1 * d.2 := by linarith
      linear_combination x.1 * this
    rcases lt_trichotomy d.1 0 with hd | hd | hd
    · have he := s1.2.1.mp hd
      constructor <;> intro hp <;> by_contra hc <;> push_neg at hc
      · nlinarith [mul_pos_of_neg_of_neg he (by linarith : (0:Int) - (d.1 * x.2 - x.1 * d.2) < 0),
          mul_nonneg_of_nonpos_of_nonpos (le_of_lt hd) hc]
      · nlinarith [mul_pos_of_neg_of_neg hd (by linarith : (0:Int) - (e.1 * x.2 - x.1 * e.2) < 0),
          mul_nonneg_of_nonpos_of_nonpos (le_of_lt he) hc]
    · have he := s1.2.2.mp hd
      rw [hd, he]
      simp only [zero_mul, zero_sub]
      rcases lt_trichotomy d.2 0 with hd2 | hd2 | hd2
      · have he2 := s2.2.1.mp hd2
        constructor <;> intro hp <;> by_contra hc <;> push_neg at hc
        · nlinarith [mul_nonneg_of_nonpos_of_nonpos (by nlinarith : x.1 ≤ 0) (le_of_lt hd2)]
        · nlinarith [mul_nonneg_of_nonpos_of_nonpos (by nlinarith : x.1 ≤ 0) (le_of_lt he2)]
      · have he2 := s2.2.2.mp hd2
        rw [hd2, he2]
      · have he2 := s2.1.mp hd2
        constructor <;> intro hp <;> by_contra hc <;> push_neg at hc
        · nlinarith [mul_nonneg (by nlinarith : 0 ≤ x.1) (le_of_lt hd2)]
        · nlinarith [mul_nonneg (by nlinarith : 0 ≤ x.1) (le_of_lt he2)]
    · have he := s1.1.mp hd
      constructor <;> intro hp <;> by_contra hc <;> push_neg at hc
      · nlinarith [mul_pos he hp, mul_nonpos_of_nonneg_of_nonpos (le_of_lt hd) hc]
      · nlinarith [mul_pos hd hp, mul_nonpos_of_nonneg_of_nonpos (le_of_lt he) hc]
  refine ⟨main x, ?_⟩
  have m2 := main (-x.1, -x.2)
  simp only at m2
  constructor <;> intro hp
  · have := m2.mp (by linarith); linarith
  · have := m2.mpr (by linarith); linarith

theorem int_lt_congr_left {d e : Int × Int} (h : int_dir_equal d e = true) (x : Int × Int) :
    int_dir_lt d x = int_dir_lt e x := by
  unfold int_dir_lt
  rw [int_equal_quadrant h]
  have hd := (int_equal_det_pos h x).1
  simp only [hd]

theorem int_lt_congr_right {d e : Int × Int} (h : int_dir_equal d e = true) (x : Int × Int) :
    int_dir_lt x d = int_dir_lt x e := by
  unfold int_dir_lt
  rw [int_equal_quadrant h]
  have hd := (int_equal_det_pos h x).2
  simp only [hd]

theorem int_lt_of_equal {d e : Int × Int} (h : int_dir_equal d e = true) :
    int_dir_lt d e = false ∧ int_dir_lt e d = false := by
  have hq := int_equal_quadrant h
  rw [int_dir_equal_iff] at h
  unfold int_dir_lt
  rw [hq]
  simp only [lt_self_iff_false, if_false]
  constructor
  · simp only [decide_eq_false_iff_not, not_lt]; omega
  · simp only [decide_eq_false_iff_not, not_lt]
    have : e.1 * d.2 = d.2 * e.1 := mul_comm _ _
    have : d.1 * e.2 = e.2 * d.1 := mul_comm _ _
    omega

/-- The counterclockwise-between predicate of the integer kernel is strict:
a direction inside the cone differs from both of its bounds. -/
theorem int_ccw_strict (d lo hi : Int × Int) (h : int_kernel.f_ccw_in_between d lo hi = true) :
    int_kernel.f_equal d lo = false ∧ int_kernel.f_equal lo d = false ∧
    int_kernel.f_equal d hi = false ∧ int_kernel.f_equal hi d = false := by
  change int_ccw_in_between d lo hi = true at h
  change int_dir_equal d lo = false ∧ int_dir_equal lo d = false ∧
    int_dir_equal d hi = false ∧ int_dir_equal hi d = false
  unfold int_ccw_in_between at h
  refine ⟨?_, ?_, ?_, ?_⟩
  · by_contra hc
    simp only [Bool.not_eq_false] at hc
    rw [(int_lt_of_equal hc).2, int_lt_congr_left hc hi] at h
    cases hx : int_dir_lt lo hi <;> simp [hx] at h
  · by_contra hc
    simp only [Bool.not_eq_false] at hc
    rw [(int_lt_of_equal hc).1, ← int_lt_congr_left hc hi] at h
    cases hx : int_dir_lt lo hi <;> simp [hx] at h
  · by_contra hc
    simp only [Bool.not_eq_false] at hc
    rw [(int_lt_of_equal hc).1, int_lt_congr_right hc lo] at h
    cases hx : int_dir_lt lo hi <;> simp [hx] at h
  · by_contra hc
    simp only [Bool.not_eq_false] at hc
    rw [(int_lt_of_equal hc).2, ← int_lt_congr_right hc lo] at h
    cases hx : int_dir_lt lo hi <;> simp [hx] at h

theorem prev_index_int (n k : Nat) (hn : 0 < n) :
    ((prev_index n k : Nat) : Int) = ((k : Int) - 1) % (n : Int) := by
  unfold prev_index
  rw [Int.natCast_mod]
  have : ((n + k - 1 : Nat) : Int) = ((k : Int) - 1) + (n : Int) := by omega
  rw [this, Int.add_emod_self]

/-- Claim C17. Advance-P rule. Assume the counterclockwise-between predicate
of the kernel is strict (a direction inside a cone differs from both bounds of
the cone). In a tracer step at a state `(k1, k2)` whose four table reads
succeed, the decision phase returns flags, and `inc1` is true if and only if
the label `(k1, k2, 1)` is not in `used_labels` and `dirs1[k1]` is
counterclockwise-between `dirs2[(k2 - 1) mod n2]` and `dirs2[k2]` or equal to
`dirs2[k2]`. The index of the lower bound, `(n2 + k2 - 1) % n2`, is
`(k2 - 1) mod n2`. -/
theorem advance_on_first_rule (K : Kernel Point_2 Vector_2 Direction_2)
    (T : Tracer_input Point_2 Direction_2) (s : Tracer_state Point_2)
    (d1 d1p d2 d2p : Direction_2)
    (hd1 : T.dirs1[s.k1]? = some d1) (hd1p : T.dirs1[prev_index T.n1 s.k1]? = some d1p)
    (hd2 : T.dirs2[s.k2]? = some d2) (hd2p : T.dirs2[prev_index T.n2 s.k2]? = some d2p)
    (hstrict : ∀ d lo hi, K.f_ccw_in_between d lo hi = true →
      K.f_equal d lo = false ∧ K.f_equal lo d = false ∧
      K.f_equal d hi = false ∧ K.f_equal hi d = false) :
    (0 < T.n2 → ((prev_index T.n2 s.k2 : Nat) : Int) = ((s.k2 : Int) - 1) % (T.n2 : Int)) ∧
    ∃ flags, decide_moves K T s = Except.ok flags ∧
      (flags.1 = true ↔
        (Labels_set.count s.used_labels ⟨s.k1, s.k2, 1⟩ = 0 ∧
          (K.f_ccw_in_between d1 d2p d2 = true ∨ K.f_equal d1 d2 = true))) := by
  refine ⟨prev_index_int _ _, _, decide_moves_of_reads hd1 hd1p hd2 hd2p, ?_⟩
  unfold decide_flags cone_flags
  by_cases hu : Labels_set.count s.used_labels ⟨s.k1, s.k2, 1⟩ = 0
  · by_cases hc1 : K.f_ccw_in_between d1 d2p d2 = true
    · have he : K.f_equal d1 d2 = false := (hstrict _ _ _ hc1).2.2.1
      by_cases hc2 : K.f_ccw_in_between d2 d1p d1 = true <;>
        by_cases hv : Labels_set.count s.used_labels ⟨s.k1, s.k2, 2⟩ = 0 <;>
        simp [hu, hc1, he, hc2, hv]
    · by_cases hc2 : K.f_ccw_in_between d2 d1p d1 = true
      · have he : K.f_equal d1 d2 = false := (hstrict _ _ _ hc2).2.2.2
        by_cases hv : Labels_set.count s.used_labels ⟨s.k1, s.k2, 2⟩ = 0 <;>
          simp [hu, hc1, he, hc2, hv]
      · by_cases he : K.f_equal d1 d2 = true <;> simp [hu, hc1, he, hc2]
  · by_cases hc1 : K.f_ccw_in_between d1 d2p d2 = true <;>
      by_cases hc2 : K.f_ccw_in_between d2 d1p d1 = true <;>
      by_cases hv : Labels_set.count s.used_labels ⟨s.k1, s.k2, 2⟩ = 0 <;>
      by_cases he : K.f_equal d1 d2 = true <;>
      simp [hu, hc1, he, hc2, hv]

theorem advance_on_first_rule_witness :
    (0 < square_dart.n2 →
      ((prev_index square_dart.n2 square_dart_at_reflex.k2 : Nat) : Int) =
        ((square_dart_at_reflex.k2 : Int) - 1) % (square_dart.n2 : Int)) ∧
    ∃ flags, decide_moves int_kernel square_dart square_dart_at_reflex = Except.ok flags ∧
      (flags.1 = true ↔
        (Labels_set.count square_dart_at_reflex.used_labels
            ⟨square_dart_at_reflex.k1, square_dart_at_reflex.k2, 1⟩ = 0 ∧
          (int_kernel.f_ccw_in_between (0, 1) (2, 1) (2, -1) = true ∨
            int_kernel.f_equal (0, 1) (2, -1) = true))) :=
  advance_on_first_rule int_kernel square_dart square_dart_at_reflex
    (0, 1) (1, 0) (2, -1) (2, 1) rfl rfl rfl rfl int_ccw_strict

/-! ## The deferred branch -/

section DeferredBranch
variable {Point_2 Vector_2 Direction_2 : Type}

theorem decide_flags_not_first (K : Kernel Point_2 Vector_2 Direction_2) (n1 : Nat)
    (d1 d1p d2 d2p : Direction_2) (s : Tracer_state Point_2)
    (h1 : (decide_flags K n1 d1 d1p d2 d2p s).1 = false) :
    (⟨s.k1, s.k2, 1⟩ : Convolution_label) ∈ s.used_labels ∨
      K.f_ccw_in_between d1 d2p d2 = false := by
  rw [← count_ne_zero_iff]
  unfold decide_flags cone_flags at h1
  by_cases hu : Labels_set.count s.used_labels ⟨s.k1, s.k2, 1⟩ = 0
  · right
    by_cases hc1 : K.f_ccw_in_between d1 d2p d2 = true
    · by_cases hc2 : K.f_ccw_in_between d2 d1p d1 = true <;>
        by_cases hv : Labels_set.count s.used_labels ⟨s.k1, s.k2, 2⟩ = 0 <;>
        by_cases he : K.f_equal d1 d2 = true <;>
        simp [hu, hc1, he, hc2, hv] at h1
    · simpa using hc1
  · exact Or.inl hu

theorem decide_flags_both (K : Kernel Point_2 Vector_2 Direction_2) (n1 : Nat)
    (d1 d1p d2 d2p : Direction_2) (s : Tracer_state Point_2)
    (h1 : (decide_flags K n1 d1 d1p d2 d2p s).1 = true)
    (h2 : (decide_flags K n1 d1 d1p d2 d2p s).2.1 = true) :
    K.f_equal d1 d2 = true := by
  unfold decide_flags cone_flags at h1 h2
  by_cases he : K.f_equal d1 d2 = true
  · exact he
  · by_cases hu : Labels_set.count s.used_labels ⟨s.k1, s.k2, 1⟩ = 0 <;>
      by_cases hc1 : K.f_ccw_in_between d1 d2p d2 = true <;>
      by_cases hc2 : K.f_ccw_in_between d2 d1p d1 = true <;>
      by_cases hv : Labels_set.count s.used_labels ⟨s.k1, s.k2, 2⟩ = 0 <;>
      simp [hu, hc1, he, hc2, hv] at h1 h2

theorem deferral_inv_nil (K : Kernel Point_2 Vector_2 Direction_2)
    (T : Tracer_input Point_2 Direction_2) : Deferral_inv K T [] := by
  intro i j h
  simp at h

theorem cycle_step_deferral {K : Kernel Point_2 Vector_2 Direction_2}
    {T : Tracer_input Point_2 Direction_2} {cycle_id : Nat} {s s2 : Tracer_state Point_2}
    (hinv : Deferral_inv K T s.used_labels)
    (h : cycle_step K T cycle_id s = Except.ok s2) : Deferral_inv K T s2.used_labels := by
  obtain ⟨flags, s1, hf, hor, hs1, hs2⟩ := cycle_step_ok h
  obtain ⟨d1, d1p, d2, d2p, hd1, hd1p, hd2, hd2p, hfl⟩ := decide_moves_ok hf
  cases hf1 : flags.1 <;> cases hf2 : flags.2.1
  · simp [hf1, hf2] at hor
  · rw [hf1] at hs1; rw [hf2] at hs2
    simp only [Bool.false_eq_true, if_false, if_true, Except.ok.injEq] at hs1 hs2
    obtain ⟨pn, pc, r1, -, -, -, -, hs⟩ := advance2_ok hs2
    have hcase := decide_flags_not_first K T.n1 d1 d1p d2 d2p s (hfl ▸ hf1)
    intro i j hm
    rw [hs, ← hs1] at hm ⊢
    simp only [mem_insert_iff] at hm ⊢
    rcases hm with hm | hm
    · rcases hinv i j hm with h1 | h1 | h1
      · exact Or.inl (Or.inl h1)
      · exact Or.inr (Or.inl h1)
      · exact Or.inr (Or.inr h1)
    · simp only [Convolution_label.mk.injEq, and_true] at hm
      obtain ⟨hi, hj⟩ := hm
      subst hi; subst hj
      rcases hcase with hc | hc
      · exact Or.inl (Or.inl hc)
      · exact Or.inr (Or.inl ⟨d1, d2, d2p, hd1, hd2, hd2p, hc⟩)
  · rw [hf1] at hs1; rw [hf2] at hs2
    simp only [Bool.false_eq_true, if_false, if_true, Except.ok.injEq] at hs1 hs2
    obtain ⟨pn, pc, r2, -, -, -, -, hs⟩ := advance1_ok hs1
    intro i j hm
    rw [← hs2, hs] at hm ⊢
    simp only [mem_insert_iff] at hm ⊢
    rcases hm with hm | hm
    · rcases hinv i j hm with h1 | h1 | h1
      · exact Or.inl (Or.inl h1)
      · exact Or.inr (Or.inl h1)
      · exact Or.inr (Or.inr h1)
    · simp [Convolution_label.mk.injEq] at hm
  · rw [hf1] at hs1; rw [hf2] at hs2
    simp only [if_true] at hs1 hs2
    obtain ⟨pn, pc, r2, -, -, -, -, hs⟩ := advance1_ok hs1
    obtain ⟨pn2, pc2, r1, -, -, -, -, hs'⟩ := advance2_ok hs2
    have heq := decide_flags_both K T.n1 d1 d1p d2 d2p s (hfl ▸ hf1) (hfl ▸ hf2)
    intro i j hm
    rw [hs', hs] at hm ⊢
    simp only [mem_insert_iff] at hm ⊢
    rcases hm with (hm | hm) | hm
    · rcases hinv i j hm with h1 | h1 | h1
      · exact Or.inl (Or.inl (Or.inl h1))
      · exact Or.inr (Or.inl h1)
      · exact Or.inr (Or.inr h1)
    · simp [Convolution_label.mk.injEq] at hm
    · simp only [Convolution_label.mk.injEq, and_true] at hm
      obtain ⟨hi, hj⟩ := hm
      exact Or.inr (Or.inr ⟨s.k1, d1, d2, hi.symm, hd1, hj ▸ hd2, heq⟩)

theorem cycle_steps_deferral {K : Kernel Point_2 Vector_2 Direction_2}
    {T : Tracer_input Point_2 Direction_2} {cycle_id : Nat} :
    ∀ (m : Nat) (s s2 : Tracer_state Point_2), Deferral_inv K T s.used_labels →
      cycle_steps K T cycle_id m s = Except.ok s2 → Deferral_inv K T s2.used_labels := by
  intro m
  induction m with
  | zero =>
    intro s s2 hinv h
    simp only [cycle_steps, pure, Except.pure, Except.ok.injEq] at h
    exact h ▸ hinv
  | succ m ih =>
    intro s s2 hinv h
    obtain ⟨s1, hs1, hrest⟩ := cycle_steps_succ h
    exact ih s1 s2 (cycle_step_deferral hinv hs1) hrest

theorem convolution_cycle_deferral {K : Kernel Point_2 Vector_2 Direction_2}
    {T : Tracer_input Point_2 Direction_2} {fuel cycle_id curr1 k1 curr2 k2 : Nat}
    {used : Labels_set} {queue : Anchors_queue} {cycle : List (Labeled_segment_2 Point_2)}
    {r : Tracer_state Point_2} (hinv : Deferral_inv K T used)
    (h : _convolution_cycle K fuel cycle_id T curr1 k1 curr2 k2 used queue cycle = Except.ok r) :
    Deferral_inv K T r.used_labels := by
  obtain ⟨s0, s, cycle1, hs0, hs, -, hm, hr⟩ := convolution_cycle_ok h
  obtain ⟨p1, p2, -, -, hs0eq⟩ := cycle_init_ok hs0
  obtain ⟨-, -, m, -, t, ht, hstep⟩ := cycle_loop_steps fuel s0 s hs
  have := cycle_steps_deferral (m + 1) s0 s (by rw [hs0eq]; exact hinv)
    (cycle_steps_snoc m s0 t s ht hstep)
  rw [hr]; exact this

theorem session_loop_deferral {K : Kernel Point_2 Vector_2 Direction_2}
    {T : Tracer_input Point_2 Direction_2} {tracer_fuel : Nat} :
    ∀ (fuel : Nat) (st st1 : Driver_state Point_2), Deferral_inv K T st.used_labels →
      session_loop K T tracer_fuel fuel st = Except.ok st1 →
      Deferral_inv K T st1.used_labels := by
  intro fuel
  induction fuel with
  | zero =>
    intro st st1 hinv h
    unfold session_loop at h
    split at h
    · simp only [Except.ok.injEq] at h
      exact h ▸ hinv
    · cases h
  | succ fuel ih =>
    intro st st1 hinv h
    unfold session_loop at h
    split at h
    · simp only [Except.ok.injEq] at h
      exact h ▸ hinv
    · rename_i anchor rest hq
      simp only [] at h
      split_ifs at h with hskip
      · exact ih { st with queue := rest, loops := st.loops + 1 - 1 } st1 hinv h
      · obtain ⟨r, hr, h⟩ := bind_eq_ok h
        have hinv1 := convolution_cycle_deferral hinv hr
        split_ifs at h with hempty
        · exact ih _ st1 hinv1 h
        · exact ih _ st1 hinv1 h

theorem scan_body_deferral {K : Kernel Point_2 Vector_2 Direction_2}
    {T : Tracer_input Point_2 Direction_2} {tracer_fuel session_fuel curr2 k2 k1 : Nat}
    {st st1 : Driver_state Point_2} (hinv : Deferral_inv K T st.used_labels)
    (h : scan_body K T tracer_fuel session_fuel curr2 k2 k1 st = Except.ok st1) :
    Deferral_inv K T st1.used_labels := by
  unfold scan_body at h
  simp only [] at h
  obtain ⟨found, -, h⟩ := bind_eq_ok h
  obtain ⟨st2, h2, h⟩ := bind_eq_ok h
  simp only [pure, Except.pure, Except.ok.injEq] at h
  subst h
  simp only
  split_ifs at h2
  · obtain ⟨st3, h3, h2⟩ := bind_eq_ok h2
    simp only [pure, Except.pure, Except.ok.injEq] at h2
    subst h2
    exact session_loop_deferral session_fuel
      { st with queue := [((st.curr1, k1), (curr2, k2))], loops := 0 } st3 hinv h3
  · simp only [Except.ok.injEq] at h2
    subst h2
    exact hinv

theorem seeder_loop_deferral {K : Kernel Point_2 Vector_2 Direction_2}
    {T : Tracer_input Point_2 Direction_2} {tracer_fuel session_fuel : Nat} :
    ∀ (seeds : List Vertex_ref) (st st1 : Driver_state Point_2),
      Deferral_inv K T st.used_labels →
      seeder_loop K T tracer_fuel session_fuel seeds st = Except.ok st1 →
      Deferral_inv K T st1.used_labels := by
  intro seeds
  induction seeds with
  | nil =>
    intro st st1 hinv h
    simp only [seeder_loop, Except.ok.injEq] at h
    exact h ▸ hinv
  | cons seed seeds ih =>
    intro st st1 hinv h
    unfold seeder_loop at h
    obtain ⟨st2, h2, h⟩ := bind_eq_ok h
    have hstep : ∀ (k : Nat) (d d1 : Driver_state Point_2), k < T.n1 →
        Deferral_inv K T d.used_labels →
        scan_body K T tracer_fuel session_fuel seed.1 seed.2 k d = Except.ok d1 →
        Deferral_inv K T d1.used_labels :=
      fun k d d1 _ hi hb => scan_body_deferral hi hb
    have := for_loop_inv
      (fun (_ : Nat) (d : Driver_state Point_2) => Deferral_inv K T d.used_labels) T.n1
      hstep T.n1 0 { st with curr1 := 0, next1 := 0 } st2 (by omega) hinv h2
    exact ih st2 st1 this h

theorem prev_index_of_succ {n i i' : Nat} (hi : i' < n) (h : (i' + 1) % n = i) :
    prev_index n i = i' := by
  unfold prev_index
  rcases succ_mod_cases hi with ⟨h1, h2⟩ | ⟨h1, h2⟩
  · rw [h2] at h
    subst h
    rw [show n + (i' + 1) - 1 = i' + n by omega, Nat.add_mod_right, Nat.mod_eq_of_lt hi]
  · rw [h2] at h
    subst h
    rw [show n + 0 - 1 = i' by omega, Nat.mod_eq_of_lt hi]

/-- Claim C18. Deferred branch. Take a kernel whose counterclockwise-between
predicate is strict at the lower bound of the cone, tables with at most `n1`
entries in `dirs1`, and a state whose set `used_labels` satisfies
`Deferral_inv` (the set is empty when `operator()` starts, and every step of
the tracer, every call of `_convolution_cycle` and the whole seeder loop keep
the invariant). In a completed tracer step at `(k1, k2)` in which advance-P is
chosen by the first cone test (`dirs1[k1]` is counterclockwise-between
`dirs2[(n2 + k2 - 1) % n2]` and `dirs2[k2]`, and the label `(k1, k2, 1)` is
unused) and `dirs2[k2]` is counterclockwise-between `dirs1[(n1 + k1 - 1) % n1]`
and `dirs1[k1]`: the label `(k1, k2, 2)` is unused, the anchor
`((curr1, k1), (curr2, k2))` is appended to the back of the queue, `k2` and
`curr2` are unchanged by the step, and `k1` has advanced. -/
theorem deferred_branch (K : Kernel Point_2 Vector_2 Direction_2)
    (T : Tracer_input Point_2 Direction_2) (cycle_id : Nat) (s s2 : Tracer_state Point_2)
    (d1 d1p d2 d2p : Direction_2)
    (hstrict : ∀ d lo hi, K.f_ccw_in_between d lo hi = true → K.f_equal lo d = false)
    (hlen : T.dirs1.length ≤ T.n1)
    (hinv : Deferral_inv K T s.used_labels)
    (hd1 : T.dirs1[s.k1]? = some d1) (hd1p : T.dirs1[prev_index T.n1 s.k1]? = some d1p)
    (hd2 : T.dirs2[s.k2]? = some d2) (hd2p : T.dirs2[prev_index T.n2 s.k2]? = some d2p)
    (hc1 : K.f_ccw_in_between d1 d2p d2 = true)
    (hu : Labels_set.count s.used_labels ⟨s.k1, s.k2, 1⟩ = 0)
    (hc2 : K.f_ccw_in_between d2 d1p d1 = true)
    (hstep : cycle_step K T cycle_id s = Except.ok s2) :
    (Labels_set.count s.used_labels ⟨s.k1, s.k2, 2⟩ = 0 ∧
      s2.queue = s.queue ++ [((s.curr1, s.k1), (s.curr2, s.k2))] ∧
      s2.k2 = s.k2 ∧ s2.curr2 = s.curr2 ∧ s2.k1 = (s.k1 + 1) % T.n1) ∧
    Deferral_inv K T [] ∧
    (∀ t t2 : Tracer_state Point_2, Deferral_inv K T t.used_labels →
      cycle_step K T cycle_id t = Except.ok t2 → Deferral_inv K T t2.used_labels) ∧
    (∀ (fuel curr1 k1 curr2 k2 : Nat) (used : Labels_set) (queue : Anchors_queue)
      (cycle : List (Labeled_segment_2 Point_2)) (r : Tracer_state Point_2),
      Deferral_inv K T used →
      _convolution_cycle K fuel cycle_id T curr1 k1 curr2 k2 used queue cycle = Except.ok r →
      Deferral_inv K T r.used_labels) ∧
    (∀ (tracer_fuel session_fuel : Nat) (seeds : List Vertex_ref)
      (st st1 : Driver_state Point_2), Deferral_inv K T st.used_labels →
      seeder_loop K T tracer_fuel session_fuel seeds st = Except.ok st1 →
      Deferral_inv K T st1.used_labels) := by
  refine ⟨?_, deferral_inv_nil K T, fun t t2 hi ht => cycle_step_deferral hi ht,
    fun fuel curr1 k1 curr2 k2 used queue cycle r hi hr => convolution_cycle_deferral hi hr,
    fun tf sf seeds st st1 hi hr => seeder_loop_deferral seeds st st1 hi hr⟩
  have hv : Labels_set.count s.used_labels ⟨s.k1, s.k2, 2⟩ = 0 := by
    by_contra hne
    have hne := (count_ne_zero_iff _ _).mp hne
    rcases hinv s.k1 s.k2 hne with h1 | ⟨e1, e2, e2p, he1, he2, he2p, hf⟩ | ⟨i', e1, e2, hi, he1, he2, hf⟩
    · exact (count_ne_zero_iff _ _).mpr h1 hu
    · rw [hd1] at he1; rw [hd2] at he2; rw [hd2p] at he2p
      simp only [Option.some.injEq] at he1 he2 he2p
      subst he1; subst he2; subst he2p
      rw [hc1] at hf
      cases hf
    · have hlt : i' < T.n1 := by
        have := (List.getElem?_eq_some_iff.mp he1).1
        omega
      have hp := prev_index_of_succ hlt hi
      rw [hp, he1] at hd1p
      rw [hd2] at he2
      simp only [Option.some.injEq] at hd1p he2
      subst hd1p; subst he2
      rw [hstrict _ _ _ hc2] at hf
      cases hf
  obtain ⟨flags, s1, hf, -, hs1, hs2⟩ := cycle_step_ok hstep
  rw [decide_moves_of_reads hd1 hd1p hd2 hd2p] at hf
  simp only [Except.ok.injEq] at hf
  have hflags : flags = (true, false, s.queue ++ [((s.curr1, s.k1), (s.curr2, s.k2))]) := by
    rw [← hf]
    unfold decide_flags cone_flags
    simp [hc1, hu, hc2, hv]
  rw [hflags] at hs1 hs2
  simp only [if_true, Bool.false_eq_true, if_false, Except.ok.injEq] at hs1 hs2
  obtain ⟨pn, pc, r2, -, -, -, -, hs⟩ := advance1_ok hs1
  rw [← hs2, hs]
  exact ⟨hv, rfl, rfl, rfl, rfl⟩

theorem deferred_branch_witness :
    (Labels_set.count diamond_dart_at_reflex.used_labels
        ⟨diamond_dart_at_reflex.k1, diamond_dart_at_reflex.k2, 2⟩ = 0 ∧
      diamond_dart_deferred.queue = diamond_dart_at_reflex.queue ++
        [((diamond_dart_at_reflex.curr1, diamond_dart_at_reflex.k1),
          (diamond_dart_at_reflex.curr2, diamond_dart_at_reflex.k2))] ∧
      diamond_dart_deferred.k2 = diamond_dart_at_reflex.k2 ∧
      diamond_dart_deferred.curr2 = diamond_dart_at_reflex.curr2 ∧
      diamond_dart_deferred.k1 = (diamond_dart_at_reflex.k1 + 1) % diamond_dart.n1) ∧
    Deferral_inv int_kernel diamond_dart [] ∧
    (∀ t t2 : Tracer_state (Int × Int), Deferral_inv int_kernel diamond_dart t.used_labels →
      cycle_step int_kernel diamond_dart 1 t = Except.ok t2 →
      Deferral_inv int_kernel diamond_dart t2.used_labels) ∧
    (∀ (fuel curr1 k1 curr2 k2 : Nat) (used : Labels_set) (queue : Anchors_queue)
      (cycle : List (Labeled_segment_2 (Int × Int))) (r : Tracer_state (Int × Int)),
      Deferral_inv int_kernel diamond_dart used →
      _convolution_cycle int_kernel fuel 1 diamond_dart curr1 k1 curr2 k2 used queue cycle =
        Except.ok r →
      Deferral_inv int_kernel diamond_dart r.used_labels) ∧
    (∀ (tracer_fuel session_fuel : Nat) (seeds : List Vertex_ref)
      (st st1 : Driver_state (Int × Int)), Deferral_inv int_kernel diamond_dart st.used_labels →
      seeder_loop int_kernel diamond_dart tracer_fuel session_fuel seeds st = Except.ok st1 →
      Deferral_inv int_kernel diamond_dart st1.used_labels) :=
  deferred_branch int_kernel diamond_dart 1 diamond_dart_at_reflex diamond_dart_deferred
    (1, 1) (1, -1) (2, -1) (2, 1)
    (fun d lo hi h => (int_ccw_strict d lo hi h).2.1)
    (by decide)
    (by
      intro i j h
      have h2 : i = 0 ∧ j = 0 := by
        simpa [diamond_dart_at_reflex, Convolution_label.mk.injEq] using h
      obtain ⟨hi, hj⟩ := h2
      subst hi; subst hj
      exact Or.inr (Or.inl ⟨(1, 1), (2, 1), (-2, -4), rfl, rfl, rfl, rfl⟩))
    rfl rfl rfl rfl rfl rfl rfl rfl

end DeferredBranch

/-! ## The sessions of the seeder -/

/-- Claim C19. A qualifying seed that is not traced. For two darts the pair
`(k1, k2) = (1, 0)` qualifies in the scan of the first seed `k2 = 0` (the
label `(1, 0, 1)` is unused and `dirs1[1]` is inside the cone of the second
polygon at `0`), after the session of the pair `(0, 0)` has used the label
`(1, 0, 2)`. The session launched for `(1, 0)` pops the seed, finds
`loops > 0` (the counter was incremented just before the test) and the label
`(1, 0, 2)` used, and drops the seed: the session ends without a call of
`_convolution_cycle` (`curr_id`, `used_labels` and `conv_segments` are
unchanged) and the label `(1, 0, 1)` is still unused. -/
theorem qualifying_seed_is_dropped :
    tables_of int_kernel dart dart = Except.ok dart_dart ∧
    seed_list int_kernel dart = Except.ok [(0, 0), (1, 1)] ∧
    scan_body int_kernel dart_dart 8 4 0 0 0 seeder_start = Except.ok dart_dart_scanned ∧
    seed_qualifies int_kernel dart_dart dart_dart_scanned.used_labels 1 0 = Except.ok true ∧
    Labels_set.count dart_dart_scanned.used_labels ⟨1, 0, 2⟩ = 1 ∧
    (∀ tracer_fuel session_fuel : Nat,
      session_loop int_kernel dart_dart tracer_fuel (session_fuel + 1)
          { dart_dart_scanned with
            queue := [((dart_dart_scanned.curr1, 1), (0, 0))], loops := 0 } =
        Except.ok { dart_dart_scanned with queue := [], loops := 0 }) ∧
    ({ dart_dart_scanned with queue := [], loops := 0 } : Driver_state (Int × Int)).curr_id =
      dart_dart_scanned.curr_id ∧
    Labels_set.count dart_dart_scanned.used_labels ⟨1, 0, 1⟩ = 0 :=
  ⟨rfl, rfl, rfl, rfl, rfl, fun _ sf => by cases sf <;> rfl, rfl, rfl⟩

section Cycles
variable {Point_2 Vector_2 Direction_2 : Type}

theorem session_loop_cycles {K : Kernel Point_2 Vector_2 Direction_2}
    {T : Tracer_input Point_2 Direction_2} {tracer_fuel : Nat} :
    ∀ (fuel : Nat) (st st1 : Driver_state Point_2),
      session_loop K T tracer_fuel fuel st = Except.ok st1 → st1.cycles = st.cycles := by
  intro fuel
  induction fuel with
  | zero =>
    intro st st1 h
    unfold session_loop at h
    split at h
    · simp only [Except.ok.injEq] at h
      rw [← h]
    · cases h
  | succ fuel ih =>
    intro st st1 h
    unfold session_loop at h
    split at h
    · simp only [Except.ok.injEq] at h
      rw [← h]
    · rename_i anchor rest hq
      simp only [] at h
      split_ifs at h with hskip
      · exact ih { st with queue := rest, loops := st.loops + 1 - 1 } st1 h
      · obtain ⟨r, hr, h⟩ := bind_eq_ok h
        split_ifs at h with hempty
        · have := ih _ st1 h
          simpa using this
        · have := ih _ st1 h
          simpa using this

end Cycles

/-- Claim C20, as stated, fails. For two darts, the session launched by the
qualifying pair `(k1, k2) = (1, 0)` splices no segment into `conv_segments`,
and the counter `cycles` is incremented all the same (from 1 to 2). -/
theorem cycles_counts_a_session_without_segments :
    seed_qualifies int_kernel dart_dart dart_dart_scanned.used_labels 1 0 = Except.ok true ∧
    ∀ tracer_fuel session_fuel : Nat,
      ∃ st1, scan_body int_kernel dart_dart tracer_fuel (session_fuel + 1) 0 0 1
          dart_dart_scanned = Except.ok st1 ∧
        st1.conv_segments = dart_dart_scanned.conv_segments ∧
        st1.curr_id = dart_dart_scanned.curr_id ∧
        dart_dart_scanned.cycles = 1 ∧ st1.cycles = 2 :=
  ⟨rfl, fun _ sf => by cases sf <;> exact ⟨_, rfl, rfl, rfl, rfl, rfl⟩⟩

/-- Claim C20, amended. Cycle counter. In every completed iteration of the
scan of the first polygon, the counter `cycles` is incremented by exactly one
when the pair `(k1, k2)` qualifies (a session is launched), whatever the
number of segments the session splices into `conv_segments`, and is left
unchanged when the pair does not qualify. -/
theorem cycles_counts_sessions (K : Kernel Point_2 Vector_2 Direction_2)
    (T : Tracer_input Point_2 Direction_2) (tracer_fuel session_fuel curr2 k2 k1 : Nat)
    (st st1 : Driver_state Point_2)
    (h : scan_body K T tracer_fuel session_fuel curr2 k2 k1 st = Except.ok st1) :
    ∃ found, seed_qualifies K T st.used_labels k1 k2 = Except.ok found ∧
      st1.cycles = st.cycles + (if found then 1 else 0) ∧
      (found = false → st1.conv_segments = st.conv_segments) := by
  unfold scan_body at h
  simp only [] at h
  obtain ⟨found, hfound, h⟩ := bind_eq_ok h
  obtain ⟨st2, h2, h⟩ := bind_eq_ok h
  simp only [pure, Except.pure, Except.ok.injEq] at h
  subst h
  refine ⟨found, hfound, ?_⟩
  simp only
  cases found with
  | true =>
    simp only [if_true] at h2
    obtain ⟨st3, h3, h2⟩ := bind_eq_ok h2
    simp only [pure, Except.pure, Except.ok.injEq] at h2
    subst h2
    have := session_loop_cycles session_fuel _ st3 h3
    simp only at this
    simp [this]
  | false =>
    simp only [Bool.false_eq_true, if_false, Except.ok.injEq] at h2
    subst h2
    simp

theorem cycles_counts_sessions_witness :
    ∃ found, seed_qualifies int_kernel dart_dart seeder_start.used_labels 0 0 =
        Except.ok found ∧
      dart_dart_scanned.cycles = seeder_start.cycles + (if found then 1 else 0) ∧
      (found = false → dart_dart_scanned.conv_segments = seeder_start.conv_segments) :=
  cycles_counts_sessions int_kernel dart_dart 8 4 0 0 0 seeder_start dart_dart_scanned rfl

/-! ## The number of iterations of a trace -/

/-- Claim C14, as stated, fails. For the dart (4 vertices) and the star with
5 vertices, both simple and counterclockwise, the first trace started by the
driver, from the seed pair `(k1, k2) = (1, 0)`, is not back at its seed pair
after `4 * 5 = 20` iterations of the do-while loop (it is at `(1, 4)`), and
closes in the 21st iteration. -/
theorem trace_of_dart_and_star_exceeds_product :
    tables_of int_kernel dart star5 = Except.ok dart_star ∧
    seed_list int_kernel star5 = Except.ok [(0, 0), (2, 2), (4, 4)] ∧
    seed_qualifies int_kernel dart_star [] 0 0 = Except.ok false ∧
    seed_qualifies int_kernel dart_star [] 1 0 = Except.ok true ∧
    dart_star.n1 * dart_star.n2 = 20 ∧
    cycle_init int_kernel dart_star 1 1 0 0 [] [] [] = Except.ok dart_star_start ∧
    (∃ s, cycle_steps int_kernel dart_star 1 20 dart_star_start = Except.ok s ∧
      s.k1 = 1 ∧ s.k2 = 4) ∧
    cycle_loop int_kernel dart_star 1 1 0 20 dart_star_start =
      Except.error Failure.out_of_fuel ∧
    (∃ s, cycle_loop int_kernel dart_star 1 1 0 21 dart_star_start = Except.ok s) ∧
    operator_call int_kernel 20 4 dart star5 = Except.error Failure.out_of_fuel ∧
    (∃ st, operator_call int_kernel 21 4 dart star5 = Except.ok st) :=
  ⟨rfl, rfl, rfl, rfl, rfl, rfl, ⟨_, rfl, rfl, rfl⟩, rfl, ⟨_, rfl⟩, rfl, ⟨_, rfl⟩⟩

section LoopBound
variable {Point_2 Vector_2 Direction_2 : Type}

theorem cycle_step_range {K : Kernel Point_2 Vector_2 Direction_2}
    {T : Tracer_input Point_2 Direction_2} {cycle_id : Nat} {s s2 : Tracer_state Point_2}
    (hk1 : s.k1 < T.n1) (hk2 : s.k2 < T.n2) (hr : Label_range T s.used_labels)
    (h : cycle_step K T cycle_id s = Except.ok s2) :
    s2.k1 < T.n1 ∧ s2.k2 < T.n2 ∧ Label_range T s2.used_labels := by
  obtain ⟨flags, s1, -, -, hs1, hs2⟩ := cycle_step_ok h
  have hn1 : 0 < T.n1 := by omega
  have hn2 : 0 < T.n2 := by omega
  have h1 : s1.k1 < T.n1 ∧ s1.k2 < T.n2 ∧ Label_range T s1.used_labels := by
    cases hf : flags.1 with
    | true =>
      rw [hf] at hs1
      simp only [if_true] at hs1
      obtain ⟨pn, pc, r2, -, -, -, -, hs⟩ := advance1_ok hs1
      rw [hs]
      refine ⟨Nat.mod_lt _ hn1, hk2, ?_⟩
      intro l hl
      simp only [mem_insert_iff] at hl
      rcases hl with hl | hl
      · exact hr l hl
      · rw [hl]; exact ⟨hk1, hk2, Or.inl rfl⟩
    | false =>
      rw [hf] at hs1
      simp only [Bool.false_eq_true, if_false, Except.ok.injEq] at hs1
      rw [← hs1]
      exact ⟨hk1, hk2, hr⟩
  cases hf : flags.2.1 with
  | true =>
    rw [hf] at hs2
    simp only [if_true] at hs2
    obtain ⟨pn, pc, r1, -, -, -, -, hs⟩ := advance2_ok hs2
    rw [hs]
    refine ⟨h1.1, Nat.mod_lt _ hn2, ?_⟩
    intro l hl
    simp only [mem_insert_iff] at hl
    rcases hl with hl | hl
    · exact h1.2.2 l hl
    · rw [hl]; exact ⟨h1.1, h1.2.1, Or.inr rfl⟩
  | false =>
    rw [hf] at hs2
    simp only [Bool.false_eq_true, if_false, Except.ok.injEq] at hs2
    rw [← hs2]
    exact h1

theorem cycle_steps_range {K : Kernel Point_2 Vector_2 Direction_2}
    {T : Tracer_input Point_2 Direction_2} {cycle_id : Nat} :
    ∀ (m : Nat) (s s2 : Tracer_state Point_2), s.k1 < T.n1 → s.k2 < T.n2 →
      Label_range T s.used_labels → cycle_steps K T cycle_id m s = Except.ok s2 →
      s2.k1 < T.n1 ∧ s2.k2 < T.n2 ∧ Label_range T s2.used_labels := by
  intro m
  induction m with
  | zero =>
    intro s s2 hk1 hk2 hr h
    simp only [cycle_steps, pure, Except.pure, Except.ok.injEq] at h
    exact h ▸ ⟨hk1, hk2, hr⟩
  | succ m ih =>
    intro s s2 hk1 hk2 hr h
    obtain ⟨s1, hs1, hrest⟩ := cycle_steps_succ h
    obtain ⟨a, b, c⟩ := cycle_step_range hk1 hk2 hr hs1
    exact ih s1 s2 a b c hrest

/-- A set of pairwise distinct labels of two polygons with `n1` and `n2`
vertices has at most `2 * n1 * n2` elements. -/
theorem label_range_length {T : Tracer_input Point_2 Direction_2} {used : Labels_set}
    (hnd : used.Nodup) (hr : Label_range T used) : used.length ≤ 2 * T.n1 * T.n2 := by
  have hsub : used.toFinset ⊆
      ((Finset.range T.n1 ×ˢ Finset.range T.n2) ×ˢ ({1, 2} : Finset Nat)).image
        (fun x => (⟨x.1.1, x.1.2, x.2⟩ : Convolution_label)) := by
    intro l hl
    rw [List.mem_toFinset] at hl
    obtain ⟨a, b, c⟩ := hr l hl
    rw [Finset.mem_image]
    refine ⟨((l.index1, l.index2), l.move_on), ?_, ?_⟩
    · simp only [Finset.mem_product, Finset.mem_range, Finset.mem_insert, Finset.mem_singleton]
      exact ⟨⟨a, b⟩, c⟩
    · rfl
  have h1 := Finset.card_le_card hsub
  rw [List.toFinset_card_of_nodup hnd] at h1
  have h2 := Finset.card_image_le
    (s := (Finset.range T.n1 ×ˢ Finset.range T.n2) ×ˢ ({1, 2} : Finset Nat))
    (f := fun x => (⟨x.1.1, x.1.2, x.2⟩ : Convolution_label))
  simp only [Finset.card_product, Finset.card_range] at h2
  have h3 : ({1, 2} : Finset Nat).card = 2 := by decide
  rw [h3] at h2
  calc used.length ≤ _ := h1
    _ ≤ T.n1 * T.n2 * 2 := h2
    _ = 2 * T.n1 * T.n2 := by ring

theorem cycle_steps_count {K : Kernel Point_2 Vector_2 Direction_2}
    {T : Tracer_input Point_2 Direction_2} {cycle_id m : Nat} {s s2 : Tracer_state Point_2}
    (hk1 : s.k1 < T.n1) (hk2 : s.k2 < T.n2) (hnd : s.used_labels.Nodup)
    (hr : Label_range T s.used_labels)
    (h : cycle_steps K T cycle_id m s = Except.ok s2) :
    m + s.used_labels.length ≤ 2 * T.n1 * T.n2 := by
  obtain ⟨added, hu, -, hn, hm, hfr, -⟩ := cycle_steps_labels m s s2 h
  obtain ⟨-, -, hr2⟩ := cycle_steps_range m s s2 hk1 hk2 hr h
  have hnd2 : s2.used_labels.Nodup := by
    rw [hu, List.nodup_append]
    exact ⟨hnd, hn, fun l h1 h2 => hfr l h2 h1⟩
  have := label_range_length hnd2 hr2
  rw [hu, List.length_append] at this
  omega

theorem cycle_loop_out_of_fuel {K : Kernel Point_2 Vector_2 Direction_2}
    {T : Tracer_input Point_2 Direction_2} {cycle_id first1 first2 : Nat} :
    ∀ (fuel : Nat) (s : Tracer_state Point_2),
      cycle_loop K T cycle_id first1 first2 fuel s = Except.error Failure.out_of_fuel →
      ∃ s2, cycle_steps K T cycle_id fuel s = Except.ok s2 := by
  intro fuel
  induction fuel with
  | zero =>
    intro s _
    exact ⟨s, rfl⟩
  | succ fuel ih =>
    intro s h
    unfold cycle_loop at h
    rcases bind_eq_error h with h | ⟨s1, hs1, h⟩
    · rcases cycle_step_error h with h | h | h <;> cases h
    · split_ifs at h
      · obtain ⟨s2, hs2⟩ := ih s1 h
        refine ⟨s2, ?_⟩
        rw [cycle_steps]
        simp only [hs1, bind, Except.bind]
        exact hs2
      · cases h

end LoopBound

section LoopBound2
variable {Point_2 Vector_2 Direction_2 : Type}

theorem cycle_loop_stable {K : Kernel Point_2 Vector_2 Direction_2}
    {T : Tracer_input Point_2 Direction_2} {cycle_id first1 first2 : Nat} :
    ∀ (fuel : Nat) (s : Tracer_state Point_2),
      cycle_loop K T cycle_id first1 first2 fuel s ≠ Except.error Failure.out_of_fuel →
      ∀ more : Nat, cycle_loop K T cycle_id first1 first2 (fuel + more) s =
        cycle_loop K T cycle_id first1 first2 fuel s := by
  intro fuel
  induction fuel with
  | zero =>
    intro s h
    exact absurd rfl h
  | succ fuel ih =>
    intro s h more
    rw [show fuel + 1 + more = (fuel + more) + 1 by omega]
    unfold cycle_loop at h ⊢
    cases hs : cycle_step K T cycle_id s with
    | error e => simp only [bind, Except.bind]
    | ok s1 =>
      rw [hs] at h
      simp only [bind, Except.bind] at h ⊢
      split_ifs with hc
      · rw [if_pos hc] at h
        exact ih s1 h more
      · rfl

/-- Claim C14, amended. Loop bound. Take a state of the tracer with indices
`k1 < n1` and `k2 < n2` whose set `used_labels` holds pairwise distinct labels
of the two polygons (as at the start of every trace when the set is empty).
The do-while loop completes at most `2 * n1 * n2` iterations from this state
(each completed iteration inserts at least one label that was unused, and
there are `2 * n1 * n2` labels); when the loop returns to its seed pair it has
done so after at most `2 * n1 * n2` iterations; with an iteration budget of
`2 * n1 * n2 + 1` the loop and `_convolution_cycle` never run out of budget,
and a larger budget gives the same result. -/
theorem loop_bound (K : Kernel Point_2 Vector_2 Direction_2)
    (T : Tracer_input Point_2 Direction_2) (cycle_id first1 first2 : Nat)
    (s : Tracer_state Point_2) (hk1 : s.k1 < T.n1) (hk2 : s.k2 < T.n2)
    (hnd : s.used_labels.Nodup) (hr : Label_range T s.used_labels) :
    (∀ (m : Nat) (s2 : Tracer_state Point_2), cycle_steps K T cycle_id m s = Except.ok s2 →
      m + s.used_labels.length ≤ 2 * T.n1 * T.n2) ∧
    (∀ (fuel : Nat) (s2 : Tracer_state Point_2),
      cycle_loop K T cycle_id first1 first2 fuel s = Except.ok s2 →
      s2.k1 = first1 ∧ s2.k2 = first2 ∧
      ∃ m, m ≤ 2 * T.n1 * T.n2 ∧ cycle_steps K T cycle_id m s = Except.ok s2) ∧
    cycle_loop K T cycle_id first1 first2 (2 * T.n1 * T.n2 + 1) s ≠
      Except.error Failure.out_of_fuel ∧
    (∀ more : Nat, cycle_loop K T cycle_id first1 first2 (2 * T.n1 * T.n2 + 1 + more) s =
      cycle_loop K T cycle_id first1 first2 (2 * T.n1 * T.n2 + 1) s) := by
  have hcount : ∀ (m : Nat) (s2 : Tracer_state Point_2),
      cycle_steps K T cycle_id m s = Except.ok s2 →
      m + s.used_labels.length ≤ 2 * T.n1 * T.n2 :=
    fun m s2 h => cycle_steps_count hk1 hk2 hnd hr h
  have hfuel : cycle_loop K T cycle_id first1 first2 (2 * T.n1 * T.n2 + 1) s ≠
      Except.error Failure.out_of_fuel := by
    intro h
    obtain ⟨s2, hs2⟩ := cycle_loop_out_of_fuel _ s h
    have := hcount _ s2 hs2
    omega
  refine ⟨hcount, ?_, hfuel, cycle_loop_stable _ s hfuel⟩
  intro fuel s2 h
  obtain ⟨e1, e2, m, -, t, ht, hstep⟩ := cycle_loop_steps fuel s s2 h
  have hs := cycle_steps_snoc m s t s2 ht hstep
  have := hcount _ s2 hs
  exact ⟨e1, e2, m + 1, by omega, hs⟩

theorem loop_bound_witness :
    (∀ (m : Nat) (s2 : Tracer_state (Int × Int)),
      cycle_steps int_kernel dart_star 1 m dart_star_start = Except.ok s2 →
      m + dart_star_start.used_labels.length ≤ 2 * dart_star.n1 * dart_star.n2) ∧
    (∀ (fuel : Nat) (s2 : Tracer_state (Int × Int)),
      cycle_loop int_kernel dart_star 1 1 0 fuel dart_star_start = Except.ok s2 →
      s2.k1 = 1 ∧ s2.k2 = 0 ∧
      ∃ m, m ≤ 2 * dart_star.n1 * dart_star.n2 ∧
        cycle_steps int_kernel dart_star 1 m dart_star_start = Except.ok s2) ∧
    cycle_loop int_kernel dart_star 1 1 0 (2 * dart_star.n1 * dart_star.n2 + 1)
        dart_star_start ≠ Except.error Failure.out_of_fuel ∧
    (∀ more : Nat,
      cycle_loop int_kernel dart_star 1 1 0 (2 * dart_star.n1 * dart_star.n2 + 1 + more)
          dart_star_start =
        cycle_loop int_kernel dart_star 1 1 0 (2 * dart_star.n1 * dart_star.n2 + 1)
          dart_star_start) :=
  loop_bound int_kernel dart_star 1 1 0 dart_star_start (by decide) (by decide)
    List.nodup_nil (fun l hl => absurd hl (List.not_mem_nil l))

end LoopBound2

/-! ## Convex polygons -/

/-- With the unit square as first polygon and the right triangle as second
polygon, the preprocessing loop of the first polygon fails at `k1 = 3`: the table
`is_reflex1` has `n2 = 3` entries, the write `is_reflex1[3]` is out of range,
and `operator()` hands no segment list to the union step. With a table
`is_reflex1` of `n1 = 4` entries the single trace from the seed `(0, 0)`
closes with `7 = 4 + 3` moves and 7 segments, and with the two polygons
exchanged `operator()` completes with one cycle of 7 segments. -/
theorem convex_witness_overruns_reflex_table :
    (∃ st, for_loop (first_polygon_body int_kernel unit_square true) 3 0
        { prev1 := 3, curr1 := 0, next1 := 0,
          dirs1 := List.replicate 4 int_kernel.default_direction,
          is_reflex1 := List.replicate right_triangle.length false } = Except.ok st ∧
      st.is_reflex1.length = 3 ∧
      first_polygon_body int_kernel unit_square true 3 st =
        Except.error Failure.out_of_range) ∧
    first_polygon_tables int_kernel unit_square right_triangle.length =
      (Except.error Failure.out_of_range : Except Failure (Prep1_state (Int × Int))) ∧
    (∀ tracer_fuel session_fuel : Nat,
      operator_call int_kernel tracer_fuel session_fuel unit_square right_triangle =
        Except.error Failure.out_of_range) ∧
    seed_list int_kernel right_triangle = Except.ok [(0, 0)] ∧
    seed_qualifies int_kernel square_triangle [] 0 0 = Except.ok true ∧
    (∃ r, _convolution_cycle int_kernel 7 1 square_triangle 0 0 0 0 [] [] [] = Except.ok r ∧
      r.seg_index = 7 ∧ r.cycle.length = 7 ∧ r.used_labels.length = 7 ∧ r.queue = []) ∧
    (∃ st, operator_call int_kernel 7 1 right_triangle unit_square = Except.ok st ∧
      st.conv_segments.length = 7 ∧ st.cycles = 1 ∧ st.curr_id = 1) :=
  ⟨⟨_, rfl, rfl, rfl⟩, rfl, fun _ _ => rfl, rfl, rfl, ⟨_, rfl, rfl, rfl, rfl, rfl⟩,
    ⟨_, rfl, rfl, rfl, rfl⟩⟩

/-! ## The advance invariant -/

section Advance
variable {Point_2 Vector_2 Direction_2 : Type}

theorem count_le_one (s : Labels_set) (l : Convolution_label) : Labels_set.count s l ≤ 1 := by
  unfold Labels_set.count
  split_ifs <;> omega

theorem count_eq_one_iff (s : Labels_set) (l : Convolution_label) :
    Labels_set.count s l = 1 ↔ l ∈ s := by
  rw [← count_ne_zero_iff]
  have := count_le_one s l
  omega

theorem count_insert (s : Labels_set) (l x : Convolution_label) (h : l ∉ s) :
    Labels_set.count (Labels_set.insert s l) x =
      Labels_set.count s x + (if x = l then 1 else 0) := by
  have h1 := count_le_one (Labels_set.insert s l) x
  have h2 := count_le_one s x
  have m1 := count_eq_one_iff (Labels_set.insert s l) x
  have m2 := count_eq_one_iff s x
  rw [mem_insert_iff] at m1
  by_cases hx : x = l
  · simp only [hx, if_true]
    rw [hx] at m1 m2 h1 h2
    have : Labels_set.count s l ≠ 1 := fun hc => h (m2.mp hc)
    have : Labels_set.count (Labels_set.insert s l) l = 1 := m1.mpr (Or.inr rfl)
    omega
  · simp only [hx, if_false, add_zero]
    by_cases hm : x ∈ s
    · have := m2.mpr hm
      have := m1.mpr (Or.inl hm)
      omega
    · have a1 : Labels_set.count s x ≠ 1 := fun hc => hm (m2.mp hc)
      have a2 : Labels_set.count (Labels_set.insert s l) x ≠ 1 := by
        intro hc
        rcases m1.mp hc with h3 | h3
        · exact hm h3
        · exact hx h3
      omega

theorem prev_index_lt {n k : Nat} (hn : 0 < n) : prev_index n k < n :=
  Nat.mod_lt _ hn

theorem succ_prev_index {n i : Nat} (hi : i < n) : (prev_index n i + 1) % n = i := by
  unfold prev_index
  by_cases h0 : i = 0
  · subst h0
    have h1 : (n + 0 - 1) % n = n - 1 := by
      rw [show n + 0 - 1 = n - 1 by omega]
      exact Nat.mod_eq_of_lt (by omega)
    rw [h1, show n - 1 + 1 = n by omega, Nat.mod_self]
  · have h1 : (n + i - 1) % n = i - 1 := by
      rw [show n + i - 1 = (i - 1) + n by omega, Nat.add_mod_right]
      exact Nat.mod_eq_of_lt (by omega)
    rw [h1, show i - 1 + 1 = i by omega]
    exact Nat.mod_eq_of_lt hi

theorem prev_index_eq_iff {n i k : Nat} (hi : i < n) (hk : k < n) :
    prev_index n i = k ↔ i = (k + 1) % n := by
  constructor
  · intro h
    rw [← h, succ_prev_index hi]
  · intro h
    exact prev_index_of_succ hk h.symm

theorem succ_mod_inj {n i k : Nat} (hi : i < n) (hk : k < n)
    (h : (i + 1) % n = (k + 1) % n) : i = k := by
  rw [← prev_index_of_succ hi rfl, ← prev_index_of_succ hk rfl, h]

end Advance

section AdvanceFlags
variable {Point_2 Vector_2 Direction_2 : Type}

theorem decide_flags_spec (K : Kernel Point_2 Vector_2 Direction_2) (n1 : Nat)
    (d1 d1p d2 d2p : Direction_2) (s : Tracer_state Point_2) :
    ((decide_flags K n1 d1 d1p d2 d2p s).1 = true ↔
      Labels_set.count s.used_labels ⟨s.k1, s.k2, 1⟩ = 0 ∧
        (K.f_ccw_in_between d1 d2p d2 = true ∨
          (K.f_equal d1 d2 = true ∧
            ¬ (K.f_ccw_in_between d2 d1p d1 = true ∧
              Labels_set.count s.used_labels ⟨s.k1, s.k2, 2⟩ = 0)))) ∧
    ((decide_flags K n1 d1 d1p d2 d2p s).2.1 = true ↔
      (K.f_ccw_in_between d2 d1p d1 = true ∧
        ¬ (K.f_ccw_in_between d1 d2p d2 = true ∧
          Labels_set.count s.used_labels ⟨s.k1, s.k2, 1⟩ = 0) ∧
        Labels_set.count s.used_labels ⟨s.k1, s.k2, 2⟩ = 0) ∨
      (¬ (K.f_ccw_in_between d1 d2p d2 = true ∧
          Labels_set.count s.used_labels ⟨s.k1, s.k2, 1⟩ = 0) ∧
        ¬ (K.f_ccw_in_between d2 d1p d1 = true ∧
          Labels_set.count s.used_labels ⟨s.k1, s.k2, 2⟩ = 0) ∧
        K.f_equal d1 d2 = true ∧
        ((Labels_set.count s.used_labels ⟨s.k1, s.k2, 1⟩ = 0 ∧
            Labels_set.count s.used_labels ⟨(s.k1 + 1) % n1, s.k2, 2⟩ = 0) ∨
          (Labels_set.count s.used_labels ⟨s.k1, s.k2, 1⟩ ≠ 0 ∧
            Labels_set.count s.used_labels ⟨s.k1, s.k2, 2⟩ = 0)))) ∧
    (∀ a ∈ (decide_flags K n1 d1 d1p d2 d2p s).2.2, a ∈ s.queue ∨
      (a = ((s.curr1, s.k1), (s.curr2, s.k2)) ∧
        K.f_ccw_in_between d1 d2p d2 = true ∧ K.f_ccw_in_between d2 d1p d1 = true)) := by
  unfold decide_flags cone_flags
  by_cases hu : Labels_set.count s.used_labels ⟨s.k1, s.k2, 1⟩ = 0 <;>
    by_cases hc1 : K.f_ccw_in_between d1 d2p d2 = true <;>
    by_cases hc2 : K.f_ccw_in_between d2 d1p d1 = true <;>
    by_cases hv : Labels_set.count s.used_labels ⟨s.k1, s.k2, 2⟩ = 0 <;>
    by_cases he : K.f_equal d1 d2 = true <;>
    by_cases hw : Labels_set.count s.used_labels ⟨(s.k1 + 1) % n1, s.k2, 2⟩ = 0 <;>
    simp [hu, hc1, he, hc2, hv, hw] <;>
    (intro a b a1 b1 h; exact Or.inl h)

end AdvanceFlags

section AdvanceCore

set_option maxHeartbeats 4000000 in
/-- The arithmetic behind the advance invariant, at one vertex pair: `a`, `b`
are the ranks of the edges of the first polygon before and after the vertex,
`c`, `d` those of the second polygon; `u1`, `u2` count the used labels that
leave the pair, `v1`, `v2` those that arrive, `w` the second label of a step
that moves on both polygons, and `st` is 1 at the pair where the trace
began. -/
theorem advance_core (a b c d : Int) (u1 u2 v1 v2 w st : Nat)
    (hu1 : u1 ≤ 1) (hu2 : u2 ≤ 1) (hv1 : v1 ≤ 1) (hv2 : v2 ≤ 1) (hw : w ≤ 1) (hst : st ≤ 1)
    (g1 : u1 = 1 → Rank_between (2 * b) (2 * c + 1) (2 * d + 1))
    (g2 : u2 = 1 → Rank_between (2 * d + 1) (2 * a) (2 * b))
    (g3 : v1 = 1 → Rank_between (2 * a) (2 * c + 1) (2 * d + 1))
    (g4 : v2 = 1 → Rank_between (2 * c + 1) (2 * a) (2 * b))
    (bal : v1 + v2 + st = u1 + u2 + 1)
    (p1 : a = d → (v1 = 1 ↔ u2 = 1))
    (p2 : b = d → (u1 = 1 ↔ w = 1))
    (first : st = 1 → (Rank_between b c d ∧ Rank_between d a b ∧ u2 = 0) ∨
      ((Rank_between b c d ∨ b = d) ∧ u1 = 0))
    (inc1 inc2 : Prop)
    (h1 : inc1 ↔ u1 = 0 ∧ (Rank_between b c d ∨ (b = d ∧ ¬ (Rank_between d a b ∧ u2 = 0))))
    (h2 : inc2 ↔ (Rank_between d a b ∧ ¬ (Rank_between b c d ∧ u1 = 0) ∧ u2 = 0) ∨
      (¬ (Rank_between b c d ∧ u1 = 0) ∧ ¬ (Rank_between d a b ∧ u2 = 0) ∧ b = d ∧
        ((u1 = 0 ∧ w = 0) ∨ (u1 ≠ 0 ∧ u2 = 0)))) :
    (inc1 ∨ inc2) ∧
    (inc1 → Rank_between (2 * b) (2 * c + 1) (2 * d + 1) ∧ u1 = 0) ∧
    (inc2 → ¬ inc1 → Rank_between (2 * d + 1) (2 * a) (2 * b) ∧ a ≠ d ∧ u2 = 0) ∧
    (inc1 → inc2 → b = d ∧ w = 0) ∧
    (inc1 → ¬ inc2 → b ≠ d) := by
  rw [h1, h2]
  clear h1 h2
  have e1 : u1 = 0 ∨ u1 = 1 := by omega
  have e2 : u2 = 0 ∨ u2 = 1 := by omega
  have e3 : v1 = 0 ∨ v1 = 1 := by omega
  have e4 : v2 = 0 ∨ v2 = 1 := by omega
  have e5 : w = 0 ∨ w = 1 := by omega
  have e6 : st = 0 ∨ st = 1 := by omega
  clear hu1 hu2 hv1 hv2 hw hst
  rcases e1 with rfl | rfl <;> rcases e2 with rfl | rfl <;> rcases e3 with rfl | rfl <;>
    rcases e4 with rfl | rfl <;> rcases e6 with rfl | rfl <;>
    first
    | (exfalso; omega)
    | (rcases e5 with rfl | rfl <;> (unfold Rank_between at *; omega))

end AdvanceCore

section AdvanceStep
variable {Point_2 Vector_2 Direction_2 : Type}

theorem in_graph_first {T : Tracer_input Point_2 Direction_2} {r1 r2 : Nat → Int}
    {i j : Nat} (h : In_graph T r1 r2 ⟨i, j, 1⟩) :
    Rank_between (2 * r1 i) (2 * r2 (prev_index T.n2 j) + 1) (2 * r2 j + 1) := by
  obtain ⟨-, -, h | h⟩ := h
  · exact h.2
  · have h1 : (1 : Nat) = 2 := h.1
    omega

theorem in_graph_second {T : Tracer_input Point_2 Direction_2} {r1 r2 : Nat → Int}
    {i j : Nat} (h : In_graph T r1 r2 ⟨i, j, 2⟩) :
    Rank_between (2 * r2 j + 1) (2 * r1 (prev_index T.n1 i)) (2 * r1 i) := by
  obtain ⟨-, -, h | h⟩ := h
  · have h1 : (2 : Nat) = 1 := h.1
    omega
  · exact h.2

theorem reads_lt {K : Kernel Point_2 Vector_2 Direction_2}
    {T : Tracer_input Point_2 Direction_2} {r1 r2 : Nat → Int} (M : Rank_model K T r1 r2)
    {k1 k2 : Nat} {d1 d2 : Direction_2}
    (hd1 : T.dirs1[k1]? = some d1) (hd2 : T.dirs2[k2]? = some d2) :
    k1 < T.n1 ∧ k2 < T.n2 := by
  have h1 := (List.getElem?_eq_some_iff.mp hd1).1
  have h2 := (List.getElem?_eq_some_iff.mp hd2).1
  have := M.len1
  have := M.len2
  omega

/-- The flags of a step, for a state that satisfies the invariant of the
loop: at least one flag is set, and the labels of the moves are unused labels
of the convolution graph. -/
theorem step_facts {K : Kernel Point_2 Vector_2 Direction_2}
    {T : Tracer_input Point_2 Direction_2} {r1 r2 : Nat → Int} (M : Rank_model K T r1 r2)
    {start : Nat × Nat} {s : Tracer_state Point_2} {d1 d1p d2 d2p : Direction_2}
    (hd1 : T.dirs1[s.k1]? = some d1) (hd1p : T.dirs1[prev_index T.n1 s.k1]? = some d1p)
    (hd2 : T.dirs2[s.k2]? = some d2) (hd2p : T.dirs2[prev_index T.n2 s.k2]? = some d2p)
    (G : Graph_inv T r1 r2 s.used_labels)
    (B : Balance_inv T s.used_labels (s.k1, s.k2) start)
    (P : Pairs_inv T r1 r2 s.used_labels)
    (hfirst : (s.k1, s.k2) = start → First_ok T r1 r2 s.used_labels s.k1 s.k2) :
    ((decide_flags K T.n1 d1 d1p d2 d2p s).1 = true ∨
      (decide_flags K T.n1 d1 d1p d2 d2p s).2.1 = true) ∧
    ((decide_flags K T.n1 d1 d1p d2 d2p s).1 = true →
      Rank_between (2 * r1 s.k1) (2 * r2 (prev_index T.n2 s.k2) + 1) (2 * r2 s.k2 + 1) ∧
      Labels_set.count s.used_labels ⟨s.k1, s.k2, 1⟩ = 0) ∧
    ((decide_flags K T.n1 d1 d1p d2 d2p s).2.1 = true →
      ¬ (decide_flags K T.n1 d1 d1p d2 d2p s).1 = true →
      Rank_between (2 * r2 s.k2 + 1) (2 * r1 (prev_index T.n1 s.k1)) (2 * r1 s.k1) ∧
      r1 (prev_index T.n1 s.k1) ≠ r2 s.k2 ∧
      Labels_set.count s.used_labels ⟨s.k1, s.k2, 2⟩ = 0) ∧
    ((decide_flags K T.n1 d1 d1p d2 d2p s).1 = true →
      (decide_flags K T.n1 d1 d1p d2 d2p s).2.1 = true →
      r1 s.k1 = r2 s.k2 ∧
      Labels_set.count s.used_labels ⟨(s.k1 + 1) % T.n1, s.k2, 2⟩ = 0) ∧
    ((decide_flags K T.n1 d1 d1p d2 d2p s).1 = true →
      ¬ (decide_flags K T.n1 d1 d1p d2 d2p s).2.1 = true → r1 s.k1 ≠ r2 s.k2) := by
  obtain ⟨hk1, hk2⟩ := reads_lt M hd1 hd2
  have hn1 : 0 < T.n1 := by omega
  have hn2 : 0 < T.n2 := by omega
  obtain ⟨s1, s2, -⟩ := decide_flags_spec K T.n1 d1 d1p d2 d2p s
  rw [M.cone1 _ _ _ _ _ hd1 hd2 hd2p, M.cone2 _ _ _ _ _ hd1 hd2 hd1p,
    M.equal _ _ _ _ hd1 hd2] at s1 s2
  refine advance_core (r1 (prev_index T.n1 s.k1)) (r1 s.k1) (r2 (prev_index T.n2 s.k2))
    (r2 s.k2) _ _ (Labels_set.count s.used_labels ⟨prev_index T.n1 s.k1, s.k2, 1⟩)
    (Labels_set.count s.used_labels ⟨s.k1, prev_index T.n2 s.k2, 2⟩) _
    (if (s.k1, s.k2) = start then 1 else 0)
    (count_le_one _ _) (count_le_one _ _) (count_le_one _ _) (count_le_one _ _)
    (count_le_one _ _) (by split_ifs <;> omega) ?_ ?_ ?_ ?_ ?_ ?_ ?_ ?_ _ _ s1 s2
  · intro h
    exact in_graph_first (G _ ((count_eq_one_iff _ _).mp h))
  · intro h
    exact in_graph_second (G _ ((count_eq_one_iff _ _).mp h))
  · intro h
    exact in_graph_first (G _ ((count_eq_one_iff _ _).mp h))
  · intro h
    exact in_graph_second (G _ ((count_eq_one_iff _ _).mp h))
  · have := B s.k1 s.k2 hk1 hk2
    simpa using this
  · intro h
    have := P (prev_index T.n1 s.k1) s.k2 (prev_index_lt hn1) hk2 h
    rw [succ_prev_index hk1] at this
    rw [count_eq_one_iff, count_eq_one_iff]
    exact this
  · intro h
    have := P s.k1 s.k2 hk1 hk2 h
    rw [count_eq_one_iff, count_eq_one_iff]
    exact this
  · intro h
    have hst : (s.k1, s.k2) = start := by
      by_contra hne
      simp [hne] at h
    obtain ⟨-, -, hf | hf⟩ := hfirst hst
    · exact Or.inl ⟨hf.1, hf.2.1, (count_eq_zero_iff _ _).mpr hf.2.2⟩
    · exact Or.inr ⟨hf.1, (count_eq_zero_iff _ _).mpr hf.2⟩

end AdvanceStep

section AdvanceMoves
variable {Point_2 Vector_2 Direction_2 : Type}

theorem graph_insert {T : Tracer_input Point_2 Direction_2} {r1 r2 : Nat → Int}
    {used : Labels_set} {l : Convolution_label} (G : Graph_inv T r1 r2 used)
    (h : In_graph T r1 r2 l) : Graph_inv T r1 r2 (Labels_set.insert used l) := by
  intro x hx
  rw [mem_insert_iff] at hx
  rcases hx with hx | hx
  · exact G x hx
  · exact hx ▸ h

theorem balance_first {T : Tracer_input Point_2 Direction_2} {used : Labels_set}
    {i j : Nat} {start : Nat × Nat} (B : Balance_inv T used (i, j) start)
    (hi : i < T.n1) (hu : Labels_set.count used ⟨i, j, 1⟩ = 0) :
    Balance_inv T (Labels_set.insert used ⟨i, j, 1⟩) ((i + 1) % T.n1, j) start := by
  have hmem : (⟨i, j, 1⟩ : Convolution_label) ∉ used := (count_eq_zero_iff _ _).mp hu
  intro x y hx hy
  have := B x y hx hy
  rw [count_insert _ _ _ hmem, count_insert _ _ _ hmem, count_insert _ _ _ hmem,
    count_insert _ _ _ hmem]
  simp only [Convolution_label.mk.injEq, Prod.mk.injEq, and_true, and_false, if_false,
    OfNat.ofNat_ne_one, add_zero] at this ⊢
  have hp : (prev_index T.n1 x = i ∧ y = j) ↔ (x = (i + 1) % T.n1 ∧ y = j) := by
    rw [prev_index_eq_iff hx hi]
  simp only [hp] at this ⊢
  split_ifs at this ⊢ <;> omega

theorem balance_second {T : Tracer_input Point_2 Direction_2} {used : Labels_set}
    {i j : Nat} {start : Nat × Nat} (B : Balance_inv T used (i, j) start)
    (hj : j < T.n2) (hu : Labels_set.count used ⟨i, j, 2⟩ = 0) :
    Balance_inv T (Labels_set.insert used ⟨i, j, 2⟩) (i, (j + 1) % T.n2) start := by
  have hmem : (⟨i, j, 2⟩ : Convolution_label) ∉ used := (count_eq_zero_iff _ _).mp hu
  intro x y hx hy
  have := B x y hx hy
  rw [count_insert _ _ _ hmem, count_insert _ _ _ hmem, count_insert _ _ _ hmem,
    count_insert _ _ _ hmem]
  simp only [Convolution_label.mk.injEq, Prod.mk.injEq, and_true, and_false, if_false,
    OfNat.one_ne_ofNat, add_zero] at this ⊢
  have hp : (x = i ∧ prev_index T.n2 y = j) ↔ (x = i ∧ y = (j + 1) % T.n2) := by
    rw [prev_index_eq_iff hy hj]
  simp only [hp] at this ⊢
  split_ifs at this ⊢ <;> omega

theorem pairs_first {T : Tracer_input Point_2 Direction_2} {r1 r2 : Nat → Int}
    {used : Labels_set} {i j : Nat} (P : Pairs_inv T r1 r2 used) (hne : r1 i ≠ r2 j) :
    Pairs_inv T r1 r2 (Labels_set.insert used ⟨i, j, 1⟩) := by
  intro x y hx hy hr
  rw [mem_insert_iff, mem_insert_iff]
  simp only [Convolution_label.mk.injEq, and_true, and_false, or_false, OfNat.ofNat_ne_one]
  rw [← P x y hx hy hr]
  constructor
  · rintro (h | ⟨h1, h2⟩)
    · exact h
    · subst h1; subst h2
      exact absurd hr hne
  · exact Or.inl

theorem pairs_second {T : Tracer_input Point_2 Direction_2} {r1 r2 : Nat → Int}
    {used : Labels_set} {i j : Nat} (P : Pairs_inv T r1 r2 used)
    (hne : r1 (prev_index T.n1 i) ≠ r2 j) :
    Pairs_inv T r1 r2 (Labels_set.insert used ⟨i, j, 2⟩) := by
  intro x y hx hy hr
  rw [mem_insert_iff, mem_insert_iff]
  simp only [Convolution_label.mk.injEq, and_true, and_false, or_false, OfNat.one_ne_ofNat]
  rw [P x y hx hy hr]
  constructor
  · exact Or.inl
  · rintro (h | ⟨h1, h2⟩)
    · exact h
    · subst h2
      have : prev_index T.n1 i = x := prev_index_of_succ hx h1
      rw [this] at hne
      exact absurd hr hne

theorem pairs_both {T : Tracer_input Point_2 Direction_2} {r1 r2 : Nat → Int}
    {used : Labels_set} {i j : Nat} (P : Pairs_inv T r1 r2 used) (hi : i < T.n1) :
    Pairs_inv T r1 r2
      (Labels_set.insert (Labels_set.insert used ⟨i, j, 1⟩) ⟨(i + 1) % T.n1, j, 2⟩) := by
  intro x y hx hy hr
  rw [mem_insert_iff, mem_insert_iff, mem_insert_iff, mem_insert_iff]
  simp only [Convolution_label.mk.injEq, and_true, and_false, or_false, OfNat.one_ne_ofNat,
    OfNat.ofNat_ne_one]
  rw [P x y hx hy hr]
  constructor
  · rintro (h | ⟨h1, h2⟩)
    · exact Or.inl h
    · subst h1; subst h2
      exact Or.inr ⟨rfl, rfl⟩
  · rintro (h | ⟨h1, h2⟩)
    · exact Or.inl h
    · exact Or.inr ⟨succ_mod_inj hx hi h1, h2⟩

theorem in_graph_after_equal {T : Tracer_input Point_2 Direction_2} {r1 r2 : Nat → Int}
    {i j : Nat} (hi : i < T.n1) (hj : j < T.n2) (h : r1 i = r2 j) :
    In_graph T r1 r2 ⟨(i + 1) % T.n1, j, 2⟩ := by
  refine ⟨Nat.mod_lt _ (by omega), hj, Or.inr ⟨rfl, ?_⟩⟩
  simp only
  rw [prev_index_of_succ hi rfl, h]
  unfold Rank_between
  omega

end AdvanceMoves

section AdvanceLoop
variable {Point_2 Vector_2 Direction_2 : Type}

theorem cycle_step_advance {K : Kernel Point_2 Vector_2 Direction_2}
    {T : Tracer_input Point_2 Direction_2} {r1 r2 : Nat → Int} (M : Rank_model K T r1 r2)
    {cycle_id : Nat} {start : Nat × Nat} {s : Tracer_state Point_2}
    (I : Trace_inv T r1 r2 start s)
    (hfirst : (s.k1, s.k2) = start → First_ok T r1 r2 s.used_labels s.k1 s.k2) :
    (∀ e, cycle_step K T cycle_id s = Except.error e → e ≠ Failure.assertion_inc) ∧
    (∀ s2, cycle_step K T cycle_id s = Except.ok s2 → Trace_inv T r1 r2 start s2) := by
  constructor
  · intro e h
    unfold cycle_step at h
    rcases bind_eq_error h with h | ⟨flags, hf, h⟩
    · rw [decide_moves_error h]; simp
    · obtain ⟨d1, d1p, d2, d2p, hd1, hd1p, hd2, hd2p, hfl⟩ := decide_moves_ok hf
      have F := (step_facts M hd1 hd1p hd2 hd2p I.graph I.balance I.pairs hfirst).1
      rw [← hfl] at F
      split_ifs at h with hc
      · rcases F with F | F <;> simp [F] at hc
      · unfold act_moves at h
        rcases bind_eq_error h with h | ⟨s1, -, h⟩
        · split_ifs at h
          rcases advance1_error h with h | h <;> rw [h] <;> simp
        · split_ifs at h
          rcases advance2_error h with h | h <;> rw [h] <;> simp
  · intro s2 h
    obtain ⟨flags, s1, hf, -, hs1, hs2⟩ := cycle_step_ok h
    obtain ⟨d1, d1p, d2, d2p, hd1, hd1p, hd2, hd2p, hfl⟩ := decide_moves_ok hf
    obtain ⟨hk1, hk2⟩ := reads_lt M hd1 hd2
    obtain ⟨-, F1, F2, F3, F4⟩ :=
      step_facts M hd1 hd1p hd2 hd2p I.graph I.balance I.pairs hfirst
    rw [← hfl] at F1 F2 F3 F4
    have hq : ∀ a ∈ flags.2.2, Anchor_ok T r1 r2 a := by
      intro a ha
      rw [hfl] at ha
      rcases (decide_flags_spec K T.n1 d1 d1p d2 d2p s).2.2 a ha with h1 | ⟨h1, h2, h3⟩
      · exact I.queue a h1
      · rw [h1]
        exact ⟨hk1, hk2, (M.cone1 _ _ _ _ _ hd1 hd2 hd2p).mp h2,
          (M.cone2 _ _ _ _ _ hd1 hd2 hd1p).mp h3⟩
    cases hf1 : flags.1 <;> cases hf2 : flags.2.1
    · rw [hf1] at hs1; rw [hf2] at hs2
      simp only [Bool.false_eq_true, if_false, Except.ok.injEq] at hs1 hs2
      rw [← hs2, ← hs1]
      exact ⟨I.graph, I.balance, I.pairs, I.start1, I.start2, hq⟩
    · rw [hf1] at hs1; rw [hf2] at hs2
      simp only [Bool.false_eq_true, if_false, if_true, Except.ok.injEq] at hs1 hs2
      obtain ⟨pn, pc, r, -, -, -, -, hs⟩ := advance2_ok hs2
      obtain ⟨g, hne, hu⟩ := F2 hf2 (by simp [hf1])
      rw [hs, ← hs1]
      exact ⟨graph_insert I.graph ⟨hk1, hk2, Or.inr ⟨rfl, g⟩⟩,
        balance_second I.balance hk2 hu, pairs_second I.pairs hne, I.start1, I.start2, hq⟩
    · rw [hf1] at hs1; rw [hf2] at hs2
      simp only [Bool.false_eq_true, if_false, if_true, Except.ok.injEq] at hs1 hs2
      obtain ⟨pn, pc, r, -, -, -, -, hs⟩ := advance1_ok hs1
      obtain ⟨g, hu⟩ := F1 hf1
      have hne := F4 hf1 (by simp [hf2])
      rw [← hs2, hs]
      exact ⟨graph_insert I.graph ⟨hk1, hk2, Or.inl ⟨rfl, g⟩⟩,
        balance_first I.balance hk1 hu, pairs_first I.pairs hne, I.start1, I.start2, hq⟩
    · rw [hf1] at hs1; rw [hf2] at hs2
      simp only [if_true] at hs1 hs2
      obtain ⟨pn, pc, r, -, -, -, -, hs⟩ := advance1_ok hs1
      obtain ⟨pn2, pc2, r', -, -, -, -, hs'⟩ := advance2_ok hs2
      obtain ⟨g, hu⟩ := F1 hf1
      obtain ⟨heq, hw⟩ := F3 hf1 hf2
      have hw2 : Labels_set.count (Labels_set.insert s.used_labels ⟨s.k1, s.k2, 1⟩)
          ⟨(s.k1 + 1) % T.n1, s.k2, 2⟩ = 0 := by
        rw [count_insert _ _ _ ((count_eq_zero_iff _ _).mp hu), hw]
        simp
      rw [hs', hs]
      exact ⟨graph_insert (graph_insert I.graph ⟨hk1, hk2, Or.inl ⟨rfl, g⟩⟩)
          (in_graph_after_equal hk1 hk2 heq),
        balance_second (balance_first I.balance hk1 hu) hk2 hw2,
        pairs_both I.pairs hk1, I.start1, I.start2, hq⟩

end AdvanceLoop

section AdvanceCalls
variable {Point_2 Vector_2 Direction_2 : Type}

theorem cycle_loop_advance {K : Kernel Point_2 Vector_2 Direction_2}
    {T : Tracer_input Point_2 Direction_2} {r1 r2 : Nat → Int} (M : Rank_model K T r1 r2)
    {cycle_id first1 first2 : Nat} :
    ∀ (fuel : Nat) (s : Tracer_state Point_2), Trace_inv T r1 r2 (first1, first2) s →
      ((s.k1, s.k2) = (first1, first2) → First_ok T r1 r2 s.used_labels s.k1 s.k2) →
      (∀ e, cycle_loop K T cycle_id first1 first2 fuel s = Except.error e →
        e ≠ Failure.assertion_inc) ∧
      (∀ s2, cycle_loop K T cycle_id first1 first2 fuel s = Except.ok s2 →
        Trace_inv T r1 r2 (first1, first2) s2 ∧ (s2.k1, s2.k2) = (first1, first2)) := by
  intro fuel
  induction fuel with
  | zero =>
    intro s _ _
    constructor
    · intro e h
      simp only [cycle_loop, Except.error.injEq] at h
      rw [← h]; simp
    · intro s2 h
      simp [cycle_loop] at h
  | succ fuel ih =>
    intro s I hfirst
    obtain ⟨hE, hO⟩ := @cycle_step_advance _ _ _ K T r1 r2 M cycle_id _ s I hfirst
    constructor
    · intro e h
      unfold cycle_loop at h
      rcases bind_eq_error h with h | ⟨s1, hs1, h⟩
      · exact hE e h
      · split_ifs at h with hc
        · have hne : (s1.k1, s1.k2) ≠ (first1, first2) := by
            simp only [Bool.or_eq_true, bne_iff_ne, ne_eq] at hc
            intro heq
            simp only [Prod.mk.injEq] at heq
            rcases hc with hc | hc
            · exact hc heq.1
            · exact hc heq.2
          exact (ih s1 (hO s1 hs1) (fun h0 => absurd h0 hne)).1 e h
        · cases h
    · intro s2 h
      unfold cycle_loop at h
      obtain ⟨s1, hs1, h⟩ := bind_eq_ok h
      split_ifs at h with hc
      · have hne : (s1.k1, s1.k2) ≠ (first1, first2) := by
          simp only [Bool.or_eq_true, bne_iff_ne, ne_eq] at hc
          intro heq
          simp only [Prod.mk.injEq] at heq
          rcases hc with hc | hc
          · exact hc heq.1
          · exact hc heq.2
        exact (ih s1 (hO s1 hs1) (fun h0 => absurd h0 hne)).2 s2 h
      · simp only [pure, Except.pure, Except.ok.injEq] at h
        subst h
        simp only [Bool.or_eq_true, bne_iff_ne, ne_eq, not_or, not_not] at hc
        refine ⟨hO s1 hs1, ?_⟩
        rw [hc.1, hc.2]

theorem balance_closed {T : Tracer_input Point_2 Direction_2} {used : Labels_set}
    {x : Nat × Nat} (B : Balance_inv T used x x) (y : Nat × Nat) : Balance_inv T used y y := by
  intro i j hi hj
  have := B i j hi hj
  split_ifs at this ⊢ <;> omega

theorem closed_inv_nil (T : Tracer_input Point_2 Direction_2) (r1 r2 : Nat → Int) :
    Closed_inv T r1 r2 [] := by
  refine ⟨?_, ?_, ?_⟩
  · intro l hl
    simp at hl
  · intro x i j _ _
    simp [Labels_set.count]
  · intro i j _ _ _
    simp

theorem mark_last_error {seg_index : Nat} {cycle : List (Labeled_segment_2 Point_2)}
    {e : Failure} (h : mark_last seg_index cycle = Except.error e) :
    e = Failure.out_of_range := by
  unfold mark_last at h
  split at h
  · simp only [Except.error.injEq] at h
    exact h.symm
  · split_ifs at h

theorem convolution_cycle_advance {K : Kernel Point_2 Vector_2 Direction_2}
    {T : Tracer_input Point_2 Direction_2} {r1 r2 : Nat → Int} (M : Rank_model K T r1 r2)
    {fuel cycle_id curr1 k1 curr2 k2 : Nat} {used : Labels_set} {queue : Anchors_queue}
    {cycle : List (Labeled_segment_2 Point_2)}
    (C : Closed_inv T r1 r2 used) (hq : ∀ a ∈ queue, Anchor_ok T r1 r2 a)
    (hfirst : First_ok T r1 r2 used k1 k2) :
    (∀ e, _convolution_cycle K fuel cycle_id T curr1 k1 curr2 k2 used queue cycle =
        Except.error e → e ≠ Failure.assertion_inc) ∧
    (∀ r, _convolution_cycle K fuel cycle_id T curr1 k1 curr2 k2 used queue cycle =
        Except.ok r →
      Closed_inv T r1 r2 r.used_labels ∧ ∀ a ∈ r.queue, Anchor_ok T r1 r2 a) := by
  have hinit : ∀ s0, cycle_init K T curr1 k1 curr2 k2 used queue cycle = Except.ok s0 →
      Trace_inv T r1 r2 (k1, k2) s0 ∧ s0.k1 = k1 ∧ s0.k2 = k2 ∧ s0.used_labels = used := by
    intro s0 hs0
    obtain ⟨p1, p2, -, -, hs0eq⟩ := cycle_init_ok hs0
    rw [hs0eq]
    exact ⟨⟨C.graph, C.balance (k1, k2), C.pairs, hfirst.1, hfirst.2.1, hq⟩, rfl, rfl, rfl⟩
  constructor
  · intro e h
    unfold _convolution_cycle at h
    rcases bind_eq_error h with h | ⟨s0, hs0, h⟩
    · rw [cycle_init_error h]; simp
    · obtain ⟨I, e1, e2, e3⟩ := hinit s0 hs0
      rcases bind_eq_error h with h | ⟨s, hs, h⟩
      · exact (cycle_loop_advance M fuel s0 I
          (fun _ => by rw [e1, e2, e3]; exact hfirst)).1 e h
      · split_ifs at h
        · simp only [Except.error.injEq] at h
          rw [← h]; simp
        · rcases bind_eq_error h with h | ⟨c1, -, h⟩
          · rw [mark_last_error h]; simp
          · cases h
  · intro r h
    obtain ⟨s0, s, cycle1, hs0, hs, -, -, hr⟩ := convolution_cycle_ok h
    obtain ⟨I, e1, e2, e3⟩ := hinit s0 hs0
    obtain ⟨I2, hclosed⟩ := (cycle_loop_advance M fuel s0 I
      (fun _ => by rw [e1, e2, e3]; exact hfirst)).2 s hs
    rw [hr]
    have hb := I2.balance
    rw [hclosed] at hb
    exact ⟨⟨I2.graph, fun y => balance_closed hb y, I2.pairs⟩, I2.queue⟩

theorem for_loop_safe {σ : Type} {body : Nat → σ → Except Failure σ}
    (Inv : σ → Prop) (bad : Failure)
    (hstep : ∀ k st, Inv st → (∀ e, body k st = Except.error e → e ≠ bad) ∧
      (∀ st1, body k st = Except.ok st1 → Inv st1)) :
    ∀ (todo k : Nat) (st : σ), Inv st →
      (∀ e, for_loop body todo k st = Except.error e → e ≠ bad) ∧
      (∀ st1, for_loop body todo k st = Except.ok st1 → Inv st1) := by
  intro todo
  induction todo with
  | zero =>
    intro k st hinv
    constructor
    · intro e h
      cases h
    · intro st1 h
      simp only [for_loop, pure, Except.pure, Except.ok.injEq] at h
      exact h ▸ hinv
  | succ todo ih =>
    intro k st hinv
    obtain ⟨hE, hO⟩ := hstep k st hinv
    constructor
    · intro e h
      unfold for_loop at h
      rcases bind_eq_error h with h | ⟨st1, h1, h⟩
      · exact hE e h
      · exact (ih (k + 1) st1 (hO st1 h1)).1 e h
    · intro st2 h
      unfold for_loop at h
      obtain ⟨st1, h1, h⟩ := bind_eq_ok h
      exact (ih (k + 1) st1 (hO st1 h1)).2 st2 h

end AdvanceCalls

section AdvanceDriver
variable {Point_2 Vector_2 Direction_2 : Type}

theorem first_ok_of_head {T : Tracer_input Point_2 Direction_2} {r1 r2 : Nat → Int}
    {used : Labels_set} {anchor : Anchor}
    (h : Anchor_ok T r1 r2 anchor ∨ Seed_ok T r1 r2 used anchor)
    (hu : Labels_set.count used ⟨anchor.1.2, anchor.2.2, 2⟩ = 0) :
    First_ok T r1 r2 used anchor.1.2 anchor.2.2 := by
  rcases h with ⟨h1, h2, h3, h4⟩ | ⟨h1, h2, h3, h4⟩
  · exact ⟨h1, h2, Or.inl ⟨h3, h4, (count_eq_zero_iff _ _).mp hu⟩⟩
  · exact ⟨h1, h2, Or.inr ⟨h3, h4⟩⟩

theorem session_loop_advance {K : Kernel Point_2 Vector_2 Direction_2}
    {T : Tracer_input Point_2 Direction_2} {r1 r2 : Nat → Int} (M : Rank_model K T r1 r2)
    {tracer_fuel : Nat} :
    ∀ (fuel : Nat) (st : Driver_state Point_2), Closed_inv T r1 r2 st.used_labels →
      (∀ a ∈ st.queue.tail, Anchor_ok T r1 r2 a) →
      (∀ a, st.queue.head? = some a →
        Anchor_ok T r1 r2 a ∨ Seed_ok T r1 r2 st.used_labels a) →
      (∀ e, session_loop K T tracer_fuel fuel st = Except.error e →
        e ≠ Failure.assertion_inc) ∧
      (∀ st1, session_loop K T tracer_fuel fuel st = Except.ok st1 →
        Closed_inv T r1 r2 st1.used_labels) := by
  intro fuel
  induction fuel with
  | zero =>
    intro st C _ _
    constructor
    · intro e h
      unfold session_loop at h
      split at h
      · cases h
      · simp only [Except.error.injEq] at h
        rw [← h]; simp
    · intro st1 h
      unfold session_loop at h
      split at h
      · simp only [Except.ok.injEq] at h
        exact h ▸ C
      · cases h
  | succ fuel ih =>
    intro st C htail hhead
    have hrest : ∀ (anchor : Anchor) (rest : List Anchor), st.queue = anchor :: rest →
        (∀ a ∈ rest, Anchor_ok T r1 r2 a) ∧
        (Anchor_ok T r1 r2 anchor ∨ Seed_ok T r1 r2 st.used_labels anchor) := by
      intro anchor rest hq
      rw [hq] at htail hhead
      exact ⟨fun a ha => htail a (by simpa using ha), hhead anchor (by simp)⟩
    have hskipped : ∀ (anchor : Anchor) (rest : List Anchor), st.queue = anchor :: rest →
        ∀ loops : Nat, let st2 : Driver_state Point_2 := { st with queue := rest, loops := loops }
        (∀ e, session_loop K T tracer_fuel fuel st2 = Except.error e →
          e ≠ Failure.assertion_inc) ∧
        (∀ st1, session_loop K T tracer_fuel fuel st2 = Except.ok st1 →
          Closed_inv T r1 r2 st1.used_labels) := by
      intro anchor rest hq loops
      obtain ⟨hr, -⟩ := hrest anchor rest hq
      exact ih { st with queue := rest, loops := loops } C
        (fun a ha => hr a (List.mem_of_mem_tail ha))
        (fun a ha => Or.inl (hr a (List.mem_of_mem_head? ha)))
    have hcalled : ∀ (r : Tracer_state Point_2) (segs cyc : List (Labeled_segment_2 Point_2))
        (loops : Nat), Closed_inv T r1 r2 r.used_labels →
        (∀ a ∈ r.queue, Anchor_ok T r1 r2 a) →
        let st2 : Driver_state Point_2 :=
          { st with curr_id := st.curr_id + 1, used_labels := r.used_labels, queue := r.queue,
                    conv_segments := segs, cycle := cyc, loops := loops }
        (∀ e, session_loop K T tracer_fuel fuel st2 = Except.error e →
          e ≠ Failure.assertion_inc) ∧
        (∀ st1, session_loop K T tracer_fuel fuel st2 = Except.ok st1 →
          Closed_inv T r1 r2 st1.used_labels) := by
      intro r segs cyc loops C2 hq2
      exact ih _ C2 (fun a ha => hq2 a (List.mem_of_mem_tail ha))
        (fun a ha => Or.inl (hq2 a (List.mem_of_mem_head? ha)))
    constructor
    · intro e h
      unfold session_loop at h
      split at h
      · cases h
      · rename_i anchor rest hq
        simp only [] at h
        split_ifs at h with hskip
        · exact (hskipped anchor rest hq _).1 e h
        · have hu : Labels_set.count st.used_labels ⟨anchor.1.2, anchor.2.2, 2⟩ = 0 := by
            simpa using hskip
          obtain ⟨hr, hh⟩ := hrest anchor rest hq
          obtain ⟨hE, hO⟩ := @convolution_cycle_advance _ _ _ K T r1 r2 M tracer_fuel
            (st.curr_id + 1) anchor.1.1 anchor.1.2 anchor.2.1 anchor.2.2 st.used_labels rest
            st.cycle C hr (first_ok_of_head hh hu)
          rcases bind_eq_error h with h | ⟨r, hr1, h⟩
          · exact hE e h
          · obtain ⟨C2, hq2⟩ := hO r hr1
            split_ifs at h with hempty
            · exact (hcalled r _ _ _ C2 hq2).1 e h
            · exact (hcalled r _ _ _ C2 hq2).1 e h
    · intro st1 h
      unfold session_loop at h
      split at h
      · simp only [Except.ok.injEq] at h
        exact h ▸ C
      · rename_i anchor rest hq
        simp only [] at h
        split_ifs at h with hskip
        · exact (hskipped anchor rest hq _).2 st1 h
        · have hu : Labels_set.count st.used_labels ⟨anchor.1.2, anchor.2.2, 2⟩ = 0 := by
            simpa using hskip
          obtain ⟨hr, hh⟩ := hrest anchor rest hq
          obtain ⟨hE, hO⟩ := @convolution_cycle_advance _ _ _ K T r1 r2 M tracer_fuel
            (st.curr_id + 1) anchor.1.1 anchor.1.2 anchor.2.1 anchor.2.2 st.used_labels rest
            st.cycle C hr (first_ok_of_head hh hu)
          obtain ⟨r, hr1, h⟩ := bind_eq_ok h
          obtain ⟨C2, hq2⟩ := hO r hr1
          split_ifs at h with hempty
          · exact (hcalled r _ _ _ C2 hq2).2 st1 h
          · exact (hcalled r _ _ _ C2 hq2).2 st1 h

end AdvanceDriver

section AdvanceSeeder
variable {Point_2 Vector_2 Direction_2 : Type}

theorem seed_qualifies_error {K : Kernel Point_2 Vector_2 Direction_2}
    {T : Tracer_input Point_2 Direction_2} {used : Labels_set} {k1 k2 : Nat} {e : Failure}
    (h : seed_qualifies K T used k1 k2 = Except.error e) : e = Failure.out_of_range := by
  unfold seed_qualifies at h
  split_ifs at h
  · rcases bind_eq_error h with h | ⟨_, -, h⟩
    · exact vector_get_error h
    rcases bind_eq_error h with h | ⟨_, -, h⟩
    · exact vector_get_error h
    rcases bind_eq_error h with h | ⟨_, -, h⟩
    · exact vector_get_error h
    cases h
  · cases h

theorem seed_qualifies_seed_ok {K : Kernel Point_2 Vector_2 Direction_2}
    {T : Tracer_input Point_2 Direction_2} {r1 r2 : Nat → Int} (M : Rank_model K T r1 r2)
    {used : Labels_set} {k1 k2 : Nat}
    (h : seed_qualifies K T used k1 k2 = Except.ok true) (curr1 curr2 : Nat) :
    Seed_ok T r1 r2 used ((curr1, k1), (curr2, k2)) := by
  unfold seed_qualifies at h
  split_ifs at h with hu
  · obtain ⟨d1, hd1, h⟩ := bind_eq_ok h
    obtain ⟨d2p, hd2p, h⟩ := bind_eq_ok h
    obtain ⟨d2, hd2, h⟩ := bind_eq_ok h
    rw [vector_get_eq_ok] at hd1 hd2p hd2
    simp only [pure, Except.pure, Except.ok.injEq, Bool.or_eq_true] at h
    obtain ⟨hk1, hk2⟩ := reads_lt M hd1 hd2
    rw [M.cone1 _ _ _ _ _ hd1 hd2 hd2p, M.equal _ _ _ _ hd1 hd2] at h
    refine ⟨hk1, hk2, h, ?_⟩
    rw [← count_eq_zero_iff]
    simpa using hu
  · simp [pure, Except.pure] at h

theorem scan_body_advance {K : Kernel Point_2 Vector_2 Direction_2}
    {T : Tracer_input Point_2 Direction_2} {r1 r2 : Nat → Int} (M : Rank_model K T r1 r2)
    {tracer_fuel session_fuel curr2 k2 k1 : Nat} {st : Driver_state Point_2}
    (C : Closed_inv T r1 r2 st.used_labels) :
    (∀ e, scan_body K T tracer_fuel session_fuel curr2 k2 k1 st = Except.error e →
      e ≠ Failure.assertion_inc) ∧
    (∀ st1, scan_body K T tracer_fuel session_fuel curr2 k2 k1 st = Except.ok st1 →
      Closed_inv T r1 r2 st1.used_labels) := by
  have hsession : seed_qualifies K T st.used_labels k1 k2 = Except.ok true →
      (∀ e, session_loop K T tracer_fuel session_fuel
          { st with queue := [((st.curr1, k1), (curr2, k2))], loops := 0 } = Except.error e →
        e ≠ Failure.assertion_inc) ∧
      (∀ st1, session_loop K T tracer_fuel session_fuel
          { st with queue := [((st.curr1, k1), (curr2, k2))], loops := 0 } = Except.ok st1 →
        Closed_inv T r1 r2 st1.used_labels) := by
    intro hq
    refine session_loop_advance M session_fuel
      { st with queue := [((st.curr1, k1), (curr2, k2))], loops := 0 } C ?_ ?_
    · intro a ha
      simp at ha
    · intro a ha
      simp only [List.head?_cons, Option.some.injEq] at ha
      rw [← ha]
      exact Or.inr (seed_qualifies_seed_ok M hq st.curr1 curr2)
  constructor
  · intro e h
    unfold scan_body at h
    simp only [] at h
    rcases bind_eq_error h with h | ⟨found, hfound, h⟩
    · rw [seed_qualifies_error h]; simp
    · rcases bind_eq_error h with h | ⟨st2, -, h⟩
      · cases found with
        | true =>
          simp only [if_true] at h
          rcases bind_eq_error h with h | ⟨st3, -, h⟩
          · exact (hsession hfound).1 e h
          · cases h
        | false =>
          simp at h
      · cases h
  · intro st1 h
    unfold scan_body at h
    simp only [] at h
    obtain ⟨found, hfound, h⟩ := bind_eq_ok h
    obtain ⟨st2, h2, h⟩ := bind_eq_ok h
    simp only [pure, Except.pure, Except.ok.injEq] at h
    subst h
    simp only
    cases found with
    | true =>
      simp only [if_true] at h2
      obtain ⟨st3, h3, h2⟩ := bind_eq_ok h2
      simp only [pure, Except.pure, Except.ok.injEq] at h2
      subst h2
      exact (hsession hfound).2 st3 h3
    | false =>
      simp only [Bool.false_eq_true, if_false, Except.ok.injEq] at h2
      subst h2
      exact C

theorem seeder_loop_advance {K : Kernel Point_2 Vector_2 Direction_2}
    {T : Tracer_input Point_2 Direction_2} {r1 r2 : Nat → Int} (M : Rank_model K T r1 r2)
    {tracer_fuel session_fuel : Nat} :
    ∀ (seeds : List Vertex_ref) (st : Driver_state Point_2),
      Closed_inv T r1 r2 st.used_labels →
      (∀ e, seeder_loop K T tracer_fuel session_fuel seeds st = Except.error e →
        e ≠ Failure.assertion_inc) ∧
      (∀ st1, seeder_loop K T tracer_fuel session_fuel seeds st = Except.ok st1 →
        Closed_inv T r1 r2 st1.used_labels) := by
  intro seeds
  induction seeds with
  | nil =>
    intro st C
    constructor
    · intro e h
      simp [seeder_loop] at h
    · intro st1 h
      simp only [seeder_loop, Except.ok.injEq] at h
      exact h ▸ C
  | cons seed seeds ih =>
    intro st C
    have hscan := for_loop_safe
      (fun d : Driver_state Point_2 => Closed_inv T r1 r2 d.used_labels)
      Failure.assertion_inc
      (fun k d hd => @scan_body_advance _ _ _ K T r1 r2 M tracer_fuel session_fuel
        seed.1 seed.2 k d hd)
      T.n1 0 { st with curr1 := 0, next1 := 0 } C
    constructor
    · intro e h
      unfold seeder_loop at h
      rcases bind_eq_error h with h | ⟨st2, h2, h⟩
      · exact hscan.1 e h
      · exact (ih st2 (hscan.2 st2 h2)).1 e h
    · intro st1 h
      unfold seeder_loop at h
      obtain ⟨st2, h2, h⟩ := bind_eq_ok h
      exact (ih st2 (hscan.2 st2 h2)).2 st1 h

end AdvanceSeeder

section AdvanceWitness

theorem dart_star_rank_model : Rank_model int_kernel dart_star dart_rank star_rank := by
  refine ⟨by decide, by decide, ?_, ?_, ?_⟩
  · intro i j d1 d2 d2p h1 h2 h3
    have hi : i < 4 := (List.getElem?_eq_some_iff.mp h1).1
    have hj : j < 5 := (List.getElem?_eq_some_iff.mp h2).1
    interval_cases i <;> interval_cases j <;>
      (simp only [dart_star, prev_index, List.getElem?_cons_zero, List.getElem?_cons_succ,
          Nat.reduceAdd, Nat.reduceSub, Nat.reduceMod, Option.some.injEq] at h1 h2 h3
       subst h1; subst h2; subst h3
       decide)
  · intro i j d1 d2 d1p h1 h2 h3
    have hi : i < 4 := (List.getElem?_eq_some_iff.mp h1).1
    have hj : j < 5 := (List.getElem?_eq_some_iff.mp h2).1
    interval_cases i <;> interval_cases j <;>
      (simp only [dart_star, prev_index, List.getElem?_cons_zero, List.getElem?_cons_succ,
          Nat.reduceAdd, Nat.reduceSub, Nat.reduceMod, Option.some.injEq] at h1 h2 h3
       subst h1; subst h2; subst h3
       decide)
  · intro i j d1 d2 h1 h2
    have hi : i < 4 := (List.getElem?_eq_some_iff.mp h1).1
    have hj : j < 5 := (List.getElem?_eq_some_iff.mp h2).1
    interval_cases i <;> interval_cases j <;>
      (simp only [dart_star, List.getElem?_cons_zero, List.getElem?_cons_succ,
          Option.some.injEq] at h1 h2
       subst h1; subst h2
       decide)

end AdvanceWitness

section AdvanceClaim
variable {Point_2 Vector_2 Direction_2 : Type}

theorem operator_call_of_tables {K : Kernel Point_2 Vector_2 Direction_2}
    {pgn1 pgn2 : List Point_2} {T : Tracer_input Point_2 Direction_2}
    (hT : tables_of K pgn1 pgn2 = Except.ok T) (tracer_fuel session_fuel : Nat) :
    ∃ seeds, operator_call K tracer_fuel session_fuel pgn1 pgn2 =
      seeder_loop K T tracer_fuel session_fuel seeds
        { curr1 := 0, next1 := 0, curr_id := 0, cycles := 0, conv_segments := [],
          cycle := [], used_labels := [], queue := [], loops := 0 } := by
  unfold tables_of at hT
  obtain ⟨t1, h1, hT⟩ := bind_eq_ok hT
  obtain ⟨t2, h2, hT⟩ := bind_eq_ok hT
  simp only [pure, Except.pure, Except.ok.injEq] at hT
  refine ⟨seeds_of t2, ?_⟩
  unfold operator_call
  rw [h1, h2]
  simp only [bind, Except.bind]
  rw [hT]

/-- Claim C13. Advance invariant. Take two polygons for which the
preprocessing loops complete, with tables `T`, and a kernel whose predicates
on the directions of the tables are those of a cyclic order of directions
(`Rank_model`: the cone tests are `Rank_between` on ranks of the directions,
`f_equal` is equality of ranks). Then no invocation of `operator()` fails the
assertion `CGAL_assertion (inc1 || inc2)`, whatever the iteration budgets, and
the same holds for every call of `_convolution_cycle` made for an anchor or a
seed between two traces. At every step of a trace, in every state that
satisfies the invariant `Trace_inv` of the loop (the used labels are labels of
the convolution graph, balanced at every vertex pair but the current one and
the one where the trace began, and paired where directions are equal), at
least one of the flags `inc1`, `inc2` is set when the assertion is reached, and
a completed step keeps the invariant; the empty set of labels satisfies the
invariant between traces, and so does the set of labels when `operator()`
returns. -/
theorem advance_invariant (K : Kernel Point_2 Vector_2 Direction_2)
    (pgn1 pgn2 : List Point_2) (T : Tracer_input Point_2 Direction_2) (r1 r2 : Nat → Int)
    (hT : tables_of K pgn1 pgn2 = Except.ok T) (M : Rank_model K T r1 r2) :
    (∀ (tracer_fuel session_fuel : Nat) (e : Failure),
      operator_call K tracer_fuel session_fuel pgn1 pgn2 = Except.error e →
      e ≠ Failure.assertion_inc) ∧
    (∀ (tracer_fuel session_fuel : Nat) (st : Driver_state Point_2),
      operator_call K tracer_fuel session_fuel pgn1 pgn2 = Except.ok st →
      Closed_inv T r1 r2 st.used_labels) ∧
    Closed_inv T r1 r2 [] ∧
    (∀ (fuel cycle_id curr1 k1 curr2 k2 : Nat) (used : Labels_set) (queue : Anchors_queue)
      (cycle : List (Labeled_segment_2 Point_2)),
      Closed_inv T r1 r2 used → (∀ a ∈ queue, Anchor_ok T r1 r2 a) →
      First_ok T r1 r2 used k1 k2 →
      (∀ e, _convolution_cycle K fuel cycle_id T curr1 k1 curr2 k2 used queue cycle =
          Except.error e → e ≠ Failure.assertion_inc) ∧
      (∀ r, _convolution_cycle K fuel cycle_id T curr1 k1 curr2 k2 used queue cycle =
          Except.ok r →
        Closed_inv T r1 r2 r.used_labels ∧ ∀ a ∈ r.queue, Anchor_ok T r1 r2 a)) ∧
    (∀ (cycle_id : Nat) (start : Nat × Nat) (s : Tracer_state Point_2),
      Trace_inv T r1 r2 start s →
      ((s.k1, s.k2) = start → First_ok T r1 r2 s.used_labels s.k1 s.k2) →
      (∀ flags, decide_moves K T s = Except.ok flags → (flags.1 || flags.2.1) = true) ∧
      (∀ e, cycle_step K T cycle_id s = Except.error e → e ≠ Failure.assertion_inc) ∧
      (∀ s2, cycle_step K T cycle_id s = Except.ok s2 → Trace_inv T r1 r2 start s2)) := by
  refine ⟨?_, ?_, closed_inv_nil T r1 r2, ?_, ?_⟩
  · intro tf sf e h
    obtain ⟨seeds, hop⟩ := operator_call_of_tables hT tf sf
    rw [hop] at h
    exact (seeder_loop_advance M seeds _ (closed_inv_nil T r1 r2)).1 e h
  · intro tf sf st h
    obtain ⟨seeds, hop⟩ := operator_call_of_tables hT tf sf
    rw [hop] at h
    exact (seeder_loop_advance M seeds _ (closed_inv_nil T r1 r2)).2 st h
  · intro fuel cycle_id curr1 k1 curr2 k2 used queue cycle C hq hfirst
    exact convolution_cycle_advance M C hq hfirst
  · intro cycle_id start s I hfirst
    obtain ⟨hE, hO⟩ := @cycle_step_advance _ _ _ K T r1 r2 M cycle_id start s I hfirst
    refine ⟨?_, hE, hO⟩
    intro flags hf
    obtain ⟨d1, d1p, d2, d2p, hd1, hd1p, hd2, hd2p, hfl⟩ := decide_moves_ok hf
    have F := (step_facts M hd1 hd1p hd2 hd2p I.graph I.balance I.pairs hfirst).1
    rw [← hfl] at F
    rcases F with F | F <;> simp [F]

theorem advance_invariant_witness :
    (∃ st, operator_call int_kernel 21 4 dart star5 = Except.ok st) ∧
    (∀ (tracer_fuel session_fuel : Nat) (e : Failure),
      operator_call int_kernel tracer_fuel session_fuel dart star5 = Except.error e →
      e ≠ Failure.assertion_inc) ∧
    (∀ (tracer_fuel session_fuel : Nat) (st : Driver_state (Int × Int)),
      operator_call int_kernel tracer_fuel session_fuel dart star5 = Except.ok st →
      Closed_inv dart_star dart_rank star_rank st.used_labels) ∧
    Closed_inv dart_star dart_rank star_rank [] ∧
    (∀ (fuel cycle_id curr1 k1 curr2 k2 : Nat) (used : Labels_set) (queue : Anchors_queue)
      (cycle : List (Labeled_segment_2 (Int × Int))),
      Closed_inv dart_star dart_rank star_rank used →
      (∀ a ∈ queue, Anchor_ok dart_star dart_rank star_rank a) →
      First_ok dart_star dart_rank star_rank used k1 k2 →
      (∀ e, _convolution_cycle int_kernel fuel cycle_id dart_star curr1 k1 curr2 k2 used
          queue cycle = Except.error e → e ≠ Failure.assertion_inc) ∧
      (∀ r, _convolution_cycle int_kernel fuel cycle_id dart_star curr1 k1 curr2 k2 used
          queue cycle = Except.ok r →
        Closed_inv dart_star dart_rank star_rank r.used_labels ∧
        ∀ a ∈ r.queue, Anchor_ok dart_star dart_rank star_rank a)) ∧
    (∀ (cycle_id : Nat) (start : Nat × Nat) (s : Tracer_state (Int × Int)),
      Trace_inv dart_star dart_rank star_rank start s →
      ((s.k1, s.k2) = start → First_ok dart_star dart_rank star_rank s.used_labels s.k1 s.k2) →
      (∀ flags, decide_moves int_kernel dart_star s = Except.ok flags →
        (flags.1 || flags.2.1) = true) ∧
      (∀ e, cycle_step int_kernel dart_star cycle_id s = Except.error e →
        e ≠ Failure.assertion_inc) ∧
      (∀ s2, cycle_step int_kernel dart_star cycle_id s = Except.ok s2 →
        Trace_inv dart_star dart_rank star_rank start s2)) :=
  ⟨⟨_, rfl⟩, advance_invariant int_kernel dart star5 dart_star dart_rank star_rank rfl
    dart_star_rank_model⟩

end AdvanceClaim

/-! ## The rank model of the integer kernel -/

theorem int_dir_lt_iff (d e : Int × Int) :
    int_dir_lt d e = true ↔ int_quadrant d < int_quadrant e ∨
      (int_quadrant d = int_quadrant e ∧ 0 < d.1 * e.2 - e.1 * d.2) := by
  unfold int_dir_lt
  split_ifs with h1 h2
  · simp only [Bool.false_eq_true, false_iff]
    omega
  · simp only [true_iff]
    exact Or.inl h2
  · simp only [decide_eq_true_eq]
    constructor
    · intro h
      exact Or.inr ⟨by omega, h⟩
    · rintro (h | h)
      · omega
      · exact h.2

theorem int_quadrant_cases (d : Int × Int) :
    (int_quadrant d = 1 ∧ 0 ≤ d.1 ∧ 0 ≤ d.2) ∨ (int_quadrant d = 2 ∧ d.1 < 0 ∧ 0 ≤ d.2) ∨
    (int_quadrant d = 3 ∧ d.1 < 0 ∧ d.2 < 0) ∨ (int_quadrant d = 4 ∧ 0 ≤ d.1 ∧ d.2 < 0) := by
  unfold int_quadrant
  split_ifs with h1 h2 h2
  · exact Or.inl ⟨rfl, h1, h2⟩
  · exact Or.inr (Or.inr (Or.inr ⟨rfl, h1, by omega⟩))
  · exact Or.inr (Or.inl ⟨rfl, by omega, h2⟩)
  · exact Or.inr (Or.inr (Or.inl ⟨rfl, by omega, by omega⟩))

theorem det_trans_nonneg (x y e A B X : Int) (hA : 0 < A) (hB : 0 < B) (hX : X ≤ 0)
    (k : e * X = x * B + y * A) (he : 0 ≤ e) (hx : 0 ≤ x) (hy : 0 ≤ y) : x = 0 ∧ y = 0 := by
  have h1 : e * X ≤ 0 := mul_nonpos_of_nonneg_of_nonpos he hX
  have h2 : 0 ≤ x * B := mul_nonneg hx (le_of_lt hB)
  have h3 : 0 ≤ y * A := mul_nonneg hy (le_of_lt hA)
  have h4 : x * B = 0 := by omega
  have h5 : y * A = 0 := by omega
  rcases mul_eq_zero.mp h4 with h | h
  · rcases mul_eq_zero.mp h5 with h6 | h6
    · exact ⟨h, h6⟩
    · omega
  · omega

theorem det_trans_neg (x y e A B X : Int) (hA : 0 < A) (hB : 0 < B) (hX : X ≤ 0)
    (k : e * X = x * B + y * A) (he : e < 0) (hx : x < 0) (hy : y < 0) : False := by
  have h1 : 0 ≤ e * X := mul_nonneg_of_nonpos_of_nonpos (le_of_lt he) hX
  have h2 : x * B < 0 := mul_neg_of_neg_of_pos hx hB
  have h3 : y * A < 0 := mul_neg_of_neg_of_pos hy hA
  omega

/-- Within a quadrant, "turns left of" is transitive. -/
theorem int_det_trans (d e f : Int × Int) (hde : int_quadrant d = int_quadrant e)
    (hef : int_quadrant e = int_quadrant f)
    (h1 : 0 < d.1 * e.2 - e.1 * d.2) (h2 : 0 < e.1 * f.2 - f.1 * e.2) :
    0 < d.1 * f.2 - f.1 * d.2 := by
  have k1 : e.1 * (d.1 * f.2 - f.1 * d.2) =
      d.1 * (e.1 * f.2 - f.1 * e.2) + f.1 * (d.1 * e.2 - e.1 * d.2) := by ring
  have k2 : e.2 * (d.1 * f.2 - f.1 * d.2) =
      d.2 * (e.1 * f.2 - f.1 * e.2) + f.2 * (d.1 * e.2 - e.1 * d.2) := by ring
  by_contra hc
  push_neg at hc
  rcases int_quadrant_cases d with ⟨qd, d1, d2⟩ | ⟨qd, d1, d2⟩ | ⟨qd, d1, d2⟩ | ⟨qd, d1, d2⟩ <;>
  rcases int_quadrant_cases e with ⟨qe, e1, e2⟩ | ⟨qe, e1, e2⟩ | ⟨qe, e1, e2⟩ | ⟨qe, e1, e2⟩ <;>
  rcases int_quadrant_cases f with ⟨qf, f1, f2⟩ | ⟨qf, f1, f2⟩ | ⟨qf, f1, f2⟩ | ⟨qf, f1, f2⟩ <;>
  first
  | omega
  | exact det_trans_neg _ _ _ _ _ _ h1 h2 hc k1 e1 d1 f1
  | exact det_trans_neg _ _ _ _ _ _ h1 h2 hc k2 e2 d2 f2
  | (obtain ⟨z1, -⟩ := det_trans_nonneg _ _ _ _ _ _ h1 h2 hc k1 e1 d1 f1
     obtain ⟨z2, -⟩ := det_trans_nonneg _ _ _ _ _ _ h1 h2 hc k2 e2 d2 f2
     rw [z1, z2] at h1
     simp at h1)

theorem int_lt_trans (d e f : Int × Int) (h1 : int_dir_lt d e = true)
    (h2 : int_dir_lt e f = true) : int_dir_lt d f = true := by
  rw [int_dir_lt_iff] at h1 h2 ⊢
  rcases h1 with h1 | ⟨q1, h1⟩
  · rcases h2 with h2 | ⟨q2, h2⟩
    · exact Or.inl (by omega)
    · exact Or.inl (by omega)
  · rcases h2 with h2 | ⟨q2, h2⟩
    · exact Or.inl (by omega)
    · exact Or.inr ⟨by omega, int_det_trans d e f q1 q2 h1 h2⟩

theorem int_lt_irrefl (d : Int × Int) : int_dir_lt d d = false := by
  rw [← Bool.not_eq_true, int_dir_lt_iff]
  intro h
  rcases h with h | ⟨-, h⟩
  · omega
  · have : d.1 * d.2 - d.1 * d.2 = 0 := by ring
    omega

/-- Two directions, neither before the other, are equal (for non-zero
vectors). -/
theorem int_equal_of_not_lt (d e : Int × Int) (hd : d ≠ (0, 0)) (he : e ≠ (0, 0))
    (h1 : int_dir_lt d e = false) (h2 : int_dir_lt e d = false) :
    int_dir_equal d e = true := by
  rw [← Bool.not_eq_true, int_dir_lt_iff] at h1 h2
  push_neg at h1 h2
  have hq : int_quadrant d = int_quadrant e := by omega
  have hdet : d.1 * e.2 - e.1 * d.2 = 0 := by
    have a := h1.2 hq
    have b := h2.2 hq.symm
    have : e.1 * d.2 - d.1 * e.2 = -(d.1 * e.2 - e.1 * d.2) := by ring
    omega
  have hd' : d.1 ≠ 0 ∨ d.2 ≠ 0 := by
    by_contra hc
    push_neg at hc
    exact hd (Prod.ext hc.1 hc.2)
  have he' : e.1 ≠ 0 ∨ e.2 ≠ 0 := by
    by_contra hc
    push_neg at hc
    exact he (Prod.ext hc.1 hc.2)
  have hm : d.1 * e.2 = e.1 * d.2 := by omega
  have z1 : d.1 = 0 → e.1 = 0 := by
    intro h
    rw [h] at hm
    have : e.1 * d.2 = 0 := by omega
    rcases mul_eq_zero.mp this with h3 | h3
    · exact h3
    · omega
  have z2 : e.1 = 0 → d.1 = 0 := by
    intro h
    rw [h] at hm
    have : d.1 * e.2 = 0 := by omega
    rcases mul_eq_zero.mp this with h3 | h3
    · exact h3
    · omega
  have z3 : d.2 = 0 → e.2 = 0 := by
    intro h
    rw [h] at hm
    have : d.1 * e.2 = 0 := by omega
    rcases mul_eq_zero.mp this with h3 | h3
    · omega
    · exact h3
  have z4 : e.2 = 0 → d.2 = 0 := by
    intro h
    rw [h] at hm
    have : e.1 * d.2 = 0 := by omega
    rcases mul_eq_zero.mp this with h3 | h3
    · omega
    · exact h3
  have s1 : Int.sign d.1 = Int.sign e.1 := by
    rcases int_quadrant_cases d with ⟨qd, d1, d2⟩ | ⟨qd, d1, d2⟩ | ⟨qd, d1, d2⟩ | ⟨qd, d1, d2⟩ <;>
    rcases int_quadrant_cases e with ⟨qe, e1, e2⟩ | ⟨qe, e1, e2⟩ | ⟨qe, e1, e2⟩ | ⟨qe, e1, e2⟩ <;>
    first
    | omega
    | (rw [Int.sign_eq_neg_one_of_neg d1, Int.sign_eq_neg_one_of_neg e1])
    | (by_cases hz : d.1 = 0
       · rw [hz, z1 hz]
       · have hz2 : e.1 ≠ 0 := fun h => hz (z2 h)
         rw [Int.sign_eq_one_of_pos (by omega), Int.sign_eq_one_of_pos (by omega)])
  have s2 : Int.sign d.2 = Int.sign e.2 := by
    rcases int_quadrant_cases d with ⟨qd, d1, d2⟩ | ⟨qd, d1, d2⟩ | ⟨qd, d1, d2⟩ | ⟨qd, d1, d2⟩ <;>
    rcases int_quadrant_cases e with ⟨qe, e1, e2⟩ | ⟨qe, e1, e2⟩ | ⟨qe, e1, e2⟩ | ⟨qe, e1, e2⟩ <;>
    first
    | omega
    | (rw [Int.sign_eq_neg_one_of_neg d2, Int.sign_eq_neg_one_of_neg e2])
    | (by_cases hz : d.2 = 0
       · rw [hz, z3 hz]
       · have hz2 : e.2 ≠ 0 := fun h => hz (z4 h)
         rw [Int.sign_eq_one_of_pos (by omega), Int.sign_eq_one_of_pos (by omega)])
  unfold int_dir_equal
  simp [s1, s2, hdet]

theorem countP_lt_of_imp {α : Type} (p q : α → Bool) :
    ∀ L : List α, (∀ x ∈ L, p x = true → q x = true) →
      (∃ y ∈ L, q y = true ∧ p y = false) → L.countP p < L.countP q := by
  intro L
  induction L with
  | nil =>
    intro _ h
    obtain ⟨y, hy, -⟩ := h
    simp at hy
  | cons a L ih =>
    intro himp hex
    have hle : L.countP p ≤ L.countP q :=
      List.countP_mono_left (fun x hx => himp x (List.mem_cons_of_mem a hx))
    have ha := himp a (List.mem_cons_self a L)
    obtain ⟨y, hy, hq, hp⟩ := hex
    rw [List.countP_cons, List.countP_cons]
    rcases List.mem_cons.mp hy with hya | hyL
    · subst hya
      simp only [hq, hp, if_true, Bool.false_eq_true, if_false]
      omega
    · have := ih (fun x hx => himp x (List.mem_cons_of_mem a hx)) ⟨y, hyL, hq, hp⟩
      by_cases hpa : p a = true
      · simp only [hpa, ha hpa, if_true]
        omega
      · by_cases hqa : q a = true
        · simp only [hpa, hqa, Bool.false_eq_true, if_true, if_false]
          omega
        · simp only [hpa, hqa, Bool.false_eq_true, if_false]
          omega

theorem int_rank_lt {L : List (Int × Int)} {d e : Int × Int} (hd : d ∈ L)
    (h : int_dir_lt d e = true) : int_rank L d < int_rank L e := by
  unfold int_rank
  have := countP_lt_of_imp (fun x => int_dir_lt x d) (fun x => int_dir_lt x e) L
    (fun x _ hx => int_lt_trans x d e hx h) ⟨d, hd, h, int_lt_irrefl d⟩
  omega

theorem int_rank_eq {L : List (Int × Int)} {d e : Int × Int}
    (h : int_dir_equal d e = true) : int_rank L d = int_rank L e := by
  unfold int_rank
  have : L.countP (fun x => int_dir_lt x d) = L.countP (fun x => int_dir_lt x e) := by
    apply List.countP_congr
    intro x _
    rw [int_lt_congr_right h x]
  rw [this]

theorem int_rank_lt_iff {L : List (Int × Int)} (hL : ∀ x ∈ L, x ≠ (0, 0)) {d e : Int × Int}
    (hd : d ∈ L) (he : e ∈ L) : int_dir_lt d e = true ↔ int_rank L d < int_rank L e := by
  constructor
  · exact int_rank_lt hd
  · intro h
    by_contra hc
    rw [Bool.not_eq_true] at hc
    cases h2 : int_dir_lt e d with
    | true =>
      have := int_rank_lt he h2
      omega
    | false =>
      have := @int_rank_eq L d e (int_equal_of_not_lt d e (hL d hd) (hL e he) hc h2)
      omega

theorem int_rank_eq_iff {L : List (Int × Int)} (hL : ∀ x ∈ L, x ≠ (0, 0)) {d e : Int × Int}
    (hd : d ∈ L) (he : e ∈ L) : int_dir_equal d e = true ↔ int_rank L d = int_rank L e := by
  constructor
  · exact int_rank_eq
  · intro h
    cases h1 : int_dir_lt d e with
    | true =>
      have := int_rank_lt hd h1
      omega
    | false =>
      cases h2 : int_dir_lt e d with
      | true =>
        have := int_rank_lt he h2
        omega
      | false => exact int_equal_of_not_lt d e (hL d hd) (hL e he) h1 h2

theorem int_ccw_rank {L : List (Int × Int)} (hL : ∀ x ∈ L, x ≠ (0, 0)) {d lo hi : Int × Int}
    (hd : d ∈ L) (hlo : lo ∈ L) (hhi : hi ∈ L) :
    int_ccw_in_between d lo hi = true ↔
      Rank_between (int_rank L d) (int_rank L lo) (int_rank L hi) := by
  have a := int_rank_lt_iff hL hlo hd
  have b := int_rank_lt_iff hL hd hhi
  have c := int_rank_lt_iff hL hlo hhi
  unfold int_ccw_in_between Rank_between
  cases h1 : int_dir_lt lo d <;> cases h2 : int_dir_lt d hi <;> cases h3 : int_dir_lt lo hi <;>
    simp only [h1, h2, h3, Bool.false_eq_true, false_iff, true_iff, not_lt] at a b c <;>
    simp <;> omega

/-- The integer kernel satisfies the rank model on every pair of tables whose
directions are non-zero vectors. -/
theorem int_rank_model (T : Tracer_input (Int × Int) (Int × Int))
    (hlen1 : T.dirs1.length ≤ T.n1) (hlen2 : T.dirs2.length ≤ T.n2)
    (hnz : ∀ x ∈ T.dirs1 ++ T.dirs2, x ≠ (0, 0)) :
    Rank_model int_kernel T (int_rank1 T) (int_rank2 T) := by
  have get1 : ∀ i d, T.dirs1[i]? = some d →
      T.dirs1.getD i (0, 0) = d ∧ d ∈ T.dirs1 ++ T.dirs2 := by
    intro i d h
    refine ⟨by simp [List.getD, h], List.mem_append_left _ ?_⟩
    exact List.mem_iff_getElem?.mpr ⟨_, h⟩
  have get2 : ∀ i d, T.dirs2[i]? = some d →
      T.dirs2.getD i (0, 0) = d ∧ d ∈ T.dirs1 ++ T.dirs2 := by
    intro i d h
    refine ⟨by simp [List.getD, h], List.mem_append_right _ ?_⟩
    exact List.mem_iff_getElem?.mpr ⟨_, h⟩
  refine ⟨hlen1, hlen2, ?_, ?_, ?_⟩
  · intro i j d1 d2 d2p h1 h2 h3
    obtain ⟨e1, m1⟩ := get1 i d1 h1
    obtain ⟨e2, m2⟩ := get2 j d2 h2
    obtain ⟨e3, m3⟩ := get2 _ d2p h3
    unfold int_rank1 int_rank2
    rw [e1, e2, e3]
    exact int_ccw_rank hnz m1 m3 m2
  · intro i j d1 d2 d1p h1 h2 h3
    obtain ⟨e1, m1⟩ := get1 i d1 h1
    obtain ⟨e2, m2⟩ := get2 j d2 h2
    obtain ⟨e3, m3⟩ := get1 _ d1p h3
    unfold int_rank1 int_rank2
    rw [e1, e2, e3]
    exact int_ccw_rank hnz m2 m3 m1
  · intro i j d1 d2 h1 h2
    obtain ⟨e1, m1⟩ := get1 i d1 h1
    obtain ⟨e2, m2⟩ := get2 j d2 h2
    unfold int_rank1 int_rank2
    rw [e1, e2]
    exact int_rank_eq_iff hnz m1 m2

section IntegerPolygons

theorem int_edge_nonzero (pgn : List (Int × Int)) (forward : Bool) (j : Nat)
    (h : traversal_point int_kernel pgn forward (j + 1) ≠
      traversal_point int_kernel pgn forward j) :
    edge_direction int_kernel pgn forward j ≠ (0, 0) := by
  intro hc
  apply h
  unfold edge_direction at hc
  change (_ - _, _ - _) = ((0 : Int), (0 : Int)) at hc
  simp only [Prod.mk.injEq] at hc
  exact Prod.ext (by omega) (by omega)

/-- The tables that `operator()` builds with the integer kernel, for two
polygons without two equal consecutive vertices, satisfy the rank model. -/
theorem int_tables_rank_model (pgn1 pgn2 : List (Int × Int))
    (T : Tracer_input (Int × Int) (Int × Int))
    (hn1 : 0 < pgn1.length) (hle : pgn1.length ≤ pgn2.length)
    (hT : tables_of int_kernel pgn1 pgn2 = Except.ok T)
    (he1 : ∀ j, j < pgn1.length →
      traversal_point int_kernel pgn1 (forward_of int_kernel pgn1) (j + 1) ≠
        traversal_point int_kernel pgn1 (forward_of int_kernel pgn1) j)
    (he2 : ∀ j, j < pgn2.length →
      traversal_point int_kernel pgn2 (forward_of int_kernel pgn2) (j + 1) ≠
        traversal_point int_kernel pgn2 (forward_of int_kernel pgn2) j) :
    Rank_model int_kernel T (int_rank1 T) (int_rank2 T) := by
  obtain ⟨s1, hs1, I1⟩ := first_polygon_tables_ok int_kernel pgn1 pgn2.length hn1 hle
  obtain ⟨s2, hs2, I2⟩ := second_polygon_tables_ok int_kernel pgn2 (by omega)
  unfold tables_of at hT
  rw [hs1, hs2] at hT
  simp only [bind, Except.bind, pure, Except.pure, Except.ok.injEq] at hT
  have hd1 : T.dirs1 = s1.dirs1 := by rw [← hT]
  have hd2 : T.dirs2 = s2.dirs2 := by rw [← hT]
  have hm1 : T.n1 = pgn1.length := by rw [← hT]
  have hm2 : T.n2 = pgn2.length := by rw [← hT]
  apply int_rank_model
  · rw [hd1, hm1, I1.dirs_length]
  · rw [hd2, hm2, I2.dirs_length]
  · intro x hx
    rw [hd1, hd2] at hx
    rcases List.mem_append.mp hx with hx | hx
    · obtain ⟨j, hj⟩ := List.mem_iff_getElem?.mp hx
      have hlt : j < pgn1.length := by
        have := (List.getElem?_eq_some_iff.mp hj).1
        rw [I1.dirs_length] at this
        exact this
      rw [I1.dirs_eq j hlt] at hj
      simp only [Option.some.injEq] at hj
      rw [← hj]
      exact int_edge_nonzero pgn1 _ j (he1 j hlt)
    · obtain ⟨j, hj⟩ := List.mem_iff_getElem?.mp hx
      have hlt : j < pgn2.length := by
        have := (List.getElem?_eq_some_iff.mp hj).1
        rw [I2.dirs_length] at this
        exact this
      rw [I2.dirs_eq j hlt] at hj
      simp only [Option.some.injEq] at hj
      rw [← hj]
      exact int_edge_nonzero pgn2 _ j (he2 j hlt)

end IntegerPolygons

section IntegerPolygons2

/-- With the integer kernel, for all polygons without two equal consecutive
vertices for which the preprocessing loops complete (the first polygon is not
empty and has at most as many vertices as the second), the tables satisfy the
rank model, and no invocation of `operator()` fails the assertion
`CGAL_assertion (inc1 || inc2)`. -/
theorem int_operator_keeps_advancing (pgn1 pgn2 : List (Int × Int))
    (hn1 : 0 < pgn1.length) (hle : pgn1.length ≤ pgn2.length)
    (he1 : ∀ j, j < pgn1.length →
      traversal_point int_kernel pgn1 (forward_of int_kernel pgn1) (j + 1) ≠
        traversal_point int_kernel pgn1 (forward_of int_kernel pgn1) j)
    (he2 : ∀ j, j < pgn2.length →
      traversal_point int_kernel pgn2 (forward_of int_kernel pgn2) (j + 1) ≠
        traversal_point int_kernel pgn2 (forward_of int_kernel pgn2) j) :
    (∃ T, tables_of int_kernel pgn1 pgn2 = Except.ok T ∧
      Rank_model int_kernel T (int_rank1 T) (int_rank2 T)) ∧
    (∀ (tracer_fuel session_fuel : Nat) (e : Failure),
      operator_call int_kernel tracer_fuel session_fuel pgn1 pgn2 = Except.error e →
      e ≠ Failure.assertion_inc) := by
  obtain ⟨s1, hs1, -⟩ := first_polygon_tables_ok int_kernel pgn1 pgn2.length hn1 hle
  obtain ⟨s2, hs2, -⟩ := second_polygon_tables_ok int_kernel pgn2 (by omega)
  have hT : ∃ T, tables_of int_kernel pgn1 pgn2 = Except.ok T := by
    unfold tables_of
    rw [hs1, hs2]
    exact ⟨_, rfl⟩
  obtain ⟨T, hT⟩ := hT
  have M := int_tables_rank_model pgn1 pgn2 T hn1 hle hT he1 he2
  refine ⟨⟨T, hT, M⟩, ?_⟩
  intro tf sf e h
  obtain ⟨seeds, hop⟩ := operator_call_of_tables hT tf sf
  rw [hop] at h
  exact (seeder_loop_advance M seeds _ (closed_inv_nil T _ _)).1 e h

end IntegerPolygons2

/-- The last statement of `_convolution_cycle` leaves the list as long as it
was and touches the terminal flag of the last segment only: the flag is true
afterwards when the index of the segment plus one is `seg_index`, and keeps its
value otherwise. -/
theorem mark_last_flag {Point_2 : Type} {seg_index : Nat}
    {cycle cycle1 : List (Labeled_segment_2 Point_2)}
    (h : mark_last seg_index cycle = Except.ok cycle1) :
    ∃ last last1, cycle.getLast? = some last ∧ cycle1.getLast? = some last1 ∧
      cycle1.dropLast = cycle.dropLast ∧
      last1.source = last.source ∧ last1.target = last.target ∧
      last1.label.right = last.label.right ∧ last1.label.component = last.label.component ∧
      last1.label.index = last.label.index ∧
      last1.label.flag = (decide (last.label.index + 1 = seg_index) || last.label.flag) ∧
      last1.label.move_on = last.label.move_on := by
  unfold mark_last at h
  cases hl : cycle.getLast? with
  | none => rw [hl] at h; cases h
  | some last =>
    rw [hl] at h
    simp only at h
    by_cases hi : last.label.index + 1 = seg_index
    · rw [if_pos hi] at h
      cases h
      refine ⟨last, _, rfl, List.getLast?_concat _, by simp, rfl, rfl, rfl, rfl, rfl, ?_, rfl⟩
      simp [hi, X_curve_label.set_flag]
    · rw [if_neg hi] at h
      cases h
      exact ⟨last, last, rfl, hl, rfl, rfl, rfl, rfl, rfl, rfl, by simp [hi], rfl⟩

section Progress
variable {Point_2 Vector_2 Direction_2 : Type}

theorem decide_flags_queue (K : Kernel Point_2 Vector_2 Direction_2) (n1 : Nat)
    (d1 d1p d2 d2p : Direction_2) (s : Tracer_state Point_2) :
    (decide_flags K n1 d1 d1p d2 d2p s).2.2 = s.queue ∨
    ((decide_flags K n1 d1 d1p d2 d2p s).2.2 =
        s.queue ++ [((s.curr1, s.k1), (s.curr2, s.k2))] ∧
      (decide_flags K n1 d1 d1p d2 d2p s).1 = true ∧
      (decide_flags K n1 d1 d1p d2 d2p s).2.1 = false ∧
      K.f_ccw_in_between d1 d2p d2 = true ∧ K.f_ccw_in_between d2 d1p d1 = true) := by
  unfold decide_flags cone_flags
  by_cases hu : Labels_set.count s.used_labels ⟨s.k1, s.k2, 1⟩ = 0 <;>
    by_cases hc1 : K.f_ccw_in_between d1 d2p d2 = true <;>
    by_cases hc2 : K.f_ccw_in_between d2 d1p d1 = true <;>
    by_cases hv : Labels_set.count s.used_labels ⟨s.k1, s.k2, 2⟩ = 0 <;>
    by_cases he : K.f_equal d1 d2 = true <;>
    simp [hu, hc1, he, hc2, hv]

theorem cycle_step_queue {K : Kernel Point_2 Vector_2 Direction_2}
    {T : Tracer_input Point_2 Direction_2} {cycle_id : Nat} {s s2 : Tracer_state Point_2}
    (h : cycle_step K T cycle_id s = Except.ok s2) :
    s2.queue = s.queue ∨
    (s2.queue = s.queue ++ [((s.curr1, s.k1), (s.curr2, s.k2))] ∧
      (⟨s.k1, s.k2, 1⟩ : Convolution_label) ∈ s2.used_labels ∧
      ∃ d1 d1p d2 d2p, T.dirs1[s.k1]? = some d1 ∧
        T.dirs1[prev_index T.n1 s.k1]? = some d1p ∧ T.dirs2[s.k2]? = some d2 ∧
        T.dirs2[prev_index T.n2 s.k2]? = some d2p ∧
        K.f_ccw_in_between d1 d2p d2 = true ∧ K.f_ccw_in_between d2 d1p d1 = true) := by
  obtain ⟨flags, s1, hdm, -, h1, h2⟩ := cycle_step_ok h
  obtain ⟨d1, d1p, d2, d2p, hd1, hd1p, hd2, hd2p, hf⟩ := decide_moves_ok hdm
  have hq1 : s1.queue = flags.2.2 ∧ (flags.1 = true →
      (⟨s.k1, s.k2, 1⟩ : Convolution_label) ∈ s1.used_labels) := by
    split_ifs at h1 with hinc
    · obtain ⟨pn, pc, r2, -, -, -, -, hs1⟩ := advance1_ok h1
      rw [hs1]
      exact ⟨rfl, fun _ => mem_insert_iff.mpr (Or.inr rfl)⟩
    · simp only [Except.ok.injEq] at h1
      rw [← h1]
      exact ⟨rfl, fun hc => absurd hc hinc⟩
  have hq2 : s2.queue = s1.queue ∧ (flags.2.1 = false → s2 = s1) := by
    split_ifs at h2 with hinc
    · obtain ⟨pn, pc, r1, -, -, -, -, hs2⟩ := advance2_ok h2
      rw [hs2]
      exact ⟨rfl, fun hc => by rw [hc] at hinc; cases hinc⟩
    · simp only [Except.ok.injEq] at h2
      exact ⟨by rw [h2], fun _ => h2.symm⟩
  rcases decide_flags_queue K T.n1 d1 d1p d2 d2p s with hq | ⟨hq, hi1, hi2, hc1, hc2⟩
  · left
    rw [hq2.1, hq1.1, hf, hq]
  · right
    rw [← hf] at hq hi1 hi2
    refine ⟨by rw [hq2.1, hq1.1, hq], ?_, d1, d1p, d2, d2p, hd1, hd1p, hd2, hd2p, hc1, hc2⟩
    rw [hq2.2 hi2]
    exact hq1.2 hi1

theorem cycle_step_progress {K : Kernel Point_2 Vector_2 Direction_2}
    {T : Tracer_input Point_2 Direction_2} {cycle_id : Nat} {s s2 : Tracer_state Point_2}
    (hk1 : s.k1 < T.n1) (hk2 : s.k2 < T.n2) (hq : Queue_range T s.queue)
    (h : cycle_step K T cycle_id s = Except.ok s2) :
    Queue_range T s2.queue ∧
      s2.queue.length + s.used_labels.length ≤ s.queue.length + s2.used_labels.length := by
  obtain ⟨added, hu, -, -, hne, -, -⟩ := cycle_step_labels h
  have hlen : 1 ≤ added.length := by
    cases added with
    | nil => exact absurd rfl hne
    | cons a l => simp
  have hul : s2.used_labels.length = s.used_labels.length + added.length := by
    rw [hu, List.length_append]
  rcases cycle_step_queue h with hq2 | ⟨hq2, -, -⟩
  · rw [hq2]
    exact ⟨hq, by omega⟩
  · rw [hq2]
    refine ⟨?_, by simp only [List.length_append, List.length_singleton]; omega⟩
    intro a ha
    rcases List.mem_append.mp ha with ha | ha
    · exact hq a ha
    · simp only [List.mem_singleton] at ha
      rw [ha]
      exact ⟨hk1, hk2⟩

theorem cycle_steps_progress {K : Kernel Point_2 Vector_2 Direction_2}
    {T : Tracer_input Point_2 Direction_2} {cycle_id : Nat} :
    ∀ (m : Nat) (s s2 : Tracer_state Point_2), s.k1 < T.n1 → s.k2 < T.n2 →
      Label_range T s.used_labels → Queue_range T s.queue →
      cycle_steps K T cycle_id m s = Except.ok s2 →
      Queue_range T s2.queue ∧
        s2.queue.length + s.used_labels.length ≤
          s.queue.length + s2.used_labels.length := by
  intro m
  induction m with
  | zero =>
    intro s s2 _ _ _ hq h
    simp only [cycle_steps, pure, Except.pure, Except.ok.injEq] at h
    subst h
    exact ⟨hq, by omega⟩
  | succ m ih =>
    intro s s2 hk1 hk2 hr hq h
    obtain ⟨s1, h1, h2⟩ := cycle_steps_succ h
    obtain ⟨hq1, hl1⟩ := cycle_step_progress hk1 hk2 hq h1
    obtain ⟨hk1a, hk2a, hr1⟩ := cycle_step_range hk1 hk2 hr h1
    obtain ⟨hq2, hl2⟩ := ih s1 s2 hk1a hk2a hr1 hq1 h2
    exact ⟨hq2, by omega⟩

theorem convolution_cycle_progress {K : Kernel Point_2 Vector_2 Direction_2}
    {T : Tracer_input Point_2 Direction_2} {fuel cycle_id curr1 k1 curr2 k2 : Nat}
    {used : Labels_set} {queue : Anchors_queue} {cycle : List (Labeled_segment_2 Point_2)}
    (hk1 : k1 < T.n1) (hk2 : k2 < T.n2) (hnd : used.Nodup) (hr : Label_range T used)
    (hq : Queue_range T queue) :
    (2 * T.n1 * T.n2 < fuel + used.length →
      _convolution_cycle K fuel cycle_id T curr1 k1 curr2 k2 used queue cycle ≠
        Except.error Failure.out_of_fuel) ∧
    (∀ r, _convolution_cycle K fuel cycle_id T curr1 k1 curr2 k2 used queue cycle =
        Except.ok r →
      r.used_labels.Nodup ∧ Label_range T r.used_labels ∧ Queue_range T r.queue ∧
      r.queue.length + used.length ≤ queue.length + r.used_labels.length ∧
      ∃ (m : Nat) (s0 s : Tracer_state Point_2),
        cycle_init K T curr1 k1 curr2 k2 used queue cycle = Except.ok s0 ∧
        cycle_steps K T cycle_id (m + 1) s0 = Except.ok s ∧
        r.used_labels = s.used_labels ∧ r.queue = s.queue ∧
        used.length + (m + 1) ≤ r.used_labels.length) := by
  have hinit : ∀ s0, cycle_init K T curr1 k1 curr2 k2 used queue cycle = Except.ok s0 →
      s0.k1 = k1 ∧ s0.k2 = k2 ∧ s0.used_labels = used ∧ s0.queue = queue := by
    intro s0 hs0
    obtain ⟨p1, p2, -, -, hs0eq⟩ := cycle_init_ok hs0
    rw [hs0eq]
    exact ⟨rfl, rfl, rfl, rfl⟩
  constructor
  · intro hfuel h
    unfold _convolution_cycle at h
    rcases bind_eq_error h with h | ⟨s0, hs0, h⟩
    · exact absurd (cycle_init_error h) (by simp)
    · obtain ⟨e1, e2, e3, e4⟩ := hinit s0 hs0
      rcases bind_eq_error h with h | ⟨s, hs, h⟩
      · obtain ⟨s2, hs2⟩ := cycle_loop_out_of_fuel fuel s0 h
        have := @cycle_steps_count _ _ _ K T cycle_id fuel s0 s2 (by rw [e1]; exact hk1)
          (by rw [e2]; exact hk2) (by rw [e3]; exact hnd) (by rw [e3]; exact hr) hs2
        rw [e3] at this
        omega
      · split_ifs at h
        · cases h
        · rcases bind_eq_error h with h | ⟨c1, -, h⟩
          · exact absurd (mark_last_error h) (by simp)
          · cases h
  · intro r h
    obtain ⟨added, hu, -, hnd2, hfr, -⟩ := convolution_cycle_labels h
    obtain ⟨s0, s, cycle1, hs0, hs, -, -, hreq⟩ := convolution_cycle_ok h
    obtain ⟨e1, e2, e3, e4⟩ := hinit s0 hs0
    obtain ⟨-, -, m, -, s1, hm, hstep⟩ := cycle_loop_steps fuel s0 s hs
    have hsteps := cycle_steps_snoc m s0 s1 s hm hstep
    obtain ⟨-, -, hr2⟩ := cycle_steps_range (m + 1) s0 s (by rw [e1]; exact hk1)
      (by rw [e2]; exact hk2) (by rw [e3]; exact hr) hsteps
    obtain ⟨hq2, hl2⟩ := cycle_steps_progress (m + 1) s0 s (by rw [e1]; exact hk1)
      (by rw [e2]; exact hk2) (by rw [e3]; exact hr) (by rw [e4]; exact hq) hsteps
    have hru : r.used_labels = s.used_labels := by rw [hreq]
    have hrq : r.queue = s.queue := by rw [hreq]
    rw [e3, e4] at hl2
    refine ⟨?_, by rw [hru]; exact hr2, by rw [hrq]; exact hq2, by rw [hru, hrq]; omega,
      m, s0, s, hs0, hsteps, hru, hrq, ?_⟩
    · rw [hu, List.nodup_append]
      exact ⟨hnd, hnd2, fun l h1 h2 => hfr l h2 h1⟩
    · obtain ⟨added2, hu2, -, -, hm2, -, -⟩ := cycle_steps_labels (m + 1) s0 s hsteps
      rw [hru, hu2, e3, List.length_append]
      omega

end Progress

section TableLengths
variable {Point_2 Vector_2 Direction_2 : Type}

theorem vector_set_length {α : Type} {v v1 : List α} {k : Nat} {a : α}
    (h : vector_set v k a = Except.ok v1) : v1.length = v.length := by
  unfold vector_set at h
  split_ifs at h
  simp only [Except.ok.injEq] at h
  rw [← h, List.length_set]

theorem first_polygon_body_dirs (K : Kernel Point_2 Vector_2 Direction_2)
    (pgn : List Point_2) (forward : Bool) (k : Nat) (st st1 : Prep1_state Direction_2)
    (h : first_polygon_body K pgn forward k st = Except.ok st1) :
    st1.dirs1.length = st.dirs1.length := by
  unfold first_polygon_body at h
  simp only [] at h
  obtain ⟨_, -, h⟩ := bind_eq_ok h
  obtain ⟨_, -, h⟩ := bind_eq_ok h
  obtain ⟨_, -, h⟩ := bind_eq_ok h
  obtain ⟨r, -, h⟩ := bind_eq_ok h
  obtain ⟨d, hd, h⟩ := bind_eq_ok h
  simp only [pure, Except.pure, Except.ok.injEq] at h
  rw [← h]
  exact vector_set_length hd

theorem vector_set_error {α : Type} {v : List α} {i : Nat} {a : α} {e : Failure}
    (h : vector_set v i a = Except.error e) : e = Failure.out_of_range := by
  unfold vector_set at h
  split_ifs at h
  simp only [Except.error.injEq] at h
  exact h.symm

theorem second_polygon_body_dirs (K : Kernel Point_2 Vector_2 Direction_2)
    (pgn : List Point_2) (forward : Bool) (k : Nat) (st st1 : Prep2_state Direction_2)
    (h : second_polygon_body K pgn forward k st = Except.ok st1) :
    st1.dirs2.length = st.dirs2.length ∧ st1.is_reflex2.length = st.is_reflex2.length := by
  unfold second_polygon_body at h
  simp only [] at h
  obtain ⟨_, -, h⟩ := bind_eq_ok h
  split_ifs at h with hk
  · obtain ⟨_, -, h⟩ := bind_eq_ok h
    obtain ⟨_, -, h⟩ := bind_eq_ok h
    obtain ⟨_, -, h⟩ := bind_eq_ok h
    obtain ⟨r, hr, h⟩ := bind_eq_ok h
    obtain ⟨d, hd, h⟩ := bind_eq_ok h
    simp only [pure, Except.pure, Except.ok.injEq] at h
    rw [← h]
    exact ⟨vector_set_length hd, vector_set_length hr⟩
  · obtain ⟨_, -, h⟩ := bind_eq_ok h
    split_ifs at h
    · obtain ⟨_, -, h⟩ := bind_eq_ok h
      obtain ⟨_, -, h⟩ := bind_eq_ok h
      obtain ⟨_, -, h⟩ := bind_eq_ok h
      obtain ⟨r, hr, h⟩ := bind_eq_ok h
      obtain ⟨d, hd, h⟩ := bind_eq_ok h
      simp only [pure, Except.pure, Except.ok.injEq] at h
      rw [← h]
      exact ⟨vector_set_length hd, vector_set_length hr⟩
    · obtain ⟨_, -, h⟩ := bind_eq_ok h
      obtain ⟨_, -, h⟩ := bind_eq_ok h
      obtain ⟨_, -, h⟩ := bind_eq_ok h
      obtain ⟨r, hr, h⟩ := bind_eq_ok h
      obtain ⟨d, hd, h⟩ := bind_eq_ok h
      simp only [pure, Except.pure, Except.ok.injEq] at h
      rw [← h]
      exact ⟨vector_set_length hd, vector_set_length hr⟩

theorem second_polygon_body_error (K : Kernel Point_2 Vector_2 Direction_2)
    (pgn : List Point_2) (forward : Bool) (k : Nat) (st : Prep2_state Direction_2)
    (e : Failure) (h : second_polygon_body K pgn forward k st = Except.error e) :
    e = Failure.out_of_range := by
  unfold second_polygon_body deref at h
  simp only [] at h
  have tail : ∀ (c : Point_2) (y : Vertex_ref),
      (do
        let p ← vector_get pgn st.prev2
        let n ← vector_get pgn (circ_move forward pgn.length st.next2)
        let is_reflex2 ← vector_set st.is_reflex2 k
          (decide (K.f_orientation p c n = Orientation.RIGHT_TURN))
        let dirs2 ← vector_set st.dirs2 k (K.f_direction (K.f_vector c n))
        (pure
          { prev2 := st.curr2, curr2 := circ_move forward pgn.length st.next2,
            next2 := circ_move forward pgn.length st.next2, dirs2 := dirs2,
            is_reflex2 := is_reflex2, bottom_left := y,
            is_convex2 :=
              if decide (K.f_orientation p c n = Orientation.RIGHT_TURN) = true then false
              else st.is_convex2,
            reflex_vertices :=
              if decide (K.f_orientation p c n = Orientation.RIGHT_TURN) = true then
                st.reflex_vertices ++ [(st.curr2, k)]
              else st.reflex_vertices } : Except Failure (Prep2_state Direction_2))) =
        Except.error e → e = Failure.out_of_range := by
    intro c y h
    rcases bind_eq_error h with h | ⟨_, -, h⟩
    · exact vector_get_error h
    rcases bind_eq_error h with h | ⟨_, -, h⟩
    · exact vector_get_error h
    rcases bind_eq_error h with h | ⟨_, -, h⟩
    · exact vector_set_error h
    rcases bind_eq_error h with h | ⟨_, -, h⟩
    · exact vector_set_error h
    cases h
  rcases bind_eq_error h with h | ⟨c, -, h⟩
  · exact vector_get_error h
  split_ifs at h with hk
  · exact tail c _ h
  · rcases bind_eq_error h with h | ⟨b, -, h⟩
    · exact vector_get_error h
    split_ifs at h
    · exact tail c _ h
    · exact tail c _ h

theorem tables_of_lengths {K : Kernel Point_2 Vector_2 Direction_2}
    {pgn1 pgn2 : List Point_2} {T : Tracer_input Point_2 Direction_2}
    (hT : tables_of K pgn1 pgn2 = Except.ok T) :
    T.pgn1 = pgn1 ∧ T.pgn2 = pgn2 ∧ T.n1 = pgn1.length ∧ T.n2 = pgn2.length ∧
      T.forward1 = forward_of K pgn1 ∧ T.forward2 = forward_of K pgn2 ∧
      T.dirs1.length = T.n1 ∧ T.dirs2.length = T.n2 ∧ T.is_reflex2.length = T.n2 := by
  unfold tables_of at hT
  obtain ⟨t1, h1, hT⟩ := bind_eq_ok hT
  obtain ⟨t2, h2, hT⟩ := bind_eq_ok hT
  simp only [pure, Except.pure, Except.ok.injEq] at hT
  have e1 := for_loop_inv
    (fun (_ : Nat) (st : Prep1_state Direction_2) => st.dirs1.length = pgn1.length) pgn1.length
    (fun k st st1 _ hst hb => (first_polygon_body_dirs K pgn1 _ k st st1 hb).trans hst)
    pgn1.length 0 _ t1 (by omega) (List.length_replicate _ _) h1
  have e2 := for_loop_inv
    (fun (_ : Nat) (st : Prep2_state Direction_2) =>
      st.dirs2.length = pgn2.length ∧ st.is_reflex2.length = pgn2.length) pgn2.length
    (fun k st st1 _ hst hb =>
      ⟨(second_polygon_body_dirs K pgn2 _ k st st1 hb).1.trans hst.1,
        (second_polygon_body_dirs K pgn2 _ k st st1 hb).2.trans hst.2⟩)
    pgn2.length 0 _ t2 (by omega) ⟨List.length_replicate _ _, List.length_replicate _ _⟩ h2
  rw [← hT]
  exact ⟨rfl, rfl, rfl, rfl, rfl, rfl, e1, e2.1, e2.2⟩

end TableLengths

section ProgressDriver
variable {Point_2 Vector_2 Direction_2 : Type}

theorem seed_qualifies_range {K : Kernel Point_2 Vector_2 Direction_2}
    {T : Tracer_input Point_2 Direction_2} {used : Labels_set} {k1 k2 : Nat}
    (hlen1 : T.dirs1.length ≤ T.n1) (hlen2 : T.dirs2.length ≤ T.n2)
    (h : seed_qualifies K T used k1 k2 = Except.ok true) :
    k1 < T.n1 ∧ k2 < T.n2 ∧ Labels_set.count used ⟨k1, k2, 1⟩ = 0 ∧
      ∃ d1 d2 d2p, T.dirs1[k1]? = some d1 ∧ T.dirs2[k2]? = some d2 ∧
        T.dirs2[prev_index T.n2 k2]? = some d2p ∧
        (K.f_ccw_in_between d1 d2p d2 = true ∨ K.f_equal d1 d2 = true) := by
  unfold seed_qualifies at h
  split_ifs at h with hu
  · obtain ⟨d1, hd1, h⟩ := bind_eq_ok h
    obtain ⟨d2p, hd2p, h⟩ := bind_eq_ok h
    obtain ⟨d2, hd2, h⟩ := bind_eq_ok h
    have l1 := vector_get_lt hd1
    have l2 := vector_get_lt hd2
    rw [vector_get_eq_ok] at hd1 hd2p hd2
    simp only [pure, Except.pure, Except.ok.injEq, Bool.or_eq_true] at h
    exact ⟨by omega, by omega, by simpa using hu, d1, d2, d2p, hd1, hd2, hd2p, h⟩
  · simp [pure, Except.pure] at h

theorem session_loop_progress {K : Kernel Point_2 Vector_2 Direction_2}
    {T : Tracer_input Point_2 Direction_2} {tracer_fuel : Nat} :
    ∀ (fuel : Nat) (st : Driver_state Point_2), st.used_labels.Nodup →
      Label_range T st.used_labels → Queue_range T st.queue →
      (2 * T.n1 * T.n2 < tracer_fuel →
        st.queue.length + 2 * T.n1 * T.n2 ≤ fuel + st.used_labels.length →
        session_loop K T tracer_fuel fuel st ≠ Except.error Failure.out_of_fuel) ∧
      (∀ st1, session_loop K T tracer_fuel fuel st = Except.ok st1 →
        st1.used_labels.Nodup ∧ Label_range T st1.used_labels ∧
        ∃ added, st1.used_labels = st.used_labels ++ added) := by
  intro fuel
  induction fuel with
  | zero =>
    intro st hnd hr hq
    constructor
    · intro _ hm h
      unfold session_loop at h
      split at h
      · cases h
      · rename_i anchor rest hqe
        have := label_range_length hnd hr
        rw [hqe] at hm
        simp only [List.length_cons] at hm
        omega
    · intro st1 h
      unfold session_loop at h
      split at h
      · simp only [Except.ok.injEq] at h
        exact h ▸ ⟨hnd, hr, [], by simp⟩
      · cases h
  | succ fuel ih =>
    intro st hnd hr hq
    have hrest : ∀ (anchor : Anchor) (rest : List Anchor), st.queue = anchor :: rest →
        Queue_range T rest ∧ anchor.1.2 < T.n1 ∧ anchor.2.2 < T.n2 := by
      intro anchor rest hqe
      rw [hqe] at hq
      exact ⟨fun a ha => hq a (List.mem_cons_of_mem _ ha),
        (hq anchor (List.mem_cons_self _ _)).1, (hq anchor (List.mem_cons_self _ _)).2⟩
    constructor
    · intro htf hm h
      unfold session_loop at h
      split at h
      · cases h
      · rename_i anchor rest hqe
        obtain ⟨hqr, hk1, hk2⟩ := hrest anchor rest hqe
        rw [hqe] at hm
        simp only [List.length_cons] at hm
        simp only [] at h
        split_ifs at h with hskip
        · exact (ih { st with queue := rest, loops := st.loops + 1 - 1 } hnd hr hqr).1 htf
            (by simp only; omega) h
        · obtain ⟨hE, hO⟩ := @convolution_cycle_progress _ _ _ K T tracer_fuel
            (st.curr_id + 1) anchor.1.1 anchor.1.2 anchor.2.1 anchor.2.2 st.used_labels rest
            st.cycle hk1 hk2 hnd hr hqr
          rcases bind_eq_error h with h | ⟨r, hr1, h⟩
          · exact hE (by omega) h
          · obtain ⟨hnd2, hr2, hq2, hl2, -⟩ := hO r hr1
            split_ifs at h with hempty
            · exact (ih _ hnd2 hr2 hq2).1 htf (by simp only; omega) h
            · exact (ih _ hnd2 hr2 hq2).1 htf (by simp only; omega) h
    · intro st1 h
      unfold session_loop at h
      split at h
      · simp only [Except.ok.injEq] at h
        exact h ▸ ⟨hnd, hr, [], by simp⟩
      · rename_i anchor rest hqe
        obtain ⟨hqr, hk1, hk2⟩ := hrest anchor rest hqe
        simp only [] at h
        split_ifs at h with hskip
        · exact (ih { st with queue := rest, loops := st.loops + 1 - 1 } hnd hr hqr).2 st1 h
        · obtain ⟨hE, hO⟩ := @convolution_cycle_progress _ _ _ K T tracer_fuel
            (st.curr_id + 1) anchor.1.1 anchor.1.2 anchor.2.1 anchor.2.2 st.used_labels rest
            st.cycle hk1 hk2 hnd hr hqr
          obtain ⟨r, hr1, h⟩ := bind_eq_ok h
          obtain ⟨hnd2, hr2, hq2, hl2, -⟩ := hO r hr1
          obtain ⟨added, hu, -⟩ := convolution_cycle_labels hr1
          split_ifs at h with hempty
          · obtain ⟨a, b, added2, c⟩ := (ih _ hnd2 hr2 hq2).2 st1 h
            exact ⟨a, b, added ++ added2, by rw [c]; simp only; rw [hu, List.append_assoc]⟩
          · obtain ⟨a, b, added2, c⟩ := (ih _ hnd2 hr2 hq2).2 st1 h
            exact ⟨a, b, added ++ added2, by rw [c]; simp only; rw [hu, List.append_assoc]⟩

theorem scan_body_progress {K : Kernel Point_2 Vector_2 Direction_2}
    {T : Tracer_input Point_2 Direction_2} {tracer_fuel session_fuel curr2 k2 k1 : Nat}
    {st : Driver_state Point_2}
    (hlen1 : T.dirs1.length ≤ T.n1) (hlen2 : T.dirs2.length ≤ T.n2)
    (hI : st.used_labels.Nodup ∧ Label_range T st.used_labels) :
    (2 * T.n1 * T.n2 < tracer_fuel → 2 * T.n1 * T.n2 < session_fuel →
      scan_body K T tracer_fuel session_fuel curr2 k2 k1 st ≠
        Except.error Failure.out_of_fuel) ∧
    (∀ st1, scan_body K T tracer_fuel session_fuel curr2 k2 k1 st = Except.ok st1 →
      (st1.used_labels.Nodup ∧ Label_range T st1.used_labels) ∧
      ∃ added, st1.used_labels = st.used_labels ++ added) := by
  obtain ⟨hnd, hr⟩ := hI
  have hsession : seed_qualifies K T st.used_labels k1 k2 = Except.ok true →
      (2 * T.n1 * T.n2 < tracer_fuel → 2 * T.n1 * T.n2 < session_fuel →
        session_loop K T tracer_fuel session_fuel
          { st with queue := [((st.curr1, k1), (curr2, k2))], loops := 0 } ≠
          Except.error Failure.out_of_fuel) ∧
      (∀ st1, session_loop K T tracer_fuel session_fuel
          { st with queue := [((st.curr1, k1), (curr2, k2))], loops := 0 } = Except.ok st1 →
        st1.used_labels.Nodup ∧ Label_range T st1.used_labels ∧
        ∃ added, st1.used_labels = st.used_labels ++ added) := by
    intro hq
    obtain ⟨hk1, hk2, -⟩ := seed_qualifies_range hlen1 hlen2 hq
    have := @session_loop_progress _ _ _ K T tracer_fuel session_fuel
      { st with queue := [((st.curr1, k1), (curr2, k2))], loops := 0 } hnd hr
      (by
        intro a ha
        simp only [List.mem_singleton] at ha
        rw [ha]
        exact ⟨hk1, hk2⟩)
    exact ⟨fun htf hsf => this.1 htf (by simp only [List.length_singleton]; omega), this.2⟩
  constructor
  · intro htf hsf h
    unfold scan_body at h
    simp only [] at h
    rcases bind_eq_error h with h | ⟨found, hfound, h⟩
    · exact absurd (seed_qualifies_error h) (by simp)
    · rcases bind_eq_error h with h | ⟨st2, -, h⟩
      · cases found with
        | true =>
          simp only [if_true] at h
          rcases bind_eq_error h with h | ⟨st3, -, h⟩
          · exact (hsession hfound).1 htf hsf h
          · cases h
        | false =>
          simp at h
      · cases h
  · intro st1 h
    unfold scan_body at h
    simp only [] at h
    obtain ⟨found, hfound, h⟩ := bind_eq_ok h
    obtain ⟨st2, h2, h⟩ := bind_eq_ok h
    simp only [pure, Except.pure, Except.ok.injEq] at h
    subst h
    simp only
    cases found with
    | true =>
      simp only [if_true] at h2
      obtain ⟨st3, h3, h2⟩ := bind_eq_ok h2
      simp only [pure, Except.pure, Except.ok.injEq] at h2
      subst h2
      obtain ⟨a, b, c⟩ := (hsession hfound).2 st3 h3
      exact ⟨⟨a, b⟩, c⟩
    | false =>
      simp only [Bool.false_eq_true, if_false, Except.ok.injEq] at h2
      subst h2
      exact ⟨⟨hnd, hr⟩, [], by simp⟩

theorem seeder_loop_progress {K : Kernel Point_2 Vector_2 Direction_2}
    {T : Tracer_input Point_2 Direction_2} {tracer_fuel session_fuel : Nat}
    (hlen1 : T.dirs1.length ≤ T.n1) (hlen2 : T.dirs2.length ≤ T.n2) :
    ∀ (seeds : List Vertex_ref) (st : Driver_state Point_2),
      st.used_labels.Nodup ∧ Label_range T st.used_labels →
      (2 * T.n1 * T.n2 < tracer_fuel → 2 * T.n1 * T.n2 < session_fuel →
        seeder_loop K T tracer_fuel session_fuel seeds st ≠
          Except.error Failure.out_of_fuel) ∧
      (∀ st1, seeder_loop K T tracer_fuel session_fuel seeds st = Except.ok st1 →
        st1.used_labels.Nodup ∧ Label_range T st1.used_labels) := by
  intro seeds
  induction seeds with
  | nil =>
    intro st C
    constructor
    · intro _ _ h
      simp [seeder_loop] at h
    · intro st1 h
      simp only [seeder_loop, Except.ok.injEq] at h
      exact h ▸ C
  | cons seed seeds ih =>
    intro st C
    have hscan : ∀ st2, for_loop (scan_body K T tracer_fuel session_fuel seed.1 seed.2) T.n1 0
        { st with curr1 := 0, next1 := 0 } = Except.ok st2 →
        st2.used_labels.Nodup ∧ Label_range T st2.used_labels := by
      intro st2 h2
      exact for_loop_inv
        (fun (_ : Nat) (d : Driver_state Point_2) =>
          d.used_labels.Nodup ∧ Label_range T d.used_labels) T.n1
        (fun k d d1 _ hd hb => ((@scan_body_progress _ _ _ K T tracer_fuel session_fuel
          seed.1 seed.2 k d hlen1 hlen2 hd).2 d1 hb).1)
        T.n1 0 { st with curr1 := 0, next1 := 0 } st2 (by omega) C h2
    constructor
    · intro htf hsf h
      unfold seeder_loop at h
      rcases bind_eq_error h with h | ⟨st2, h2, h⟩
      · have := for_loop_safe
          (fun d : Driver_state Point_2 => d.used_labels.Nodup ∧ Label_range T d.used_labels)
          Failure.out_of_fuel
          (fun k d hd => ⟨fun e he hbad => by
              rw [hbad] at he
              exact (@scan_body_progress _ _ _ K T tracer_fuel session_fuel
                seed.1 seed.2 k d hlen1 hlen2 hd).1 htf hsf he,
            fun d1 hb => ((@scan_body_progress _ _ _ K T tracer_fuel session_fuel
              seed.1 seed.2 k d hlen1 hlen2 hd).2 d1 hb).1⟩)
          T.n1 0 { st with curr1 := 0, next1 := 0 } C
        exact this.1 _ h rfl
      · exact (ih st2 (hscan st2 h2)).1 htf hsf h
    · intro st1 h
      unfold seeder_loop at h
      obtain ⟨st2, h2, h⟩ := bind_eq_ok h
      exact (ih st2 (hscan st2 h2)).2 st1 h

theorem operator_call_progress {K : Kernel Point_2 Vector_2 Direction_2}
    (tracer_fuel session_fuel : Nat) (pgn1 pgn2 : List Point_2)
    (htf : 2 * pgn1.length * pgn2.length < tracer_fuel)
    (hsf : 2 * pgn1.length * pgn2.length < session_fuel) :
    operator_call K tracer_fuel session_fuel pgn1 pgn2 ≠ Except.error Failure.out_of_fuel := by
  intro h
  cases hT : tables_of K pgn1 pgn2 with
  | error e =>
    unfold tables_of at hT
    unfold operator_call at h
    rcases bind_eq_error hT with h1 | ⟨t1, h1, hT⟩
    · rw [h1] at h
      have := for_loop_error Failure.out_of_range
        (first_polygon_body_error K pgn1 _) _ _ _ _ h1
      cases h
      cases this
    · rcases bind_eq_error hT with h2 | ⟨t2, h2, hT⟩
      · rw [h1, h2] at h
        have := for_loop_error Failure.out_of_range
          (second_polygon_body_error K pgn2 _) _ _ _ _ h2
        cases h
        cases this
      · cases hT
  | ok T =>
    obtain ⟨seeds, hs⟩ := operator_call_of_tables hT tracer_fuel session_fuel
    obtain ⟨-, -, e1, e2, -, -, l1, l2, -⟩ := tables_of_lengths hT
    rw [hs] at h
    rw [← e1, ← e2] at htf hsf
    exact (seeder_loop_progress (by omega) (by omega) seeds _ ⟨by simp, by
      intro l hl; simp at hl⟩).1 htf hsf h

end ProgressDriver

section ProgressClaim
variable {Point_2 Vector_2 Direction_2 : Type}

/-- Claim C24. Progress bound. Let `T` be the tables that `operator()` builds
for two polygons with `n1` and `n2` vertices. Every completed iteration of the
do-while loop of the tracer appends at least one label to `used_labels` that
was not in the set, and from a state with `k1 < n1`, `k2 < n2` and labels in
`[0, n1) x [0, n2) x {1, 2}` it leads to such a state. A call of
`_convolution_cycle` made with pairwise distinct labels in range, for a pair
in range, returns with pairwise distinct labels in range, extends the set it
got, and the number `m + 1` of iterations it performed is at most the number
of labels it added, the set holding at most `2 * n1 * n2` labels afterwards.
The session loop and the scan of a seed only extend the set, which holds at
most `2 * n1 * n2` pairwise distinct labels in range when `operator()`
returns: as the set starts empty and every iteration of every call adds a
label to it, `operator()` performs at most `2 * n1 * n2` tracer iterations in
all. With an iteration budget above `2 * n1 * n2` for every loop, no call of
`_convolution_cycle` made this way and no invocation of `operator()` runs out
of budget: every trace closes or stops at a failing assertion or read. -/
theorem progress_bound (K : Kernel Point_2 Vector_2 Direction_2)
    (pgn1 pgn2 : List Point_2) (T : Tracer_input Point_2 Direction_2)
    (hT : tables_of K pgn1 pgn2 = Except.ok T) :
    (∀ (cycle_id : Nat) (s s2 : Tracer_state Point_2),
      cycle_step K T cycle_id s = Except.ok s2 →
      ∃ added : List Convolution_label, added ≠ [] ∧
        s2.used_labels = s.used_labels ++ added ∧ ∀ l ∈ added, l ∉ s.used_labels) ∧
    (∀ (cycle_id : Nat) (s s2 : Tracer_state Point_2), s.k1 < T.n1 → s.k2 < T.n2 →
      Label_range T s.used_labels → cycle_step K T cycle_id s = Except.ok s2 →
      s2.k1 < T.n1 ∧ s2.k2 < T.n2 ∧ Label_range T s2.used_labels) ∧
    (∀ (fuel cycle_id curr1 k1 curr2 k2 : Nat) (used : Labels_set) (queue : Anchors_queue)
      (cycle : List (Labeled_segment_2 Point_2)) (r : Tracer_state Point_2),
      k1 < T.n1 → k2 < T.n2 → used.Nodup → Label_range T used → Queue_range T queue →
      _convolution_cycle K fuel cycle_id T curr1 k1 curr2 k2 used queue cycle = Except.ok r →
      r.used_labels.Nodup ∧ Label_range T r.used_labels ∧ Queue_range T r.queue ∧
      r.used_labels.length ≤ 2 * T.n1 * T.n2 ∧
      ∃ (m : Nat) (s0 s : Tracer_state Point_2),
        cycle_init K T curr1 k1 curr2 k2 used queue cycle = Except.ok s0 ∧
        cycle_steps K T cycle_id (m + 1) s0 = Except.ok s ∧
        r.used_labels = s.used_labels ∧ used.length + (m + 1) ≤ r.used_labels.length) ∧
    (∀ (fuel cycle_id curr1 k1 curr2 k2 : Nat) (used : Labels_set) (queue : Anchors_queue)
      (cycle : List (Labeled_segment_2 Point_2)),
      k1 < T.n1 → k2 < T.n2 → used.Nodup → Label_range T used → Queue_range T queue →
      2 * T.n1 * T.n2 < fuel →
      _convolution_cycle K fuel cycle_id T curr1 k1 curr2 k2 used queue cycle ≠
        Except.error Failure.out_of_fuel) ∧
    (∀ (tracer_fuel fuel : Nat) (st st1 : Driver_state Point_2), st.used_labels.Nodup →
      Label_range T st.used_labels → Queue_range T st.queue →
      session_loop K T tracer_fuel fuel st = Except.ok st1 →
      st1.used_labels.Nodup ∧ Label_range T st1.used_labels ∧
      ∃ added, st1.used_labels = st.used_labels ++ added) ∧
    (∀ (tracer_fuel session_fuel curr2 k2 k1 : Nat) (st st1 : Driver_state Point_2),
      st.used_labels.Nodup → Label_range T st.used_labels →
      scan_body K T tracer_fuel session_fuel curr2 k2 k1 st = Except.ok st1 →
      st1.used_labels.Nodup ∧ Label_range T st1.used_labels ∧
      ∃ added, st1.used_labels = st.used_labels ++ added) ∧
    (∀ (tracer_fuel session_fuel : Nat) (st : Driver_state Point_2),
      operator_call K tracer_fuel session_fuel pgn1 pgn2 = Except.ok st →
      st.used_labels.Nodup ∧ Label_range T st.used_labels ∧
      st.used_labels.length ≤ 2 * T.n1 * T.n2) ∧
    (∀ tracer_fuel session_fuel : Nat, 2 * T.n1 * T.n2 < tracer_fuel →
      2 * T.n1 * T.n2 < session_fuel →
      operator_call K tracer_fuel session_fuel pgn1 pgn2 ≠
        Except.error Failure.out_of_fuel) := by
  obtain ⟨-, -, e1, e2, -, -, l1, l2, -⟩ := tables_of_lengths hT
  refine ⟨?_, ?_, ?_, ?_, ?_, ?_, ?_, ?_⟩
  · intro cycle_id s s2 h
    obtain ⟨added, hu, -, -, hne, hfr, -⟩ := cycle_step_labels h
    exact ⟨added, hne, hu, hfr⟩
  · intro cycle_id s s2 hk1 hk2 hr h
    exact cycle_step_range hk1 hk2 hr h
  · intro fuel cycle_id curr1 k1 curr2 k2 used queue cycle r hk1 hk2 hnd hr hq h
    obtain ⟨a, b, c, -, m, s0, s, h0, hs, hu, -, hl⟩ :=
      (@convolution_cycle_progress _ _ _ K T fuel cycle_id curr1 k1 curr2 k2 used queue cycle
        hk1 hk2 hnd hr hq).2 r h
    exact ⟨a, b, c, label_range_length a b, m, s0, s, h0, hs, hu, hl⟩
  · intro fuel cycle_id curr1 k1 curr2 k2 used queue cycle hk1 hk2 hnd hr hq hf
    exact (@convolution_cycle_progress _ _ _ K T fuel cycle_id curr1 k1 curr2 k2 used queue
      cycle hk1 hk2 hnd hr hq).1 (by omega)
  · intro tracer_fuel fuel st st1 hnd hr hq h
    exact (@session_loop_progress _ _ _ K T tracer_fuel fuel st hnd hr hq).2 st1 h
  · intro tracer_fuel session_fuel curr2 k2 k1 st st1 hnd hr h
    obtain ⟨⟨a, b⟩, c⟩ := (@scan_body_progress _ _ _ K T tracer_fuel session_fuel curr2 k2 k1
      st (by omega) (by omega) ⟨hnd, hr⟩).2 st1 h
    exact ⟨a, b, c⟩
  · intro tracer_fuel session_fuel st h
    obtain ⟨seeds, hs⟩ := operator_call_of_tables hT tracer_fuel session_fuel
    rw [hs] at h
    obtain ⟨a, b⟩ := (seeder_loop_progress (by omega) (by omega) seeds _
      ⟨List.nodup_nil, fun l hl => absurd hl (List.not_mem_nil l)⟩).2 st h
    exact ⟨a, b, label_range_length a b⟩
  · intro tracer_fuel session_fuel htf hsf
    rw [e1, e2] at htf hsf
    exact operator_call_progress tracer_fuel session_fuel pgn1 pgn2 htf hsf

theorem progress_bound_witness :
    (∃ st, operator_call int_kernel 41 41 dart star5 = Except.ok st ∧
      st.used_labels.length = 22) ∧
    (∀ (tracer_fuel session_fuel : Nat) (st : Driver_state (Int × Int)),
      operator_call int_kernel tracer_fuel session_fuel dart star5 = Except.ok st →
      st.used_labels.Nodup ∧ Label_range dart_star st.used_labels ∧
      st.used_labels.length ≤ 2 * dart_star.n1 * dart_star.n2) ∧
    (∀ tracer_fuel session_fuel : Nat, 2 * dart_star.n1 * dart_star.n2 < tracer_fuel →
      2 * dart_star.n1 * dart_star.n2 < session_fuel →
      operator_call int_kernel tracer_fuel session_fuel dart star5 ≠
        Except.error Failure.out_of_fuel) :=
  ⟨⟨_, rfl, rfl⟩, (progress_bound int_kernel dart star5 dart_star rfl).2.2.2.2.2.2⟩

end ProgressClaim

section FirstStep
variable {Point_2 Vector_2 Direction_2 : Type}

theorem enqueued_mono {K : Kernel Point_2 Vector_2 Direction_2}
    {T : Tracer_input Point_2 Direction_2} {used used2 : Labels_set} {a : Anchor}
    (h : Enqueued_anchor K T used a) (hsub : ∀ l ∈ used, l ∈ used2) :
    Enqueued_anchor K T used2 a :=
  ⟨hsub _ h.1, h.2⟩

theorem cycle_step_enqueued {K : Kernel Point_2 Vector_2 Direction_2}
    {T : Tracer_input Point_2 Direction_2} {cycle_id : Nat} {s s2 : Tracer_state Point_2}
    (h : cycle_step K T cycle_id s = Except.ok s2) :
    (∀ a ∈ s2.queue, a ∈ s.queue ∨
      (a = ((s.curr1, s.k1), (s.curr2, s.k2)) ∧ Enqueued_anchor K T s2.used_labels a)) ∧
    ((∀ a ∈ s.queue, Enqueued_anchor K T s.used_labels a) →
      ∀ a ∈ s2.queue, Enqueued_anchor K T s2.used_labels a) := by
  obtain ⟨added, hu, -⟩ := cycle_step_labels h
  have hsub : ∀ l ∈ s.used_labels, l ∈ s2.used_labels := by
    intro l hl
    rw [hu]
    exact List.mem_append_left _ hl
  have hnew : ∀ a ∈ s2.queue, a ∈ s.queue ∨
      (a = ((s.curr1, s.k1), (s.curr2, s.k2)) ∧ Enqueued_anchor K T s2.used_labels a) := by
    intro a ha
    rcases cycle_step_queue h with hq | ⟨hq, hmem, hreads⟩
    · rw [hq] at ha
      exact Or.inl ha
    · rw [hq] at ha
      rcases List.mem_append.mp ha with ha | ha
      · exact Or.inl ha
      · simp only [List.mem_singleton] at ha
        right
        refine ⟨ha, ?_⟩
        rw [ha]
        exact ⟨hmem, hreads⟩
  refine ⟨hnew, fun hq a ha => ?_⟩
  rcases hnew a ha with h1 | ⟨-, h1⟩
  · exact enqueued_mono (hq a h1) hsub
  · exact h1

theorem cycle_steps_enqueued {K : Kernel Point_2 Vector_2 Direction_2}
    {T : Tracer_input Point_2 Direction_2} {cycle_id : Nat} :
    ∀ (m : Nat) (s s2 : Tracer_state Point_2),
      (∀ a ∈ s.queue, Enqueued_anchor K T s.used_labels a) →
      cycle_steps K T cycle_id m s = Except.ok s2 →
      ∀ a ∈ s2.queue, Enqueued_anchor K T s2.used_labels a := by
  intro m
  induction m with
  | zero =>
    intro s s2 hq h
    simp only [cycle_steps, pure, Except.pure, Except.ok.injEq] at h
    subst h
    exact hq
  | succ m ih =>
    intro s s2 hq h
    obtain ⟨s1, h1, h2⟩ := cycle_steps_succ h
    exact ih s1 s2 ((cycle_step_enqueued h1).2 hq) h2

theorem convolution_cycle_enqueued {K : Kernel Point_2 Vector_2 Direction_2}
    {T : Tracer_input Point_2 Direction_2} {fuel cycle_id curr1 k1 curr2 k2 : Nat}
    {used : Labels_set} {queue : Anchors_queue} {cycle : List (Labeled_segment_2 Point_2)}
    {r : Tracer_state Point_2}
    (hq : ∀ a ∈ queue, Enqueued_anchor K T used a)
    (h : _convolution_cycle K fuel cycle_id T curr1 k1 curr2 k2 used queue cycle = Except.ok r) :
    ∀ a ∈ r.queue, Enqueued_anchor K T r.used_labels a := by
  obtain ⟨s0, s, cycle1, hs0, hs, -, -, hreq⟩ := convolution_cycle_ok h
  obtain ⟨p1, p2, -, -, hs0eq⟩ := cycle_init_ok hs0
  obtain ⟨-, -, m, -, s1, hm, hstep⟩ := cycle_loop_steps fuel s0 s hs
  have hsteps := cycle_steps_snoc m s0 s1 s hm hstep
  have := cycle_steps_enqueued (m + 1) s0 s (by rw [hs0eq]; exact hq) hsteps
  rw [hreq]
  exact this

theorem first_flags_of_seed (K : Kernel Point_2 Vector_2 Direction_2) (n1 : Nat)
    (d1 d1p d2 d2p : Direction_2) (s : Tracer_state Point_2)
    (hu : Labels_set.count s.used_labels ⟨s.k1, s.k2, 1⟩ = 0)
    (hc : K.f_ccw_in_between d1 d2p d2 = true ∨ K.f_equal d1 d2 = true) :
    ((decide_flags K n1 d1 d1p d2 d2p s).1 || (decide_flags K n1 d1 d1p d2 d2p s).2.1) =
      true := by
  unfold decide_flags cone_flags
  by_cases hc1 : K.f_ccw_in_between d1 d2p d2 = true <;>
    by_cases hc2 : K.f_ccw_in_between d2 d1p d1 = true <;>
    by_cases hv : Labels_set.count s.used_labels ⟨s.k1, s.k2, 2⟩ = 0 <;>
    by_cases he : K.f_equal d1 d2 = true <;>
    simp [hu, hc1, he, hc2, hv] <;> simp_all

theorem first_flags_of_enqueued (K : Kernel Point_2 Vector_2 Direction_2) (n1 : Nat)
    (d1 d1p d2 d2p : Direction_2) (s : Tracer_state Point_2)
    (hu : Labels_set.count s.used_labels ⟨s.k1, s.k2, 1⟩ ≠ 0)
    (hv : Labels_set.count s.used_labels ⟨s.k1, s.k2, 2⟩ = 0)
    (hc1 : K.f_ccw_in_between d1 d2p d2 = true)
    (hc2 : K.f_ccw_in_between d2 d1p d1 = true) :
    (decide_flags K n1 d1 d1p d2 d2p s).1 = false ∧
      (decide_flags K n1 d1 d1p d2 d2p s).2.1 = true ∧
      (decide_flags K n1 d1 d1p d2 d2p s).2.2 = s.queue := by
  unfold decide_flags cone_flags
  simp [hu, hv, hc1, hc2]

end FirstStep
section FirstStepClaim
variable {Point_2 Vector_2 Direction_2 : Type}

theorem session_inv_of_enqueued {K : Kernel Point_2 Vector_2 Direction_2}
    {T : Tracer_input Point_2 Direction_2} {st : Driver_state Point_2}
    (h : ∀ a ∈ st.queue, Enqueued_anchor K T st.used_labels a) : Session_inv K T st :=
  ⟨fun a ha => h a (List.mem_of_mem_tail ha),
    fun a ha => Or.inl (h a (List.mem_of_mem_head? ha))⟩

theorem first_step_of_anchor {K : Kernel Point_2 Vector_2 Direction_2}
    {T : Tracer_input Point_2 Direction_2} (hlen : T.dirs1.length = T.n1)
    {used : Labels_set} {anchor : Anchor} {s0 : Tracer_state Point_2}
    (hk1 : s0.k1 = anchor.1.2) (hk2 : s0.k2 = anchor.2.2) (hused : s0.used_labels = used)
    (hv : Labels_set.count used ⟨anchor.1.2, anchor.2.2, 2⟩ = 0)
    (ha : Enqueued_anchor K T used anchor ∨ Seed_anchor K T used anchor) :
    ∃ flags, decide_moves K T s0 = Except.ok flags ∧ (flags.1 || flags.2.1) = true ∧
      (∀ cycle_id, cycle_step K T cycle_id s0 =
        act_moves K T cycle_id flags.1 flags.2.1 { s0 with queue := flags.2.2 }) ∧
      (Enqueued_anchor K T used anchor →
        flags.1 = false ∧ flags.2.1 = true ∧ flags.2.2 = s0.queue) := by
  have hstep : ∀ flags, decide_moves K T s0 = Except.ok flags →
      (flags.1 || flags.2.1) = true →
      ∀ cycle_id, cycle_step K T cycle_id s0 =
        act_moves K T cycle_id flags.1 flags.2.1 { s0 with queue := flags.2.2 } := by
    intro flags hdm hor cycle_id
    unfold cycle_step
    rw [hdm]
    simp only [bind, Except.bind, hor, Bool.not_true, Bool.false_eq_true, if_false]
  by_cases he : Enqueued_anchor K T used anchor
  · obtain ⟨hmem, d1, d1p, d2, d2p, hd1, hd1p, hd2, hd2p, hc1, hc2⟩ := he
    rw [← hk1] at hd1 hd1p hmem hv
    rw [← hk2] at hd2 hd2p hmem hv
    rw [← hused] at hmem hv
    have hdm := @decide_moves_of_reads _ _ _ K T s0 d1 d1p d2 d2p hd1 hd1p hd2 hd2p
    obtain ⟨f1, f2, f3⟩ := first_flags_of_enqueued K T.n1 d1 d1p d2 d2p s0
      ((count_ne_zero_iff _ _).mpr hmem) hv hc1 hc2
    have hor : ((decide_flags K T.n1 d1 d1p d2 d2p s0).1 ||
        (decide_flags K T.n1 d1 d1p d2 d2p s0).2.1) = true := by
      rw [f1, f2]; rfl
    exact ⟨_, hdm, hor, hstep _ hdm hor, fun _ => ⟨f1, f2, f3⟩⟩
  · rcases ha with ha | ha
    · exact absurd ha he
    · obtain ⟨hfresh, d1, d2, d2p, hd1, hd2, hd2p, hc⟩ := ha
      have hlt : anchor.1.2 < T.dirs1.length := (List.getElem?_eq_some_iff.mp hd1).1
      have hp : prev_index T.n1 anchor.1.2 < T.dirs1.length := by
        rw [hlen]
        unfold prev_index
        exact Nat.mod_lt _ (by omega)
      obtain ⟨d1p, hd1p⟩ : ∃ d1p, T.dirs1[prev_index T.n1 anchor.1.2]? = some d1p :=
        ⟨_, List.getElem?_eq_getElem hp⟩
      rw [← hk1] at hd1 hd1p hfresh
      rw [← hk2] at hd2 hd2p hfresh
      rw [← hused] at hfresh
      have hdm := @decide_moves_of_reads _ _ _ K T s0 d1 d1p d2 d2p hd1 hd1p hd2 hd2p
      have hor := first_flags_of_seed K T.n1 d1 d1p d2 d2p s0
        ((count_eq_zero_iff _ _).mpr hfresh) hc
      exact ⟨_, hdm, hor, hstep _ hdm hor, fun h => absurd h he⟩

/-- Claim C23. First step is always enabled. Let `T` be the tables that
`operator()` builds for two polygons, for arbitrary kernel predicates.
`Session_inv` is an invariant of the session loop: it holds when the scan of
the seeder starts the loop for a pair that passes its test, and each iteration
of the loop keeps it, both when the anchor is skipped and when
`_convolution_cycle` is called for it and returns. The tracer only appends
anchors to the queue that satisfy `Enqueued_anchor`. Under the invariant, when
the loop calls `_convolution_cycle` for the front anchor (the label
`(k1, k2, 2)` of the anchor is unused), the first iteration of the call reads
its four directions, passes the assertion `inc1 || inc2` and goes on to act on
the flags; when the anchor was pushed by the tracer, `inc1` is false and
`inc2` is true, and the queue is left as it is. -/
theorem first_step_enabled (K : Kernel Point_2 Vector_2 Direction_2)
    (pgn1 pgn2 : List Point_2) (T : Tracer_input Point_2 Direction_2)
    (hT : tables_of K pgn1 pgn2 = Except.ok T) :
    (∀ (st : Driver_state Point_2) (k1 curr2 k2 : Nat),
      seed_qualifies K T st.used_labels k1 k2 = Except.ok true →
      Session_inv K T { st with queue := [((st.curr1, k1), (curr2, k2))], loops := 0 }) ∧
    (∀ (tracer_fuel fuel : Nat) (st : Driver_state Point_2) (anchor : Anchor)
      (rest : Anchors_queue), Session_inv K T st → st.queue = anchor :: rest →
      Labels_set.count st.used_labels ⟨anchor.1.2, anchor.2.2, 2⟩ ≠ 0 →
      ∃ st2, session_loop K T tracer_fuel (fuel + 1) st =
          session_loop K T tracer_fuel fuel st2 ∧
        Session_inv K T st2) ∧
    (∀ (tracer_fuel fuel : Nat) (st : Driver_state Point_2) (anchor : Anchor)
      (rest : Anchors_queue), Session_inv K T st → st.queue = anchor :: rest →
      Labels_set.count st.used_labels ⟨anchor.1.2, anchor.2.2, 2⟩ = 0 →
      (∃ next : Tracer_state Point_2 → Driver_state Point_2,
        session_loop K T tracer_fuel (fuel + 1) st =
          (_convolution_cycle K tracer_fuel (st.curr_id + 1) T
              anchor.1.1 anchor.1.2 anchor.2.1 anchor.2.2 st.used_labels rest st.cycle >>=
            fun r => session_loop K T tracer_fuel fuel (next r)) ∧
        ∀ r, _convolution_cycle K tracer_fuel (st.curr_id + 1) T
              anchor.1.1 anchor.1.2 anchor.2.1 anchor.2.2 st.used_labels rest st.cycle =
            Except.ok r → Session_inv K T (next r)) ∧
      ∀ s0, cycle_init K T anchor.1.1 anchor.1.2 anchor.2.1 anchor.2.2 st.used_labels rest
          st.cycle = Except.ok s0 →
        ∃ flags, decide_moves K T s0 = Except.ok flags ∧ (flags.1 || flags.2.1) = true ∧
          (∀ cycle_id, cycle_step K T cycle_id s0 =
            act_moves K T cycle_id flags.1 flags.2.1 { s0 with queue := flags.2.2 }) ∧
          (Enqueued_anchor K T st.used_labels anchor →
            flags.1 = false ∧ flags.2.1 = true ∧ flags.2.2 = rest)) ∧
    (∀ (cycle_id : Nat) (s s2 : Tracer_state Point_2),
      cycle_step K T cycle_id s = Except.ok s2 →
      ∀ a ∈ s2.queue, a ∈ s.queue ∨
        (a = ((s.curr1, s.k1), (s.curr2, s.k2)) ∧
          Enqueued_anchor K T s2.used_labels a)) := by
  obtain ⟨-, -, -, -, -, -, l1, l2, -⟩ := tables_of_lengths hT
  refine ⟨?_, ?_, ?_, ?_⟩
  · intro st k1 curr2 k2 h
    obtain ⟨-, -, hu, d1, d2, d2p, hd1, hd2, hd2p, hc⟩ :=
      seed_qualifies_range (by omega) (by omega) h
    refine ⟨fun a ha => by simp at ha, fun a ha => ?_⟩
    simp only [List.head?_cons, Option.some.injEq] at ha
    rw [← ha]
    exact Or.inr ⟨(count_eq_zero_iff _ _).mp hu, d1, d2, d2p, hd1, hd2, hd2p, hc⟩
  · intro tracer_fuel fuel st anchor rest hI hq hcount
    refine ⟨{ st with queue := rest, loops := st.loops + 1 - 1 }, ?_, ?_⟩
    · rw [session_loop, hq]
      simp [hcount]
    · unfold Session_inv at hI
      rw [hq] at hI
      exact session_inv_of_enqueued (fun a ha => hI.1 a (by simpa using ha))
  · intro tracer_fuel fuel st anchor rest hI hq hcount
    unfold Session_inv at hI
    rw [hq] at hI
    have hrest : ∀ a ∈ rest, Enqueued_anchor K T st.used_labels a :=
      fun a ha => hI.1 a (by simpa using ha)
    have hhead := hI.2 anchor (by simp)
    refine ⟨⟨fun r =>
      if r.cycle.isEmpty then
        { st with curr_id := st.curr_id + 1, used_labels := r.used_labels, queue := r.queue,
                  cycle := r.cycle, loops := st.loops + 1 - 1 }
      else
        { st with curr_id := st.curr_id + 1, used_labels := r.used_labels, queue := r.queue,
                  conv_segments := st.conv_segments ++ r.cycle, cycle := [],
                  loops := st.loops + 1 }, ?_, ?_⟩, ?_⟩
    · rw [session_loop, hq]
      simp only [hcount]
      simp only [bne_self_eq_false, Bool.and_false, Bool.false_eq_true, if_false]
      congr 1
      funext r
      split_ifs <;> rfl
    · intro r hr
      have := convolution_cycle_enqueued hrest hr
      simp only []
      split_ifs
      · exact session_inv_of_enqueued this
      · exact session_inv_of_enqueued this
    · intro s0 hs0
      obtain ⟨p1, p2, -, -, hs0eq⟩ := cycle_init_ok hs0
      have e1 : s0.k1 = anchor.1.2 := by rw [hs0eq]
      have e2 : s0.k2 = anchor.2.2 := by rw [hs0eq]
      have e3 : s0.used_labels = st.used_labels := by rw [hs0eq]
      have e4 : s0.queue = rest := by rw [hs0eq]
      obtain ⟨flags, a, b, c, d⟩ := first_step_of_anchor l1 e1 e2 e3 hcount hhead
      exact ⟨flags, a, b, c, fun h => by rw [← e4]; exact d h⟩
  · intro cycle_id s s2 h
    exact (cycle_step_enqueued h).1

end FirstStepClaim
/-- Witness for claim C23 on the star added to itself: the second call of the
tracer, for the seed `(3, 0)`, pushes two anchors; the session loop calls the
tracer for the first of them, `(4, 2)`, and the first iteration of that call
advances on the second polygon only. -/
theorem first_step_enabled_witness :
    tables_of int_kernel star5 star5 = Except.ok star_star ∧
    (∃ r1 r2 s0, _convolution_cycle int_kernel 51 1 star_star 0 0 0 0 [] [] [] = Except.ok r1 ∧
      seed_qualifies int_kernel star_star r1.used_labels 3 0 = Except.ok true ∧
      _convolution_cycle int_kernel 51 2 star_star 3 3 0 0 r1.used_labels [] [] =
        Except.ok r2 ∧
      r2.queue = [((4, 4), (2, 2)), ((2, 2), (4, 4))] ∧
      Labels_set.count r2.used_labels ⟨4, 2, 2⟩ = 0 ∧
      cycle_init int_kernel star_star 4 4 2 2 r2.used_labels [((2, 2), (4, 4))] [] =
        Except.ok s0 ∧
      decide_moves int_kernel star_star s0 = Except.ok (false, true, [((2, 2), (4, 4))])) ∧
    (∀ (st : Driver_state (Int × Int)) (k1 curr2 k2 : Nat),
      seed_qualifies int_kernel star_star st.used_labels k1 k2 = Except.ok true →
      Session_inv int_kernel star_star
        { st with queue := [((st.curr1, k1), (curr2, k2))], loops := 0 }) ∧
    (∀ (cycle_id : Nat) (s s2 : Tracer_state (Int × Int)),
      cycle_step int_kernel star_star cycle_id s = Except.ok s2 →
      ∀ a ∈ s2.queue, a ∈ s.queue ∨
        (a = ((s.curr1, s.k1), (s.curr2, s.k2)) ∧
          Enqueued_anchor int_kernel star_star s2.used_labels a)) :=
  ⟨rfl, ⟨_, _, _, rfl, rfl, rfl, rfl, rfl, rfl, rfl⟩,
    (first_step_enabled int_kernel star5 star5 star_star rfl).1,
    (first_step_enabled int_kernel star5 star5 star_star rfl).2.2.2⟩

section Orientation
variable {Point_2 Vector_2 Direction_2 : Type}

theorem oriented_snoc {K : Kernel Point_2 Vector_2 Direction_2}
    {cycle : List (Labeled_segment_2 Point_2)} (b : Bool) (p q : Point_2)
    (component index : Nat) (move_on flag : Bool) (hc : ∀ seg ∈ cycle, Oriented K seg) :
    ∀ seg ∈ (if b then cycle else cycle ++
        [⟨p, q, ⟨decide (K.f_compare_xy p q = Comparison_result.SMALLER), component, index,
          move_on, flag⟩⟩]), Oriented K seg := by
  intro seg hseg
  cases b with
  | true => exact hc seg hseg
  | false =>
    simp only [Bool.false_eq_true, if_false] at hseg
    rcases List.mem_append.mp hseg with h | h
    · exact hc seg h
    · simp only [List.mem_singleton] at h
      rw [h]
      unfold Oriented
      simp

theorem advance1_oriented {K : Kernel Point_2 Vector_2 Direction_2}
    {T : Tracer_input Point_2 Direction_2} {cycle_id : Nat} {s s1 : Tracer_state Point_2}
    (hc : ∀ seg ∈ s.cycle, Oriented K seg) (h : advance1 K T cycle_id s = Except.ok s1) :
    ∀ seg ∈ s1.cycle, Oriented K seg := by
  obtain ⟨pn, pc, r2, -, -, -, -, hs⟩ := advance1_ok h
  rw [hs]
  exact oriented_snoc r2 _ _ _ _ _ _ hc

theorem advance2_oriented {K : Kernel Point_2 Vector_2 Direction_2}
    {T : Tracer_input Point_2 Direction_2} {cycle_id : Nat} {s s1 : Tracer_state Point_2}
    (hc : ∀ seg ∈ s.cycle, Oriented K seg) (h : advance2 K T cycle_id s = Except.ok s1) :
    ∀ seg ∈ s1.cycle, Oriented K seg := by
  obtain ⟨pn, pc, r1, -, -, -, -, hs⟩ := advance2_ok h
  rw [hs]
  exact oriented_snoc r1 _ _ _ _ _ _ hc

theorem cycle_step_oriented {K : Kernel Point_2 Vector_2 Direction_2}
    {T : Tracer_input Point_2 Direction_2} {cycle_id : Nat} {s s2 : Tracer_state Point_2}
    (hc : ∀ seg ∈ s.cycle, Oriented K seg) (h : cycle_step K T cycle_id s = Except.ok s2) :
    ∀ seg ∈ s2.cycle, Oriented K seg := by
  obtain ⟨flags, s1, -, -, h1, h2⟩ := cycle_step_ok h
  have hc1 : ∀ seg ∈ s1.cycle, Oriented K seg := by
    split_ifs at h1
    · exact advance1_oriented
        (show ∀ seg ∈ ({ s with queue := flags.2.2 } : Tracer_state Point_2).cycle,
          Oriented K seg from hc) h1
    · simp only [Except.ok.injEq] at h1
      rw [← h1]
      exact hc
  split_ifs at h2
  · exact advance2_oriented hc1 h2
  · simp only [Except.ok.injEq] at h2
    rw [← h2]
    exact hc1

theorem cycle_steps_oriented {K : Kernel Point_2 Vector_2 Direction_2}
    {T : Tracer_input Point_2 Direction_2} {cycle_id : Nat} :
    ∀ (m : Nat) (s s2 : Tracer_state Point_2), (∀ seg ∈ s.cycle, Oriented K seg) →
      cycle_steps K T cycle_id m s = Except.ok s2 → ∀ seg ∈ s2.cycle, Oriented K seg := by
  intro m
  induction m with
  | zero =>
    intro s s2 hc h
    simp only [cycle_steps, pure, Except.pure, Except.ok.injEq] at h
    subst h
    exact hc
  | succ m ih =>
    intro s s2 hc h
    obtain ⟨s1, h1, h2⟩ := cycle_steps_succ h
    exact ih s1 s2 (cycle_step_oriented hc h1) h2

theorem mark_last_oriented {K : Kernel Point_2 Vector_2 Direction_2} {seg_index : Nat}
    {cycle cycle1 : List (Labeled_segment_2 Point_2)}
    (hc : ∀ seg ∈ cycle, Oriented K seg) (h : mark_last seg_index cycle = Except.ok cycle1) :
    ∀ seg ∈ cycle1, Oriented K seg := by
  obtain ⟨last, last1, hl, hl1, hd, e1, e2, e3, -⟩ := mark_last_flag h
  intro seg hseg
  have hlast : Oriented K last := hc last (List.mem_of_mem_getLast? (by rw [hl]; exact rfl))
  have hsplit := List.dropLast_append_getLast? last1 (by rw [hl1]; exact rfl)
  rw [← hsplit] at hseg
  rcases List.mem_append.mp hseg with h1 | h1
  · rw [hd] at h1
    exact hc seg (List.mem_of_mem_dropLast h1)
  · simp only [List.mem_singleton] at h1
    rw [h1]
    unfold Oriented at hlast ⊢
    rw [e1, e2, e3]
    exact hlast

theorem convolution_cycle_oriented {K : Kernel Point_2 Vector_2 Direction_2}
    {T : Tracer_input Point_2 Direction_2} {fuel cycle_id curr1 k1 curr2 k2 : Nat}
    {used : Labels_set} {queue : Anchors_queue} {cycle : List (Labeled_segment_2 Point_2)}
    {r : Tracer_state Point_2} (hc : ∀ seg ∈ cycle, Oriented K seg)
    (h : _convolution_cycle K fuel cycle_id T curr1 k1 curr2 k2 used queue cycle = Except.ok r) :
    ∀ seg ∈ r.cycle, Oriented K seg := by
  obtain ⟨s0, s, cycle1, hs0, hs, -, hm, hreq⟩ := convolution_cycle_ok h
  obtain ⟨p1, p2, -, -, hs0eq⟩ := cycle_init_ok hs0
  obtain ⟨-, -, m, -, s1, hsteps, hstep⟩ := cycle_loop_steps fuel s0 s hs
  have h1 := cycle_steps_oriented m s0 s1 (by rw [hs0eq]; exact hc) hsteps
  have h2 := cycle_step_oriented h1 hstep
  rw [hreq]
  exact mark_last_oriented h2 hm

theorem session_loop_oriented {K : Kernel Point_2 Vector_2 Direction_2}
    {T : Tracer_input Point_2 Direction_2} {tracer_fuel : Nat} :
    ∀ (fuel : Nat) (st st1 : Driver_state Point_2),
      (∀ seg ∈ st.conv_segments, Oriented K seg) → (∀ seg ∈ st.cycle, Oriented K seg) →
      session_loop K T tracer_fuel fuel st = Except.ok st1 →
      (∀ seg ∈ st1.conv_segments, Oriented K seg) ∧ (∀ seg ∈ st1.cycle, Oriented K seg) := by
  intro fuel
  induction fuel with
  | zero =>
    intro st st1 hs hc h
    unfold session_loop at h
    split at h
    · simp only [Except.ok.injEq] at h
      exact h ▸ ⟨hs, hc⟩
    · cases h
  | succ fuel ih =>
    intro st st1 hs hc h
    unfold session_loop at h
    split at h
    · simp only [Except.ok.injEq] at h
      exact h ▸ ⟨hs, hc⟩
    · rename_i anchor rest hq
      simp only [] at h
      split_ifs at h with hskip
      · exact ih { st with queue := rest, loops := st.loops + 1 - 1 } st1 hs hc h
      · obtain ⟨r, hr, h⟩ := bind_eq_ok h
        have hrc := convolution_cycle_oriented hc hr
        split_ifs at h with hempty
        · refine ih _ st1 ?_ ?_ h
          · exact hs
          · exact hrc
        · refine ih _ st1 ?_ ?_ h
          · intro seg hseg
            rcases List.mem_append.mp hseg with h1 | h1
            · exact hs seg h1
            · exact hrc seg h1
          · intro seg hseg
            simp at hseg

theorem scan_body_oriented {K : Kernel Point_2 Vector_2 Direction_2}
    {T : Tracer_input Point_2 Direction_2} {tracer_fuel session_fuel curr2 k2 k1 : Nat}
    {st st1 : Driver_state Point_2}
    (hI : (∀ seg ∈ st.conv_segments, Oriented K seg) ∧ (∀ seg ∈ st.cycle, Oriented K seg))
    (h : scan_body K T tracer_fuel session_fuel curr2 k2 k1 st = Except.ok st1) :
    (∀ seg ∈ st1.conv_segments, Oriented K seg) ∧ (∀ seg ∈ st1.cycle, Oriented K seg) := by
  unfold scan_body at h
  simp only [] at h
  obtain ⟨found, -, h⟩ := bind_eq_ok h
  obtain ⟨st2, h2, h⟩ := bind_eq_ok h
  simp only [pure, Except.pure, Except.ok.injEq] at h
  subst h
  simp only
  split_ifs at h2
  · obtain ⟨st3, h3, h2⟩ := bind_eq_ok h2
    simp only [pure, Except.pure, Except.ok.injEq] at h2
    subst h2
    exact session_loop_oriented session_fuel
      { st with queue := [((st.curr1, k1), (curr2, k2))], loops := 0 } st3 hI.1 hI.2 h3
  · simp only [Except.ok.injEq] at h2
    subst h2
    exact hI

theorem seeder_loop_oriented {K : Kernel Point_2 Vector_2 Direction_2}
    {T : Tracer_input Point_2 Direction_2} {tracer_fuel session_fuel : Nat} :
    ∀ (seeds : List Vertex_ref) (st st1 : Driver_state Point_2),
      ((∀ seg ∈ st.conv_segments, Oriented K seg) ∧ (∀ seg ∈ st.cycle, Oriented K seg)) →
      seeder_loop K T tracer_fuel session_fuel seeds st = Except.ok st1 →
      (∀ seg ∈ st1.conv_segments, Oriented K seg) ∧ (∀ seg ∈ st1.cycle, Oriented K seg) := by
  intro seeds
  induction seeds with
  | nil =>
    intro st st1 hI h
    simp only [seeder_loop, Except.ok.injEq] at h
    exact h ▸ hI
  | cons seed seeds ih =>
    intro st st1 hI h
    unfold seeder_loop at h
    obtain ⟨st2, h2, h⟩ := bind_eq_ok h
    have := for_loop_inv
      (fun (_ : Nat) (d : Driver_state Point_2) =>
        (∀ seg ∈ d.conv_segments, Oriented K seg) ∧ (∀ seg ∈ d.cycle, Oriented K seg)) T.n1
      (fun k d d1 _ hd hb => scan_body_oriented hd hb)
      T.n1 0 { st with curr1 := 0, next1 := 0 } st2 (by omega) hI h2
    exact ih st2 st1 this h

theorem operator_call_oriented {K : Kernel Point_2 Vector_2 Direction_2}
    {tracer_fuel session_fuel : Nat} {pgn1 pgn2 : List Point_2} {st : Driver_state Point_2}
    (h : operator_call K tracer_fuel session_fuel pgn1 pgn2 = Except.ok st) :
    ∀ seg ∈ st.conv_segments, Oriented K seg := by
  unfold operator_call at h
  obtain ⟨t1, -, h⟩ := bind_eq_ok h
  obtain ⟨t2, -, h⟩ := bind_eq_ok h
  exact (seeder_loop_oriented _ _ st ⟨by simp, by simp⟩ h).1

end Orientation
section Comparison
variable {Point_2 Vector_2 Direction_2 : Type}

theorem distinct_move {pgn : List Point_2} (hd : Distinct_consecutive pgn) (forward : Bool)
    {c : Nat} (hc : c < pgn.length) : pgn[c]? ≠ pgn[circ_move forward pgn.length c]? := by
  unfold circ_move
  cases forward with
  | true =>
    simp only [if_true]
    exact hd c hc
  | false =>
    simp only [Bool.false_eq_true, if_false]
    unfold circ_pred
    have hi : (c + pgn.length - 1) % pgn.length < pgn.length := Nat.mod_lt _ (by omega)
    have h1 := hd _ hi
    have e : ((c + pgn.length - 1) % pgn.length + 1) % pgn.length = c := by
      have h2 := @succ_prev_index pgn.length c hc
      unfold prev_index at h2
      rw [Nat.add_comm c pgn.length]
      exact h2
    rw [e] at h1
    exact fun h => h1 h.symm

theorem advance1_compare {K : Kernel Point_2 Vector_2 Direction_2}
    {T : Tracer_input Point_2 Direction_2} {s : Tracer_state Point_2}
    (hC : Compare_translation_laws K) (hinv : Tracer_inv K T s) {pn pc : Point_2}
    (hpc : T.pgn2[s.curr2]? = some pc) :
    ∃ p, T.pgn1[s.curr1]? = some p ∧ s.curr_pt = vertex_sum K p pc ∧
      K.f_compare_xy s.curr_pt (vertex_sum K pn pc) = K.f_compare_xy p pn := by
  obtain ⟨p, q, hp, hq, hpt⟩ := hinv.curr_pt_eq
  rw [hpc] at hq
  simp only [Option.some.injEq] at hq
  subst hq
  exact ⟨p, hp, hpt, by rw [hpt, hC.translate]⟩

theorem advance2_compare {K : Kernel Point_2 Vector_2 Direction_2}
    {T : Tracer_input Point_2 Direction_2} {s : Tracer_state Point_2}
    (hK : Translation_laws K) (hC : Compare_translation_laws K) (hinv : Tracer_inv K T s)
    {qn pc : Point_2} (hpc : T.pgn1[s.curr1]? = some pc) :
    ∃ q, T.pgn2[s.curr2]? = some q ∧ s.curr_pt = vertex_sum K pc q ∧
      K.f_compare_xy s.curr_pt (vertex_sum K qn pc) = K.f_compare_xy q qn := by
  obtain ⟨p, q, hp, hq, hpt⟩ := hinv.curr_pt_eq
  rw [hpc] at hp
  simp only [Option.some.injEq] at hp
  subst hp
  exact ⟨q, hq, hpt, by rw [hpt, hK.sum_comm pc q, hC.translate]⟩

theorem advance1_res {K : Kernel Point_2 Vector_2 Direction_2}
    {T : Tracer_input Point_2 Direction_2} {cycle_id : Nat} {s : Tracer_state Point_2}
    (hC : Compare_translation_laws K) (hsize : T.n1 = T.pgn1.length)
    (hd : Distinct_consecutive T.pgn1) (hinv : Tracer_inv K T s) :
    advance1 K T cycle_id s ≠ Except.error Failure.assertion_res := by
  intro h
  unfold advance1 deref at h
  rcases bind_eq_error h with h | ⟨pn, hpn, h⟩
  · exact absurd (vector_get_error h) (by simp)
  rcases bind_eq_error h with h | ⟨pc, hpc, h⟩
  · exact absurd (vector_get_error h) (by simp)
  rw [vector_get_eq_ok] at hpn hpc
  simp only [] at h
  split_ifs at h with hres
  · obtain ⟨p, hp, -, hcmp⟩ := @advance1_compare _ _ _ K T s hC hinv pn pc hpc
    have hres2 : K.f_compare_xy s.curr_pt (vertex_sum K pn pc) = Comparison_result.EQUAL :=
      hres
    rw [hcmp] at hres2
    have heq := hC.equal_eq p pn hres2
    have hlt : s.curr1 < T.pgn1.length := (List.getElem?_eq_some_iff.mp hp).1
    have := distinct_move hd T.forward1 hlt
    rw [← hsize, ← hinv.next1_eq, hp, hpn, heq] at this
    exact this rfl
  · rcases bind_eq_error h with h | ⟨_, -, h⟩
    · exact absurd (vector_get_error h) (by simp)
    cases h

theorem advance2_res {K : Kernel Point_2 Vector_2 Direction_2}
    {T : Tracer_input Point_2 Direction_2} {cycle_id : Nat} {s : Tracer_state Point_2}
    (hK : Translation_laws K) (hC : Compare_translation_laws K) (hsize : T.n2 = T.pgn2.length)
    (hd : Distinct_consecutive T.pgn2) (hinv : Tracer_inv K T s) :
    advance2 K T cycle_id s ≠ Except.error Failure.assertion_res := by
  intro h
  unfold advance2 deref at h
  rcases bind_eq_error h with h | ⟨qn, hqn, h⟩
  · exact absurd (vector_get_error h) (by simp)
  rcases bind_eq_error h with h | ⟨pc, hpc, h⟩
  · exact absurd (vector_get_error h) (by simp)
  rw [vector_get_eq_ok] at hqn hpc
  simp only [] at h
  split_ifs at h with hres
  · obtain ⟨q, hq, -, hcmp⟩ := @advance2_compare _ _ _ K T s hK hC hinv qn pc hpc
    have hres2 : K.f_compare_xy s.curr_pt (vertex_sum K qn pc) = Comparison_result.EQUAL :=
      hres
    rw [hcmp] at hres2
    have heq := hC.equal_eq q qn hres2
    have hlt : s.curr2 < T.pgn2.length := (List.getElem?_eq_some_iff.mp hq).1
    have := distinct_move hd T.forward2 hlt
    rw [← hsize, ← hinv.next2_eq, hq, hqn, heq] at this
    exact this rfl
  · rcases bind_eq_error h with h | ⟨_, -, h⟩
    · exact absurd (vector_get_error h) (by simp)
    cases h

theorem cycle_step_res {K : Kernel Point_2 Vector_2 Direction_2}
    {T : Tracer_input Point_2 Direction_2} (R : Res_setting K T) {cycle_id : Nat}
    {s : Tracer_state Point_2} (hinv : Tracer_inv K T s)
    (hq : ∀ a ∈ s.queue, Anchor_wf T a) :
    cycle_step K T cycle_id s ≠ Except.error Failure.assertion_res ∧
    (∀ s2, cycle_step K T cycle_id s = Except.ok s2 →
      Tracer_inv K T s2 ∧ ∀ a ∈ s2.queue, Anchor_wf T a) := by
  constructor
  · intro h
    unfold cycle_step at h
    rcases bind_eq_error h with h | ⟨flags, -, h⟩
    · exact absurd (decide_moves_error h) (by simp)
    split_ifs at h
    · cases h
    · unfold act_moves at h
      rcases bind_eq_error h with h | ⟨s1, h1, h⟩
      · split_ifs at h
        exact advance1_res R.cmp R.size1 R.distinct1 (queue_inv flags.2.2 hinv) h
      · have hinv1 : Tracer_inv K T s1 := by
          split_ifs at h1
          · exact advance1_inv R.size1 (queue_inv flags.2.2 hinv) h1
          · simp only [Except.ok.injEq] at h1
            rw [← h1]
            exact queue_inv flags.2.2 hinv
        split_ifs at h
        exact advance2_res R.sum R.cmp R.size2 R.distinct2 hinv1 h
  · intro s2 h
    refine ⟨cycle_step_inv R.sum R.size1 R.size2 hinv h, ?_⟩
    intro a ha
    rcases cycle_step_queue h with hq2 | ⟨hq2, -, -⟩
    · rw [hq2] at ha
      exact hq a ha
    · rw [hq2] at ha
      rcases List.mem_append.mp ha with ha | ha
      · exact hq a ha
      · simp only [List.mem_singleton] at ha
        rw [ha]
        exact ⟨hinv.k1_lt, hinv.k2_lt, hinv.curr1_eq, hinv.curr2_eq⟩

theorem cycle_loop_res {K : Kernel Point_2 Vector_2 Direction_2}
    {T : Tracer_input Point_2 Direction_2} (R : Res_setting K T)
    {cycle_id first1 first2 : Nat} :
    ∀ (fuel : Nat) (s : Tracer_state Point_2), Tracer_inv K T s →
      (∀ a ∈ s.queue, Anchor_wf T a) →
      cycle_loop K T cycle_id first1 first2 fuel s ≠ Except.error Failure.assertion_res ∧
      (∀ s2, cycle_loop K T cycle_id first1 first2 fuel s = Except.ok s2 →
        ∀ a ∈ s2.queue, Anchor_wf T a) := by
  intro fuel
  induction fuel with
  | zero =>
    intro s _ _
    constructor
    · intro h
      simp [cycle_loop] at h
    · intro s2 h
      simp [cycle_loop] at h
  | succ fuel ih =>
    intro s hinv hq
    obtain ⟨hE, hO⟩ := @cycle_step_res _ _ _ K T R cycle_id s hinv hq
    constructor
    · intro h
      unfold cycle_loop at h
      rcases bind_eq_error h with h | ⟨s1, h1, h⟩
      · exact hE h
      · split_ifs at h
        · exact (ih s1 (hO s1 h1).1 (hO s1 h1).2).1 h
        · cases h
    · intro s2 h
      unfold cycle_loop at h
      obtain ⟨s1, h1, h⟩ := bind_eq_ok h
      split_ifs at h
      · exact (ih s1 (hO s1 h1).1 (hO s1 h1).2).2 s2 h
      · simp only [pure, Except.pure, Except.ok.injEq] at h
        rw [← h]
        exact (hO s1 h1).2

theorem convolution_cycle_res {K : Kernel Point_2 Vector_2 Direction_2}
    {T : Tracer_input Point_2 Direction_2} (R : Res_setting K T)
    {fuel cycle_id curr1 k1 curr2 k2 : Nat} {used : Labels_set} {queue : Anchors_queue}
    {cycle : List (Labeled_segment_2 Point_2)}
    (hcall : Well_formed_call T curr1 k1 curr2 k2) (hq : ∀ a ∈ queue, Anchor_wf T a) :
    _convolution_cycle K fuel cycle_id T curr1 k1 curr2 k2 used queue cycle ≠
        Except.error Failure.assertion_res ∧
    (∀ r, _convolution_cycle K fuel cycle_id T curr1 k1 curr2 k2 used queue cycle =
        Except.ok r → ∀ a ∈ r.queue, Anchor_wf T a) := by
  have hinit : ∀ s0, cycle_init K T curr1 k1 curr2 k2 used queue cycle = Except.ok s0 →
      Tracer_inv K T s0 ∧ ∀ a ∈ s0.queue, Anchor_wf T a := by
    intro s0 hs0
    refine ⟨init_inv hcall hs0, ?_⟩
    obtain ⟨p1, p2, -, -, hs0eq⟩ := cycle_init_ok hs0
    rw [hs0eq]
    exact hq
  constructor
  · intro h
    unfold _convolution_cycle at h
    rcases bind_eq_error h with h | ⟨s0, hs0, h⟩
    · exact absurd (cycle_init_error h) (by simp)
    · rcases bind_eq_error h with h | ⟨s, hs, h⟩
      · exact (cycle_loop_res R fuel s0 (hinit s0 hs0).1 (hinit s0 hs0).2).1 h
      · split_ifs at h
        · cases h
        · rcases bind_eq_error h with h | ⟨c1, -, h⟩
          · exact absurd (mark_last_error h) (by simp)
          · cases h
  · intro r h
    obtain ⟨s0, s, cycle1, hs0, hs, -, -, hreq⟩ := convolution_cycle_ok h
    rw [hreq]
    exact (cycle_loop_res R fuel s0 (hinit s0 hs0).1 (hinit s0 hs0).2).2 s hs

end Comparison
section ComparisonDriver
variable {Point_2 Vector_2 Direction_2 : Type}

theorem for_loop_safe_ix {σ : Type} {body : Nat → σ → Except Failure σ}
    (Inv : Nat → σ → Prop) (bad : Failure) (n : Nat)
    (hstep : ∀ k st, k < n → Inv k st → body k st ≠ Except.error bad ∧
      (∀ st1, body k st = Except.ok st1 → Inv (k + 1) st1)) :
    ∀ (todo k : Nat) (st : σ), k + todo ≤ n → Inv k st →
      for_loop body todo k st ≠ Except.error bad := by
  intro todo
  induction todo with
  | zero =>
    intro k st _ _ h
    simp [for_loop, pure, Except.pure] at h
  | succ todo ih =>
    intro k st hk hI h
    unfold for_loop at h
    rcases bind_eq_error h with h | ⟨st1, h1, h⟩
    · exact (hstep k st (by omega) hI).1 h
    · exact ih (k + 1) st1 (by omega) ((hstep k st (by omega) hI).2 st1 h1) h

theorem session_loop_circ {K : Kernel Point_2 Vector_2 Direction_2}
    {T : Tracer_input Point_2 Direction_2} {tracer_fuel : Nat} :
    ∀ (fuel : Nat) (st st1 : Driver_state Point_2),
      session_loop K T tracer_fuel fuel st = Except.ok st1 →
      st1.curr1 = st.curr1 ∧ st1.next1 = st.next1 := by
  intro fuel
  induction fuel with
  | zero =>
    intro st st1 h
    unfold session_loop at h
    split at h
    · simp only [Except.ok.injEq] at h
      exact h ▸ ⟨rfl, rfl⟩
    · cases h
  | succ fuel ih =>
    intro st st1 h
    unfold session_loop at h
    split at h
    · simp only [Except.ok.injEq] at h
      exact h ▸ ⟨rfl, rfl⟩
    · rename_i anchor rest hq
      simp only [] at h
      split_ifs at h with hskip
      · have := ih _ st1 h
        simpa using this
      · obtain ⟨r, hr, h⟩ := bind_eq_ok h
        split_ifs at h with hempty
        · have := ih _ st1 h
          simpa using this
        · have := ih _ st1 h
          simpa using this

theorem session_loop_res {K : Kernel Point_2 Vector_2 Direction_2}
    {T : Tracer_input Point_2 Direction_2} (R : Res_setting K T) {tracer_fuel : Nat} :
    ∀ (fuel : Nat) (st : Driver_state Point_2), (∀ a ∈ st.queue, Anchor_wf T a) →
      session_loop K T tracer_fuel fuel st ≠ Except.error Failure.assertion_res := by
  intro fuel
  induction fuel with
  | zero =>
    intro st _ h
    unfold session_loop at h
    split at h
    · cases h
    · cases h
  | succ fuel ih =>
    intro st hq h
    unfold session_loop at h
    split at h
    · cases h
    · rename_i anchor rest hqe
      rw [hqe] at hq
      have hrest : ∀ a ∈ rest, Anchor_wf T a := fun a ha => hq a (List.mem_cons_of_mem _ ha)
      obtain ⟨w1, w2, w3, w4⟩ := hq anchor (List.mem_cons_self _ _)
      simp only [] at h
      split_ifs at h with hskip
      · exact ih { st with queue := rest, loops := st.loops + 1 - 1 } hrest h
      · obtain ⟨hE, hO⟩ := @convolution_cycle_res _ _ _ K T R tracer_fuel (st.curr_id + 1)
          anchor.1.1 anchor.1.2 anchor.2.1 anchor.2.2 st.used_labels rest st.cycle
          ⟨R.size1, R.size2, w1, w2, w3, w4⟩ hrest
        rcases bind_eq_error h with h | ⟨r, hr, h⟩
        · exact hE h
        · split_ifs at h with hempty
          · exact ih _ (hO r hr) h
          · exact ih _ (hO r hr) h

theorem scan_body_res {K : Kernel Point_2 Vector_2 Direction_2}
    {T : Tracer_input Point_2 Direction_2} (R : Res_setting K T)
    (hlen1 : T.dirs1.length ≤ T.n1) (hlen2 : T.dirs2.length ≤ T.n2)
    {tracer_fuel session_fuel curr2 k2 k1 : Nat} {st : Driver_state Point_2}
    (hseed : curr2 = traversal_pos T.forward2 T.n2 k2) (hk1 : k1 < T.n1)
    (hI : st.curr1 = traversal_pos T.forward1 T.n1 k1 ∧ st.next1 = st.curr1) :
    scan_body K T tracer_fuel session_fuel curr2 k2 k1 st ≠
        Except.error Failure.assertion_res ∧
    (∀ st1, scan_body K T tracer_fuel session_fuel curr2 k2 k1 st = Except.ok st1 →
      st1.curr1 = traversal_pos T.forward1 T.n1 (k1 + 1) ∧ st1.next1 = st1.curr1) := by
  constructor
  · intro h
    unfold scan_body at h
    simp only [] at h
    rcases bind_eq_error h with h | ⟨found, hfound, h⟩
    · exact absurd (seed_qualifies_error h) (by simp)
    · rcases bind_eq_error h with h | ⟨st2, -, h⟩
      · cases found with
        | true =>
          simp only [if_true] at h
          rcases bind_eq_error h with h | ⟨st3, -, h⟩
          · obtain ⟨-, hk2, -⟩ := seed_qualifies_range hlen1 hlen2 hfound
            refine session_loop_res R session_fuel
              { st with queue := [((st.curr1, k1), (curr2, k2))], loops := 0 } ?_ h
            intro a ha
            simp only [List.mem_singleton] at ha
            rw [ha]
            exact ⟨hk1, hk2, hI.1, hseed⟩
          · cases h
        | false =>
          simp at h
      · cases h
  · intro st1 h
    unfold scan_body at h
    simp only [] at h
    obtain ⟨found, hfound, h⟩ := bind_eq_ok h
    obtain ⟨st2, h2, h⟩ := bind_eq_ok h
    simp only [pure, Except.pure, Except.ok.injEq] at h
    subst h
    simp only
    refine ⟨?_, trivial⟩
    rw [hI.2, hI.1, ← R.size1, circ_move_traversal_pos _ hk1, traversal_pos_mod]

theorem seeder_loop_res {K : Kernel Point_2 Vector_2 Direction_2}
    {T : Tracer_input Point_2 Direction_2} (R : Res_setting K T)
    (hlen1 : T.dirs1.length ≤ T.n1) (hlen2 : T.dirs2.length ≤ T.n2)
    {tracer_fuel session_fuel : Nat} :
    ∀ (seeds : List Vertex_ref) (st : Driver_state Point_2),
      (∀ seed ∈ seeds, seed.1 = traversal_pos T.forward2 T.n2 seed.2) →
      seeder_loop K T tracer_fuel session_fuel seeds st ≠
        Except.error Failure.assertion_res := by
  intro seeds
  induction seeds with
  | nil =>
    intro st _ h
    simp [seeder_loop] at h
  | cons seed seeds ih =>
    intro st hs h
    unfold seeder_loop at h
    rcases bind_eq_error h with h | ⟨st2, -, h⟩
    · refine for_loop_safe_ix
        (fun (k : Nat) (d : Driver_state Point_2) =>
          d.curr1 = traversal_pos T.forward1 T.n1 k ∧ d.next1 = d.curr1)
        Failure.assertion_res T.n1
        (fun k d hk hd => @scan_body_res _ _ _ K T R hlen1 hlen2 tracer_fuel session_fuel
          seed.1 seed.2 k d (hs seed (List.mem_cons_self _ _)) hk hd)
        T.n1 0 { st with curr1 := 0, next1 := 0 } (by omega) ?_ h
      exact ⟨(traversal_pos_zero _ _).symm, rfl⟩
    · exact ih st2 (fun s hs2 => hs s (List.mem_cons_of_mem _ hs2)) h

theorem operator_call_seeds {K : Kernel Point_2 Vector_2 Direction_2}
    {pgn1 pgn2 : List Point_2} {T : Tracer_input Point_2 Direction_2}
    (hT : tables_of K pgn1 pgn2 = Except.ok T) (tracer_fuel session_fuel : Nat) :
    ∃ seeds, (∀ seed ∈ seeds, seed.1 = traversal_pos T.forward2 T.n2 seed.2) ∧
      operator_call K tracer_fuel session_fuel pgn1 pgn2 =
        seeder_loop K T tracer_fuel session_fuel seeds
          { curr1 := 0, next1 := 0, curr_id := 0, cycles := 0, conv_segments := [],
            cycle := [], used_labels := [], queue := [], loops := 0 } := by
  obtain ⟨-, -, -, e2, -, f2, -⟩ := tables_of_lengths hT
  unfold tables_of at hT
  obtain ⟨t1, h1, hT⟩ := bind_eq_ok hT
  obtain ⟨t2, h2, hT⟩ := bind_eq_ok hT
  simp only [pure, Except.pure, Except.ok.injEq] at hT
  refine ⟨seeds_of t2, ?_, ?_⟩
  · rw [e2, f2]
    by_cases hn : 0 < pgn2.length
    · obtain ⟨st, hst, I⟩ := second_polygon_tables_ok K pgn2 hn
      rw [h2] at hst
      simp only [Except.ok.injEq] at hst
      subst hst
      intro seed hseed
      unfold seeds_of at hseed
      rcases List.mem_cons.mp hseed with hb | hr
      · rcases I.bottom_ref with h0 | ⟨b, -, hbl⟩
        · omega
        · rw [hb, hbl]
      · rw [I.seeds_eq] at hr
        obtain ⟨j, -, hj⟩ := List.mem_map.mp hr
        rw [← hj]
    · have h0 : pgn2.length = 0 := by omega
      unfold second_polygon_tables at h2
      simp only [h0, for_loop, pure, Except.pure, Except.ok.injEq] at h2
      intro seed hseed
      rw [← h2] at hseed
      simp only [seeds_of, List.mem_singleton] at hseed
      rw [hseed, h0]
      exact (traversal_pos_zero _ _).symm
  · unfold operator_call
    rw [h1, h2]
    simp only [bind, Except.bind]
    rw [hT]

theorem operator_call_res {K : Kernel Point_2 Vector_2 Direction_2}
    (hK : Translation_laws K) (hC : Compare_translation_laws K)
    {pgn1 pgn2 : List Point_2} (hd1 : Distinct_consecutive pgn1)
    (hd2 : Distinct_consecutive pgn2) (tracer_fuel session_fuel : Nat) :
    operator_call K tracer_fuel session_fuel pgn1 pgn2 ≠
      Except.error Failure.assertion_res := by
  intro h
  cases hT : tables_of K pgn1 pgn2 with
  | error e =>
    unfold tables_of at hT
    unfold operator_call at h
    rcases bind_eq_error hT with h1 | ⟨t1, h1, hT⟩
    · rw [h1] at h
      have := for_loop_error Failure.out_of_range
        (first_polygon_body_error K pgn1 _) _ _ _ _ h1
      cases h
      cases this
    · rcases bind_eq_error hT with h2 | ⟨t2, h2, hT⟩
      · rw [h1, h2] at h
        have := for_loop_error Failure.out_of_range
          (second_polygon_body_error K pgn2 _) _ _ _ _ h2
        cases h
        cases this
      · cases hT
  | ok T =>
    obtain ⟨seeds, hseeds, hs⟩ := operator_call_seeds hT tracer_fuel session_fuel
    obtain ⟨p1, p2, e1, e2, -, -, l1, l2, -⟩ := tables_of_lengths hT
    rw [hs] at h
    have R : Res_setting K T :=
      ⟨hK, hC, by rw [e1, p1], by rw [e2, p2], by rw [p1]; exact hd1, by rw [p2]; exact hd2⟩
    exact seeder_loop_res R (by omega) (by omega) seeds _ hseeds h

end ComparisonDriver
section OrientationClaim
variable {Point_2 Vector_2 Direction_2 : Type}

theorem advance1_flag {K : Kernel Point_2 Vector_2 Direction_2}
    {T : Tracer_input Point_2 Direction_2} (hC : Compare_translation_laws K)
    (hsize1 : T.n1 = T.pgn1.length) (hsize2 : T.n2 = T.pgn2.length)
    {cycle_id : Nat} {s s1 : Tracer_state Point_2} (hinv : Tracer_inv K T s)
    (h : advance1 K T cycle_id s = Except.ok s1) :
    ∃ (p pn q : Point_2) (r2 : Bool),
      traversal_vertex T.pgn1 T.forward1 s.k1 = some p ∧
      traversal_vertex T.pgn1 T.forward1 ((s.k1 + 1) % T.n1) = some pn ∧
      traversal_vertex T.pgn2 T.forward2 s.k2 = some q ∧ T.is_reflex2[s.k2]? = some r2 ∧
      K.f_compare_xy (vertex_sum K p q) (vertex_sum K pn q) = K.f_compare_xy p pn ∧
      K.f_compare_xy p pn ≠ Comparison_result.EQUAL ∧
      s1.cycle = (if r2 then s.cycle
        else s.cycle ++ [⟨vertex_sum K p q, vertex_sum K pn q,
          ⟨decide (K.f_compare_xy p pn = Comparison_result.SMALLER), cycle_id, s.seg_index,
            MOVE_ON_1, false⟩⟩]) := by
  obtain ⟨pn, pc, r2, hpn, hpc, hr2, hne, hs⟩ := advance1_ok h
  obtain ⟨p, q, hp, hq, hpt⟩ := inv_curr_pt hsize1 hsize2 hinv
  have hq2 : q = pc := by
    have := hq
    unfold traversal_vertex at this
    rw [← hsize2, ← hinv.curr2_eq, hpc] at this
    simp only [Option.some.injEq] at this
    exact this.symm
  have hpn2 : traversal_vertex T.pgn1 T.forward1 ((s.k1 + 1) % T.n1) = some pn := by
    unfold traversal_vertex
    rw [← hsize1, ← inv_next1 hinv]; exact hpn
  subst hq2
  rw [hpt, hC.translate] at hne
  refine ⟨p, pn, q, r2, hp, hpn2, hq, hr2, hC.translate p pn q, hne, ?_⟩
  rw [hs]
  simp only
  rw [hpt, hC.translate]

theorem advance2_flag {K : Kernel Point_2 Vector_2 Direction_2}
    {T : Tracer_input Point_2 Direction_2} (hK : Translation_laws K)
    (hC : Compare_translation_laws K)
    (hsize1 : T.n1 = T.pgn1.length) (hsize2 : T.n2 = T.pgn2.length)
    {cycle_id : Nat} {s s1 : Tracer_state Point_2} (hinv : Tracer_inv K T s)
    (h : advance2 K T cycle_id s = Except.ok s1) :
    ∃ (p q qn : Point_2) (r1 : Bool),
      traversal_vertex T.pgn1 T.forward1 s.k1 = some p ∧
      traversal_vertex T.pgn2 T.forward2 s.k2 = some q ∧
      traversal_vertex T.pgn2 T.forward2 ((s.k2 + 1) % T.n2) = some qn ∧
      T.is_reflex1[s.k1]? = some r1 ∧
      K.f_compare_xy (vertex_sum K p q) (vertex_sum K p qn) = K.f_compare_xy q qn ∧
      K.f_compare_xy q qn ≠ Comparison_result.EQUAL ∧
      s1.cycle = (if r1 then s.cycle
        else s.cycle ++ [⟨vertex_sum K p q, vertex_sum K p qn,
          ⟨decide (K.f_compare_xy q qn = Comparison_result.SMALLER), cycle_id, s.seg_index,
            MOVE_ON_2, false⟩⟩]) := by
  obtain ⟨qn, pc, r1, hqn, hpc, hr1, hne, hs⟩ := advance2_ok h
  obtain ⟨p, q, hp, hq, hpt⟩ := inv_curr_pt hsize1 hsize2 hinv
  have hp2 : p = pc := by
    have := hp
    unfold traversal_vertex at this
    rw [← hsize1, ← hinv.curr1_eq, hpc] at this
    simp only [Option.some.injEq] at this
    exact this.symm
  have hqn2 : traversal_vertex T.pgn2 T.forward2 ((s.k2 + 1) % T.n2) = some qn := by
    unfold traversal_vertex
    rw [← hsize2, ← inv_next2 hinv]; exact hqn
  subst hp2
  have hcmp : K.f_compare_xy (vertex_sum K p q) (vertex_sum K p qn) = K.f_compare_xy q qn := by
    rw [hK.sum_comm p q, hK.sum_comm p qn, hC.translate]
  rw [hpt, hK.sum_comm qn p, hcmp] at hne
  refine ⟨p, q, qn, r1, hp, hq, hqn2, hr1, hcmp, hne, ?_⟩
  rw [hs]
  simp only
  rw [hpt, hK.sum_comm qn p, hcmp]

theorem int_compare_translation_laws : Compare_translation_laws int_kernel :=
  { translate := by
      intro p q r
      simp only [vertex_sum, int_kernel, int_compare_xy]
      simp
    equal_eq := by
      intro p q h
      simp only [int_kernel, int_compare_xy] at h
      split_ifs at h
      exact Prod.ext (by omega) (by omega) }

/-- Claim C21. Orientation flag. Every call of `_convolution_cycle` on a list
whose segments have the orientation flag right returns such a list, and every
segment of the list `conv_segments` that `operator()` hands on has its flag
true if and only if its source compares `SMALLER` than its target (by x, then
by y). For a kernel whose comparison is invariant under translation, with
commutative point sums, and for `T` the tables of the operands: in a state
that satisfies the invariant of the tracer, the segment of an advance on P
joins `P[k1] + Q[k2]` to `P[k1 + 1] + Q[k2]`, its comparison is that of
`P[k1]` with `P[k1 + 1]` and its flag says whether `P[k1]` compares `SMALLER`
than `P[k1 + 1]`; the segment of an advance on Q joins `P[k1] + Q[k2]` to
`P[k1] + Q[k2 + 1]` and its flag says whether `Q[k2]` compares `SMALLER` than
`Q[k2 + 1]`; in a completed advance the two vertices do not compare `EQUAL`.
When only equal points compare `EQUAL` and consecutive vertices of both
polygons are distinct points, no invocation of `operator()` fails the
assertion `res != EQUAL`, whatever the iteration budgets. -/
theorem orientation_flag (K : Kernel Point_2 Vector_2 Direction_2)
    (pgn1 pgn2 : List Point_2) (T : Tracer_input Point_2 Direction_2)
    (hT : tables_of K pgn1 pgn2 = Except.ok T) :
    (∀ (fuel cycle_id curr1 k1 curr2 k2 : Nat) (used : Labels_set) (queue : Anchors_queue)
      (cycle : List (Labeled_segment_2 Point_2)) (r : Tracer_state Point_2),
      (∀ seg ∈ cycle, Oriented K seg) →
      _convolution_cycle K fuel cycle_id T curr1 k1 curr2 k2 used queue cycle = Except.ok r →
      ∀ seg ∈ r.cycle, Oriented K seg) ∧
    (∀ (tracer_fuel session_fuel : Nat) (st : Driver_state Point_2),
      operator_call K tracer_fuel session_fuel pgn1 pgn2 = Except.ok st →
      ∀ seg ∈ st.conv_segments, (seg.label.right = true ↔
        K.f_compare_xy seg.source seg.target = Comparison_result.SMALLER)) ∧
    (Translation_laws K → Compare_translation_laws K →
      (∀ (cycle_id : Nat) (s s1 : Tracer_state Point_2), Tracer_inv K T s →
        advance1 K T cycle_id s = Except.ok s1 →
        ∃ (p pn q : Point_2) (r2 : Bool),
          traversal_vertex T.pgn1 T.forward1 s.k1 = some p ∧
          traversal_vertex T.pgn1 T.forward1 ((s.k1 + 1) % T.n1) = some pn ∧
          traversal_vertex T.pgn2 T.forward2 s.k2 = some q ∧
          T.is_reflex2[s.k2]? = some r2 ∧
          K.f_compare_xy (vertex_sum K p q) (vertex_sum K pn q) = K.f_compare_xy p pn ∧
          K.f_compare_xy p pn ≠ Comparison_result.EQUAL ∧
          s1.cycle = (if r2 then s.cycle
            else s.cycle ++ [⟨vertex_sum K p q, vertex_sum K pn q,
              ⟨decide (K.f_compare_xy p pn = Comparison_result.SMALLER), cycle_id,
                s.seg_index, MOVE_ON_1, false⟩⟩])) ∧
      (∀ (cycle_id : Nat) (s s1 : Tracer_state Point_2), Tracer_inv K T s →
        advance2 K T cycle_id s = Except.ok s1 →
        ∃ (p q qn : Point_2) (r1 : Bool),
          traversal_vertex T.pgn1 T.forward1 s.k1 = some p ∧
          traversal_vertex T.pgn2 T.forward2 s.k2 = some q ∧
          traversal_vertex T.pgn2 T.forward2 ((s.k2 + 1) % T.n2) = some qn ∧
          T.is_reflex1[s.k1]? = some r1 ∧
          K.f_compare_xy (vertex_sum K p q) (vertex_sum K p qn) = K.f_compare_xy q qn ∧
          K.f_compare_xy q qn ≠ Comparison_result.EQUAL ∧
          s1.cycle = (if r1 then s.cycle
            else s.cycle ++ [⟨vertex_sum K p q, vertex_sum K p qn,
              ⟨decide (K.f_compare_xy q qn = Comparison_result.SMALLER), cycle_id,
                s.seg_index, MOVE_ON_2, false⟩⟩])) ∧
      (Distinct_consecutive pgn1 → Distinct_consecutive pgn2 →
        ∀ tracer_fuel session_fuel : Nat,
          operator_call K tracer_fuel session_fuel pgn1 pgn2 ≠
            Except.error Failure.assertion_res)) := by
  obtain ⟨p1, p2, e1, e2, -⟩ := tables_of_lengths hT
  have hsize1 : T.n1 = T.pgn1.length := by rw [e1, p1]
  have hsize2 : T.n2 = T.pgn2.length := by rw [e2, p2]
  refine ⟨?_, ?_, ?_⟩
  · intro fuel cycle_id curr1 k1 curr2 k2 used queue cycle r hc h
    exact convolution_cycle_oriented hc h
  · intro tracer_fuel session_fuel st h seg hseg
    exact operator_call_oriented h seg hseg
  · intro hK hC
    refine ⟨?_, ?_, ?_⟩
    · intro cycle_id s s1 hinv h
      exact advance1_flag hC hsize1 hsize2 hinv h
    · intro cycle_id s s1 hinv h
      exact advance2_flag hK hC hsize1 hsize2 hinv h
    · intro hd1 hd2 tracer_fuel session_fuel
      exact operator_call_res hK hC hd1 hd2 tracer_fuel session_fuel

/-- Witness for claim C21 on the dart and the star: the integer kernel
satisfies the laws, consecutive vertices of both polygons are distinct, and
`operator()` returns ten segments, the first from `(2,1)` to `(4,0)` with the
flag true, the third from `(8,1)` to `(6,5)` with the flag false. -/
theorem orientation_flag_witness :
    tables_of int_kernel dart star5 = Except.ok dart_star ∧
    (∃ st, operator_call int_kernel 41 41 dart star5 = Except.ok st ∧
      st.conv_segments.map (fun seg => (seg.source, seg.target, seg.label.right)) =
        [((2, 1), (4, 0), true), ((4, 0), (8, 1), true), ((8, 1), (6, 5), false),
          ((6, 5), (4, 6), false), ((4, 6), (2, 8), false), ((2, 8), (0, 4), false),
          ((0, 4), (1, 2), true), ((1, 2), (0, 0), false), ((0, 0), (4, 1), true),
          ((4, 1), (6, 2), true)]) ∧
    (∀ (tracer_fuel session_fuel : Nat) (st : Driver_state (Int × Int)),
      operator_call int_kernel tracer_fuel session_fuel dart star5 = Except.ok st →
      ∀ seg ∈ st.conv_segments, (seg.label.right = true ↔
        int_kernel.f_compare_xy seg.source seg.target = Comparison_result.SMALLER)) ∧
    (∀ tracer_fuel session_fuel : Nat,
      operator_call int_kernel tracer_fuel session_fuel dart star5 ≠
        Except.error Failure.assertion_res) :=
  ⟨rfl, ⟨_, rfl, rfl⟩, (orientation_flag int_kernel dart star5 dart_star rfl).2.1,
    ((orientation_flag int_kernel dart star5 dart_star rfl).2.2 int_translation_laws
      int_compare_translation_laws).2.2 (by unfold Distinct_consecutive; decide)
      (by unfold Distinct_consecutive; decide)⟩

end OrientationClaim

section Terminal
variable {Point_2 Vector_2 Direction_2 : Type}

theorem advance1_terminal {K : Kernel Point_2 Vector_2 Direction_2}
    {T : Tracer_input Point_2 Direction_2} {cycle_id : Nat} {t s : Tracer_state Point_2}
    (hu : Unmarked t.seg_index t.cycle) (h : advance1 K T cycle_id t = Except.ok s) :
    ∃ reflex, T.is_reflex2[t.k2]? = some reflex ∧ s.seg_index = t.seg_index + 1 ∧
      Unmarked s.seg_index s.cycle ∧
      (reflex = true → s.cycle = t.cycle) ∧
      (reflex = false → ∃ seg, s.cycle = t.cycle ++ [seg] ∧
        seg.label.index + 1 = s.seg_index ∧ seg.label.move_on = MOVE_ON_1) := by
  obtain ⟨pn, pc, r2, -, -, hr2, -, hs⟩ := advance1_ok h
  refine ⟨r2, hr2, by rw [hs], ?_, ?_, ?_⟩
  · rw [hs]
    intro seg hseg
    simp only at hseg ⊢
    cases r2 with
    | true =>
      simp only [if_true] at hseg
      exact ⟨(hu seg hseg).1, by have := (hu seg hseg).2; omega⟩
    | false =>
      simp only [Bool.false_eq_true, if_false] at hseg
      rcases List.mem_append.mp hseg with h1 | h1
      · exact ⟨(hu seg h1).1, by have := (hu seg h1).2; omega⟩
      · simp only [List.mem_singleton] at h1
        rw [h1]
        exact ⟨rfl, by simp⟩
  · intro hr
    rw [hs, hr]
    rfl
  · intro hr
    rw [hs, hr]
    exact ⟨_, rfl, rfl, rfl⟩

theorem advance2_terminal {K : Kernel Point_2 Vector_2 Direction_2}
    {T : Tracer_input Point_2 Direction_2} {cycle_id : Nat} {t s : Tracer_state Point_2}
    (hu : Unmarked t.seg_index t.cycle) (h : advance2 K T cycle_id t = Except.ok s) :
    ∃ reflex, T.is_reflex1[t.k1]? = some reflex ∧ s.seg_index = t.seg_index + 1 ∧
      Unmarked s.seg_index s.cycle ∧
      (reflex = true → s.cycle = t.cycle) ∧
      (reflex = false → ∃ seg, s.cycle = t.cycle ++ [seg] ∧
        seg.label.index + 1 = s.seg_index ∧ seg.label.move_on = MOVE_ON_2) := by
  obtain ⟨pn, pc, r1, -, -, hr1, -, hs⟩ := advance2_ok h
  refine ⟨r1, hr1, by rw [hs], ?_, ?_, ?_⟩
  · rw [hs]
    intro seg hseg
    simp only at hseg ⊢
    cases r1 with
    | true =>
      simp only [if_true] at hseg
      exact ⟨(hu seg hseg).1, by have := (hu seg hseg).2; omega⟩
    | false =>
      simp only [Bool.false_eq_true, if_false] at hseg
      rcases List.mem_append.mp hseg with h1 | h1
      · exact ⟨(hu seg h1).1, by have := (hu seg h1).2; omega⟩
      · simp only [List.mem_singleton] at h1
        rw [h1]
        exact ⟨rfl, by simp⟩
  · intro hr
    rw [hs, hr]
    rfl
  · intro hr
    rw [hs, hr]
    exact ⟨_, rfl, rfl, rfl⟩

/-- The last advance of a completed iteration: the move on the second polygon
when `inc2` is set, the move on the first polygon otherwise; `reflex` is the
reflex flag the advance reads, and `t` the state it starts from. -/
theorem cycle_step_terminal {K : Kernel Point_2 Vector_2 Direction_2}
    {T : Tracer_input Point_2 Direction_2} {cycle_id : Nat} {s1 s : Tracer_state Point_2}
    (hu : Unmarked s1.seg_index s1.cycle) (h : cycle_step K T cycle_id s1 = Except.ok s) :
    Unmarked s.seg_index s.cycle ∧
    ∃ (t : Tracer_state Point_2) (reflex : Bool), Unmarked t.seg_index t.cycle ∧
      ((advance1 K T cycle_id t = Except.ok s ∧ T.is_reflex2[t.k2]? = some reflex) ∨
        (advance2 K T cycle_id t = Except.ok s ∧ T.is_reflex1[t.k1]? = some reflex)) := by
  obtain ⟨flags, sm, -, hor, h1, h2⟩ := cycle_step_ok h
  have hq : Unmarked ({ s1 with queue := flags.2.2 } : Tracer_state Point_2).seg_index
      ({ s1 with queue := flags.2.2 } : Tracer_state Point_2).cycle := hu
  cases hf2 : flags.2.1 with
  | true =>
    rw [hf2] at h2
    simp only [if_true] at h2
    have hm : Unmarked sm.seg_index sm.cycle := by
      split_ifs at h1
      · obtain ⟨_, -, -, hm, -⟩ := advance1_terminal hq h1
        exact hm
      · simp only [Except.ok.injEq] at h1
        rw [← h1]
        exact hq
    obtain ⟨reflex, hr, -, hs, -⟩ := advance2_terminal hm h2
    exact ⟨hs, sm, reflex, hm, Or.inr ⟨h2, hr⟩⟩
  | false =>
    rw [hf2] at h2 hor
    simp only [Bool.false_eq_true, if_false, Except.ok.injEq] at h2
    simp only [Bool.or_false] at hor
    rw [hor] at h1
    simp only [if_true] at h1
    subst h2
    obtain ⟨reflex, hr, -, hs, -⟩ := advance1_terminal hq h1
    exact ⟨hs, _, reflex, hq, Or.inl ⟨h1, hr⟩⟩

theorem cycle_steps_terminal {K : Kernel Point_2 Vector_2 Direction_2}
    {T : Tracer_input Point_2 Direction_2} {cycle_id : Nat} :
    ∀ (m : Nat) (s s2 : Tracer_state Point_2), Unmarked s.seg_index s.cycle →
      cycle_steps K T cycle_id m s = Except.ok s2 → Unmarked s2.seg_index s2.cycle := by
  intro m
  induction m with
  | zero =>
    intro s s2 hu h
    simp only [cycle_steps, pure, Except.pure, Except.ok.injEq] at h
    subst h
    exact hu
  | succ m ih =>
    intro s s2 hu h
    obtain ⟨s1, h1, h2⟩ := cycle_steps_succ h
    exact ih s1 s2 (cycle_step_terminal hu h1).1 h2

/-- Claim C22. Terminal flag. Take a call of `_convolution_cycle` that begins
with an empty list `cycle`, as every call of `operator()` does, and returns:
it has emitted at least one segment. After the call the terminal flag of the
last segment of the cycle is true if and only if its index plus one equals
`seg_index`, the number of advances of the trace, and no other segment of the
cycle has the flag. The last iteration of the loop ends with an advance (on
the second polygon when `inc2` was set, on the first otherwise) that takes the
state `t` to the state `s` in which the loop exits; the index of the last
segment plus one equals `seg_index` if and only if the reflex flag this
advance reads is false, that is, if and only if the final advance was not
suppressed. The session loop keeps `cycle` empty between calls. -/
theorem terminal_flag_marks_last_advance (K : Kernel Point_2 Vector_2 Direction_2)
    (fuel cycle_id : Nat) (T : Tracer_input Point_2 Direction_2) (curr1 k1 curr2 k2 : Nat)
    (used : Labels_set) (queue : Anchors_queue) (r : Tracer_state Point_2)
    (h : _convolution_cycle K fuel cycle_id T curr1 k1 curr2 k2 used queue [] = Except.ok r) :
    (∃ last, r.cycle.getLast? = some last ∧
      (last.label.flag = true ↔ last.label.index + 1 = r.seg_index) ∧
      (∀ seg ∈ r.cycle.dropLast, seg.label.flag = false) ∧
      ∃ (m : Nat) (s0 s1 s t : Tracer_state Point_2) (reflex : Bool),
        cycle_init K T curr1 k1 curr2 k2 used queue [] = Except.ok s0 ∧
        cycle_steps K T cycle_id m s0 = Except.ok s1 ∧
        cycle_step K T cycle_id s1 = Except.ok s ∧
        s.k1 = k1 ∧ s.k2 = k2 ∧ r.seg_index = s.seg_index ∧
        ((advance1 K T cycle_id t = Except.ok s ∧ T.is_reflex2[t.k2]? = some reflex) ∨
          (advance2 K T cycle_id t = Except.ok s ∧ T.is_reflex1[t.k1]? = some reflex)) ∧
        (reflex = true → s.cycle = t.cycle) ∧
        (reflex = false → ∃ seg, s.cycle = t.cycle ++ [seg]) ∧
        (last.label.index + 1 = r.seg_index ↔ reflex = false)) ∧
    (∀ (tracer_fuel session_fuel : Nat) (st st1 : Driver_state Point_2), Driver_keys st →
      session_loop K T tracer_fuel session_fuel st = Except.ok st1 → st1.cycle = []) := by
  refine ⟨?_, fun tracer_fuel session_fuel st st1 hd hs =>
    (session_loop_keys session_fuel st st1 hd hs).1.1⟩
  obtain ⟨s0, s, cycle1, hs0, hs, -, hm, hreq⟩ := convolution_cycle_ok h
  obtain ⟨p1, p2, -, -, hs0eq⟩ := cycle_init_ok hs0
  obtain ⟨e1, e2, m, -, s1, hsteps, hstep⟩ := cycle_loop_steps fuel s0 s hs
  have hu0 : Unmarked s0.seg_index s0.cycle := by
    rw [hs0eq]
    intro seg hseg
    simp at hseg
  have hu1 := cycle_steps_terminal m s0 s1 hu0 hsteps
  obtain ⟨hus, t, reflex, hut, hadv⟩ := cycle_step_terminal hu1 hstep
  obtain ⟨last, last1, hl, hl1, hd, -, -, -, -, hidx, hflag, -⟩ := mark_last_flag hm
  have hrc : r.cycle = cycle1 := by rw [hreq]
  have hrs : r.seg_index = s.seg_index := by rw [hreq]
  have hlast_mem : last ∈ s.cycle := List.mem_of_mem_getLast? (by rw [hl]; exact rfl)
  have hfacts : s.seg_index = t.seg_index + 1 ∧ (reflex = true → s.cycle = t.cycle) ∧
      (reflex = false → ∃ seg, s.cycle = t.cycle ++ [seg] ∧
        seg.label.index + 1 = s.seg_index) := by
    rcases hadv with ⟨ha, hr⟩ | ⟨ha, hr⟩
    · obtain ⟨reflex2, hr2, a, -, b, c⟩ := advance1_terminal hut ha
      rw [hr] at hr2
      simp only [Option.some.injEq] at hr2
      subst hr2
      exact ⟨a, b, fun hx => by
        obtain ⟨seg, c1, c2, -⟩ := c hx
        exact ⟨seg, c1, c2⟩⟩
    · obtain ⟨reflex2, hr2, a, -, b, c⟩ := advance2_terminal hut ha
      rw [hr] at hr2
      simp only [Option.some.injEq] at hr2
      subst hr2
      exact ⟨a, b, fun hx => by
        obtain ⟨seg, c1, c2, -⟩ := c hx
        exact ⟨seg, c1, c2⟩⟩
  obtain ⟨hseg1, hsame, hnew⟩ := hfacts
  have hiff : last.label.index + 1 = s.seg_index ↔ reflex = false := by
    cases hrx : reflex with
    | true =>
      have hc := hsame hrx
      rw [hc] at hlast_mem
      have := (hut last hlast_mem).2
      constructor
      · intro hx; omega
      · intro hx; cases hx
    | false =>
      obtain ⟨seg, hc, hi⟩ := hnew hrx
      have : last = seg := by
        rw [hc, List.getLast?_concat] at hl
        simp only [Option.some.injEq] at hl
        exact hl.symm
      rw [this]
      exact ⟨fun _ => rfl, fun _ => hi⟩
  refine ⟨last1, by rw [hrc]; exact hl1, ?_, ?_, m, s0, s1, s, t, reflex, hs0, hsteps, hstep,
    e1, e2, hrs, hadv, hsame, fun hx => ?_, ?_⟩
  · rw [hflag, hidx, hrs, (hus last hlast_mem).1]
    simp
  · intro seg hseg
    rw [hrc, hd] at hseg
    exact (hus seg (List.mem_of_mem_dropLast hseg)).1
  · obtain ⟨seg, hc, -⟩ := hnew hx
    exact ⟨seg, hc⟩
  · rw [hidx, hrs]
    exact hiff

end Terminal

/-- Witness for claim C22. On the dart and the unit square the only call of
the tracer ends with three suppressed advances: the last of the 9 segments has
index 8, `seg_index` is 12, and the terminal flag stays unset. On two unit
squares the call returns the state `two_squares_traced`, which ends with an
emitted advance: the last of the 8 segments has index 7, `seg_index` is 8, and
the terminal flag is set on it and on no other segment. -/
theorem terminal_flag_marks_last_advance_witness :
    (∃ r last, _convolution_cycle int_kernel 13 1 dart_square 1 1 0 0 [] [] [] = Except.ok r ∧
      r.seg_index = 12 ∧ r.cycle.length = 9 ∧ r.cycle.getLast? = some last ∧
      last = ⟨(1, 0), (3, 1), ⟨true, 1, 8, true, false⟩⟩) ∧
    _convolution_cycle int_kernel 9 1 two_squares 0 0 0 0 [] [] [] =
      Except.ok two_squares_traced ∧
    two_squares_traced.seg_index = 8 ∧ two_squares_traced.cycle.length = 8 ∧
    two_squares_traced.cycle.getLast? =
      some ⟨(0, 1), (0, 0), ⟨false, 1, 7, false, true⟩⟩ ∧
    ∃ last, two_squares_traced.cycle.getLast? = some last ∧
      (last.label.flag = true ↔ last.label.index + 1 = two_squares_traced.seg_index) ∧
      (∀ seg ∈ two_squares_traced.cycle.dropLast, seg.label.flag = false) :=
  ⟨⟨_, _, rfl, rfl, rfl, rfl, rfl⟩, rfl, rfl, rfl, rfl,
    (terminal_flag_marks_last_advance int_kernel 9 1 two_squares
        0 0 0 0 [] [] two_squares_traced rfl).1.imp (fun _ h => ⟨h.1, h.2.1, h.2.2.1⟩)⟩

section Claims16
variable {Point_2 Vector_2 Direction_2 : Type}

/-- Claim C16, amended. Take the tables `T` that `operator()` builds, for a
kernel whose predicates on the directions of the tables are those of a cyclic
order (`Rank_model`). In every state of the loop of the tracer (a state with
the indices in range that satisfies the invariant `Trace_inv`, and the
condition `First_ok` when it is at the pair where the trace began) the decision
phase returns flags, and at least one of `inc1`, `inc2` is true: never
neither. The two cone tests never mark both moves; both flags are true only
when the equal-direction rule fired, that is when neither cone test marked a
move and `dirs1[k1]` equals `dirs2[k2]`; so when the two directions differ
exactly one flag is true. These are the states of every step of every trace:
when a call enters its loop for a pair that the session loop passes between
two traces, every state at the head of the loop, after any number of
iterations that did not leave the loop, is such a state. Hence no invocation
of `operator()` fails the assertion `inc1 || inc2`, whatever the budgets. -/
theorem one_flag_unless_equal_directions (K : Kernel Point_2 Vector_2 Direction_2)
    (pgn1 pgn2 : List Point_2) (T : Tracer_input Point_2 Direction_2) (r1 r2 : Nat → Int)
    (hT : tables_of K pgn1 pgn2 = Except.ok T) (M : Rank_model K T r1 r2) :
    (∀ (start : Nat × Nat) (s : Tracer_state Point_2), Trace_inv T r1 r2 start s →
      s.k1 < T.n1 → s.k2 < T.n2 →
      ((s.k1, s.k2) = start → First_ok T r1 r2 s.used_labels s.k1 s.k2) →
      ∃ flags d1 d1p d2 d2p, decide_moves K T s = Except.ok flags ∧
        T.dirs1[s.k1]? = some d1 ∧ T.dirs1[prev_index T.n1 s.k1]? = some d1p ∧
        T.dirs2[s.k2]? = some d2 ∧ T.dirs2[prev_index T.n2 s.k2]? = some d2p ∧
        (flags.1 = true ∨ flags.2.1 = true) ∧
        ¬ ((cone_flags K d1 d1p d2 d2p s).1 = true ∧
          (cone_flags K d1 d1p d2 d2p s).2.1 = true) ∧
        (flags.1 = true ∧ flags.2.1 = true →
          (cone_flags K d1 d1p d2 d2p s).1 = false ∧
          (cone_flags K d1 d1p d2 d2p s).2.1 = false ∧ K.f_equal d1 d2 = true) ∧
        (K.f_equal d1 d2 = false →
          (flags.1 = true ∧ flags.2.1 = false) ∨ (flags.1 = false ∧ flags.2.1 = true))) ∧
    (∀ (cycle_id curr1 k1 curr2 k2 : Nat) (used : Labels_set) (queue : Anchors_queue)
      (cycle : List (Labeled_segment_2 Point_2)) (s0 : Tracer_state Point_2),
      Closed_inv T r1 r2 used → (∀ a ∈ queue, Anchor_ok T r1 r2 a) →
      First_ok T r1 r2 used k1 k2 →
      cycle_init K T curr1 k1 curr2 k2 used queue cycle = Except.ok s0 →
      ∀ (m : Nat) (s : Tracer_state Point_2), loop_reaches K T cycle_id (k1, k2) m s0 s →
        Trace_inv T r1 r2 (k1, k2) s ∧ s.k1 < T.n1 ∧ s.k2 < T.n2 ∧
        ((s.k1, s.k2) = (k1, k2) → First_ok T r1 r2 s.used_labels s.k1 s.k2)) ∧
    (∀ (tracer_fuel session_fuel : Nat) (e : Failure),
      operator_call K tracer_fuel session_fuel pgn1 pgn2 = Except.error e →
      e ≠ Failure.assertion_inc) := by
  refine ⟨?_, ?_, ?_⟩
  · intro start s I hk1 hk2 hfirst
    obtain ⟨-, -, -, -, -, -, l1, l2, -⟩ := tables_of_lengths hT
    have hp1 : prev_index T.n1 s.k1 < T.n1 := Nat.mod_lt _ (by omega)
    have hp2 : prev_index T.n2 s.k2 < T.n2 := Nat.mod_lt _ (by omega)
    obtain ⟨d1, hd1⟩ : ∃ d, T.dirs1[s.k1]? = some d :=
      ⟨_, List.getElem?_eq_getElem (by omega)⟩
    obtain ⟨d1p, hd1p⟩ : ∃ d, T.dirs1[prev_index T.n1 s.k1]? = some d :=
      ⟨_, List.getElem?_eq_getElem (by omega)⟩
    obtain ⟨d2, hd2⟩ : ∃ d, T.dirs2[s.k2]? = some d :=
      ⟨_, List.getElem?_eq_getElem (by omega)⟩
    obtain ⟨d2p, hd2p⟩ : ∃ d, T.dirs2[prev_index T.n2 s.k2]? = some d :=
      ⟨_, List.getElem?_eq_getElem (by omega)⟩
    have hdm := @decide_moves_of_reads _ _ _ K T s d1 d1p d2 d2p hd1 hd1p hd2 hd2p
    have F := (step_facts M hd1 hd1p hd2 hd2p I.graph I.balance I.pairs hfirst).1
    obtain ⟨e1, e1p, e2, e2p, g1, g1p, g2, g2p, hcone, hboth, hne, -⟩ :=
      decide_moves_not_both K T 0 s _ hdm
    rw [hd1] at g1
    rw [hd1p] at g1p
    rw [hd2] at g2
    rw [hd2p] at g2p
    cases g1
    cases g1p
    cases g2
    cases g2p
    refine ⟨_, d1, d1p, d2, d2p, hdm, hd1, hd1p, hd2, hd2p, F, hcone, hboth, ?_⟩
    intro hq
    have hnb := hne hq
    rcases F with F | F
    · left
      refine ⟨F, ?_⟩
      cases hv : (decide_flags K T.n1 d1 d1p d2 d2p s).2.1 with
      | false => rfl
      | true => exact absurd ⟨F, hv⟩ hnb
    · right
      refine ⟨?_, F⟩
      cases hv : (decide_flags K T.n1 d1 d1p d2 d2p s).1 with
      | false => rfl
      | true => exact absurd ⟨hv, F⟩ hnb
  · intro cycle_id curr1 k1 curr2 k2 used queue cycle s0 C hq hfirst hs0
    obtain ⟨p1, p2, -, -, hs0eq⟩ := cycle_init_ok hs0
    have I0 : Trace_inv T r1 r2 (k1, k2) s0 := by
      rw [hs0eq]
      exact ⟨C.graph, C.balance (k1, k2), C.pairs, hfirst.1, hfirst.2.1, hq⟩
    have F0 : (s0.k1, s0.k2) = (k1, k2) → First_ok T r1 r2 s0.used_labels s0.k1 s0.k2 := by
      rw [hs0eq]
      exact fun _ => hfirst
    have K1 : s0.k1 < T.n1 := by
      rw [hs0eq]
      exact hfirst.1
    have K2 : s0.k2 < T.n2 := by
      rw [hs0eq]
      exact hfirst.2.1
    clear hs0eq hs0
    intro m
    induction m generalizing s0 with
    | zero =>
      intro s hs
      simp only [loop_reaches] at hs
      subst hs
      exact ⟨I0, K1, K2, F0⟩
    | succ m ih =>
      intro s hs
      simp only [loop_reaches] at hs
      obtain ⟨s1, hstep, hne, hrest⟩ := hs
      have hr : Label_range T s0.used_labels := fun l hl => by
        obtain ⟨a, b, c⟩ := I0.graph l hl
        exact ⟨a, b, c.imp (fun x => x.1) (fun x => x.1)⟩
      obtain ⟨a, b, -⟩ := cycle_step_range K1 K2 hr hstep
      have I1 := (@cycle_step_advance _ _ _ K T r1 r2 M cycle_id (k1, k2) s0 I0 F0).2 s1 hstep
      refine ih s1 I1 ?_ a b s hrest
      intro heq
      simp only [Prod.mk.injEq] at heq
      rcases hne with hne | hne
      · exact absurd heq.1 hne
      · exact absurd heq.2 hne
  · intro tf sf e h
    obtain ⟨seeds, hop⟩ := operator_call_of_tables hT tf sf
    rw [hop] at h
    exact (seeder_loop_advance M seeds _ (closed_inv_nil T r1 r2)).1 e h

end Claims16

/-- Witness for claim C16 (amended) on two unit squares, whose tables satisfy
the rank model of the integer kernel. The first call of the tracer enters its
loop in the state `two_squares_start`, where the two directions are equal and
both flags are true, and after one iteration it is in the state
`two_squares_step1`; in both states the flags have the properties of the
claim; and no invocation of `operator()` fails the assertion
`inc1 || inc2`. -/
theorem one_flag_unless_equal_directions_witness :
    tables_of int_kernel unit_square unit_square = Except.ok two_squares ∧
    Rank_model int_kernel two_squares (int_rank1 two_squares) (int_rank2 two_squares) ∧
    cycle_init int_kernel two_squares 0 0 0 0 [] [] [] = Except.ok two_squares_start ∧
    loop_reaches int_kernel two_squares 1 (0, 0) 1 two_squares_start two_squares_step1 ∧
    decide_moves int_kernel two_squares two_squares_start = Except.ok (true, true, []) ∧
    (∃ flags d1 d1p d2 d2p,
      decide_moves int_kernel two_squares two_squares_step1 = Except.ok flags ∧
      two_squares.dirs1[two_squares_step1.k1]? = some d1 ∧
      two_squares.dirs1[prev_index two_squares.n1 two_squares_step1.k1]? = some d1p ∧
      two_squares.dirs2[two_squares_step1.k2]? = some d2 ∧
      two_squares.dirs2[prev_index two_squares.n2 two_squares_step1.k2]? = some d2p ∧
      (flags.1 = true ∨ flags.2.1 = true) ∧
      ¬ ((cone_flags int_kernel d1 d1p d2 d2p two_squares_step1).1 = true ∧
        (cone_flags int_kernel d1 d1p d2 d2p two_squares_step1).2.1 = true) ∧
      (flags.1 = true ∧ flags.2.1 = true →
        (cone_flags int_kernel d1 d1p d2 d2p two_squares_step1).1 = false ∧
        (cone_flags int_kernel d1 d1p d2 d2p two_squares_step1).2.1 = false ∧
        int_kernel.f_equal d1 d2 = true) ∧
      (int_kernel.f_equal d1 d2 = false →
        (flags.1 = true ∧ flags.2.1 = false) ∨ (flags.1 = false ∧ flags.2.1 = true))) ∧
    (∀ (tracer_fuel session_fuel : Nat) (e : Failure),
      operator_call int_kernel tracer_fuel session_fuel unit_square unit_square =
        Except.error e → e ≠ Failure.assertion_inc) := by
  have M := int_rank_model two_squares (by decide) (by decide) (by decide)
  have H := one_flag_unless_equal_directions int_kernel unit_square unit_square two_squares
    (int_rank1 two_squares) (int_rank2 two_squares) rfl M
  have R : loop_reaches int_kernel two_squares 1 (0, 0) 1 two_squares_start
      two_squares_step1 := ⟨two_squares_step1, rfl, by decide, rfl⟩
  obtain ⟨I, hk1, hk2, hf⟩ := H.2.1 1 0 0 0 0 [] [] [] two_squares_start
    (closed_inv_nil _ _ _) (by simp)
    ⟨by decide, by decide, Or.inr ⟨Or.inr (by decide), by simp⟩⟩ rfl 1 two_squares_step1 R
  exact ⟨rfl, M, rfl, R, rfl, H.1 (0, 0) two_squares_step1 I hk1 hk2 hf, H.2.2⟩

section ConvexOrder

/-- The position of the index `i` in the order of the ranks of a polygon that
turns once: the index `t` comes first. -/
theorem one_turn_order {n t : Nat} {a : Nat → Int} (ht : t < n)
    (H : ∀ j, j < n → ∀ i, i < j → (if i < t ∧ t ≤ j then a j < a i else a i < a j))
    {i j : Nat} (hi : i < n) (hj : j < n)
    (h : (if t ≤ i then i - t else i + n - t) ≤ (if t ≤ j then j - t else j + n - t)) :
    a i ≤ a j := by
  rcases Nat.lt_trichotomy i j with hij | hij | hij
  · have := H j hj i hij
    split_ifs at this h <;> omega
  · rw [hij]
  · have := H i hi j hij
    split_ifs at this h <;> omega

theorem one_turn_order_lt {n t : Nat} {a : Nat → Int} (ht : t < n)
    (H : ∀ j, j < n → ∀ i, i < j → (if i < t ∧ t ≤ j then a j < a i else a i < a j))
    {i j : Nat} (hi : i < n) (hj : j < n)
    (h : (if t ≤ i then i - t else i + n - t) < (if t ≤ j then j - t else j + n - t)) :
    a i < a j := by
  rcases Nat.lt_trichotomy i j with hij | hij | hij
  · have := H j hj i hij
    split_ifs at this h <;> omega
  · rw [hij] at h
    omega
  · have := H i hi j hij
    split_ifs at this h <;> omega

theorem prev_index_cases {n j : Nat} (hj : j < n) :
    prev_index n j = if j = 0 then n - 1 else j - 1 := by
  unfold prev_index
  split_ifs with h0
  · subst h0
    rw [show n + 0 - 1 = n - 1 by omega]
    exact Nat.mod_eq_of_lt (by omega)
  · rw [show n + j - 1 = (j - 1) + n by omega, Nat.add_mod_right]
    exact Nat.mod_eq_of_lt (by omega)

/-- The cones of a polygon that turns once are disjoint: a rank lies in the
cone of at most one vertex. -/
theorem one_turn_cone_unique {n : Nat} {a : Nat → Int} (H : One_turn n a) {y : Int}
    {j k : Nat} (hj : j < n) (hk : k < n)
    (h1 : Rank_between y (a (prev_index n j)) (a j))
    (h2 : Rank_between y (a (prev_index n k)) (a k)) : j = k := by
  obtain ⟨t, ht, H⟩ := H
  have key : ∀ j k : Nat, j < n → k < n →
      (if t ≤ j then j - t else j + n - t) < (if t ≤ k then k - t else k + n - t) →
      Rank_between y (a (prev_index n j)) (a j) →
      Rank_between y (a (prev_index n k)) (a k) → False := by
    intro j k hj hk hlt h1 h2
    have hpj : prev_index n j < n := Nat.mod_lt _ (by omega)
    have hpk : prev_index n k < n := Nat.mod_lt _ (by omega)
    have ej := prev_index_cases hj
    have ek := prev_index_cases hk
    -- the vertex before `k` is `j` or comes after `j`
    have c1 : a j ≤ a (prev_index n k) := by
      apply one_turn_order ht H hj hpk
      rw [ek]
      split_ifs at hlt ⊢ <;> omega
    have c2 : a (prev_index n k) < a k := by
      apply one_turn_order_lt ht H hpk hk
      rw [ek]
      split_ifs at hlt ⊢ <;> omega
    by_cases hjt : j = t
    · -- `j` is the first vertex: its cone wraps around
      have c3 : a k ≤ a (prev_index n j) := by
        apply one_turn_order ht H hk hpj
        rw [ej]
        split_ifs at hlt ⊢ <;> omega
      unfold Rank_between at h1 h2
      omega
    · have c3 : a (prev_index n j) < a j := by
        apply one_turn_order_lt ht H hpj hj
        rw [ej]
        split_ifs at hlt ⊢ <;> omega
      unfold Rank_between at h1 h2
      omega
  by_contra hne
  rcases Nat.lt_trichotomy (if t ≤ j then j - t else j + n - t)
      (if t ≤ k then k - t else k + n - t) with hlt | heq | hlt
  · exact key j k hj hk hlt h1 h2
  · apply hne
    split_ifs at heq <;> omega
  · exact key k j hk hj hlt h2 h1

theorem one_turn_double {n : Nat} {a : Nat → Int} (H : One_turn n a) :
    One_turn n (fun i => 2 * a i) := by
  obtain ⟨t, ht, H⟩ := H
  refine ⟨t, ht, fun j hj i hij => ?_⟩
  have := H j hj i hij
  simp only
  split_ifs at this ⊢ <;> omega

theorem one_turn_double_succ {n : Nat} {a : Nat → Int} (H : One_turn n a) :
    One_turn n (fun i => 2 * a i + 1) := by
  obtain ⟨t, ht, H⟩ := H
  refine ⟨t, ht, fun j hj i hij => ?_⟩
  have := H j hj i hij
  simp only
  split_ifs at this ⊢ <;> omega

end ConvexOrder
section ConvexCount
variable {Point_2 Vector_2 Direction_2 : Type}

/-- When both polygons turn once, a label of the convolution graph that moves
on the first polygon is determined by its first index, and one that moves on
the second polygon by its second index: there are at most `n1 + n2` labels. -/
theorem graph_labels_le {T : Tracer_input Point_2 Direction_2} {r1 r2 : Nat → Int}
    (h1 : One_turn T.n1 r1) (h2 : One_turn T.n2 r2) {used : Labels_set}
    (hn : used.Nodup) (G : Graph_inv T r1 r2 used) : used.length ≤ T.n1 + T.n2 := by
  have hinj : ∀ l ∈ used, ∀ l2 ∈ used,
      (if l.move_on = 1 then l.index1 else T.n1 + l.index2) =
        (if l2.move_on = 1 then l2.index1 else T.n1 + l2.index2) → l = l2 := by
    intro l hl l2 hl2 he
    obtain ⟨a1, a2, a3⟩ := G l hl
    obtain ⟨b1, b2, b3⟩ := G l2 hl2
    obtain ⟨i, j, m⟩ := l
    obtain ⟨i2, j2, m2⟩ := l2
    simp only at a1 a2 a3 b1 b2 b3 he
    rcases a3 with ⟨am, ar⟩ | ⟨am, ar⟩ <;> rcases b3 with ⟨bm, br⟩ | ⟨bm, br⟩
    · subst am bm
      simp only [if_true] at he
      subst he
      have := one_turn_cone_unique (one_turn_double_succ h2) a2 b2 ar br
      subst this
      rfl
    · subst am bm
      simp only [if_true] at he
      rw [if_neg (by decide)] at he
      omega
    · subst am bm
      simp only [if_true] at he
      rw [if_neg (by decide)] at he
      omega
    · subst am bm
      rw [if_neg (by decide), if_neg (by decide)] at he
      have hj : j = j2 := by omega
      subst hj
      have := one_turn_cone_unique (one_turn_double h1) a1 b1 ar br
      subst this
      rfl
  have hnd : (used.map
      (fun l => if l.move_on = 1 then l.index1 else T.n1 + l.index2)).Nodup :=
    List.Nodup.map_on (fun l hl l2 hl2 he => hinj l hl l2 hl2 he) hn
  have hsub : (used.map
      (fun l => if l.move_on = 1 then l.index1 else T.n1 + l.index2)).toFinset ⊆
        Finset.range (T.n1 + T.n2) := by
    intro x hx
    simp only [List.mem_toFinset, List.mem_map] at hx
    obtain ⟨l, hl, rfl⟩ := hx
    obtain ⟨a1, a2, -⟩ := G l hl
    simp only [Finset.mem_range]
    split_ifs <;> omega
  have hc := Finset.card_le_card hsub
  rw [List.toFinset_card_of_nodup hnd, List.length_map, Finset.card_range] at hc
  exact hc

end ConvexCount
section ConvexEmits
variable {Point_2 Vector_2 Direction_2 : Type}

theorem advance1_emits {K : Kernel Point_2 Vector_2 Direction_2}
    {T : Tracer_input Point_2 Direction_2} (hr2 : ∀ b ∈ T.is_reflex2, b = false)
    {cycle_id : Nat} {t s : Tracer_state Point_2}
    (h : advance1 K T cycle_id t = Except.ok s) :
    (∃ seg, s.cycle = t.cycle ++ [seg]) ∧ s.seg_index = t.seg_index + 1 := by
  obtain ⟨pn, pc, r2, -, -, hr, -, hs⟩ := advance1_ok h
  have : r2 = false := hr2 r2 (List.mem_iff_getElem?.mpr ⟨_, hr⟩)
  subst this
  rw [hs]
  exact ⟨⟨_, rfl⟩, rfl⟩

theorem advance2_emits {K : Kernel Point_2 Vector_2 Direction_2}
    {T : Tracer_input Point_2 Direction_2} (hr1 : ∀ b ∈ T.is_reflex1, b = false)
    {cycle_id : Nat} {t s : Tracer_state Point_2}
    (h : advance2 K T cycle_id t = Except.ok s) :
    (∃ seg, s.cycle = t.cycle ++ [seg]) ∧ s.seg_index = t.seg_index + 1 := by
  obtain ⟨pn, pc, r1, -, -, hr, -, hs⟩ := advance2_ok h
  have : r1 = false := hr1 r1 (List.mem_iff_getElem?.mpr ⟨_, hr⟩)
  subst this
  rw [hs]
  exact ⟨⟨_, rfl⟩, rfl⟩

theorem cycle_step_emits {K : Kernel Point_2 Vector_2 Direction_2}
    {T : Tracer_input Point_2 Direction_2} (hr1 : ∀ b ∈ T.is_reflex1, b = false)
    (hr2 : ∀ b ∈ T.is_reflex2, b = false) {cycle_id : Nat} {s s2 : Tracer_state Point_2}
    (h : cycle_step K T cycle_id s = Except.ok s2) :
    s2.cycle.length + s.seg_index = s.cycle.length + s2.seg_index := by
  obtain ⟨flags, s1, -, -, hs1, hs2⟩ := cycle_step_ok h
  have e1 : s1.cycle.length + s.seg_index = s.cycle.length + s1.seg_index := by
    cases hf : flags.1 with
    | true =>
      rw [hf] at hs1
      simp only [if_true] at hs1
      obtain ⟨⟨seg, hc⟩, hi⟩ := advance1_emits hr2 hs1
      rw [hc, hi, List.length_append]
      simp only [List.length_singleton]
      omega
    | false =>
      rw [hf] at hs1
      simp only [Bool.false_eq_true, if_false, Except.ok.injEq] at hs1
      rw [← hs1]
  have e2 : s2.cycle.length + s1.seg_index = s1.cycle.length + s2.seg_index := by
    cases hf : flags.2.1 with
    | true =>
      rw [hf] at hs2
      simp only [if_true] at hs2
      obtain ⟨⟨seg, hc⟩, hi⟩ := advance2_emits hr1 hs2
      rw [hc, hi, List.length_append]
      simp only [List.length_singleton]
      omega
    | false =>
      rw [hf] at hs2
      simp only [Bool.false_eq_true, if_false, Except.ok.injEq] at hs2
      rw [← hs2]
  omega

theorem cycle_steps_emits {K : Kernel Point_2 Vector_2 Direction_2}
    {T : Tracer_input Point_2 Direction_2} (hr1 : ∀ b ∈ T.is_reflex1, b = false)
    (hr2 : ∀ b ∈ T.is_reflex2, b = false) {cycle_id : Nat} :
    ∀ (m : Nat) (s s2 : Tracer_state Point_2),
      cycle_steps K T cycle_id m s = Except.ok s2 →
      s2.cycle.length + s.seg_index = s.cycle.length + s2.seg_index := by
  intro m
  induction m with
  | zero =>
    intro s s2 h
    simp only [cycle_steps, pure, Except.pure, Except.ok.injEq] at h
    subst h
    rfl
  | succ m ih =>
    intro s s2 h
    obtain ⟨s1, hs1, hrest⟩ := cycle_steps_succ h
    have := cycle_step_emits hr1 hr2 hs1
    have := ih s1 s2 hrest
    omega

/-- Without reflex vertices a call of the tracer emits one segment for each
label it inserts. -/
theorem convolution_cycle_emits {K : Kernel Point_2 Vector_2 Direction_2}
    {T : Tracer_input Point_2 Direction_2} (hr1 : ∀ b ∈ T.is_reflex1, b = false)
    (hr2 : ∀ b ∈ T.is_reflex2, b = false) {fuel cycle_id curr1 k1 curr2 k2 : Nat}
    {used : Labels_set} {queue : Anchors_queue} {cycle : List (Labeled_segment_2 Point_2)}
    {r : Tracer_state Point_2}
    (h : _convolution_cycle K fuel cycle_id T curr1 k1 curr2 k2 used queue cycle = Except.ok r) :
    r.cycle.length + used.length = cycle.length + r.used_labels.length := by
  obtain ⟨added, hu, hi, -, -, -⟩ := convolution_cycle_labels h
  obtain ⟨s0, s, cycle1, hs0, hs, -, hm, hr⟩ := convolution_cycle_ok h
  obtain ⟨p1, p2, -, -, hs0eq⟩ := cycle_init_ok hs0
  obtain ⟨-, -, m, -, t, ht, hstep⟩ := cycle_loop_steps fuel s0 s hs
  have e := cycle_steps_emits hr1 hr2 (m + 1) s0 s (cycle_steps_snoc m s0 t s ht hstep)
  have hlen := mark_last_length hm
  rw [hs0eq] at e
  simp only at e
  rw [hr] at hi hu ⊢
  simp only at hi hu ⊢
  rw [hlen, hu, List.length_append]
  omega

theorem session_loop_emits {K : Kernel Point_2 Vector_2 Direction_2}
    {T : Tracer_input Point_2 Direction_2} (hr1 : ∀ b ∈ T.is_reflex1, b = false)
    (hr2 : ∀ b ∈ T.is_reflex2, b = false) {tracer_fuel : Nat} :
    ∀ (fuel : Nat) (st st1 : Driver_state Point_2),
      st.conv_segments.length + st.cycle.length = st.used_labels.length →
      session_loop K T tracer_fuel fuel st = Except.ok st1 →
      st1.conv_segments.length + st1.cycle.length = st1.used_labels.length := by
  intro fuel
  induction fuel with
  | zero =>
    intro st st1 hl h
    unfold session_loop at h
    split at h
    · simp only [Except.ok.injEq] at h
      exact h ▸ hl
    · cases h
  | succ fuel ih =>
    intro st st1 hl h
    unfold session_loop at h
    split at h
    · simp only [Except.ok.injEq] at h
      exact h ▸ hl
    · rename_i anchor rest hq
      simp only [] at h
      split_ifs at h with hskip
      · exact ih { st with queue := rest, loops := st.loops + 1 - 1 } st1 hl h
      · obtain ⟨r, hr, h⟩ := bind_eq_ok h
        have e := convolution_cycle_emits hr1 hr2 hr
        split_ifs at h with hempty
        · refine ih _ st1 ?_ h
          simp only
          omega
        · refine ih _ st1 ?_ h
          simp only [List.length_append, List.length_nil]
          omega

theorem scan_body_emits {K : Kernel Point_2 Vector_2 Direction_2}
    {T : Tracer_input Point_2 Direction_2} (hr1 : ∀ b ∈ T.is_reflex1, b = false)
    (hr2 : ∀ b ∈ T.is_reflex2, b = false) {tracer_fuel session_fuel curr2 k2 k1 : Nat}
    {st st1 : Driver_state Point_2}
    (hl : st.conv_segments.length + st.cycle.length = st.used_labels.length)
    (h : scan_body K T tracer_fuel session_fuel curr2 k2 k1 st = Except.ok st1) :
    st1.conv_segments.length + st1.cycle.length = st1.used_labels.length := by
  unfold scan_body at h
  simp only [] at h
  obtain ⟨found, -, h⟩ := bind_eq_ok h
  obtain ⟨st2, h2, h⟩ := bind_eq_ok h
  simp only [pure, Except.pure, Except.ok.injEq] at h
  subst h
  simp only
  split_ifs at h2
  · obtain ⟨st3, h3, h2⟩ := bind_eq_ok h2
    simp only [pure, Except.pure, Except.ok.injEq] at h2
    subst h2
    exact session_loop_emits hr1 hr2 session_fuel
      { st with queue := [((st.curr1, k1), (curr2, k2))], loops := 0 } st3 hl h3
  · simp only [Except.ok.injEq] at h2
    subst h2
    exact hl

theorem seeder_loop_emits {K : Kernel Point_2 Vector_2 Direction_2}
    {T : Tracer_input Point_2 Direction_2} (hr1 : ∀ b ∈ T.is_reflex1, b = false)
    (hr2 : ∀ b ∈ T.is_reflex2, b = false) {tracer_fuel session_fuel : Nat} :
    ∀ (seeds : List Vertex_ref) (st st1 : Driver_state Point_2),
      st.conv_segments.length + st.cycle.length = st.used_labels.length →
      seeder_loop K T tracer_fuel session_fuel seeds st = Except.ok st1 →
      st1.conv_segments.length + st1.cycle.length = st1.used_labels.length := by
  intro seeds
  induction seeds with
  | nil =>
    intro st st1 hl h
    simp only [seeder_loop, Except.ok.injEq] at h
    exact h ▸ hl
  | cons seed seeds ih =>
    intro st st1 hl h
    unfold seeder_loop at h
    obtain ⟨st2, h2, h⟩ := bind_eq_ok h
    have := for_loop_inv
      (fun (_ : Nat) (d : Driver_state Point_2) =>
        d.conv_segments.length + d.cycle.length = d.used_labels.length) T.n1
      (fun k d d1 _ hinv hb => scan_body_emits hr1 hr2 hinv hb)
      T.n1 0 { st with curr1 := 0, next1 := 0 } st2 (by omega) hl h2
    exact ih st2 st1 this h

end ConvexEmits
/-- Counterexample to claim C15. The unit square and the pentagon
`(0,0), (1,0), (2,0), (2,2), (0,2)` are convex: the preprocessing loops
complete (`n1 = 4 ≤ n2 = 5`) and mark no vertex of either polygon as reflex,
no vertex makes a right turn. The pentagon has two consecutive edges of the
same direction, so at its vertex `(1,0)` the cone of the tracer is the whole
circle but one direction, and `operator()` hands 13 segments to the union step,
more than `|P| + |Q| = 9`, whatever the budgets that let it complete. -/
theorem collinear_vertex_exceeds_convex_bound :
    tables_of int_kernel unit_square flat_pentagon = Except.ok square_pentagon ∧
    square_pentagon.is_reflex1 = [false, false, false, false, false] ∧
    square_pentagon.is_reflex2 = [false, false, false, false, false] ∧
    (List.range unit_square.length).map
      (reflex_at int_kernel unit_square (forward_of int_kernel unit_square)) =
        [false, false, false, false] ∧
    (List.range flat_pentagon.length).map
      (reflex_at int_kernel flat_pentagon (forward_of int_kernel flat_pentagon)) =
        [false, false, false, false, false] ∧
    unit_square.length + flat_pentagon.length = 9 ∧
    (∃ st, operator_call int_kernel 13 1 unit_square flat_pentagon = Except.ok st ∧
      st.conv_segments.length = 13 ∧ st.used_labels.length = 13 ∧ st.cycles = 1) ∧
    (∃ st, operator_call int_kernel 41 41 unit_square flat_pentagon = Except.ok st ∧
      st.conv_segments.length = 13) ∧
    (List.range 5).map (int_rank2 square_pentagon) = [0, 0, 3, 5, 7] ∧
    ¬ One_turn square_pentagon.n2 (int_rank2 square_pentagon) :=
  ⟨rfl, rfl, rfl, rfl, rfl, rfl, ⟨_, rfl, rfl, rfl, rfl⟩, ⟨_, rfl, rfl⟩, rfl, by decide⟩

section ConvexClaim
variable {Point_2 Vector_2 Direction_2 : Type}

/-- Claim C15, amended. Take two polygons for which the preprocessing loops
complete, with tables `T`, and a kernel whose predicates on the directions of
the tables are those of a cyclic order (`Rank_model`). Let both polygons be
convex with no reflex vertex and no two consecutive edges of the same
direction: the edge directions of each go once around the circle, strictly
increasing (`One_turn`), and no entry of the tables `is_reflex1`, `is_reflex2`
is true. Then no segment is suppressed: every advance on either polygon
appends a segment to `cycle`, and when `operator()` returns, `conv_segments`
has exactly one segment for each label in `used_labels`. And the segment list
that `operator()` hands to the union step has at most `|P| + |Q|` segments. -/
theorem convex_segments_bound (K : Kernel Point_2 Vector_2 Direction_2)
    (pgn1 pgn2 : List Point_2) (T : Tracer_input Point_2 Direction_2) (r1 r2 : Nat → Int)
    (hT : tables_of K pgn1 pgn2 = Except.ok T) (M : Rank_model K T r1 r2)
    (h1 : One_turn T.n1 r1) (h2 : One_turn T.n2 r2)
    (hr1 : ∀ b ∈ T.is_reflex1, b = false) (hr2 : ∀ b ∈ T.is_reflex2, b = false) :
    (∀ (cycle_id : Nat) (t s : Tracer_state Point_2),
      advance1 K T cycle_id t = Except.ok s → ∃ seg, s.cycle = t.cycle ++ [seg]) ∧
    (∀ (cycle_id : Nat) (t s : Tracer_state Point_2),
      advance2 K T cycle_id t = Except.ok s → ∃ seg, s.cycle = t.cycle ++ [seg]) ∧
    (∀ (tracer_fuel session_fuel : Nat) (st : Driver_state Point_2),
      operator_call K tracer_fuel session_fuel pgn1 pgn2 = Except.ok st →
      st.conv_segments.length = st.used_labels.length ∧
      st.conv_segments.length ≤ pgn1.length + pgn2.length) := by
  refine ⟨fun cycle_id t s h => (advance1_emits hr2 h).1,
    fun cycle_id t s h => (advance2_emits hr1 h).1, ?_⟩
  intro tf sf st h
  obtain ⟨hnd, -⟩ := operator_call_labels h
  obtain ⟨hcy, -, -⟩ := operator_call_keys h
  obtain ⟨seeds, hop⟩ := operator_call_of_tables hT tf sf
  obtain ⟨-, -, e1, e2, -⟩ := tables_of_lengths hT
  rw [hop] at h
  have C := (seeder_loop_advance M seeds _ (closed_inv_nil T r1 r2)).2 st h
  have E := seeder_loop_emits hr1 hr2 seeds _ st (by simp) h
  rw [hcy] at E
  simp only [List.length_nil, Nat.add_zero] at E
  have B := graph_labels_le h1 h2 hnd C.graph
  rw [e1, e2] at B
  exact ⟨E, by omega⟩

end ConvexClaim

/-- Witness for claim C15 (amended) on the right triangle and the unit
square: the tables satisfy the rank model of the integer kernel, the ranks of
the edge directions of both polygons increase strictly over one turn, no
vertex is reflex, and `operator()` returns `7 = 3 + 4` segments, one for each
of its 7 labels. -/
theorem convex_segments_bound_witness :
    tables_of int_kernel right_triangle unit_square = Except.ok triangle_square ∧
    (List.range 3).map (int_rank1 triangle_square) = [0, 3, 5] ∧
    (List.range 4).map (int_rank2 triangle_square) = [0, 2, 4, 5] ∧
    (∃ st, operator_call int_kernel 7 1 right_triangle unit_square = Except.ok st ∧
      st.conv_segments.length = 7 ∧ st.used_labels.length = 7 ∧ st.cycles = 1) ∧
    (∀ (tracer_fuel session_fuel : Nat) (st : Driver_state (Int × Int)),
      operator_call int_kernel tracer_fuel session_fuel right_triangle unit_square =
        Except.ok st →
      st.conv_segments.length = st.used_labels.length ∧
      st.conv_segments.length ≤ right_triangle.length + unit_square.length) :=
  ⟨rfl, rfl, rfl, ⟨_, rfl, rfl, rfl, rfl⟩,
    (convex_segments_bound int_kernel right_triangle unit_square triangle_square
      (int_rank1 triangle_square) (int_rank2 triangle_square) rfl
      (int_rank_model triangle_square (by decide) (by decide) (by decide))
      (by decide) (by decide) (by decide) (by decide)).2.2⟩

end Minkowski_sum_by_convolution_2
